import Mathlib

/-!
# Yao's garbled circuits and ElGamal e-voting: a shallow embedding

The definitions below follow `src/pkg/election.cxx`, `src/drivers/ot_driver.cxx`,
`src/pkg/garbler.cxx`, `src/pkg/evaluator.cxx`, `src/pkg/registrar.cxx`,
`src/pkg/voter.cxx` and `src/pkg/arbiter.cxx` function by function.

Conventions of the embedding.

* `CryptoPP::Integer` values are natural numbers; the subtraction
  `(sigma - sigma1) % DL_Q` is carried out over the integers with the non-negative
  remainder that `CryptoPP::Integer::operator%` returns, and the counts that `DoVerify`
  returns, the first of which is a difference, are integers. The vote that
  `VoterClient::HandleRegister` reads with `std::stoi` may be negative: it is an integer
  in `GenerateVote_integer`, and a modular power with a negative exponent has no value.
* Every value drawn from a random number generator inside a function is an explicit
  argument of the embedded function.
* The group constants `DL_P`, `DL_Q`, `DL_G` and the Fiat-Shamir hashes
  `hash_vote_zkp`, `hash_dec_zkp` are declared outside the translated files; they
  are parameters.
* The loop counter `int m` of `CombineResults` is a 32-bit signed integer. Incrementing
  it past `INT_MAX` has no defined result in C++; the embedding stops there with the
  outcome `TallyError.counterOverflow`.
* A function that throws returns `Except.error`; a function that blocks on a read is
  split at the read, the value read being an argument of the continuation.
-/

namespace Yaos

/-! ## Arithmetic primitives -/

/-- The constants `DL_P`, `DL_Q`, `DL_G` of `constants.hpp`. -/
structure Params where
  P : Nat
  Q : Nat
  G : Nat
deriving DecidableEq, Repr

/-- The value of `CryptoPP::ModularExponentiation(x, e, m)` for a non-negative exponent. -/
def ModularExponentiation (x e m : Nat) : Nat := x ^ e % m

/-- The value of `CryptoPP::a_times_b_mod_c(a, b, c)`. -/
def a_times_b_mod_c (a b c : Nat) : Nat := a * b % c

/-- The value of `CryptoPP::EuclideanMultiplicativeInverse(a, m)`: the inverse of `a`
modulo `m` in the range `[0, m)`, and `0` when `a` has no inverse. -/
def EuclideanMultiplicativeInverse (a m : Nat) : Nat :=
  ((List.range m).find? (fun x => decide (a * x % m = 1))).getD 0

/-- The value of `(x - y) % q` on `CryptoPP::Integer`: the remainder is non-negative. -/
def subMod (x y q : Nat) : Nat := (((x : Int) - (y : Int)) % (q : Int)).toNat

/-- The assumptions on the group constants: `P` and `Q` are prime and `G` generates
the subgroup of order `Q` of the units modulo `P`. -/
structure Params.Valid (par : Params) : Prop where
  P_prime : Nat.Prime par.P
  Q_prime : Nat.Prime par.Q
  G_pow_Q : par.G ^ par.Q % par.P = 1
  G_ne_one : par.G % par.P ≠ 1

/-- Membership of `x` in the subgroup of order `Q`: `x ^ Q = 1` modulo `P`. -/
def Params.InGroup (par : Params) (x : Nat) : Prop := x ^ par.Q % par.P = 1

instance (par : Params) (x : Nat) : Decidable (par.InGroup x) :=
  inferInstanceAs (Decidable (x ^ par.Q % par.P = 1))

/-- Equality of results is decidable when equality of errors and of values is. -/
instance instDecidableEqExcept {ε α : Type} [DecidableEq ε] [DecidableEq α] :
    DecidableEq (Except ε α)
  | Except.ok a, Except.ok b =>
    if h : a = b then isTrue (by rw [h])
    else isFalse (by intro h1; cases h1; exact h rfl)
  | Except.error a, Except.error b =>
    if h : a = b then isTrue (by rw [h])
    else isFalse (by intro h1; cases h1; exact h rfl)
  | Except.ok _, Except.error _ => isFalse (by intro h; cases h)
  | Except.error _, Except.ok _ => isFalse (by intro h; cases h)

/-! ## Election data model (`messages.hpp`, fields as used by the code) -/

structure Vote_Ciphertext where
  a : Nat
  b : Nat
deriving DecidableEq, Repr

structure VoteZKP_Struct where
  a0 : Nat
  a1 : Nat
  b0 : Nat
  b1 : Nat
  c0 : Nat
  c1 : Nat
  r0 : Nat
  r1 : Nat
deriving DecidableEq, Repr

structure VoteRow where
  vote : Vote_Ciphertext
  zkp : VoteZKP_Struct
  unblinded_signature : Nat
  tallyer_signature : List Nat
deriving DecidableEq, Repr

structure PartialDecryption_Struct where
  d : Nat
  aggregate_ciphertext : Vote_Ciphertext
deriving DecidableEq, Repr

structure DecryptionZKP_Struct where
  u : Nat
  v : Nat
  s : Nat
deriving DecidableEq, Repr

structure ArbiterToWorld_PartialDecryption_Message where
  arbiter_id : List Nat
  arbiter_vk_path : List Nat
  dec : PartialDecryption_Struct
  zkp : DecryptionZKP_Struct
deriving DecidableEq, Repr

/-- A row of the partial-decryption store carries the fields of the published message. -/
abbrev PartialDecryptionRow := ArbiterToWorld_PartialDecryption_Message

/-- The seven-argument Fiat-Shamir hash `hash_vote_zkp(pk, a, b, a0, b0, a1, b1)`. -/
abbrev VoteHash := Nat → Nat → Nat → Nat → Nat → Nat → Nat → Nat

/-- The five-argument Fiat-Shamir hash `hash_dec_zkp(pk, a, b, u, v)`. -/
abbrev DecHash := Nat → Nat → Nat → Nat → Nat → Nat

/-- The four values `GenerateVote` draws from its random pool, in program order:
`r`, then in either branch the simulated response, the simulated challenge and the
nonce of the real branch. -/
structure VoteRandomness where
  r : Nat
  simResponse : Nat
  simChallenge : Nat
  nonce : Nat
deriving DecidableEq, Repr

/-! ## `ElectionClient` -/

/-- `ElectionClient::GenerateVote` for a vote that is not negative; for the
`CryptoPP::Integer` of either sign that `VoterClient::HandleRegister` passes, see
`GenerateVote_integer`. -/
def GenerateVote (par : Params) (hash_vote_zkp : VoteHash) (rnd : VoteRandomness)
    (vote pk : Nat) : Vote_Ciphertext × VoteZKP_Struct :=
  let r := rnd.r
  let c1 := ModularExponentiation par.G r par.P
  let c2 := a_times_b_mod_c (ModularExponentiation pk r par.P)
    (ModularExponentiation par.G vote par.P) par.P
  let vote_cipher : Vote_Ciphertext := { a := c1, b := c2 }
  let ginv := EuclideanMultiplicativeInverse par.G par.P
  if vote = 0 then
    let r1p := rnd.simResponse
    let sigma1 := rnd.simChallenge
    let invC1Sigma1 :=
      EuclideanMultiplicativeInverse (ModularExponentiation c1 sigma1 par.P) par.P
    let invC2Sigma1 := EuclideanMultiplicativeInverse
      (ModularExponentiation (a_times_b_mod_c c2 ginv par.P) sigma1 par.P) par.P
    let gr1p := ModularExponentiation par.G r1p par.P
    let pkr1p := ModularExponentiation pk r1p par.P
    let A1 := a_times_b_mod_c gr1p invC1Sigma1 par.P
    let B1 := a_times_b_mod_c pkr1p invC2Sigma1 par.P
    let r0 := rnd.nonce
    let A0 := ModularExponentiation par.G r0 par.P
    let B0 := ModularExponentiation pk r0 par.P
    let sigma := hash_vote_zkp pk c1 c2 A0 B0 A1 B1
    let sigma0 := subMod sigma sigma1 par.Q
    let r0p := (r0 + a_times_b_mod_c sigma0 r par.Q) % par.Q
    (vote_cipher,
      { a0 := A0, a1 := A1, b0 := B0, b1 := B1, c0 := sigma0, c1 := sigma1,
        r0 := r0p, r1 := r1p })
  else
    let r0p := rnd.simResponse
    let sigma0 := rnd.simChallenge
    let invC1Sigma0 :=
      EuclideanMultiplicativeInverse (ModularExponentiation c1 sigma0 par.P) par.P
    let invC2Sigma0 :=
      EuclideanMultiplicativeInverse (ModularExponentiation c2 sigma0 par.P) par.P
    let gr0p := ModularExponentiation par.G r0p par.P
    let pkr0p := ModularExponentiation pk r0p par.P
    let A0 := a_times_b_mod_c gr0p invC1Sigma0 par.P
    let B0 := a_times_b_mod_c pkr0p invC2Sigma0 par.P
    let r1 := rnd.nonce
    let A1 := ModularExponentiation par.G r1 par.P
    let B1 := ModularExponentiation pk r1 par.P
    let sigma := hash_vote_zkp pk c1 c2 A0 B0 A1 B1
    let sigma1 := subMod sigma sigma0 par.Q
    let r1p := (r1 + a_times_b_mod_c sigma1 r par.Q) % par.Q
    (vote_cipher,
      { a0 := A0, a1 := A1, b0 := B0, b1 := B1, c0 := sigma0, c1 := sigma1,
        r0 := r0p, r1 := r1p })

/-- `ElectionClient::VerifyVoteZKP`. -/
def VerifyVoteZKP (par : Params) (hash_vote_zkp : VoteHash)
    (vote : Vote_Ciphertext × VoteZKP_Struct) (pk : Nat) : Bool :=
  let vote_cipher := vote.1
  let zkp := vote.2
  let c1 := vote_cipher.a
  let c2 := vote_cipher.b
  let sigma0 := zkp.c0
  let sigma1 := zkp.c1
  let sigma := hash_vote_zkp pk c1 c2 zkp.a0 zkp.b0 zkp.a1 zkp.b1
  let sigmaMatch := decide ((sigma0 + sigma1) % par.Q = sigma)
  let c1sigma0 := ModularExponentiation c1 sigma0 par.P
  let gr0p := ModularExponentiation par.G zkp.r0 par.P
  let gr0Match := decide (gr0p = a_times_b_mod_c zkp.a0 c1sigma0 par.P)
  let c2sigma0 := ModularExponentiation c2 sigma0 par.P
  let pkr0p := ModularExponentiation pk zkp.r0 par.P
  let pkr0Match := decide (pkr0p = a_times_b_mod_c zkp.b0 c2sigma0 par.P)
  let c1sigma1 := ModularExponentiation c1 sigma1 par.P
  let gr1p := ModularExponentiation par.G zkp.r1 par.P
  let gr1Match := decide (gr1p = a_times_b_mod_c zkp.a1 c1sigma1 par.P)
  let invc2g := EuclideanMultiplicativeInverse par.G par.P
  let c2sigma1 := ModularExponentiation (a_times_b_mod_c c2 invc2g par.P) sigma1 par.P
  let pkr1p := ModularExponentiation pk zkp.r1 par.P
  let pkr1Match := decide (pkr1p = a_times_b_mod_c zkp.b1 c2sigma1 par.P)
  sigmaMatch && gr0Match && pkr0Match && gr1Match && pkr1Match

/-- `ElectionClient::PartialDecrypt`; `r` is the nonce drawn from the random pool. -/
def PartialDecrypt (par : Params) (hash_dec_zkp : DecHash) (r : Nat)
    (combined_vote : Vote_Ciphertext) (pk sk : Nat) :
    PartialDecryption_Struct × DecryptionZKP_Struct :=
  let d := ModularExponentiation combined_vote.a sk par.P
  let pds : PartialDecryption_Struct := { d := d, aggregate_ciphertext := combined_vote }
  let A := ModularExponentiation combined_vote.a r par.P
  let B := ModularExponentiation par.G r par.P
  let sigma := hash_dec_zkp pk combined_vote.a combined_vote.b A B
  let s := (r + sigma * sk) % par.Q
  (pds, { u := A, v := B, s := s })

/-- `ElectionClient::VerifyPartialDecryptZKP`. -/
def VerifyPartialDecryptZKP (par : Params) (hash_dec_zkp : DecHash)
    (a2w_dec_s : ArbiterToWorld_PartialDecryption_Message) (pki : Nat) : Bool :=
  let a := a2w_dec_s.dec.aggregate_ciphertext.a
  let b := a2w_dec_s.dec.aggregate_ciphertext.b
  let d := a2w_dec_s.dec.d
  let u := a2w_dec_s.zkp.u
  let v := a2w_dec_s.zkp.v
  let s := a2w_dec_s.zkp.s
  let sigma := hash_dec_zkp pki a b u v
  let udc := a_times_b_mod_c u (ModularExponentiation d sigma par.P) par.P
  let as := ModularExponentiation a s par.P
  let vpkc := a_times_b_mod_c v (ModularExponentiation pki sigma par.P) par.P
  let gs := ModularExponentiation par.G s par.P
  decide (udc = as) && decide (vpkc = gs)

/-- `ElectionClient::CombineVotes`. -/
def CombineVotes (par : Params) (all_votes : List VoteRow) : Vote_Ciphertext :=
  let acc := all_votes.foldl
    (fun (cum : Nat × Nat) (voteRecord : VoteRow) =>
      (a_times_b_mod_c cum.1 voteRecord.vote.a par.P,
       a_times_b_mod_c cum.2 voteRecord.vote.b par.P))
    (1, 1)
  { a := acc.1, b := acc.2 }

/-- The two ways `CombineResults` can fail to return a tally: the `runtime_error`
thrown after the loop, and the increment of the `int` counter past `INT_MAX`, which
has no defined result in C++. -/
inductive TallyError where
  | noMatch
  | counterOverflow
deriving DecidableEq, Repr

/-- The largest value of the 32-bit `int` loop counter of `CombineResults`. -/
def INT_MAX : Nat := 2147483647

/-- The loop `for (int m = 0; m < DL_Q; m++)` of `CombineResults`, entered with counter
`m`. The counter never exceeds `INT_MAX`, so `INT_MAX + 1 - m` units of fuel always
suffice and the first equation is never reached from `CombineResults`. -/
def searchLoop (par : Params) (gm : Nat) : Nat → Nat → Except TallyError Nat
  | 0, _ => Except.error TallyError.counterOverflow
  | fuel + 1, m =>
    if m < par.Q then
      if ModularExponentiation par.G m par.P = gm then Except.ok m
      else if m = INT_MAX then Except.error TallyError.counterOverflow
      else searchLoop par gm fuel (m + 1)
    else Except.error TallyError.noMatch

/-- `ElectionClient::CombineResults`. -/
def CombineResults (par : Params) (combined_vote : Vote_Ciphertext)
    (all_partial_decryptions : List PartialDecryptionRow) : Except TallyError Nat :=
  let cumulativeD := all_partial_decryptions.foldl
    (fun (cum : Nat) (partDecrypt : PartialDecryptionRow) =>
      a_times_b_mod_c cum partDecrypt.dec.d par.P) 1
  let c2 := combined_vote.b
  let invc1sk := EuclideanMultiplicativeInverse cumulativeD par.P
  let gm := a_times_b_mod_c c2 invc1sk par.P
  searchLoop par gm (INT_MAX + 1) 0

/-! ## Tampering with a vote proof (the `tamper` of the testable properties) -/

/-- The value `x` with bit `k` flipped. -/
def flipBit (x k : Nat) : Nat := x ^^^ 2 ^ k

/-- The eight fields of `VoteZKP_Struct`. -/
inductive ZKPField where
  | a0 | b0 | a1 | b1 | c0 | c1 | r0 | r1
deriving DecidableEq, Repr

/-- The proof `z` with bit `k` of field `f` flipped and every other field unchanged. -/
def tamper (z : VoteZKP_Struct) (f : ZKPField) (k : Nat) : VoteZKP_Struct :=
  match f with
  | ZKPField.a0 => { z with a0 := flipBit z.a0 k }
  | ZKPField.b0 => { z with b0 := flipBit z.b0 k }
  | ZKPField.a1 => { z with a1 := flipBit z.a1 k }
  | ZKPField.b1 => { z with b1 := flipBit z.b1 k }
  | ZKPField.c0 => { z with c0 := flipBit z.c0 k }
  | ZKPField.c1 => { z with c1 := flipBit z.c1 k }
  | ZKPField.r0 => { z with r0 := flipBit z.r0 k }
  | ZKPField.r1 => { z with r1 := flipBit z.r1 k }

/-! ## Honest election runs -/

/-- The message `HandleAdjudicate` publishes (step 6) for the output of `PartialDecrypt`. -/
def publishedDecryption (arbiter_id arbiter_vk_path : List Nat)
    (out : PartialDecryption_Struct × DecryptionZKP_Struct) :
    ArbiterToWorld_PartialDecryption_Message :=
  { arbiter_id := arbiter_id, arbiter_vk_path := arbiter_vk_path, dec := out.1, zkp := out.2 }

/-- The message `m` with its partial decryption `d` replaced by `d'`; the aggregate
ciphertext and the proof are kept. -/
def replaceDecryption (m : ArbiterToWorld_PartialDecryption_Message) (d' : Nat) :
    ArbiterToWorld_PartialDecryption_Message :=
  { m with dec := { m.dec with d := d' } }

/-- Modelled from the spec: `LoadElectionPublicKey` is declared outside the translated
files; the election key is the product of the arbiters' public shares `G ^ sk_i`
modulo `P`. -/
def electionPublicKey (par : Params) (sks : List Nat) : Nat :=
  (sks.map (fun sk => ModularExponentiation par.G sk par.P)).prod % par.P

/-! ## Byte blocks and the crypto driver

`CryptoPP::SecByteBlock` and `std::string` values are lists of bytes. The operations
of `CryptoDriver` and of `util.hpp` are declared outside the translated files.
Diffie-Hellman values are identified with the integers they encode, so
`byteblock_to_integer` and `integer_to_byteblock` do not appear around them.
The pair `decrypt_and_verify(read())` returns is an argument `(payload, ifValid)` of
the embedded function that reads, and a function that sends returns the payload it
passes to `encrypt_and_tag`. -/

abbrev ByteBlock := List Nat

/-- The operations of `CryptoDriver` that the translated code calls and whose bodies
are outside the translated files. `AES_encrypt` takes the initialisation vector it
draws as its third argument and returns `(ciphertext, iv)`; `AES_decrypt` takes
`(key, iv, ciphertext)`. -/
structure CryptoDriver where
  AES_generate_key : Nat → ByteBlock
  AES_encrypt : ByteBlock → ByteBlock → ByteBlock → ByteBlock × ByteBlock
  AES_decrypt : ByteBlock → ByteBlock → ByteBlock → ByteBlock
  hash_inputs : ByteBlock → ByteBlock → ByteBlock

/-- Decryption under the key and the returned `iv` recovers the plaintext. -/
def CryptoDriver.AESCorrect (cd : CryptoDriver) : Prop :=
  ∀ k m iv, cd.AES_decrypt k (cd.AES_encrypt k m iv).2 (cd.AES_encrypt k m iv).1 = m

/-- Modelled from the spec: `CryptoDriver::DH_initialize` is outside the translated
files; it returns the private exponent `a` it draws and the public value `G ^ a mod P`. -/
def DH_initialize (par : Params) (a : Nat) : Nat × Nat :=
  (a, ModularExponentiation par.G a par.P)

/-- Modelled from the spec: `CryptoDriver::DH_generate_shared_key` is outside the
translated files; `DH_shared(context, a, peer) = peer ^ a mod P`. -/
def DH_generate_shared_key (par : Params) (a peer : Nat) : Nat :=
  ModularExponentiation peer a par.P

/-- The `std::runtime_error`s thrown by the OT driver, the garbler and the evaluator. -/
inductive RuntimeError where
  | receiverAuthenticationFailed
  | senderAuthenticationFailed
  | evaluatorAuthenticationFailed
  | garblerAuthenticationFailed
  | invalidGateType
deriving DecidableEq, Repr

/-! ## `OTDriver` -/

/-- `SenderToReceiver_OTPublicValue_Message` and `ReceiverToSender_OTPublicValue_Message`. -/
structure OTPublicValue_Message where
  public_value : Nat
deriving DecidableEq, Repr

/-- `SenderToReceiver_OTEncryptedValues_Message`. -/
structure OTEncryptedValues_Message where
  e0 : ByteBlock
  e1 : ByteBlock
  iv0 : ByteBlock
  iv1 : ByteBlock
deriving DecidableEq, Repr

/-- `OTDriver::OT_send`, step 1: the message sent before the first read; `a` is the
exponent drawn by `DH_initialize`. -/
def OT_send_public (par : Params) (a : Nat) : OTPublicValue_Message :=
  { public_value := ( DH_initialize par a).2 }

/-- The keys `k0` and `k1` of `OTDriver::OT_send`, step 3, for the received value `B`. -/
def OT_send_keys (par : Params) (cd : CryptoDriver) (a B : Nat) : ByteBlock × ByteBlock :=
  let A := ( DH_initialize par a).2
  let k0 := cd.AES_generate_key (DH_generate_shared_key par a B)
  let BAinv := a_times_b_mod_c B (EuclideanMultiplicativeInverse A par.P) par.P
  let k1 := cd.AES_generate_key (DH_generate_shared_key par a BAinv)
  (k0, k1)

/-- `OTDriver::OT_send`, steps 2 to 4: from the result `reply` of `decrypt_and_verify`
on the receiver's message to the message of encrypted values. `iv0`, `iv1` are the
initialisation vectors drawn by the two calls of `AES_encrypt`. -/
def OT_send_encrypted (par : Params) (cd : CryptoDriver) (a : Nat) (iv0 iv1 : ByteBlock)
    (m0 m1 : ByteBlock) (reply : OTPublicValue_Message × Bool) :
    Except RuntimeError OTEncryptedValues_Message :=
  if !reply.2 then Except.error RuntimeError.receiverAuthenticationFailed
  else
    let B := reply.1.public_value
    let keys := OT_send_keys par cd a B
    let c0 := cd.AES_encrypt keys.1 m0 iv0
    let c1 := cd.AES_encrypt keys.2 m1 iv1
    Except.ok { e0 := c0.1, e1 := c1.1, iv0 := c0.2, iv1 := c1.2 }

/-- `OTDriver::OT_recv`, steps 1 and 2: from the result `first` of `decrypt_and_verify`
on the sender's public value to the public value sent back; `b` is the exponent drawn
by `DH_initialize`. -/
def OT_recv_public (par : Params) (b : Nat) (choice_bit : Nat)
    (first : OTPublicValue_Message × Bool) : Except RuntimeError OTPublicValue_Message :=
  if !first.2 then Except.error RuntimeError.senderAuthenticationFailed
  else
    let A := first.1.public_value
    let gb := ( DH_initialize par b).2
    let B := if choice_bit = 0 then gb else a_times_b_mod_c A gb par.P
    Except.ok { public_value := B }

/-- The key `kc` of `OTDriver::OT_recv`, step 3, for the received value `A`. -/
def OT_recv_key (par : Params) (cd : CryptoDriver) (b A : Nat) : ByteBlock :=
  cd.AES_generate_key (DH_generate_shared_key par b A)

/-- `OTDriver::OT_recv`, step 3 and the decryption: from the results `first` and `second`
of the two calls of `decrypt_and_verify` to the returned message. -/
def OT_recv_message (par : Params) (cd : CryptoDriver) (b : Nat) (choice_bit : Nat)
    (first : OTPublicValue_Message × Bool) (second : OTEncryptedValues_Message × Bool) :
    Except RuntimeError ByteBlock :=
  if !first.2 then Except.error RuntimeError.senderAuthenticationFailed
  else
    let A := first.1.public_value
    let kc := OT_recv_key par cd b A
    if !second.2 then Except.error RuntimeError.senderAuthenticationFailed
    else if choice_bit = 0 then Except.ok (cd.AES_decrypt kc second.1.iv0 second.1.e0)
    else Except.ok (cd.AES_decrypt kc second.1.iv1 second.1.e1)

/-- An honest exchange of `OT_send(m0, m1)` with `OT_recv(choice_bit)`: every message
sent is the payload the peer's `decrypt_and_verify` returns, with a valid MAC. The
result is what `OT_recv` returns. -/
def honestOT (par : Params) (cd : CryptoDriver) (a b : Nat) (iv0 iv1 : ByteBlock)
    (m0 m1 : ByteBlock) (choice_bit : Nat) : Except RuntimeError ByteBlock :=
  let s2r := OT_send_public par a
  match OT_recv_public par b choice_bit (s2r, true) with
  | Except.error e => Except.error e
  | Except.ok r2s =>
    match OT_send_encrypted par cd a iv0 iv1 m0 m1 (r2s, true) with
    | Except.error e => Except.error e
    | Except.ok enc => OT_recv_message par cd b choice_bit (s2r, true) (enc, true)

/-! ## Garbled circuits: data model (`circuit.hpp`, `messages.hpp`, `constants.hpp`) -/

/-- The constants `LABEL_LENGTH`, `LABEL_TAG_LENGTH` and `DUMMY_RHS` of `constants.hpp`. -/
structure LabelParams where
  LABEL_LENGTH : Nat
  LABEL_TAG_LENGTH : Nat
  DUMMY_RHS : ByteBlock
deriving DecidableEq, Repr

/-- A gate; `type` is `1` for AND, `2` for XOR and `3` for NOT. -/
structure Gate where
  type : Nat
  lhs : Nat
  rhs : Nat
  output : Nat
deriving DecidableEq, Repr, Inhabited

structure Circuit where
  num_gate : Nat
  num_wire : Nat
  garbler_input_length : Nat
  evaluator_input_length : Nat
  output_length : Nat
  gates : List Gate
deriving DecidableEq, Repr

structure GarbledWire where
  value : ByteBlock
deriving DecidableEq, Repr

/-- A default-constructed `GarbledWire` holds an empty block. -/
instance : Inhabited GarbledWire := ⟨{ value := [] }⟩

structure GarbledGate where
  entries : List ByteBlock
deriving DecidableEq, Repr

structure GarbledLabels where
  zeros : List GarbledWire
  ones : List GarbledWire
deriving DecidableEq, Repr

/-! ## Byte-block helpers

Indexing a block or a vector past its end has no defined result in C++; the embedding
reads the byte `0`, the default wire and the default gate there, and a store past the
end is dropped. -/

/-- The value of `CryptoPP::xorbuf(output, input, mask, count)`: the first `count` bytes
of `input` and `mask`, combined bytewise. -/
def xorbuf (input mask : ByteBlock) (count : Nat) : ByteBlock :=
  (List.range count).map fun i => input.getD i 0 ^^^ mask.getD i 0

/-- The value of `SecByteBlock::CleanGrow(n)`: the block grown to `n` bytes with zero
bytes when it is shorter, and unchanged otherwise. -/
def CleanGrow (block : ByteBlock) (n : Nat) : ByteBlock :=
  block ++ List.replicate (n - block.length) 0

/-- Modelled from the spec: `byteblock_to_integer` of `util.hpp` is outside the
translated files; integers are encoded big-endian. -/
def byteblock_to_integer (block : ByteBlock) : Nat :=
  block.foldl (fun acc byte => acc * 256 + byte) 0

/-- The value of `std::vector::resize(n)` on a vector of wires. -/
def resizeWires (wires : List GarbledWire) (n : Nat) : List GarbledWire :=
  (wires ++ List.replicate (n - wires.length) default).take n

/-! ## `GarblerClient` -/

/-- `GarblerClient::encrypt_label`. -/
def encrypt_label (lp : LabelParams) (cd : CryptoDriver) (lhs rhs output : GarbledWire) :
    ByteBlock :=
  let left := cd.hash_inputs lhs.value rhs.value
  let right := CleanGrow output.value (2 * lp.LABEL_TAG_LENGTH)
  xorbuf left right (2 * lp.LABEL_TAG_LENGTH)

/-- The body of the loop of `GarblerClient::generate_gates` for one gate; `shuffle` is
the permutation applied by `std::random_shuffle`. -/
def generate_gate (lp : LabelParams) (cd : CryptoDriver) (labels : GarbledLabels)
    (shuffle : List ByteBlock → List ByteBlock) (gate : Gate) :
    Except RuntimeError GarbledGate :=
  let x0 := labels.zeros.getD gate.lhs default
  let y0 := labels.zeros.getD gate.rhs default
  let z0 := labels.zeros.getD gate.output default
  let x1 := labels.ones.getD gate.lhs default
  let y1 := labels.ones.getD gate.rhs default
  let z1 := labels.ones.getD gate.output default
  if gate.type = 1 then
    let c00 := encrypt_label lp cd x0 y0 z0
    let c01 := encrypt_label lp cd x0 y1 z0
    let c10 := encrypt_label lp cd x1 y0 z0
    let c11 := encrypt_label lp cd x1 y1 z1
    Except.ok { entries := shuffle [c00, c11, c01, c10] }
  else if gate.type = 2 then
    let c00 := encrypt_label lp cd x0 y0 z0
    let c01 := encrypt_label lp cd x0 y1 z1
    let c10 := encrypt_label lp cd x1 y0 z1
    let c11 := encrypt_label lp cd x1 y1 z0
    Except.ok { entries := shuffle [c00, c11, c01, c10] }
  else if gate.type = 3 then
    let dummy : GarbledWire := { value := lp.DUMMY_RHS }
    let c00 := encrypt_label lp cd x0 dummy z1
    let c11 := encrypt_label lp cd x1 dummy z0
    Except.ok { entries := shuffle [c00, c11] }
  else Except.error RuntimeError.invalidGateType

/-- The loop of `GarblerClient::generate_gates` over the gates from position `i` on;
`shuffle i` is the permutation drawn for the gate at position `i`. -/
def generate_gates_from (lp : LabelParams) (cd : CryptoDriver) (labels : GarbledLabels)
    (shuffle : Nat → List ByteBlock → List ByteBlock) :
    List Gate → Nat → Except RuntimeError (List GarbledGate)
  | [], _ => Except.ok []
  | gate :: rest, i =>
    match generate_gate lp cd labels (shuffle i) gate with
    | Except.error e => Except.error e
    | Except.ok ggate =>
      match generate_gates_from lp cd labels shuffle rest (i + 1) with
      | Except.error e => Except.error e
      | Except.ok ggates => Except.ok (ggate :: ggates)

/-- `GarblerClient::generate_gates`. -/
def generate_gates (lp : LabelParams) (cd : CryptoDriver) (circuit : Circuit)
    (labels : GarbledLabels) (shuffle : Nat → List ByteBlock → List ByteBlock) :
    Except RuntimeError (List GarbledGate) :=
  generate_gates_from lp cd labels shuffle circuit.gates 0

/-- The number of binary digits of `x`; `fuel` bounds the number of digits. -/
def bitCountFrom : Nat → Nat → Nat
  | 0, _ => 0
  | fuel + 1, x => if x = 0 then 0 else bitCountFrom fuel (x / 2) + 1

/-- The number of significant bits, `CryptoPP::Integer::BitCount`. -/
def BitCount (x : Nat) : Nat := bitCountFrom x x

/-- The big-endian bytes of `x` in front of `acc`; `fuel` bounds the number of bytes. -/
def bigEndianBytes : Nat → Nat → ByteBlock → ByteBlock
  | 0, _, acc => acc
  | fuel + 1, x, acc =>
    if x = 0 then acc else bigEndianBytes fuel (x / 256) (x % 256 :: acc)

/-- Modelled from the spec: `integer_to_byteblock` of `util.hpp` is outside the
translated files; the integer is encoded big-endian in the least number of bytes,
one byte for `0`. -/
def integer_to_byteblock (x : Nat) : ByteBlock :=
  if x = 0 then [0] else bigEndianBytes (BitCount x) x []

/-- The offset `delta` of `GarblerClient::generate_labels`, from the block `draw`
returned by `generate_label`. `BitCount() - 1` is computed on `unsigned int`. -/
def generate_delta (draw : ByteBlock) : ByteBlock :=
  let delta_int := byteblock_to_integer draw
  let position := (BitCount delta_int + 4294967295) % 4294967296
  integer_to_byteblock (delta_int ||| 2 ^ position)

/-- `GarblerClient::generate_labels`; `deltaDraw` is the first block drawn by
`generate_label` and `draws i` the block drawn for wire `i`. When `delta` has fewer than
`LABEL_LENGTH` bytes, which happens for a draw with a leading zero byte, the C++
`xorbuf` reads past the end of `delta`; the one-labels computed here, with the byte `0`
read there, then describe no run of the program. -/
def generate_labels (lp : LabelParams) (circuit : Circuit) (deltaDraw : ByteBlock)
    (draws : Nat → ByteBlock) : GarbledLabels :=
  let delta := generate_delta deltaDraw
  { zeros := (List.range circuit.num_wire).map fun i => { value := draws i },
    ones := (List.range circuit.num_wire).map fun i =>
      { value := xorbuf (draws i) delta lp.LABEL_LENGTH } }

/-- The loop of `GarblerClient::get_garbled_wires` over the inputs from position `i` on. -/
def get_garbled_wires_from (labels : GarbledLabels) (begin : Nat) :
    List Nat → Nat → List GarbledWire
  | [], _ => []
  | bit :: rest, i =>
    if bit = 0 then
      labels.zeros.getD (begin + i) default :: get_garbled_wires_from labels begin rest (i + 1)
    else if bit = 1 then
      labels.ones.getD (begin + i) default :: get_garbled_wires_from labels begin rest (i + 1)
    else get_garbled_wires_from labels begin rest (i + 1)

/-- `GarblerClient::get_garbled_wires`. -/
def get_garbled_wires (labels : GarbledLabels) (input : List Nat) (begin : Nat) :
    List GarbledWire :=
  get_garbled_wires_from labels begin input 0

/-- The inner loop of step 5 of `GarblerClient::run`: the characters appended for one
received label `gw`, scanning the wires `j` of the list. -/
def decode_label (labels : GarbledLabels) (gw : GarbledWire) : List Nat → String → String
  | [], final_output => final_output
  | j :: rest, final_output =>
    if (labels.zeros.getD j default).value = gw.value then
      decode_label labels gw rest (final_output ++ "0")
    else if (labels.ones.getD j default).value = gw.value then
      decode_label labels gw rest (final_output ++ "1")
    else decode_label labels gw rest final_output

/-- The decoding loops of step 5 of `GarblerClient::run`. -/
def decode_final_labels (circuit : Circuit) (labels : GarbledLabels) :
    List GarbledWire → String → String
  | [], final_output => final_output
  | gw :: rest, final_output =>
    let first := circuit.garbler_input_length + circuit.evaluator_input_length
    decode_final_labels circuit labels rest
      (decode_label labels gw (List.range' first (circuit.num_wire - first)) final_output)

/-- What `GarblerClient::run` sends before it reads: the garbled tables (step 2), its
input labels (step 3) and the pair of messages of each `OT_send` (step 4). -/
structure GarblerSent where
  garbled_tables : List GarbledGate
  garbler_inputs : List GarbledWire
  ot_messages : List (ByteBlock × ByteBlock)
deriving DecidableEq, Repr

/-- `GarblerClient::run`, steps 1 to 4, for the labels `glabels` of step 1. -/
def GarblerClient_send (lp : LabelParams) (cd : CryptoDriver) (circuit : Circuit)
    (glabels : GarbledLabels) (shuffle : Nat → List ByteBlock → List ByteBlock)
    (input : List Nat) : Except RuntimeError GarblerSent :=
  match generate_gates lp cd circuit glabels shuffle with
  | Except.error e => Except.error e
  | Except.ok garbledGates =>
    Except.ok
      { garbled_tables := garbledGates,
        garbler_inputs := get_garbled_wires glabels input 0,
        ot_messages :=
          (List.range' circuit.garbler_input_length circuit.evaluator_input_length).map
            fun i => ((glabels.zeros.getD i default).value,
                      (glabels.ones.getD i default).value) }

/-- `GarblerClient::run`, step 5 to the end: from the result `reply` of
`decrypt_and_verify` on the evaluator's message to the returned string, which is also
the payload sent back to the evaluator. -/
def GarblerClient_decode (circuit : Circuit) (glabels : GarbledLabels)
    (reply : List GarbledWire × Bool) : Except RuntimeError String :=
  if !reply.2 then Except.error RuntimeError.evaluatorAuthenticationFailed
  else Except.ok (decode_final_labels circuit glabels reply.1 "")

/-! ## `EvaluatorClient` -/

/-- `EvaluatorClient::verify_decryption`. -/
def verify_decryption (lp : LabelParams) (decryption : ByteBlock) : Bool :=
  let trail := (decryption.drop lp.LABEL_LENGTH).take lp.LABEL_TAG_LENGTH
  decide (byteblock_to_integer trail = 0)

/-- `EvaluatorClient::snip_decryption`. -/
def snip_decryption (lp : LabelParams) (decryption : ByteBlock) : ByteBlock :=
  decryption.take lp.LABEL_LENGTH

/-- The loop of `EvaluatorClient::evaluate_gate` over the entries of the gate; the
wire returned when no entry verifies is the default-constructed one. -/
def evaluate_entries (lp : LabelParams) (cd : CryptoDriver) (lhs rhs : GarbledWire) :
    List ByteBlock → GarbledWire
  | [] => default
  | encryption :: rest =>
    let decrypt_key := cd.hash_inputs lhs.value rhs.value
    let decryption := xorbuf encryption decrypt_key (2 * lp.LABEL_TAG_LENGTH)
    if verify_decryption lp decryption then { value := snip_decryption lp decryption }
    else evaluate_entries lp cd lhs rhs rest

/-- `EvaluatorClient::evaluate_gate`. -/
def evaluate_gate (lp : LabelParams) (cd : CryptoDriver) (gate : GarbledGate)
    (lhs rhs : GarbledWire) : GarbledWire :=
  evaluate_entries lp cd lhs rhs gate.entries

/-- Step 4 of `EvaluatorClient::run`: the loop over the garbled tables from position
`i` on, with the wire labels `gwires_all` computed so far. The value describes the C++
when every label read has `LABEL_LENGTH` bytes, every entry `2 * LABEL_TAG_LENGTH`
bytes and every gate names wires below `num_wire`; where a label is shorter, as the
empty label that `evaluate_gate` returns without a valid entry, the C++ `xorbuf` reads
outside the buffer and the value computed here, with the byte `0` read there, describes
no run of the program. -/
def evaluate_tables (lp : LabelParams) (cd : CryptoDriver) (circuit : Circuit) :
    List GarbledGate → Nat → List GarbledWire → Except RuntimeError (List GarbledWire)
  | [], _, gwires_all => Except.ok gwires_all
  | table :: rest, i, gwires_all =>
    let gate := circuit.gates.getD i default
    if gate.type = 1 then
      let gw_output := evaluate_gate lp cd table (gwires_all.getD gate.lhs default)
        (gwires_all.getD gate.rhs default)
      evaluate_tables lp cd circuit rest (i + 1) (gwires_all.set gate.output gw_output)
    else if gate.type = 2 then
      let decrypted_entry := xorbuf (gwires_all.getD gate.lhs default).value
        (gwires_all.getD gate.rhs default).value lp.LABEL_LENGTH
      evaluate_tables lp cd circuit rest (i + 1)
        (gwires_all.set gate.output { value := decrypted_entry })
    else if gate.type = 3 then
      let dummy : GarbledWire := { value := lp.DUMMY_RHS }
      let gw_output := evaluate_gate lp cd table (gwires_all.getD gate.lhs default) dummy
      evaluate_tables lp cd circuit rest (i + 1) (gwires_all.set gate.output gw_output)
    else Except.error RuntimeError.invalidGateType

/-- `EvaluatorClient::run`, steps 1 to 5: from the results of `decrypt_and_verify` on
the garbler's two messages and the strings returned by the calls of `OT_recv` to the
final labels sent to the garbler. -/
def EvaluatorClient_labels (lp : LabelParams) (cd : CryptoDriver) (circuit : Circuit)
    (tables : List GarbledGate × Bool) (inputs : List GarbledWire × Bool)
    (ot_received : List ByteBlock) : Except RuntimeError (List GarbledWire) :=
  if !tables.2 then Except.error RuntimeError.garblerAuthenticationFailed
  else if !inputs.2 then Except.error RuntimeError.garblerAuthenticationFailed
  else
    let gwires_all := inputs.1 ++ ot_received.map fun inputlabel => { value := inputlabel }
    match evaluate_tables lp cd circuit tables.1 0 (resizeWires gwires_all circuit.num_wire) with
    | Except.error e => Except.error e
    | Except.ok gwires_all =>
      Except.ok ((List.range circuit.output_length).map fun j =>
        gwires_all.getD (circuit.num_wire - circuit.output_length + j) default)

/-- `EvaluatorClient::run`, step 6: from the result `reply` of `decrypt_and_verify` on
the garbler's last message to the returned string. -/
def EvaluatorClient_output (reply : String × Bool) : Except RuntimeError String :=
  if !reply.2 then Except.error RuntimeError.garblerAuthenticationFailed
  else Except.ok reply.1

/-! ## An honest session of the garbler with the evaluator -/

/-- The values drawn at random during a session: the blocks returned by
`generate_label`, the permutations of `std::random_shuffle`, and for the `i`-th
oblivious transfer the two exponents and the two initialisation vectors. -/
structure SessionRandomness where
  deltaDraw : ByteBlock
  draws : Nat → ByteBlock
  shuffle : Nat → List ByteBlock → List ByteBlock
  ot_a : Nat → Nat
  ot_b : Nat → Nat
  ot_iv0 : Nat → ByteBlock
  ot_iv1 : Nat → ByteBlock

/-- The oblivious transfers of a session, in order: the `i`-th call of `OT_send` of the
garbler is paired with the `i`-th call of `OT_recv` of the evaluator. The result lists
what the calls of `OT_recv` return. -/
def honestOTs (par : Params) (cd : CryptoDriver) (rnd : SessionRandomness) :
    List (ByteBlock × ByteBlock) → List Nat → Nat → Except RuntimeError (List ByteBlock)
  | messages :: restMessages, choice_bit :: restBits, i =>
    match honestOT par cd (rnd.ot_a i) (rnd.ot_b i) (rnd.ot_iv0 i) (rnd.ot_iv1 i)
        messages.1 messages.2 choice_bit with
    | Except.error e => Except.error e
    | Except.ok received =>
      match honestOTs par cd rnd restMessages restBits (i + 1) with
      | Except.error e => Except.error e
      | Except.ok others => Except.ok (received :: others)
  | _, _, _ => Except.ok []

/-- An honest session of `GarblerClient::run(garbler_input)` with
`EvaluatorClient::run(evaluator_input)`: every message sent is the payload the peer's
`decrypt_and_verify` returns, with a valid MAC. The result is the pair of the strings
returned by the garbler and by the evaluator. -/
def honestSession (par : Params) (lp : LabelParams) (cd : CryptoDriver) (circuit : Circuit)
    (rnd : SessionRandomness) (garbler_input evaluator_input : List Nat) :
    Except RuntimeError (String × String) :=
  let glabels := generate_labels lp circuit rnd.deltaDraw rnd.draws
  match GarblerClient_send lp cd circuit glabels rnd.shuffle garbler_input with
  | Except.error e => Except.error e
  | Except.ok sent =>
    match honestOTs par cd rnd sent.ot_messages evaluator_input 0 with
    | Except.error e => Except.error e
    | Except.ok ot_received =>
      match EvaluatorClient_labels lp cd circuit (sent.garbled_tables, true)
          (sent.garbler_inputs, true) ot_received with
      | Except.error e => Except.error e
      | Except.ok final_labels =>
        match GarblerClient_decode circuit glabels (final_labels, true) with
        | Except.error e => Except.error e
        | Except.ok final_output =>
          match EvaluatorClient_output (final_output, true) with
          | Except.error e => Except.error e
          | Except.ok evaluator_output => Except.ok (final_output, evaluator_output)

/-- The bit string `C(x, y)`: the circuit evaluated on plain bits, one character per
output wire. Wire `i` holds the `i`-th bit of `x ++ y` for the input wires. -/
def plainGates : List Gate → List Nat → List Nat
  | [], wires => wires
  | gate :: rest, wires =>
    let l := wires.getD gate.lhs 0
    let r := wires.getD gate.rhs 0
    let out :=
      if gate.type = 1 then l * r % 2
      else if gate.type = 2 then (l + r) % 2
      else (l + 1) % 2
    plainGates rest (wires.set gate.output out)

/-- The expected output string of the circuit on the inputs `x` and `y`. -/
def plainOutput (circuit : Circuit) (x y : List Nat) : String :=
  let wires := plainGates circuit.gates
    ((x ++ y) ++ List.replicate (circuit.num_wire - (x ++ y).length) 0)
  String.join ((List.range circuit.output_length).map fun j =>
    if wires.getD (circuit.num_wire - circuit.output_length + j) 0 = 0 then "0" else "1")

/-! ## The quantities named by the specification of `CombineResults` -/

/-- The value `D` of the specification: the product of the partial decryptions `d_i`
modulo `P`. -/
def combinedDecryption (par : Params) (decs : List PartialDecryptionRow) : Nat :=
  (decs.map fun row => row.dec.d).prod % par.P

/-- The value `b * D⁻¹ mod P` of the specification, whose discrete logarithm
`CombineResults` searches. -/
def searchTarget (par : Params) (combined_vote : Vote_Ciphertext)
    (decs : List PartialDecryptionRow) : Nat :=
  a_times_b_mod_c combined_vote.b
    (EuclideanMultiplicativeInverse (combinedDecryption par decs) par.P) par.P

/-! ## Honest stores -/

/-- The rows of the vote store for ballots produced by `GenerateVote` under the key
`pk`; each ballot is given as its vote and the values it draws. The signatures play no
part in the tally. -/
def honestRows (par : Params) (Hv : VoteHash) (pk : Nat)
    (ballots : List (Nat × VoteRandomness)) : List VoteRow :=
  ballots.map fun p =>
    { vote := (GenerateVote par Hv p.2 p.1 pk).1,
      zkp := (GenerateVote par Hv p.2 p.1 pk).2,
      unblinded_signature := 0,
      tallyer_signature := [] }

/-- The rows of the partial-decryption store when every arbiter, given as its secret
share and the nonce of its proof, publishes `PartialDecrypt` of `combined_vote`. -/
def honestDecs (par : Params) (Hd : DecHash) (arbiters : List (Nat × Nat))
    (combined_vote : Vote_Ciphertext) : List PartialDecryptionRow :=
  arbiters.map fun p =>
    publishedDecryption [] []
      (PartialDecrypt par Hd p.2 combined_vote (ModularExponentiation par.G p.1 par.P) p.1)

/-! ## Small instances on which the theorems are exercised -/

/-- The subgroup of order `11` of the units modulo `23`, generated by `2`. -/
def smallParams : Params := { P := 23, Q := 11, G := 2 }

/-- A vote hash with values in `[0, 11)`. -/
def smallVoteHash : VoteHash := fun x1 x2 x3 x4 x5 x6 x7 =>
  (x1 + 2 * x2 + 3 * x3 + 5 * x4 + 7 * x5 + 11 * x6 + 13 * x7) % 11

/-- The decryption hash with the single value `c`. -/
def constDecHash (c : Nat) : DecHash := fun _ _ _ _ _ => c

/-- Values for `GenerateVote` to draw. -/
def smallDraw : VoteRandomness := { r := 3, simResponse := 4, simChallenge := 5, nonce := 6 }

/-- Two arbiters, each given as its secret share and the nonce of its proof. -/
def smallArbiters : List (Nat × Nat) := [(3, 2), (4, 5)]

/-- Three ballots for the votes `0`, `1`, `1`, each with the values it draws. -/
def smallBallots : List (Nat × VoteRandomness) :=
  [(0, smallDraw),
   (1, { r := 7, simResponse := 2, simChallenge := 9, nonce := 4 }),
   (1, { r := 5, simResponse := 8, simChallenge := 3, nonce := 2 })]

/-- The rows of the vote store for `smallBallots`. -/
def smallRows : List VoteRow :=
  honestRows smallParams smallVoteHash
    (electionPublicKey smallParams (smallArbiters.map Prod.fst)) smallBallots

/-- The rows of the partial-decryption store for `smallArbiters` over `smallRows`. -/
def smallDecs : List PartialDecryptionRow :=
  honestDecs smallParams (constDecHash 3) smallArbiters (CombineVotes smallParams smallRows)

/-- A crypto driver with additive one-time pads in place of AES and an arithmetic
mixing function in place of the hash. -/
def smallCrypto : CryptoDriver :=
  { AES_generate_key := fun shared => [shared],
    AES_encrypt := fun key plaintext iv => (plaintext.map fun byte => byte + key.sum, iv),
    AES_decrypt := fun key _ ciphertext => ciphertext.map fun byte => byte - key.sum,
    hash_inputs := fun lhs rhs =>
      [(lhs.getD 0 0 * 7 + rhs.getD 0 0 * 3 + 1) % 256,
       (lhs.getD 1 0 * 5 + rhs.getD 1 0 * 11 + 2) % 256,
       (lhs.getD 0 0 + rhs.getD 1 0 * 13 + 3) % 256,
       (lhs.getD 1 0 + rhs.getD 0 0 * 17 + 5) % 256] }

/-- Labels of two bytes with tags of two bytes. -/
def smallLabels : LabelParams := { LABEL_LENGTH := 2, LABEL_TAG_LENGTH := 2, DUMMY_RHS := [9, 9] }

/-- The circuit of the scenario Yao-XOR: one XOR gate on the garbler's wire `0` and the
evaluator's wire `1`, with output wire `2`. -/
def xorCircuit : Circuit :=
  { num_gate := 1, num_wire := 3, garbler_input_length := 1, evaluator_input_length := 1,
    output_length := 1, gates := [{ type := 2, lhs := 0, rhs := 1, output := 2 }] }

/-- The values drawn in the session of the scenario: the offset `[200, 7]`, the
zero-labels `[1, 2]`, `[3, 4]`, `[5, 6]` of the three wires, and reversal as shuffle. -/
def smallRandomness : SessionRandomness :=
  { deltaDraw := [200, 7],
    draws := fun i => [2 * i + 1, 2 * i + 2],
    shuffle := fun _ entries => entries.reverse,
    ot_a := fun i => i + 3,
    ot_b := fun i => i + 5,
    ot_iv0 := fun _ => [1],
    ot_iv1 := fun _ => [2] }

/-! ## A group of order above `2 ^ 31` -/

/-- The safe prime `P = 2 * Q + 1` with `Q = 2147495123 > 2 ^ 31`, and the generator
`4` of the subgroup of order `Q`. -/
def bigParams : Params := { P := 4294990247, Q := 2147495123, G := 4 }

/-- The value of `b ^ e mod m` by repeated squaring; `fuel` bounds the number of bits
of `e`. -/
def fastPowMod (m : Nat) : Nat → Nat → Nat → Nat
  | 0, _, _ => 1 % m
  | fuel + 1, b, e =>
    if e = 0 then 1 % m
    else if e % 2 = 0 then fastPowMod m fuel (b * b % m) (e / 2)
    else b * fastPowMod m fuel (b * b % m) (e / 2) % m

/-! ## Quantities named by the specification of the garbled circuits -/

/-- The most significant bit of the `n`-byte value that `block` encodes. -/
def topOrderBit (n : Nat) (block : ByteBlock) : Bool :=
  Nat.testBit (byteblock_to_integer block) (8 * n - 1)

/-- The test of the loop body of `EvaluatorClient::evaluate_gate` on one entry: the
entry, decrypted with `hash_inputs(lhs, rhs)`, passes `verify_decryption`. -/
def entryVerifies (lp : LabelParams) (cd : CryptoDriver) (lhs rhs : GarbledWire)
    (encryption : ByteBlock) : Bool :=
  verify_decryption lp
    (xorbuf encryption (cd.hash_inputs lhs.value rhs.value) (2 * lp.LABEL_TAG_LENGTH))

/-- The tag bytes of `hash_inputs(lhs, rhs)`: the `LABEL_TAG_LENGTH` bytes from
position `LABEL_LENGTH` on. -/
def hashTag (lp : LabelParams) (cd : CryptoDriver) (lhs rhs : GarbledWire) : ByteBlock :=
  (List.range lp.LABEL_TAG_LENGTH).map fun j =>
    (cd.hash_inputs lhs.value rhs.value).getD (lp.LABEL_LENGTH + j) 0

/-- The garbler's label of wire `j` for the bit `bit`. -/
def labelOf (labels : GarbledLabels) (bit : Bool) (j : Nat) : GarbledWire :=
  if bit then labels.ones.getD j default else labels.zeros.getD j default

/-- The character that the label `gw` decodes to on wire `j`: `"0"` for the zero-label,
`"1"` for the one-label, and no character otherwise. -/
def decodedBit (labels : GarbledLabels) (gw : GarbledWire) (j : Nat) : String :=
  if (labels.zeros.getD j default).value = gw.value then "0"
  else if (labels.ones.getD j default).value = gw.value then "1"
  else ""

/-- The output string of the specification for the received labels from the `k`-th on:
the `k`-th label is decoded on the `k`-th output wire
`num_wire - output_length + k`. -/
def expectedOutput (circuit : Circuit) (labels : GarbledLabels) :
    List GarbledWire → Nat → String
  | [], _ => ""
  | gw :: rest, k =>
    decodedBit labels gw (circuit.num_wire - circuit.output_length + k) ++
      expectedOutput circuit labels rest (k + 1)

/-! ## Reads of authenticated messages

Each call `decrypt_and_verify(read())` is followed by a check of the flag it returns.
The steps a caller takes after the call are recorded in order. -/

/-- The steps after a call of `decrypt_and_verify`: closing the connection, throwing a
`std::runtime_error`, and deserializing the payload. -/
inductive ChannelAction where
  | disconnect
  | throwError
  | deserialize
deriving DecidableEq, Repr

/-- The calls of `decrypt_and_verify` in the translated files. -/
inductive ReadSite where
  | OT_send_public_value
  | OT_recv_public_value
  | OT_recv_encrypted_values
  | Evaluator_run_garbled_tables
  | Evaluator_run_garbler_inputs
  | Evaluator_run_final_output
  | Garbler_run_final_labels
  | Registrar_HandleRegister
  | Voter_HandleRegister
deriving DecidableEq, Repr

/-- The steps of the caller from the call of `decrypt_and_verify` at `site`, which
returned the flag `ok`, up to the deserialization of the payload or the throw. -/
def afterDecryptAndVerify : ReadSite → Bool → List ChannelAction
  | ReadSite.Voter_HandleRegister, ok =>
    ChannelAction.deserialize :: (if !ok then [ChannelAction.throwError] else [])
  | _, ok =>
    if !ok then [ChannelAction.disconnect, ChannelAction.throwError]
    else [ChannelAction.deserialize]

/-- The behaviour the specification requires after a failed check: the connection is
closed, an error is thrown, and nothing is deserialized before. -/
def abortsBeforeUse (steps : List ChannelAction) : Bool :=
  decide (steps = [ChannelAction.disconnect, ChannelAction.throwError])

/-! ## Registration (`registrar.cxx`) and the key exchange (`voter.cxx`) -/

/-- The `std::runtime_error`s thrown by `VoterClient` and `RegistrarClient`. -/
inductive ElectionError where
  | serverSignatureInvalid
  | publicValueInconsistent
  | notFromVoter
  | notFromRegistrar
deriving DecidableEq, Repr

/-- A row of the voter store; the default-constructed row has the empty id. -/
structure VoterRow where
  id : String
  registrar_signature : Nat
deriving DecidableEq, Repr

instance : Inhabited VoterRow := ⟨{ id := "", registrar_signature := 0 }⟩

/-- `RegistrarToVoter_Blind_Signature_Message` has the fields of `VoterRow`; the code
assigns one to the other. -/
abbrev RegistrarToVoter_Blind_Signature_Message := VoterRow

structure VoterToRegistrar_Register_Message where
  id : String
  vote : Nat
deriving DecidableEq, Repr

/-- The operations of `DBDriver` on the voter store that `RegistrarClient` calls; their
bodies are outside the translated files. `DB` is the state of the store. -/
structure DBDriver (DB : Type) where
  find_voter : DB → String → VoterRow
  insert_voter : DB → VoterRow → DB

/-- A store keyed by the voter id: a lookup returns a row of the id asked for or the
default row, an inserted row with a non-empty id is found when its id was absent, an
inserted row is found when its id held the same row, and an insertion leaves the other
ids as they were. -/
structure DBDriver.Keyed {DB : Type} (dbd : DBDriver DB) : Prop where
  find_id : ∀ db id, (dbd.find_voter db id).id = id ∨ (dbd.find_voter db id).id = ""
  find_insert_absent : ∀ db row, row.id ≠ "" → (dbd.find_voter db row.id).id = "" →
    dbd.find_voter (dbd.insert_voter db row) row.id = row
  find_insert_same : ∀ db row, dbd.find_voter db row.id = row →
    dbd.find_voter (dbd.insert_voter db row) row.id = row
  find_insert_other : ∀ db row id, id ≠ row.id →
    dbd.find_voter (dbd.insert_voter db row) id = dbd.find_voter db id

/-- `RegistrarClient::HandleRegister` after the key exchange: from the result `incoming`
of `decrypt_and_verify` on the voter's message and the store `db` to the message sent
back and the store afterwards. `RSA_BLIND_sign` signs under the registrar's key. -/
def RegistrarClient_HandleRegister {DB : Type} (RSA_BLIND_sign : Nat → Nat)
    (dbd : DBDriver DB) (db : DB) (incoming : VoterToRegistrar_Register_Message × Bool) :
    Except ElectionError (RegistrarToVoter_Blind_Signature_Message × DB) :=
  let v2r_register_msg := incoming.1
  let isFromVoter := incoming.2
  if !isFromVoter then Except.error ElectionError.notFromVoter
  else
    let voter := dbd.find_voter db v2r_register_msg.id
    let r2v_blind_sig_msg : RegistrarToVoter_Blind_Signature_Message :=
      if voter.id ≠ "" then voter
      else { id := v2r_register_msg.id,
             registrar_signature := RSA_BLIND_sign v2r_register_msg.vote }
    Except.ok (r2v_blind_sig_msg, dbd.insert_voter db r2v_blind_sig_msg)

/-- The store after calls of `RegistrarClient::HandleRegister` that are handled one
after another, each call ending before the next one starts; a call that throws leaves
the store as it was. `ListenForConnections` runs every call in a detached thread, so
calls can also overlap: see `RegistrarClient_HandleRegister_overlapping`. -/
def RegistrarClient_sessions {DB : Type} (RSA_BLIND_sign : Nat → Nat) (dbd : DBDriver DB) :
    DB → List (VoterToRegistrar_Register_Message × Bool) → DB
  | db, [] => db
  | db, incoming :: rest =>
    match RegistrarClient_HandleRegister RSA_BLIND_sign dbd db incoming with
    | Except.error _ => RegistrarClient_sessions RSA_BLIND_sign dbd db rest
    | Except.ok reply => RegistrarClient_sessions RSA_BLIND_sign dbd reply.2 rest

/-- The operations on signatures and byte blocks that the key exchange calls and whose
bodies are outside the translated files; keys are numbers. -/
structure SignatureDriver where
  RSA_sign : Nat → ByteBlock → ByteBlock
  RSA_verify : Nat → ByteBlock → ByteBlock → Bool
  HMAC_generate_key : Nat → ByteBlock
  concat_byteblocks : Nat → Nat → ByteBlock

structure UserToServer_DHPublicValue_Message where
  public_value : Nat
deriving DecidableEq, Repr

structure ServerToUser_DHPublicValue_Message where
  server_public_value : Nat
  user_public_value : Nat
  server_signature : ByteBlock
deriving DecidableEq, Repr

/-- `VoterClient::HandleKeyExchange`, the message sent before the read; `a` is the
exponent drawn by `DH_initialize`. -/
def VoterClient_HandleKeyExchange_send (par : Params) (a : Nat) :
    UserToServer_DHPublicValue_Message :=
  { public_value := ( DH_initialize par a).2 }

/-- `VoterClient::HandleKeyExchange` from the server's message on: the pair of the AES
key and the HMAC key, or the error thrown. -/
def VoterClient_HandleKeyExchange (par : Params) (cd : CryptoDriver) (sd : SignatureDriver)
    (verification_key : Nat) (a : Nat)
    (server_public_value_s : ServerToUser_DHPublicValue_Message) :
    Except ElectionError (ByteBlock × ByteBlock) :=
  let dh_values := DH_initialize par a
  let verified := sd.RSA_verify verification_key
    (sd.concat_byteblocks server_public_value_s.server_public_value
      server_public_value_s.user_public_value)
    server_public_value_s.server_signature
  if !verified then Except.error ElectionError.serverSignatureInvalid
  else if server_public_value_s.user_public_value ≠ dh_values.2 then
    Except.error ElectionError.publicValueInconsistent
  else
    let DH_shared_key :=
      DH_generate_shared_key par dh_values.1 server_public_value_s.server_public_value
    Except.ok (cd.AES_generate_key DH_shared_key, sd.HMAC_generate_key DH_shared_key)

/-- `RegistrarClient::HandleKeyExchange`: the message sent to the voter and the pair of
the AES key and the HMAC key; `b` is the exponent drawn by `DH_initialize`. -/
def RegistrarClient_HandleKeyExchange (par : Params) (cd : CryptoDriver)
    (sd : SignatureDriver) (RSA_registrar_signing_key : Nat) (b : Nat)
    (user_public_value_s : UserToServer_DHPublicValue_Message) :
    ServerToUser_DHPublicValue_Message × (ByteBlock × ByteBlock) :=
  let dh_values := DH_initialize par b
  let public_value_s : ServerToUser_DHPublicValue_Message :=
    { server_public_value := dh_values.2,
      user_public_value := user_public_value_s.public_value,
      server_signature := sd.RSA_sign RSA_registrar_signing_key
        (sd.concat_byteblocks dh_values.2 user_public_value_s.public_value) }
  let DH_shared_key :=
    DH_generate_shared_key par dh_values.1 user_public_value_s.public_value
  (public_value_s, (cd.AES_generate_key DH_shared_key, sd.HMAC_generate_key DH_shared_key))

/-! ## Small instances for registration and the key exchange -/

/-- A voter store held as a list of rows: a lookup returns the first row of the id, and
the default row when there is none; an insertion appends. -/
def listStore : DBDriver (List VoterRow) :=
  { find_voter := fun db id => (db.find? fun row => decide (row.id = id)).getD default,
    insert_voter := fun db row => db ++ [row] }

/-- Textbook RSA with modulus `33` and private exponent `3` as blind signature. -/
def smallBlindSign (vote : Nat) : Nat := vote ^ 3 % 33

/-- A signature driver that signs by adding the key to every byte. -/
def smallSignatures : SignatureDriver :=
  { RSA_sign := fun key message => message.map fun byte => byte + key,
    RSA_verify := fun key message signature =>
      decide (signature = message.map fun byte => byte + key),
    HMAC_generate_key := fun shared => [shared, shared],
    concat_byteblocks := fun x y => [x, y] }

/-- A circuit of one AND gate on the garbler's wire `0` and the evaluator's wire `1`,
with output wire `2`. -/
def andCircuit : Circuit :=
  { num_gate := 1, num_wire := 3, garbler_input_length := 1, evaluator_input_length := 1,
    output_length := 1, gates := [{ type := 1, lhs := 0, rhs := 1, output := 2 }] }

/-! ## RSA blind signatures (`crypto_driver.cxx`) -/

structure RSAPublicKey where
  N : Nat
  e : Nat
deriving DecidableEq, Repr

structure RSAPrivateKey where
  N : Nat
  d : Nat
deriving DecidableEq, Repr

/-- The hash `H` of the encoding of a `Vote_Ciphertext` that the blind signature is
computed over. -/
abbrev CiphertextHash := Vote_Ciphertext → Nat

/-- Modelled from the spec: `CryptoDriver::RSA_BLIND_blind` is outside the translated
files; `blind(pk, m) = (H(m) * r ^ e mod N, r)` for the blinding factor `r` drawn,
where the message enters through the hash that `blind_verify` compares with. -/
def RSA_BLIND_blind (H : CiphertextHash) (pk : RSAPublicKey) (vote : Vote_Ciphertext)
    (r : Nat) : Nat × Nat :=
  (a_times_b_mod_c (H vote) (ModularExponentiation r pk.e pk.N) pk.N, r)

/-- Modelled from the spec: `CryptoDriver::RSA_BLIND_sign` is outside the translated
files; `blind_sign(sk, m') = m' ^ d mod N`. -/
def RSA_BLIND_sign (sk : RSAPrivateKey) (blinded : Nat) : Nat :=
  ModularExponentiation blinded sk.d sk.N

/-- Modelled from the spec: `CryptoDriver::RSA_BLIND_unblind` is outside the translated
files; `unblind(pk, s', r) = s' * r⁻¹ mod N`. -/
def RSA_BLIND_unblind (pk : RSAPublicKey) (signed_blinded r : Nat) : Nat :=
  a_times_b_mod_c signed_blinded (EuclideanMultiplicativeInverse r pk.N) pk.N

/-- Modelled from the spec: `CryptoDriver::RSA_BLIND_verify` is outside the translated
files; `blind_verify(pk, m, s)` holds when `s ^ e = H(m) (mod N)`. -/
def RSA_BLIND_verify (H : CiphertextHash) (pk : RSAPublicKey) (vote : Vote_Ciphertext)
    (signature : Nat) : Bool :=
  decide (ModularExponentiation signature pk.e pk.N = H vote % pk.N)

/-- The two keys belong together: raising to `d` and then to `e` modulo `N` gives back
every residue. -/
def RSAKeyPair (pk : RSAPublicKey) (sk : RSAPrivateKey) : Prop :=
  pk.N = sk.N ∧ 1 < pk.N ∧
    ∀ x, ModularExponentiation (ModularExponentiation x sk.d sk.N) pk.e pk.N = x % pk.N

/-! ## Registration and voting on the voter's side (`voter.cxx`) -/

/-- The fields of `VoterClient` that `HandleRegister` writes and `HandleVote` reads. -/
structure VoterState where
  vote : Vote_Ciphertext
  vote_zkp : VoteZKP_Struct
  registrar_signature : Nat
  blind : Nat
deriving DecidableEq, Repr

structure VoterToTallyer_Vote_Message where
  vote : Vote_Ciphertext
  unblinded_signature : Nat
  zkp : VoteZKP_Struct
deriving DecidableEq, Repr

/-- `VoterClient::HandleRegister`, steps 2 and 3: the message sent to the registrar.
`rnd` holds the values drawn by `GenerateVote` and `r` is the blinding factor drawn by
`RSA_BLIND_blind`. -/
def VoterClient_HandleRegister_send (par : Params) (hash_vote_zkp : VoteHash)
    (H : CiphertextHash) (RSA_registrar_verification_key : RSAPublicKey) (voter_id : String)
    (EG_arbiter_public_key : Nat) (rnd : VoteRandomness) (r : Nat) (raw_vote : Nat) :
    VoterToRegistrar_Register_Message :=
  let generated := GenerateVote par hash_vote_zkp rnd raw_vote EG_arbiter_public_key
  let blinded := RSA_BLIND_blind H RSA_registrar_verification_key generated.1 r
  { id := voter_id, vote := blinded.1 }

/-- `VoterClient::HandleRegister`, step 4 to the end: from the result `reply` of
`decrypt_and_verify` on the registrar's message to the fields saved. -/
def VoterClient_HandleRegister (par : Params) (hash_vote_zkp : VoteHash)
    (H : CiphertextHash) (RSA_registrar_verification_key : RSAPublicKey)
    (EG_arbiter_public_key : Nat) (rnd : VoteRandomness) (r : Nat) (raw_vote : Nat)
    (reply : RegistrarToVoter_Blind_Signature_Message × Bool) :
    Except ElectionError VoterState :=
  let generated := GenerateVote par hash_vote_zkp rnd raw_vote EG_arbiter_public_key
  let blinded := RSA_BLIND_blind H RSA_registrar_verification_key generated.1 r
  let r2v_blind_sig_msg := reply.1
  let isFromReg := reply.2
  if !isFromReg then Except.error ElectionError.notFromRegistrar
  else
    Except.ok
      { vote := generated.1,
        vote_zkp := generated.2,
        registrar_signature := r2v_blind_sig_msg.registrar_signature,
        blind := blinded.2 }

/-- `VoterClient::HandleVote`, steps 2 and 3: the message sent to the tallyer. -/
def VoterClient_HandleVote (RSA_registrar_verification_key : RSAPublicKey)
    (st : VoterState) : VoterToTallyer_Vote_Message :=
  let unblinded_s :=
    RSA_BLIND_unblind RSA_registrar_verification_key st.registrar_signature st.blind
  { vote := st.vote, unblinded_signature := unblinded_s, zkp := st.vote_zkp }

/-! ## Verification of the election (`voter.cxx`) and adjudication (`arbiter.cxx`) -/

/-- The operations that `DoVerify` and `HandleAdjudicate` call and whose bodies are
outside the translated files. `LoadInteger` maps a path to the integer stored there. -/
structure ElectionDriver where
  RSA_BLIND_verify : RSAPublicKey → Vote_Ciphertext → Nat → Bool
  concat_vote_zkp_and_signature : Vote_Ciphertext → VoteZKP_Struct → Nat → ByteBlock
  LoadInteger : List Nat → Nat

/-- The keys a client holds: the election public key and the verification keys of the
registrar and of the tallyer. -/
structure ElectionKeys where
  EG_arbiter_public_key : Nat
  RSA_registrar_verification_key : RSAPublicKey
  RSA_tallyer_verification_key : Nat
deriving DecidableEq, Repr

/-- The test of the first loop of `VoterClient::DoVerify` on one row. -/
def VoterClient_rowValid (par : Params) (hash_vote_zkp : VoteHash) (sd : SignatureDriver)
    (ed : ElectionDriver) (keys : ElectionKeys) (vote : VoteRow) : Bool :=
  let voteVer := VerifyVoteZKP par hash_vote_zkp (vote.vote, vote.zkp)
    keys.EG_arbiter_public_key
  let concat_to_be_signed :=
    ed.concat_vote_zkp_and_signature vote.vote vote.zkp vote.unblinded_signature
  let tallySign := sd.RSA_verify keys.RSA_tallyer_verification_key concat_to_be_signed
    vote.tallyer_signature
  let registerSig := ed.RSA_BLIND_verify keys.RSA_registrar_verification_key vote.vote
    vote.unblinded_signature
  voteVer && tallySign && registerSig

/-- The rows `allValidRow` that the first loop of `VoterClient::DoVerify` keeps. -/
def VoterClient_validRows (par : Params) (hash_vote_zkp : VoteHash) (sd : SignatureDriver)
    (ed : ElectionDriver) (keys : ElectionKeys) (allVotes : List VoteRow) : List VoteRow :=
  allVotes.filter (VoterClient_rowValid par hash_vote_zkp sd ed keys)

/-- The second loop of `VoterClient::DoVerify`: `false` at the first partial decryption
whose proof is rejected under the public share loaded from its path. -/
def partialDecryptionsValid (par : Params) (hash_dec_zkp : DecHash) (ed : ElectionDriver) :
    List PartialDecryptionRow → Bool
  | [] => true
  | dec :: rest =>
    let pkj := ed.LoadInteger dec.arbiter_vk_path
    let ifValidDec := VerifyPartialDecryptZKP par hash_dec_zkp dec pkj
    if !ifValidDec then false else partialDecryptionsValid par hash_dec_zkp ed rest

/-- `VoterClient::DoVerify` on the rows `allVotes` of the vote store and the rows
`allParDec` of the partial-decryption store. -/
def DoVerify (par : Params) (hash_vote_zkp : VoteHash) (hash_dec_zkp : DecHash)
    (sd : SignatureDriver) (ed : ElectionDriver) (keys : ElectionKeys)
    (allVotes : List VoteRow) (allParDec : List PartialDecryptionRow) :
    Except TallyError (Int × Int × Bool) :=
  let allValidRow := VoterClient_validRows par hash_vote_zkp sd ed keys allVotes
  let combined_vote_cipher := CombineVotes par allValidRow
  if !partialDecryptionsValid par hash_dec_zkp ed allParDec then Except.ok (0, 0, false)
  else
    match CombineResults par combined_vote_cipher allParDec with
    | Except.error e => Except.error e
    | Except.ok combined_results =>
      Except.ok ((allValidRow.length : Int) - (combined_results : Int),
        (combined_results : Int), true)

/-- The fields of `ArbiterClient` that `HandleAdjudicate` reads. -/
structure ArbiterClient where
  arbiter_id : List Nat
  arbiter_public_key_path : List Nat
  EG_arbiter_secret_key : Nat
  EG_arbiter_public_key_i : Nat
  keys : ElectionKeys
deriving DecidableEq, Repr

/-- The test of the loop of `ArbiterClient::HandleAdjudicate` on one row. -/
def ArbiterClient_rowValid (par : Params) (hash_vote_zkp : VoteHash) (sd : SignatureDriver)
    (ed : ElectionDriver) (arbiter : ArbiterClient) (vote : VoteRow) : Bool :=
  let registerSig := ed.RSA_BLIND_verify arbiter.keys.RSA_registrar_verification_key
    vote.vote vote.unblinded_signature
  let concat_to_be_signed :=
    ed.concat_vote_zkp_and_signature vote.vote vote.zkp vote.unblinded_signature
  let tallySign := sd.RSA_verify arbiter.keys.RSA_tallyer_verification_key
    concat_to_be_signed vote.tallyer_signature
  let voteVer := VerifyVoteZKP par hash_vote_zkp (vote.vote, vote.zkp)
    arbiter.keys.EG_arbiter_public_key
  registerSig && tallySign && voteVer

/-- The rows `validVotes` that `ArbiterClient::HandleAdjudicate` keeps (step 3). -/
def ArbiterClient_validVotes (par : Params) (hash_vote_zkp : VoteHash)
    (sd : SignatureDriver) (ed : ElectionDriver) (arbiter : ArbiterClient)
    (allVotes : List VoteRow) : List VoteRow :=
  allVotes.filter (ArbiterClient_rowValid par hash_vote_zkp sd ed arbiter)

/-- `ArbiterClient::HandleAdjudicate` on the rows `allVotes` of the vote store: the
message published; `r` is the nonce drawn by `PartialDecrypt`. -/
def ArbiterClient_HandleAdjudicate (par : Params) (hash_vote_zkp : VoteHash)
    (hash_dec_zkp : DecHash) (sd : SignatureDriver) (ed : ElectionDriver)
    (arbiter : ArbiterClient) (r : Nat) (allVotes : List VoteRow) :
    ArbiterToWorld_PartialDecryption_Message :=
  let validVotes := ArbiterClient_validVotes par hash_vote_zkp sd ed arbiter allVotes
  let validCombo_cipher := CombineVotes par validVotes
  let out := PartialDecrypt par hash_dec_zkp r validCombo_cipher
    arbiter.EG_arbiter_public_key_i arbiter.EG_arbiter_secret_key
  { arbiter_id := arbiter.arbiter_id,
    arbiter_vk_path := arbiter.arbiter_public_key_path,
    dec := out.1,
    zkp := out.2 }

/-! ## Honest elections -/

/-- The row stored for the ballot `ballot` of an honest voter: the unblinded signature
of the registrar is `H(vote) ^ d mod N`, and the tallyer signs the concatenation of the
vote, the proof and that signature. -/
def signedRow (sd : SignatureDriver) (ed : ElectionDriver) (H : CiphertextHash)
    (registrar_signing_key : RSAPrivateKey) (tallyer_signing_key : Nat)
    (ballot : Vote_Ciphertext × VoteZKP_Struct) : VoteRow :=
  let unblinded := RSA_BLIND_sign registrar_signing_key (H ballot.1)
  { vote := ballot.1,
    zkp := ballot.2,
    unblinded_signature := unblinded,
    tallyer_signature := sd.RSA_sign tallyer_signing_key
      (ed.concat_vote_zkp_and_signature ballot.1 ballot.2 unblinded) }

/-- The vote store of honest voters; each ballot is given as its vote and the values
`GenerateVote` draws. -/
def signedRows (par : Params) (hash_vote_zkp : VoteHash) (sd : SignatureDriver)
    (ed : ElectionDriver) (H : CiphertextHash) (registrar_signing_key : RSAPrivateKey)
    (tallyer_signing_key : Nat) (pk : Nat) (ballots : List (Nat × VoteRandomness)) :
    List VoteRow :=
  ballots.map fun p =>
    signedRow sd ed H registrar_signing_key tallyer_signing_key
      (GenerateVote par hash_vote_zkp p.2 p.1 pk)

/-- The partial-decryption store after every arbiter of the list, given with the nonce
of its proof, has adjudicated the vote store `allVotes`. -/
def adjudicated (par : Params) (hash_vote_zkp : VoteHash) (hash_dec_zkp : DecHash)
    (sd : SignatureDriver) (ed : ElectionDriver) (arbiters : List (ArbiterClient × Nat))
    (allVotes : List VoteRow) : List PartialDecryptionRow :=
  arbiters.map fun p =>
    ArbiterClient_HandleAdjudicate par hash_vote_zkp hash_dec_zkp sd ed p.1 p.2 allVotes

/-- An election driver over the blind signatures of the specification; `load` maps a
path to the integer stored there. -/
def specDriver (H : CiphertextHash) (load : List Nat → Nat) : ElectionDriver :=
  { RSA_BLIND_verify := RSA_BLIND_verify H,
    concat_vote_zkp_and_signature := fun vote zkp signature =>
      [vote.a, vote.b, zkp.a0, zkp.a1, zkp.b0, zkp.b1, zkp.c0, zkp.c1, zkp.r0, zkp.r1,
        signature],
    LoadInteger := load }

/-- The keys of an election with the arbiters' secret shares `sks`. -/
def honestKeys (par : Params) (registrar_key : RSAPublicKey) (tallyer_key : Nat)
    (sks : List Nat) : ElectionKeys :=
  { EG_arbiter_public_key := electionPublicKey par sks,
    RSA_registrar_verification_key := registrar_key,
    RSA_tallyer_verification_key := tallyer_key }

/-- Two arbiters with the secret shares `3` and `4` and the nonces `2` and `5`, whose
public shares are stored under the paths `[0]` and `[1]`. -/
def twoArbiters (par : Params) (keys : ElectionKeys) : List (ArbiterClient × Nat) :=
  [({ arbiter_id := [0], arbiter_public_key_path := [0], EG_arbiter_secret_key := 3,
      EG_arbiter_public_key_i := ModularExponentiation par.G 3 par.P, keys := keys }, 2),
   ({ arbiter_id := [1], arbiter_public_key_path := [1], EG_arbiter_secret_key := 4,
      EG_arbiter_public_key_i := ModularExponentiation par.G 4 par.P, keys := keys }, 5)]

/-- The files of the public shares of `twoArbiters`. -/
def twoShares (par : Params) (path : List Nat) : Nat :=
  if path = [0] then ModularExponentiation par.G 3 par.P
  else ModularExponentiation par.G 4 par.P

/-! ## The sender's view of the receiver's choice (`ot_driver.cxx`) -/

/-- The results of step 2 of `OT_recv` for the sender's value `A` and the choice bit,
one for each exponent `b` of the list. -/
def receiverValues (par : Params) (A : Nat) (choice_bit : Nat) (exponents : List Nat) :
    List (Except RuntimeError OTPublicValue_Message) :=
  exponents.map fun b => OT_recv_public par b choice_bit ({ public_value := A }, true)

/-! ## Circuits of AND and NOT gates -/

/-- The wires that hold a value after the gates of the list, given the wires `defined`
that hold one before: `none` when a gate is no AND or NOT gate, reads a wire without a
value, or writes a wire outside the circuit. -/
def wiresDefined (circuit : Circuit) : List Gate → List Nat → Option (List Nat)
  | [], defined => some defined
  | gate :: rest, defined =>
    if (gate.type = 1 ∧ gate.lhs ∈ defined ∧ gate.rhs ∈ defined ∨
        gate.type = 3 ∧ gate.lhs ∈ defined) ∧ gate.output < circuit.num_wire then
      wiresDefined circuit rest (gate.output :: defined)
    else none

/-- A well-formed circuit of AND and NOT gates: the input wires come first, the output
wires are no input wires, every gate reads wires that hold a value, and every wire
holds a value in the end. -/
def Circuit.wellFormed (circuit : Circuit) : Bool :=
  decide (circuit.garbler_input_length + circuit.evaluator_input_length +
    circuit.output_length ≤ circuit.num_wire) &&
  match wiresDefined circuit circuit.gates
      (List.range (circuit.garbler_input_length + circuit.evaluator_input_length)) with
  | some defined => (List.range circuit.num_wire).all fun w => decide (w ∈ defined)
  | none => false

/-- The plain values of the wires after the gates of the circuit on the inputs `x`
and `y`. -/
def plainWires (circuit : Circuit) (x y : List Nat) : List Nat :=
  plainGates circuit.gates
    ((x ++ y) ++ List.replicate (circuit.num_wire - (x ++ y).length) 0)

/-- The steps 1 to 4 of the two `run` calls of an honest session: the labels the
evaluator holds for all wires after its gate loop. -/
def honestWires (par : Params) (lp : LabelParams) (cd : CryptoDriver) (circuit : Circuit)
    (rnd : SessionRandomness) (garbler_input evaluator_input : List Nat) :
    Except RuntimeError (List GarbledWire) :=
  let glabels := generate_labels lp circuit rnd.deltaDraw rnd.draws
  match GarblerClient_send lp cd circuit glabels rnd.shuffle garbler_input with
  | Except.error e => Except.error e
  | Except.ok sent =>
    match honestOTs par cd rnd sent.ot_messages evaluator_input 0 with
    | Except.error e => Except.error e
    | Except.ok ot_received =>
      evaluate_tables lp cd circuit sent.garbled_tables 0
        (resizeWires
          (sent.garbler_inputs ++ ot_received.map fun inputlabel => { value := inputlabel })
          circuit.num_wire)

/-- No wrong-key trial decryption of an entry of the gate's table has an all-zero tag:
an entry encrypted under the labels of other input bits does not verify. -/
def NoWrongKey (lp : LabelParams) (cd : CryptoDriver) (labels : GarbledLabels)
    (gate : Gate) : Prop :=
  (gate.type = 1 → ∀ a b alpha beta : Bool, (a, b) ≠ (alpha, beta) →
    entryVerifies lp cd (labelOf labels alpha gate.lhs) (labelOf labels beta gate.rhs)
      (encrypt_label lp cd (labelOf labels a gate.lhs) (labelOf labels b gate.rhs)
        (labelOf labels (a && b) gate.output)) = false) ∧
  (gate.type = 3 → ∀ a alpha : Bool, a ≠ alpha →
    entryVerifies lp cd (labelOf labels alpha gate.lhs) { value := lp.DUMMY_RHS }
      (encrypt_label lp cd (labelOf labels a gate.lhs) { value := lp.DUMMY_RHS }
        (labelOf labels (!a) gate.output)) = false)

instance (lp : LabelParams) (cd : CryptoDriver) (labels : GarbledLabels) (gate : Gate) :
    Decidable (NoWrongKey lp cd labels gate) := by
  unfold NoWrongKey
  infer_instance

/-- The assumptions on the labels and the hash under which gates decrypt: the tag lies
inside the decryption buffer, the labels of the gates' output wires have `LABEL_LENGTH`
bytes, and no wrong-key trial decryption verifies. -/
def GarblingSound (lp : LabelParams) (cd : CryptoDriver) (labels : GarbledLabels)
    (circuit : Circuit) : Prop :=
  lp.LABEL_LENGTH ≤ lp.LABEL_TAG_LENGTH ∧
    ∀ gate ∈ circuit.gates,
      (labels.zeros.getD gate.output default).value.length = lp.LABEL_LENGTH ∧
        (labels.ones.getD gate.output default).value.length = lp.LABEL_LENGTH ∧
        NoWrongKey lp cd labels gate

instance (lp : LabelParams) (cd : CryptoDriver) (labels : GarbledLabels)
    (circuit : Circuit) : Decidable (GarblingSound lp cd labels circuit) := by
  unfold GarblingSound
  infer_instance

/-- The labels of the wires that are no input wires are pairwise distinct. -/
def LabelsDistinct (labels : GarbledLabels) (circuit : Circuit) : Prop :=
  ∀ j ∈ List.range' (circuit.garbler_input_length + circuit.evaluator_input_length)
      (circuit.num_wire - (circuit.garbler_input_length + circuit.evaluator_input_length)),
    ∀ j2 ∈ List.range' (circuit.garbler_input_length + circuit.evaluator_input_length)
        (circuit.num_wire -
          (circuit.garbler_input_length + circuit.evaluator_input_length)),
      ∀ b b2 : Bool, (labelOf labels b j).value = (labelOf labels b2 j2).value →
        j = j2 ∧ b = b2

instance (labels : GarbledLabels) (circuit : Circuit) :
    Decidable (LabelsDistinct labels circuit) := by
  unfold LabelsDistinct
  infer_instance

/-- The evaluator's wires `gwires` carry, on the wires of `defined`, the garbler's
labels of the plain values `wires`, which are bits. -/
def WiresAgree (labels : GarbledLabels) (num_wire : Nat) (defined : List Nat)
    (wires : List Nat) (gwires : List GarbledWire) : Prop :=
  wires.length = num_wire ∧ gwires.length = num_wire ∧
    ∀ w ∈ defined, w < num_wire ∧ (wires.getD w 0 = 0 ∨ wires.getD w 0 = 1) ∧
      gwires.getD w default = labelOf labels (decide (wires.getD w 0 = 1)) w

/-! ## Small instances for the election and the circuits -/

/-- Textbook RSA keys with modulus `33`: public exponent `7`, private exponent `3`. -/
def smallPublicKey : RSAPublicKey := { N := 33, e := 7 }

def smallPrivateKey : RSAPrivateKey := { N := 33, d := 3 }

/-- A hash of ciphertexts with values below `33`. -/
def smallCiphertextHash : CiphertextHash := fun vote => (vote.a * 5 + vote.b * 3 + 1) % 33

/-- The driver of the small elections. -/
def smallDriver (par : Params) : ElectionDriver :=
  specDriver smallCiphertextHash (twoShares par)

/-- The keys of the small elections: the shares of `twoArbiters`, the registrar's key
`smallPublicKey` and the tallyer's key `7`. -/
def smallKeys (par : Params) : ElectionKeys := honestKeys par smallPublicKey 7 [3, 4]

/-- The vote store of honest voters with the given ballots in a small election. -/
def smallStore (par : Params) (ballots : List (Nat × VoteRandomness)) : List VoteRow :=
  signedRows par smallVoteHash smallSignatures (smallDriver par) smallCiphertextHash
    smallPrivateKey 7 (smallKeys par).EG_arbiter_public_key ballots

/-- The partial-decryption store of a small election over the vote store `allVotes`. -/
def smallAdjudicated (par : Params) (allVotes : List VoteRow) : List PartialDecryptionRow :=
  adjudicated par smallVoteHash (constDecHash 3) smallSignatures (smallDriver par)
    (twoArbiters par (smallKeys par)) allVotes

/-- A circuit of one NOT gate on the garbler's wire `0`, with output wire `1`. -/
def notCircuit : Circuit :=
  { num_gate := 1, num_wire := 2, garbler_input_length := 1, evaluator_input_length := 0,
    output_length := 1, gates := [{ type := 3, lhs := 0, rhs := 0, output := 1 }] }

/-! ## Registration as a step on the voter's fields and files (`voter.cxx`) -/

/-- The files that `VoterClient::HandleRegister` saves to, under the paths
`voter_vote_path`, `voter_vote_zkp_path`, `voter_registrar_signature_path` and
`voter_blind_path`; `none` is a file that holds nothing. -/
structure VoterDisk where
  voter_vote : Option Vote_Ciphertext
  voter_vote_zkp : Option VoteZKP_Struct
  voter_registrar_signature : Option Nat
  voter_blind : Option Nat
deriving DecidableEq, Repr

/-- `VoterClient::HandleRegister`, step 4 to the end, on the fields `st` and the files
`disk` the client holds before the call: the error thrown, if any, and the fields and
files after the call. The assignments to the fields and the calls of `SaveVote`,
`SaveVoteZKP` and `SaveInteger` follow the check of the flag `isFromReg`. -/
def VoterClient_HandleRegister_step (par : Params) (hash_vote_zkp : VoteHash)
    (H : CiphertextHash) (RSA_registrar_verification_key : RSAPublicKey)
    (EG_arbiter_public_key : Nat) (rnd : VoteRandomness) (r : Nat) (raw_vote : Nat)
    (st : VoterState) (disk : VoterDisk)
    (reply : RegistrarToVoter_Blind_Signature_Message × Bool) :
    Except ElectionError Unit × VoterState × VoterDisk :=
  let generated := GenerateVote par hash_vote_zkp rnd raw_vote EG_arbiter_public_key
  let vote_cipher := generated.1
  let vote_zkp := generated.2
  let blinded := RSA_BLIND_blind H RSA_registrar_verification_key vote_cipher r
  let blind_factor := blinded.2
  let r2v_blind_sig_msg := reply.1
  let isFromReg := reply.2
  if !isFromReg then (Except.error ElectionError.notFromRegistrar, st, disk)
  else
    let st1 := { st with vote := vote_cipher }
    let st2 := { st1 with vote_zkp := vote_zkp }
    let st3 := { st2 with registrar_signature := r2v_blind_sig_msg.registrar_signature }
    let st4 := { st3 with blind := blind_factor }
    let disk1 := { disk with voter_vote := some vote_cipher }
    let disk2 := { disk1 with voter_vote_zkp := some vote_zkp }
    let disk3 := { disk2 with
      voter_registrar_signature := some r2v_blind_sig_msg.registrar_signature }
    let disk4 := { disk3 with voter_blind := some blind_factor }
    (Except.ok (), st4, disk4)

/-- The test `blind_verify(pk_R, vote, unblind(pk_R, registrar_signature, blind))` on
the fields of the voter: whether the ballot that `HandleVote` sends carries a signature
that `RSA_BLIND_verify` accepts. -/
def credentialValid (H : CiphertextHash) (RSA_registrar_verification_key : RSAPublicKey)
    (st : VoterState) : Bool :=
  RSA_BLIND_verify H RSA_registrar_verification_key
    (VoterClient_HandleVote RSA_registrar_verification_key st).vote
    (VoterClient_HandleVote RSA_registrar_verification_key st).unblinded_signature

/-- One registration in which both messages arrive with a valid MAC: the request of
`VoterClient::HandleRegister` is handled by `RegistrarClient::HandleRegister` on the
store `db`, and the reply is handled by the voter. The fields the voter saves and the
registrar's store afterwards. -/
def honestRegistration {DB : Type} (par : Params) (hash_vote_zkp : VoteHash)
    (H : CiphertextHash) (RSA_registrar_verification_key : RSAPublicKey)
    (RSA_registrar_signing_key : RSAPrivateKey) (dbd : DBDriver DB) (db : DB)
    (voter_id : String) (EG_arbiter_public_key : Nat) (rnd : VoteRandomness) (r : Nat)
    (raw_vote : Nat) : Except ElectionError (VoterState × DB) :=
  match RegistrarClient_HandleRegister (RSA_BLIND_sign RSA_registrar_signing_key) dbd db
      (VoterClient_HandleRegister_send par hash_vote_zkp H RSA_registrar_verification_key
        voter_id EG_arbiter_public_key rnd r raw_vote, true) with
  | Except.error e => Except.error e
  | Except.ok reply =>
    match VoterClient_HandleRegister par hash_vote_zkp H RSA_registrar_verification_key
        EG_arbiter_public_key rnd r raw_vote (reply.1, true) with
    | Except.error e => Except.error e
    | Except.ok st => Except.ok (st, reply.2)

/-! ## Votes of either sign and overlapping registrations -/

/-- Two calls of `RegistrarClient::HandleRegister` in two of the detached threads that
`ListenForConnections` starts, in the schedule in which both threads run `find_voter`
before either runs `insert_voter`; no lock is held between the lookup and the
insertion. The two messages sent back and the store afterwards. -/
def RegistrarClient_HandleRegister_overlapping {DB : Type} (RSA_BLIND_sign : Nat → Nat)
    (dbd : DBDriver DB) (db : DB)
    (incoming1 incoming2 : VoterToRegistrar_Register_Message × Bool) :
    Except ElectionError
      (RegistrarToVoter_Blind_Signature_Message ×
        RegistrarToVoter_Blind_Signature_Message × DB) :=
  match RegistrarClient_HandleRegister RSA_BLIND_sign dbd db incoming1 with
  | Except.error e => Except.error e
  | Except.ok reply1 =>
    match RegistrarClient_HandleRegister RSA_BLIND_sign dbd db incoming2 with
    | Except.error e => Except.error e
    | Except.ok reply2 =>
      Except.ok (reply1.1, reply2.1, dbd.insert_voter (dbd.insert_voter db reply1.1) reply2.1)

/-! ## Arithmetic modulo `P`, read in `ZMod P` -/

section ModArith

variable {P : Nat}

theorem cast_modExp (x e : Nat) :
    ((ModularExponentiation x e P : Nat) : ZMod P) = (x : ZMod P) ^ e := by
  simp [ModularExponentiation]

theorem cast_mulMod (a b : Nat) :
    ((a_times_b_mod_c a b P : Nat) : ZMod P) = (a : ZMod P) * (b : ZMod P) := by
  simp [a_times_b_mod_c]

theorem modExp_lt (x e : Nat) (hP : 0 < P) : ModularExponentiation x e P < P :=
  Nat.mod_lt _ hP

theorem mulMod_lt (a b : Nat) (hP : 0 < P) : a_times_b_mod_c a b P < P :=
  Nat.mod_lt _ hP

theorem eq_iff_cast_eq {x y : Nat} (hx : x < P) (hy : y < P) :
    x = y ↔ (x : ZMod P) = (y : ZMod P) := by
  rw [ZMod.natCast_eq_natCast_iff', Nat.mod_eq_of_lt hx, Nat.mod_eq_of_lt hy]

theorem inverse_spec (a m : Nat) :
    (EuclideanMultiplicativeInverse a m < m ∧
        a * EuclideanMultiplicativeInverse a m % m = 1) ∨
      (EuclideanMultiplicativeInverse a m = 0 ∧ ∀ x, x < m → a * x % m ≠ 1) := by
  unfold EuclideanMultiplicativeInverse
  cases h : (List.range m).find? (fun x => decide (a * x % m = 1)) with
  | none =>
    right
    refine ⟨rfl, ?_⟩
    intro x hx
    have := List.find?_eq_none.mp h x (List.mem_range.mpr hx)
    simpa using this
  | some i =>
    left
    have h1 := List.find?_some h
    have h2 := List.mem_of_find?_eq_some h
    exact ⟨List.mem_range.mp h2, by simpa using h1⟩

theorem inverse_lt (a : Nat) {m : Nat} (hm : 0 < m) :
    EuclideanMultiplicativeInverse a m < m := by
  rcases inverse_spec a m with h | h
  · exact h.1
  · rw [h.1]; exact hm

theorem cast_inverse (hP : Nat.Prime P) (a : Nat) :
    ((EuclideanMultiplicativeInverse a P : Nat) : ZMod P) = ((a : ZMod P))⁻¹ := by
  haveI : Fact P.Prime := ⟨hP⟩
  rcases inverse_spec a P with h | h
  · have h1 : ((a * EuclideanMultiplicativeInverse a P : Nat) : ZMod P) = 1 := by
      rw [← ZMod.natCast_mod, h.2]; simp
    rw [Nat.cast_mul] at h1
    exact eq_inv_of_mul_eq_one_right h1
  · by_cases ha : (a : ZMod P) = 0
    · rw [h.1, ha]; simp
    · exfalso
      have hx := h.2 ((a : ZMod P)⁻¹).val (ZMod.val_lt _)
      apply hx
      have : ((a * ((a : ZMod P)⁻¹).val : Nat) : ZMod P) = ((1 : Nat) : ZMod P) := by
        rw [Nat.cast_mul, ZMod.natCast_val, ZMod.cast_id', id, mul_inv_cancel₀ ha]; simp
      rw [ZMod.natCast_eq_natCast_iff'] at this
      rw [this, Nat.mod_eq_of_lt hP.one_lt]

theorem pow_mod_of_pow_eq_one {M : Type*} [Monoid M] {x : M} {q : Nat} (h : x ^ q = 1)
    (n : Nat) : x ^ (n % q) = x ^ n := by
  conv_rhs => rw [← Nat.div_add_mod n q]
  rw [pow_add, pow_mul, h, one_pow, one_mul]

theorem subMod_add_mod (x y : Nat) {q : Nat} (hq : 0 < q) :
    (subMod x y q + y) % q = x % q := by
  have h0 : 0 ≤ ((x : Int) - y) % q := Int.emod_nonneg _ (by omega)
  zify
  rw [subMod, Int.toNat_of_nonneg h0, Int.emod_add_emod, sub_add_cancel]

end ModArith

section Group

variable {par : Params}

theorem Params.InGroup.cast_pow {x : Nat} (hx : par.InGroup x) :
    (x : ZMod par.P) ^ par.Q = 1 := by
  have h : ((x ^ par.Q % par.P : Nat) : ZMod par.P) = ((1 : Nat) : ZMod par.P) := by
    rw [show x ^ par.Q % par.P = 1 from hx]
  simpa using h

theorem Params.Valid.one_lt_P (hv : par.Valid) : 1 < par.P := hv.P_prime.one_lt

theorem Params.Valid.Q_pos (hv : par.Valid) : 0 < par.Q := hv.Q_prime.pos

theorem Params.Valid.G_inGroup (hv : par.Valid) : par.InGroup par.G := hv.G_pow_Q

theorem Params.Valid.cast_G_pow (hv : par.Valid) : (par.G : ZMod par.P) ^ par.Q = 1 :=
  hv.G_inGroup.cast_pow

theorem cast_ne_zero_of_pow_eq_one {x : Nat} (hv : par.Valid)
    (hx : (x : ZMod par.P) ^ par.Q = 1) : (x : ZMod par.P) ≠ 0 := by
  haveI : Fact par.P.Prime := ⟨hv.P_prime⟩
  intro h0
  rw [h0, zero_pow hv.Q_pos.ne'] at hx
  exact zero_ne_one hx

theorem pow_response {M : Type*} [Monoid M] {x : M} {q : Nat} (hx : x ^ q = 1)
    (k c r : Nat) : x ^ ((k + a_times_b_mod_c c r q) % q) = x ^ k * (x ^ r) ^ c := by
  rw [pow_mod_of_pow_eq_one hx, pow_add, a_times_b_mod_c, pow_mod_of_pow_eq_one hx,
    ← pow_mul, Nat.mul_comm]

end Group

/-! ## Completeness of the vote proof -/

theorem GenerateVote_accepted (par : Params) (hv : par.Valid) (H : VoteHash)
    (hH : ∀ x1 x2 x3 x4 x5 x6 x7, H x1 x2 x3 x4 x5 x6 x7 < par.Q)
    (rnd : VoteRandomness) (vote pk : Nat) (hvote : vote = 0 ∨ vote = 1)
    (hpk : par.InGroup pk) :
    VerifyVoteZKP par H (GenerateVote par H rnd vote pk) pk = true := by
  haveI : Fact par.P.Prime := ⟨hv.P_prime⟩
  have hP := hv.P_prime
  have hP0 : 0 < par.P := hP.pos
  have hg := hv.cast_G_pow
  have hh := hpk.cast_pow
  have hg0 := cast_ne_zero_of_pow_eq_one hv hg
  have hh0 := cast_ne_zero_of_pow_eq_one hv hh
  rcases hvote with rfl | rfl
  · simp only [GenerateVote, VerifyVoteZKP, if_true, Bool.and_eq_true, decide_eq_true_eq]
    refine ⟨⟨⟨⟨?_, ?_⟩, ?_⟩, ?_⟩, ?_⟩
    · rw [subMod_add_mod _ _ hv.Q_pos, Nat.mod_eq_of_lt (hH _ _ _ _ _ _ _)]
    · rw [eq_iff_cast_eq (modExp_lt _ _ hP0) (mulMod_lt _ _ hP0)]
      simp only [cast_modExp, cast_mulMod, cast_inverse hP]
      rw [pow_response hg]
    · rw [eq_iff_cast_eq (modExp_lt _ _ hP0) (mulMod_lt _ _ hP0)]
      simp only [cast_modExp, cast_mulMod, cast_inverse hP]
      rw [pow_response hh, pow_zero, mul_one]
    · rw [eq_iff_cast_eq (modExp_lt _ _ hP0) (mulMod_lt _ _ hP0)]
      simp only [cast_modExp, cast_mulMod, cast_inverse hP]
      rw [mul_assoc, inv_mul_cancel₀ (pow_ne_zero _ (pow_ne_zero _ hg0)), mul_one]
    · rw [eq_iff_cast_eq (modExp_lt _ _ hP0) (mulMod_lt _ _ hP0)]
      simp only [cast_modExp, cast_mulMod, cast_inverse hP]
      rw [mul_assoc, inv_mul_cancel₀, mul_one]
      exact pow_ne_zero _ (mul_ne_zero (mul_ne_zero (pow_ne_zero _ hh0)
        (pow_ne_zero _ hg0)) (inv_ne_zero hg0))
  · simp only [GenerateVote, VerifyVoteZKP, one_ne_zero, if_false, Bool.and_eq_true,
      decide_eq_true_eq]
    refine ⟨⟨⟨⟨?_, ?_⟩, ?_⟩, ?_⟩, ?_⟩
    · rw [Nat.add_comm, subMod_add_mod _ _ hv.Q_pos, Nat.mod_eq_of_lt (hH _ _ _ _ _ _ _)]
    · rw [eq_iff_cast_eq (modExp_lt _ _ hP0) (mulMod_lt _ _ hP0)]
      simp only [cast_modExp, cast_mulMod, cast_inverse hP]
      rw [mul_assoc, inv_mul_cancel₀ (pow_ne_zero _ (pow_ne_zero _ hg0)), mul_one]
    · rw [eq_iff_cast_eq (modExp_lt _ _ hP0) (mulMod_lt _ _ hP0)]
      simp only [cast_modExp, cast_mulMod, cast_inverse hP]
      rw [mul_assoc, inv_mul_cancel₀, mul_one]
      exact pow_ne_zero _ (mul_ne_zero (pow_ne_zero _ hh0) (pow_ne_zero _ hg0))
    · rw [eq_iff_cast_eq (modExp_lt _ _ hP0) (mulMod_lt _ _ hP0)]
      simp only [cast_modExp, cast_mulMod, cast_inverse hP]
      rw [pow_response hg]
    · rw [eq_iff_cast_eq (modExp_lt _ _ hP0) (mulMod_lt _ _ hP0)]
      simp only [cast_modExp, cast_mulMod, cast_inverse hP]
      rw [pow_response hh, pow_one, mul_assoc, mul_inv_cancel₀ hg0, mul_one]

/-! ## Rejection of a tampered vote proof -/

theorem xor_two_pow_succ (x k : Nat) :
    x ^^^ 2 ^ (k + 1) = 2 * (x / 2 ^^^ 2 ^ k) + x % 2 := by
  apply Nat.eq_of_testBit_eq
  intro i
  cases i with
  | zero =>
    rw [Nat.testBit_xor, Nat.testBit_two_pow, Nat.testBit_zero, Nat.testBit_zero]
    have : (2 * (x / 2 ^^^ 2 ^ k) + x % 2) % 2 = x % 2 := by omega
    rw [this]
    simp
  | succ i =>
    rw [Nat.testBit_xor, Nat.testBit_two_pow, Nat.testBit_succ, Nat.testBit_succ]
    have : (2 * (x / 2 ^^^ 2 ^ k) + x % 2) / 2 = x / 2 ^^^ 2 ^ k := by omega
    rw [this, Nat.testBit_xor, Nat.testBit_two_pow]
    simp

theorem xor_one_cases (x : Nat) : x ^^^ 1 = x + 1 ∨ x = (x ^^^ 1) + 1 := by
  have h : x ^^^ 1 = 2 * (x / 2) + (1 - x % 2) := by
    apply Nat.eq_of_testBit_eq
    intro i
    cases i with
    | zero =>
      rw [Nat.testBit_xor, Nat.testBit_zero, Nat.testBit_zero, Nat.testBit_zero]
      have : (2 * (x / 2) + (1 - x % 2)) % 2 = 1 - x % 2 := by omega
      rw [this]
      rcases Nat.mod_two_eq_zero_or_one x with h | h <;> simp [h]
    | succ i =>
      rw [Nat.testBit_xor, Nat.testBit_succ, Nat.testBit_succ, Nat.testBit_succ]
      have : (2 * (x / 2) + (1 - x % 2)) / 2 = x / 2 := by omega
      rw [this]
      simp
  omega

/-- Flipping bit `k` adds or subtracts `2 ^ k`. -/
theorem flipBit_cases (x k : Nat) :
    flipBit x k = x + 2 ^ k ∨ x = flipBit x k + 2 ^ k := by
  unfold flipBit
  induction k generalizing x with
  | zero => simpa using xor_one_cases x
  | succ k ih =>
    rw [xor_two_pow_succ]
    have := ih (x / 2)
    have h2 : 2 ^ (k + 1) = 2 * 2 ^ k := by rw [pow_succ]; ring
    omega

theorem two_pow_cast_ne_zero {n : Nat} (hn : Nat.Prime n) (hn2 : n ≠ 2) (k : Nat) :
    ((2 : ZMod n)) ^ k ≠ 0 := by
  haveI : Fact n.Prime := ⟨hn⟩
  apply pow_ne_zero
  intro h
  have h2 : ((2 : Nat) : ZMod n) = 0 := by simpa using h
  rw [ZMod.natCast_zmod_eq_zero_iff_dvd] at h2
  exact hn2 ((Nat.prime_dvd_prime_iff_eq hn Nat.prime_two).mp h2)

theorem cast_flipBit_ne {n : Nat} (hn : Nat.Prime n) (hn2 : n ≠ 2) (x k : Nat) :
    ((flipBit x k : Nat) : ZMod n) ≠ (x : ZMod n) := by
  have h2 := two_pow_cast_ne_zero hn hn2 k
  intro h
  rcases flipBit_cases x k with hc | hc
  · rw [hc] at h
    push_cast at h
    exact h2 (by simpa using h)
  · have h' : ((x : Nat) : ZMod n) = ((flipBit x k + 2 ^ k : Nat) : ZMod n) := by
      rw [← hc]
    push_cast at h'
    rw [h] at h'
    exact h2 (by simpa using h'.symm)

theorem flipBit_add_mod_ne {q : Nat} (hq : Nat.Prime q) (hq2 : q ≠ 2) (x y k : Nat) :
    (flipBit x k + y) % q ≠ (x + y) % q := by
  intro h
  rw [← ZMod.natCast_eq_natCast_iff'] at h
  push_cast at h
  exact cast_flipBit_ne hq hq2 x k (add_right_cancel h)

theorem add_flipBit_mod_ne {q : Nat} (hq : Nat.Prime q) (hq2 : q ≠ 2) (x y k : Nat) :
    (y + flipBit x k) % q ≠ (y + x) % q := by
  rw [Nat.add_comm y, Nat.add_comm y]
  exact flipBit_add_mod_ne hq hq2 x y k

theorem Params.Valid.P_ne_two {par : Params} (hv : par.Valid) : par.P ≠ 2 := by
  intro h
  have h1 := hv.G_pow_Q
  have h2 := hv.G_ne_one
  rw [h] at h1 h2
  rw [Nat.pow_mod] at h1
  rcases Nat.mod_two_eq_zero_or_one par.G with h0 | h0
  · rw [h0, zero_pow hv.Q_pos.ne'] at h1
    exact absurd h1 (by decide)
  · exact h2 h0

theorem Params.Valid.cast_G_ne_one {par : Params} (hv : par.Valid) :
    (par.G : ZMod par.P) ≠ 1 := by
  intro h
  have h1 : ((par.G : Nat) : ZMod par.P) = ((1 : Nat) : ZMod par.P) := by simpa using h
  rw [ZMod.natCast_eq_natCast_iff', Nat.mod_eq_of_lt hv.one_lt_P] at h1
  exact hv.G_ne_one h1

/-- An element of prime order `q` is not killed by a power of two, when `q` is odd. -/
theorem pow_two_pow_ne_one {M : Type*} [Monoid M] {g : M} {q : Nat} (hq : Nat.Prime q)
    (hq2 : q ≠ 2) (hg : g ^ q = 1) (hg1 : g ≠ 1) (k : Nat) : g ^ 2 ^ k ≠ 1 := by
  intro h
  have h1 : orderOf g ∣ q := orderOf_dvd_of_pow_eq_one hg
  have h2 : orderOf g ∣ 2 ^ k := orderOf_dvd_of_pow_eq_one h
  rcases (Nat.dvd_prime hq).mp h1 with h3 | h3
  · exact hg1 (orderOf_eq_one_iff.mp h3)
  · rw [h3] at h2
    have := hq.dvd_of_dvd_pow h2
    exact hq2 ((Nat.prime_dvd_prime_iff_eq hq Nat.prime_two).mp this)

theorem pow_flipBit_ne {par : Params} (hv : par.Valid) (hQ2 : par.Q ≠ 2) (x k : Nat) :
    (par.G : ZMod par.P) ^ flipBit x k ≠ (par.G : ZMod par.P) ^ x := by
  haveI : Fact par.P.Prime := ⟨hv.P_prime⟩
  have hg := hv.cast_G_pow
  have hg0 := cast_ne_zero_of_pow_eq_one hv hg
  have hk := pow_two_pow_ne_one hv.Q_prime hQ2 hg hv.cast_G_ne_one k
  intro h
  rcases flipBit_cases x k with hc | hc
  · rw [hc, pow_add] at h
    exact hk (mul_left_cancel₀ (pow_ne_zero x hg0) (by rw [h, mul_one]))
  · have e : (par.G : ZMod par.P) ^ x =
        (par.G : ZMod par.P) ^ flipBit x k * (par.G : ZMod par.P) ^ 2 ^ k := by
      rw [← pow_add, ← hc]
    rw [e] at h
    exact hk (mul_left_cancel₀ (pow_ne_zero (flipBit x k) hg0) (by rw [← h, mul_one]))

theorem modExp_eq_mulMod_iff {P : Nat} (hP : 0 < P) (x e u v : Nat) :
    ModularExponentiation x e P = a_times_b_mod_c u v P ↔
      (x : ZMod P) ^ e = (u : ZMod P) * (v : ZMod P) := by
  rw [eq_iff_cast_eq (modExp_lt _ _ hP) (mulMod_lt _ _ hP), cast_modExp, cast_mulMod]

/-- The five checks of `VerifyVoteZKP`, read in `ZMod P`. -/
theorem VerifyVoteZKP_iff (par : Params) (hP : Nat.Prime par.P) (H : VoteHash)
    (c : Vote_Ciphertext) (z : VoteZKP_Struct) (pk : Nat) :
    VerifyVoteZKP par H (c, z) pk = true ↔
      ((z.c0 + z.c1) % par.Q = H pk c.a c.b z.a0 z.b0 z.a1 z.b1 ∧
        (par.G : ZMod par.P) ^ z.r0 = (z.a0 : ZMod par.P) * (c.a : ZMod par.P) ^ z.c0 ∧
        (pk : ZMod par.P) ^ z.r0 = (z.b0 : ZMod par.P) * (c.b : ZMod par.P) ^ z.c0 ∧
        (par.G : ZMod par.P) ^ z.r1 = (z.a1 : ZMod par.P) * (c.a : ZMod par.P) ^ z.c1 ∧
        (pk : ZMod par.P) ^ z.r1 =
          (z.b1 : ZMod par.P) * ((c.b : ZMod par.P) * ((par.G : ZMod par.P))⁻¹) ^ z.c1) := by
  simp only [VerifyVoteZKP, Bool.and_eq_true, decide_eq_true_eq,
    modExp_eq_mulMod_iff hP.pos, cast_modExp, cast_mulMod, cast_inverse hP, and_assoc]

/-- A proof accepted for a ciphertext of units is rejected after any single bit flip. -/
theorem tamper_rejected_of_accepted (par : Params) (hv : par.Valid) (hQ2 : par.Q ≠ 2)
    (H : VoteHash) (c : Vote_Ciphertext) (z : VoteZKP_Struct) (pk : Nat)
    (ha : (c.a : ZMod par.P) ≠ 0) (hb : (c.b : ZMod par.P) ≠ 0)
    (hacc : VerifyVoteZKP par H (c, z) pk = true) (f : ZKPField) (k : Nat) :
    VerifyVoteZKP par H (c, tamper z f k) pk = false := by
  haveI : Fact par.P.Prime := ⟨hv.P_prime⟩
  have hP := hv.P_prime
  have hg0 := cast_ne_zero_of_pow_eq_one hv hv.cast_G_pow
  rw [VerifyVoteZKP_iff par hP] at hacc
  obtain ⟨h1, h2, h3, h4, h5⟩ := hacc
  rw [← Bool.not_eq_true, VerifyVoteZKP_iff par hP]
  rintro ⟨t1, t2, t3, t4, t5⟩
  cases f with
  | a0 =>
    simp only [tamper] at t2
    rw [h2] at t2
    exact cast_flipBit_ne hP hv.P_ne_two _ _ (mul_right_cancel₀ (pow_ne_zero _ ha) t2).symm
  | b0 =>
    simp only [tamper] at t3
    rw [h3] at t3
    exact cast_flipBit_ne hP hv.P_ne_two _ _ (mul_right_cancel₀ (pow_ne_zero _ hb) t3).symm
  | a1 =>
    simp only [tamper] at t4
    rw [h4] at t4
    exact cast_flipBit_ne hP hv.P_ne_two _ _ (mul_right_cancel₀ (pow_ne_zero _ ha) t4).symm
  | b1 =>
    simp only [tamper] at t5
    rw [h5] at t5
    exact cast_flipBit_ne hP hv.P_ne_two _ _
      (mul_right_cancel₀ (pow_ne_zero _ (mul_ne_zero hb (inv_ne_zero hg0))) t5).symm
  | c0 =>
    simp only [tamper] at t1
    rw [← h1] at t1
    exact flipBit_add_mod_ne hv.Q_prime hQ2 _ _ _ t1
  | c1 =>
    simp only [tamper] at t1
    rw [← h1] at t1
    exact add_flipBit_mod_ne hv.Q_prime hQ2 _ _ _ t1
  | r0 =>
    simp only [tamper] at t2
    rw [← h2] at t2
    exact pow_flipBit_ne hv hQ2 _ _ t2
  | r1 =>
    simp only [tamper] at t4
    rw [← h4] at t4
    exact pow_flipBit_ne hv hQ2 _ _ t4

theorem GenerateVote_fst (par : Params) (H : VoteHash) (rnd : VoteRandomness)
    (vote pk : Nat) :
    (GenerateVote par H rnd vote pk).1 =
      { a := ModularExponentiation par.G rnd.r par.P,
        b := a_times_b_mod_c (ModularExponentiation pk rnd.r par.P)
          (ModularExponentiation par.G vote par.P) par.P } := by
  unfold GenerateVote
  split <;> rfl

theorem GenerateVote_tamper_rejected (par : Params) (hv : par.Valid) (hQ2 : par.Q ≠ 2)
    (H : VoteHash) (hH : ∀ x1 x2 x3 x4 x5 x6 x7, H x1 x2 x3 x4 x5 x6 x7 < par.Q)
    (rnd : VoteRandomness) (vote pk : Nat) (hvote : vote = 0 ∨ vote = 1)
    (hpk : par.InGroup pk) (f : ZKPField) (k : Nat) :
    VerifyVoteZKP par H
      ((GenerateVote par H rnd vote pk).1, tamper (GenerateVote par H rnd vote pk).2 f k)
      pk = false := by
  haveI : Fact par.P.Prime := ⟨hv.P_prime⟩
  have hg0 := cast_ne_zero_of_pow_eq_one hv hv.cast_G_pow
  have hh0 := cast_ne_zero_of_pow_eq_one hv hpk.cast_pow
  apply tamper_rejected_of_accepted par hv hQ2
  · rw [GenerateVote_fst]
    simp only [cast_modExp]
    exact pow_ne_zero _ hg0
  · rw [GenerateVote_fst]
    simp only [cast_modExp, cast_mulMod]
    exact mul_ne_zero (pow_ne_zero _ hh0) (pow_ne_zero _ hg0)
  · exact GenerateVote_accepted par hv H hH rnd vote pk hvote hpk

/-! ## Partial decryption proofs -/

theorem mulMod_eq_modExp_iff {P : Nat} (hP : 0 < P) (x e u v : Nat) :
    a_times_b_mod_c u v P = ModularExponentiation x e P ↔
      (u : ZMod P) * (v : ZMod P) = (x : ZMod P) ^ e := by
  rw [eq_iff_cast_eq (mulMod_lt _ _ hP) (modExp_lt _ _ hP), cast_modExp, cast_mulMod]

/-- The two checks of `VerifyPartialDecryptZKP`, read in `ZMod P`. -/
theorem VerifyPartialDecryptZKP_iff (par : Params) (hP : 0 < par.P) (H : DecHash)
    (m : ArbiterToWorld_PartialDecryption_Message) (pki : Nat) :
    VerifyPartialDecryptZKP par H m pki = true ↔
      ((m.zkp.u : ZMod par.P) * (m.dec.d : ZMod par.P) ^
            H pki m.dec.aggregate_ciphertext.a m.dec.aggregate_ciphertext.b m.zkp.u m.zkp.v =
          (m.dec.aggregate_ciphertext.a : ZMod par.P) ^ m.zkp.s ∧
        (m.zkp.v : ZMod par.P) * (pki : ZMod par.P) ^
            H pki m.dec.aggregate_ciphertext.a m.dec.aggregate_ciphertext.b m.zkp.u m.zkp.v =
          (par.G : ZMod par.P) ^ m.zkp.s) := by
  simp only [VerifyPartialDecryptZKP, Bool.and_eq_true, decide_eq_true_eq,
    mulMod_eq_modExp_iff hP, cast_modExp]

theorem pow_dleq_response {M : Type*} [CommMonoid M] {x : M} {q : Nat} (hx : x ^ q = 1)
    (r c sk : Nat) : x ^ ((r + c * sk) % q) = x ^ r * (x ^ sk) ^ c := by
  rw [pow_mod_of_pow_eq_one hx, pow_add, ← pow_mul, Nat.mul_comm]

theorem PartialDecrypt_accepted (par : Params) (hv : par.Valid) (H : DecHash)
    (r sk a b : Nat) (ha : par.InGroup a) (arbiter_id arbiter_vk_path : List Nat) :
    VerifyPartialDecryptZKP par H
      (publishedDecryption arbiter_id arbiter_vk_path
        (PartialDecrypt par H r { a := a, b := b }
          (ModularExponentiation par.G sk par.P) sk))
      (ModularExponentiation par.G sk par.P) = true := by
  rw [VerifyPartialDecryptZKP_iff par hv.P_prime.pos]
  simp only [publishedDecryption, PartialDecrypt, cast_modExp]
  exact ⟨(pow_dleq_response ha.cast_pow _ _ _).symm,
    (pow_dleq_response hv.cast_G_pow _ _ _).symm⟩

/-- Raising to a power prime to `q` is injective on the elements killed by `q`. -/
theorem eq_of_pow_eq_of_order {F : Type*} [Field F] {x y : F} {q c : Nat}
    (hq : Nat.Prime q) (hx : x ^ q = 1) (hy : y ^ q = 1) (hc : c % q ≠ 0)
    (h : x ^ c = y ^ c) : x = y := by
  have hy0 : y ≠ 0 := by
    intro h0
    rw [h0, zero_pow hq.pos.ne'] at hy
    exact zero_ne_one hy
  have h1 : (x / y) ^ q = 1 := by rw [div_pow, hx, hy, div_one]
  have h2 : (x / y) ^ c = 1 := by rw [div_pow, h, div_self (pow_ne_zero _ hy0)]
  have d1 : orderOf (x / y) ∣ q := orderOf_dvd_of_pow_eq_one h1
  have d2 : orderOf (x / y) ∣ c := orderOf_dvd_of_pow_eq_one h2
  rcases (Nat.dvd_prime hq).mp d1 with h3 | h3
  · have := orderOf_eq_one_iff.mp h3
    exact (div_eq_one_iff_eq hy0).mp this
  · rw [h3] at d2
    exact absurd (Nat.mod_eq_zero_of_dvd d2) hc

theorem replaceDecryption_rejected (par : Params) (hv : par.Valid) (H : DecHash)
    (r sk a b : Nat) (ha : par.InGroup a) (arbiter_id arbiter_vk_path : List Nat)
    (d' : Nat) (hd' : par.InGroup d')
    (hne : d' % par.P ≠ ModularExponentiation a sk par.P % par.P)
    (hc : H (ModularExponentiation par.G sk par.P) a b
        (ModularExponentiation a r par.P) (ModularExponentiation par.G r par.P) % par.Q ≠ 0) :
    VerifyPartialDecryptZKP par H
      (replaceDecryption
        (publishedDecryption arbiter_id arbiter_vk_path
          (PartialDecrypt par H r { a := a, b := b }
            (ModularExponentiation par.G sk par.P) sk)) d')
      (ModularExponentiation par.G sk par.P) = false := by
  haveI : Fact par.P.Prime := ⟨hv.P_prime⟩
  have ha1 := ha.cast_pow
  have ha0 := cast_ne_zero_of_pow_eq_one hv ha1
  rw [← Bool.not_eq_true, VerifyPartialDecryptZKP_iff par hv.P_prime.pos]
  simp only [replaceDecryption, publishedDecryption, PartialDecrypt, cast_modExp]
  rintro ⟨h1, -⟩
  rw [pow_dleq_response ha1] at h1
  have h2 := mul_left_cancel₀ (pow_ne_zero r ha0) h1
  have hd : ((a : ZMod par.P) ^ sk) ^ par.Q = 1 := by
    rw [← pow_mul, Nat.mul_comm, pow_mul, ha1, one_pow]
  have h3 := eq_of_pow_eq_of_order hv.Q_prime hd'.cast_pow hd hc h2
  apply hne
  rw [← ZMod.natCast_eq_natCast_iff', cast_modExp]
  exact h3

/-! ## Homomorphic combination -/

theorem foldl_mulMod_pair (P : Nat) (rows : List VoteRow) (A B : Nat) (hA : A < P)
    (hB : B < P) :
    rows.foldl
        (fun (cum : Nat × Nat) (voteRecord : VoteRow) =>
          (a_times_b_mod_c cum.1 voteRecord.vote.a P,
           a_times_b_mod_c cum.2 voteRecord.vote.b P))
        (A, B) =
      (A * (rows.map fun row => row.vote.a).prod % P,
        B * (rows.map fun row => row.vote.b).prod % P) := by
  induction rows generalizing A B with
  | nil => simp [Nat.mod_eq_of_lt hA, Nat.mod_eq_of_lt hB]
  | cons row rows ih =>
    have hP : 0 < P := by omega
    rw [List.foldl_cons, ih _ _ (mulMod_lt _ _ hP) (mulMod_lt _ _ hP)]
    simp only [a_times_b_mod_c, List.map_cons, List.prod_cons, Nat.mod_mul_mod, Nat.mul_assoc]

theorem CombineVotes_eq (par : Params) (hP : 1 < par.P) (all_votes : List VoteRow) :
    CombineVotes par all_votes =
      { a := (all_votes.map fun row => row.vote.a).prod % par.P,
        b := (all_votes.map fun row => row.vote.b).prod % par.P } := by
  unfold CombineVotes
  rw [foldl_mulMod_pair par.P all_votes 1 1 hP hP]
  simp

theorem foldl_mulMod_dec (P : Nat) (rows : List PartialDecryptionRow) (A : Nat)
    (hA : A < P) :
    rows.foldl
        (fun (cum : Nat) (partDecrypt : PartialDecryptionRow) =>
          a_times_b_mod_c cum partDecrypt.dec.d P) A =
      A * (rows.map fun row => row.dec.d).prod % P := by
  induction rows generalizing A with
  | nil => simp [Nat.mod_eq_of_lt hA]
  | cons row rows ih =>
    have hP : 0 < P := by omega
    rw [List.foldl_cons, ih _ (mulMod_lt _ _ hP)]
    simp only [a_times_b_mod_c, List.map_cons, List.prod_cons, Nat.mod_mul_mod, Nat.mul_assoc]

theorem prod_map_pow {M : Type*} [CommMonoid M] (g : M) (rv : List (Nat × Nat)) :
    (rv.map fun p => g ^ p.1).prod = g ^ (rv.map Prod.fst).sum := by
  induction rv with
  | nil => simp
  | cons p rv ih => simp only [List.map_cons, List.prod_cons, ih, List.sum_cons, pow_add]

theorem prod_map_pow_mul_pow {M : Type*} [CommMonoid M] (h g : M) (rv : List (Nat × Nat)) :
    (rv.map fun p => h ^ p.1 * g ^ p.2).prod =
      h ^ (rv.map Prod.fst).sum * g ^ (rv.map Prod.snd).sum := by
  induction rv with
  | nil => simp
  | cons p rv ih =>
    simp only [List.map_cons, List.prod_cons, List.sum_cons, ih, pow_add]
    rw [mul_mul_mul_comm]

theorem CombineVotes_homomorphic (par : Params) (hv : par.Valid) (pk : Nat)
    (rv : List (Nat × Nat)) (rows : List VoteRow)
    (hrows : rows.map (fun row => row.vote) =
      rv.map (fun p => ({ a := par.G ^ p.1 % par.P,
                          b := pk ^ p.1 * par.G ^ p.2 % par.P } : Vote_Ciphertext))) :
    CombineVotes par rows =
        { a := par.G ^ (rv.map Prod.fst).sum % par.P,
          b := pk ^ (rv.map Prod.fst).sum * par.G ^ (rv.map Prod.snd).sum % par.P } ∧
      CombineVotes par rows =
        { a := par.G ^ (rv.map Prod.fst).sum % par.P,
          b := pk ^ (rv.map Prod.fst).sum *
            par.G ^ ((rv.map Prod.snd).sum % par.Q) % par.P } := by
  have hP0 : 0 < par.P := hv.P_prime.pos
  have ha : (rows.map fun row => row.vote.a) = rv.map fun p => par.G ^ p.1 % par.P := by
    have := congrArg (List.map Vote_Ciphertext.a) hrows
    simpa [List.map_map, Function.comp_def] using this
  have hb : (rows.map fun row => row.vote.b) =
      rv.map fun p => pk ^ p.1 * par.G ^ p.2 % par.P := by
    have := congrArg (List.map Vote_Ciphertext.b) hrows
    simpa [List.map_map, Function.comp_def] using this
  have e1 : CombineVotes par rows =
      { a := par.G ^ (rv.map Prod.fst).sum % par.P,
        b := pk ^ (rv.map Prod.fst).sum * par.G ^ (rv.map Prod.snd).sum % par.P } := by
    rw [CombineVotes_eq par hv.one_lt_P, ha, hb]
    congr 1
    · rw [eq_iff_cast_eq (Nat.mod_lt _ hP0) (Nat.mod_lt _ hP0)]
      simp only [ZMod.natCast_mod, Nat.cast_list_prod, List.map_map, Function.comp_def,
        Nat.cast_pow]
      exact prod_map_pow _ _
    · rw [eq_iff_cast_eq (Nat.mod_lt _ hP0) (Nat.mod_lt _ hP0)]
      simp only [ZMod.natCast_mod, Nat.cast_list_prod, List.map_map, Function.comp_def,
        Nat.cast_pow, Nat.cast_mul]
      exact prod_map_pow_mul_pow _ _ rv
  refine ⟨e1, ?_⟩
  rw [e1]
  congr 1
  rw [eq_iff_cast_eq (Nat.mod_lt _ hP0) (Nat.mod_lt _ hP0)]
  simp only [ZMod.natCast_mod, Nat.cast_pow, Nat.cast_mul]
  rw [pow_mod_of_pow_eq_one hv.cast_G_pow]

/-! ## The discrete-logarithm search of `CombineResults` -/

theorem searchLoop_found (par : Params) (gm t : Nat) (ht : t < par.Q) (hmax : t ≤ INT_MAX)
    (hgt : ModularExponentiation par.G t par.P = gm)
    (hleast : ∀ j, j < t → ModularExponentiation par.G j par.P ≠ gm) :
    ∀ fuel m, m ≤ t → t - m < fuel → searchLoop par gm fuel m = Except.ok t := by
  intro fuel
  induction fuel with
  | zero => intro m _ h; omega
  | succ fuel ih =>
    intro m hm hfuel
    rw [searchLoop, if_pos (show m < par.Q by omega)]
    by_cases hmt : m = t
    · rw [hmt, if_pos hgt]
    · have hlt : m < t := by omega
      rw [if_neg (hleast m hlt), if_neg (show ¬ m = INT_MAX by omega)]
      exact ih (m + 1) (by omega) (by omega)

theorem searchLoop_overflow (par : Params) (gm : Nat) (hQ : INT_MAX < par.Q)
    (hnone : ∀ j, j ≤ INT_MAX → ModularExponentiation par.G j par.P ≠ gm) :
    ∀ fuel m, m ≤ INT_MAX → INT_MAX - m < fuel →
      searchLoop par gm fuel m = Except.error TallyError.counterOverflow := by
  intro fuel
  induction fuel with
  | zero => intro m _ h; omega
  | succ fuel ih =>
    intro m hm hfuel
    rw [searchLoop, if_pos (show m < par.Q by omega), if_neg (hnone m hm)]
    by_cases hmt : m = INT_MAX
    · rw [if_pos hmt]
    · rw [if_neg hmt]
      exact ih (m + 1) (by omega) (by omega)

theorem searchLoop_noMatch (par : Params) (gm : Nat) (hQ : par.Q ≤ INT_MAX)
    (hnone : ∀ j, j < par.Q → ModularExponentiation par.G j par.P ≠ gm) :
    ∀ fuel m, m ≤ par.Q → par.Q - m < fuel →
      searchLoop par gm fuel m = Except.error TallyError.noMatch := by
  intro fuel
  induction fuel with
  | zero => intro m _ h; omega
  | succ fuel ih =>
    intro m hm hfuel
    rw [searchLoop]
    by_cases hmq : m < par.Q
    · rw [if_pos hmq, if_neg (hnone m hmq), if_neg (show ¬ m = INT_MAX by omega)]
      exact ih (m + 1) (by omega) (by omega)
    · rw [if_neg hmq]

/-- The fuel given by `CombineResults` is enough: any two amounts of fuel above
`INT_MAX - m` give the same result from counter `m`. -/
theorem searchLoop_fuel (par : Params) (gm : Nat) :
    ∀ fuel1 fuel2 m, m ≤ INT_MAX → INT_MAX - m < fuel1 → INT_MAX - m < fuel2 →
      searchLoop par gm fuel1 m = searchLoop par gm fuel2 m := by
  intro fuel1
  induction fuel1 with
  | zero => intro fuel2 m _ h; omega
  | succ fuel1 ih =>
    intro fuel2 m hm h1 h2
    cases fuel2 with
    | zero => omega
    | succ fuel2 =>
      rw [searchLoop, searchLoop]
      by_cases hq : m < par.Q
      · rw [if_pos hq, if_pos hq]
        by_cases hg : ModularExponentiation par.G m par.P = gm
        · rw [if_pos hg, if_pos hg]
        · rw [if_neg hg, if_neg hg]
          by_cases hmax : m = INT_MAX
          · rw [if_pos hmax, if_pos hmax]
          · rw [if_neg hmax, if_neg hmax]
            exact ih fuel2 (m + 1) (by omega) (by omega) (by omega)
      · rw [if_neg hq, if_neg hq]

/-- The value `CombineResults` searches for: `b * D⁻¹` with `D` the product of the
partial decryptions, all modulo `P`. -/
theorem CombineResults_eq_searchLoop (par : Params) (hP : 1 < par.P)
    (combined_vote : Vote_Ciphertext) (decs : List PartialDecryptionRow) :
    CombineResults par combined_vote decs =
      searchLoop par
        (a_times_b_mod_c combined_vote.b
          (EuclideanMultiplicativeInverse ((decs.map fun row => row.dec.d).prod % par.P) par.P)
          par.P)
        (INT_MAX + 1) 0 := by
  unfold CombineResults
  rw [foldl_mulMod_dec par.P decs 1 hP, Nat.one_mul]

/-- The result of the search when a match exists in `[0, Q)`: the least match when it
fits the `int` counter, and an overflow of the counter otherwise. -/
theorem CombineResults_of_least (par : Params) (hP : 1 < par.P)
    (combined_vote : Vote_Ciphertext) (decs : List PartialDecryptionRow) (t : Nat)
    (ht : t < par.Q)
    (hgt : ModularExponentiation par.G t par.P =
      a_times_b_mod_c combined_vote.b
        (EuclideanMultiplicativeInverse ((decs.map fun row => row.dec.d).prod % par.P) par.P)
        par.P)
    (hleast : ∀ j, j < t → ModularExponentiation par.G j par.P ≠
      a_times_b_mod_c combined_vote.b
        (EuclideanMultiplicativeInverse ((decs.map fun row => row.dec.d).prod % par.P) par.P)
        par.P) :
    CombineResults par combined_vote decs =
      if t ≤ INT_MAX then Except.ok t else Except.error TallyError.counterOverflow := by
  rw [CombineResults_eq_searchLoop par hP]
  by_cases hfit : t ≤ INT_MAX
  · rw [if_pos hfit]
    exact searchLoop_found par _ t ht hfit hgt hleast _ 0 (Nat.zero_le _) (by omega)
  · rw [if_neg hfit]
    exact searchLoop_overflow par _ (by omega) (fun j hj => hleast j (by omega)) _ 0
      (Nat.zero_le _) (by omega)

/-- Distinct exponents below the prime order `Q` give distinct powers of `G`. -/
theorem Params.Valid.pow_ne_of_lt {par : Params} (hv : par.Valid) {j t : Nat}
    (hjt : j < t) (ht : t < par.Q) :
    (par.G : ZMod par.P) ^ j ≠ (par.G : ZMod par.P) ^ t := by
  haveI : Fact par.Q.Prime := ⟨hv.Q_prime⟩
  have hord : orderOf (par.G : ZMod par.P) = par.Q :=
    orderOf_eq_prime hv.cast_G_pow hv.cast_G_ne_one
  intro h
  have hinj := pow_injOn_Iio_orderOf (G := ZMod par.P) (x := (par.G : ZMod par.P))
  have := hinj (by rw [Set.mem_Iio, hord]; omega) (by rw [Set.mem_Iio, hord]; exact ht) h
  omega

/-! ## Tally recovery on an honest election -/

theorem prod_map_pow_fst {M : Type*} [CommMonoid M] (g : M) (arbiters : List (Nat × Nat)) :
    (arbiters.map fun p => g ^ p.1).prod = g ^ (arbiters.map Prod.fst).sum :=
  prod_map_pow g arbiters

theorem cast_electionPublicKey (par : Params) (sks : List Nat) :
    ((electionPublicKey par sks : Nat) : ZMod par.P) =
      (par.G : ZMod par.P) ^ sks.sum := by
  unfold electionPublicKey
  rw [ZMod.natCast_mod, Nat.cast_list_prod, List.map_map]
  induction sks with
  | nil => simp
  | cons sk sks ih =>
    simp only [List.map_cons, List.prod_cons, List.sum_cons, pow_add, Function.comp_apply,
      cast_modExp, ih]

theorem electionPublicKey_inGroup (par : Params) (hv : par.Valid) (sks : List Nat) :
    par.InGroup (electionPublicKey par sks) := by
  unfold Params.InGroup
  have h : (((electionPublicKey par sks) ^ par.Q % par.P : Nat) : ZMod par.P) =
      ((1 : Nat) : ZMod par.P) := by
    rw [ZMod.natCast_mod, Nat.cast_pow, cast_electionPublicKey, ← pow_mul, Nat.mul_comm,
      pow_mul, hv.cast_G_pow, one_pow, Nat.cast_one]
  rw [ZMod.natCast_eq_natCast_iff', Nat.mod_mod, Nat.mod_eq_of_lt hv.one_lt_P] at h
  exact h

/-- The ciphertexts of honest ballots combine to an encryption of the sum of the votes. -/
theorem CombineVotes_ballots (par : Params) (hv : par.Valid) (H : VoteHash) (pk : Nat)
    (ballots : List (Nat × VoteRandomness)) (rows : List VoteRow)
    (hrows : rows.map (fun row => (row.vote, row.zkp)) =
      ballots.map (fun p => GenerateVote par H p.2 p.1 pk)) :
    CombineVotes par rows =
      { a := par.G ^ (ballots.map fun p => p.2.r).sum % par.P,
        b := pk ^ (ballots.map fun p => p.2.r).sum *
          par.G ^ (ballots.map Prod.fst).sum % par.P } := by
  have h1 : rows.map (fun row => row.vote) =
      (ballots.map fun p => (p.2.r, p.1)).map
        (fun p => ({ a := par.G ^ p.1 % par.P,
                     b := pk ^ p.1 * par.G ^ p.2 % par.P } : Vote_Ciphertext)) := by
    have := congrArg (List.map Prod.fst) hrows
    simp only [List.map_map, Function.comp_def, GenerateVote_fst] at this
    rw [this, List.map_map]
    apply List.map_congr_left
    intro p _
    simp only [Function.comp_apply, ModularExponentiation, a_times_b_mod_c, ← Nat.mul_mod]
  have h2 := (CombineVotes_homomorphic par hv pk _ rows h1).1
  simpa [List.map_map, Function.comp_def] using h2

theorem tally_of_honest_election (par : Params) (hv : par.Valid) (Hv : VoteHash)
    (Hd : DecHash) (arbiters : List (Nat × Nat)) (ballots : List (Nat × VoteRandomness))
    (rows : List VoteRow) (decs : List PartialDecryptionRow)
    (hrows : rows.map (fun row => (row.vote, row.zkp)) =
      ballots.map (fun p =>
        GenerateVote par Hv p.2 p.1 (electionPublicKey par (arbiters.map Prod.fst))))
    (hdecs : decs.map (fun row => (row.dec, row.zkp)) =
      arbiters.map (fun p =>
        PartialDecrypt par Hd p.2 (CombineVotes par rows)
          (ModularExponentiation par.G p.1 par.P) p.1)) :
    CombineResults par (CombineVotes par rows) decs =
      if (ballots.map Prod.fst).sum % par.Q ≤ INT_MAX
      then Except.ok ((ballots.map Prod.fst).sum % par.Q)
      else Except.error TallyError.counterOverflow := by
  haveI : Fact par.P.Prime := ⟨hv.P_prime⟩
  have hP0 : 0 < par.P := hv.P_prime.pos
  have hg := hv.cast_G_pow
  have hg0 := cast_ne_zero_of_pow_eq_one hv hg
  have hcomb := CombineVotes_ballots par hv Hv _ ballots rows hrows
  have hd : (decs.map fun row => row.dec.d) =
      arbiters.map fun p => ModularExponentiation (CombineVotes par rows).a p.1 par.P := by
    have := congrArg (List.map fun q : PartialDecryption_Struct × DecryptionZKP_Struct =>
      q.1.d) hdecs
    simpa [List.map_map, Function.comp_def, PartialDecrypt] using this
  have hgm : ((a_times_b_mod_c (CombineVotes par rows).b
      (EuclideanMultiplicativeInverse ((decs.map fun row => row.dec.d).prod % par.P) par.P)
      par.P : Nat) : ZMod par.P) =
      (par.G : ZMod par.P) ^ (ballots.map Prod.fst).sum := by
    rw [cast_mulMod, cast_inverse hv.P_prime, ZMod.natCast_mod, hd, Nat.cast_list_prod,
      List.map_map]
    have e : (arbiters.map ((Nat.cast : Nat → ZMod par.P) ∘
        fun p => ModularExponentiation (CombineVotes par rows).a p.1 par.P)) =
        arbiters.map fun p => ((CombineVotes par rows).a : ZMod par.P) ^ p.1 := by
      apply List.map_congr_left
      intro p _
      simp only [Function.comp_apply, cast_modExp]
    rw [e, prod_map_pow_fst, hcomb]
    simp only [ZMod.natCast_mod, Nat.cast_mul, Nat.cast_pow, cast_electionPublicKey]
    rw [← pow_mul, ← pow_mul, Nat.mul_comm (arbiters.map Prod.fst).sum, mul_comm,
      ← mul_assoc, inv_mul_cancel₀ (pow_ne_zero _ hg0), one_mul]
  apply CombineResults_of_least par hv.one_lt_P _ _ _ (Nat.mod_lt _ hv.Q_pos)
  · rw [eq_iff_cast_eq (modExp_lt _ _ hP0) (mulMod_lt _ _ hP0), hgm, cast_modExp,
      pow_mod_of_pow_eq_one hg]
  · intro j hj h
    rw [eq_iff_cast_eq (modExp_lt _ _ hP0) (mulMod_lt _ _ hP0), hgm, cast_modExp,
      ← pow_mod_of_pow_eq_one hg (ballots.map Prod.fst).sum] at h
    exact hv.pow_ne_of_lt hj (Nat.mod_lt _ hv.Q_pos) h

/-! ## Oblivious transfer -/

theorem OT_keys_agree (par : Params) (hv : par.Valid) (cd : CryptoDriver) (a b : Nat) :
    OT_recv_key par cd b (ModularExponentiation par.G a par.P) =
        (OT_send_keys par cd a (ModularExponentiation par.G b par.P)).1 ∧
      OT_recv_key par cd b (ModularExponentiation par.G a par.P) =
        (OT_send_keys par cd a
          (a_times_b_mod_c (ModularExponentiation par.G a par.P)
            (ModularExponentiation par.G b par.P) par.P)).2 := by
  haveI : Fact par.P.Prime := ⟨hv.P_prime⟩
  have hP0 : 0 < par.P := hv.P_prime.pos
  have hg0 := cast_ne_zero_of_pow_eq_one hv hv.cast_G_pow
  constructor
  · simp only [OT_recv_key, OT_send_keys, DH_generate_shared_key]
    congr 1
    rw [eq_iff_cast_eq (modExp_lt _ _ hP0) (modExp_lt _ _ hP0)]
    simp only [cast_modExp]
    rw [← pow_mul, ← pow_mul, Nat.mul_comm]
  · simp only [OT_recv_key, OT_send_keys, DH_generate_shared_key, DH_initialize]
    congr 1
    rw [eq_iff_cast_eq (modExp_lt _ _ hP0) (modExp_lt _ _ hP0)]
    simp only [cast_modExp, cast_mulMod, cast_inverse hv.P_prime]
    rw [mul_comm ((par.G : ZMod par.P) ^ a), mul_assoc,
      mul_inv_cancel₀ (pow_ne_zero _ hg0), mul_one, ← pow_mul, ← pow_mul, Nat.mul_comm]

theorem honestOT_correct (par : Params) (hv : par.Valid) (cd : CryptoDriver)
    (hcd : cd.AESCorrect) (a b : Nat) (iv0 iv1 m0 m1 : ByteBlock) (choice_bit : Nat) :
    honestOT par cd a b iv0 iv1 m0 m1 choice_bit =
        Except.ok (if choice_bit = 0 then m0 else m1) ∧
      ∃ B, OT_recv_public par b choice_bit (OT_send_public par a, true) =
          Except.ok { public_value := B } ∧
        OT_recv_key par cd b (OT_send_public par a).public_value =
          if choice_bit = 0 then (OT_send_keys par cd a B).1
          else (OT_send_keys par cd a B).2 := by
  have hk := OT_keys_agree par hv cd a b
  by_cases hc : choice_bit = 0
  · refine ⟨?_, ModularExponentiation par.G b par.P, ?_, ?_⟩
    · simp only [honestOT, OT_recv_public, OT_send_encrypted, OT_recv_message,
        OT_send_public, DH_initialize, hc, if_true, Bool.not_true, Bool.false_eq_true,
        if_false]
      rw [hk.1, hcd]
    · simp [OT_recv_public, DH_initialize, hc]
    · rw [if_pos hc]; exact hk.1
  · refine ⟨?_, a_times_b_mod_c (ModularExponentiation par.G a par.P)
      (ModularExponentiation par.G b par.P) par.P, ?_, ?_⟩
    · simp only [honestOT, OT_recv_public, OT_send_encrypted, OT_recv_message,
        OT_send_public, DH_initialize, hc, if_false, Bool.not_true, Bool.false_eq_true]
      rw [hk.2, hcd]
    · simp [OT_recv_public, OT_send_public, DH_initialize, hc]
    · rw [if_neg hc]; exact hk.2

/-! ## Facts about the small instances -/

theorem smallParams_valid : smallParams.Valid :=
  ⟨by norm_num [smallParams], by norm_num [smallParams], by decide, by decide⟩

theorem smallVoteHash_lt (x1 x2 x3 x4 x5 x6 x7 : Nat) :
    smallVoteHash x1 x2 x3 x4 x5 x6 x7 < smallParams.Q :=
  Nat.mod_lt _ (by decide)

theorem smallCrypto_correct : smallCrypto.AESCorrect := by
  intro k m iv
  simp [smallCrypto, Function.comp_def]

theorem CombineResults_least_match (par : Params) (hP : 1 < par.P)
    (combined_vote : Vote_Ciphertext) (decs : List PartialDecryptionRow)
    (hex : ∃ t, t < par.Q ∧
      ModularExponentiation par.G t par.P = searchTarget par combined_vote decs) :
    ∃ t, t < par.Q ∧
      ModularExponentiation par.G t par.P = searchTarget par combined_vote decs ∧
      (∀ j, j < t →
        ModularExponentiation par.G j par.P ≠ searchTarget par combined_vote decs) ∧
      CombineResults par combined_vote decs =
        if t ≤ INT_MAX then Except.ok t else Except.error TallyError.counterOverflow := by
  refine ⟨Nat.find hex, (Nat.find_spec hex).1, (Nat.find_spec hex).2, ?_, ?_⟩
  · intro j hj h
    exact Nat.find_min hex hj ⟨lt_trans hj (Nat.find_spec hex).1, h⟩
  · apply CombineResults_of_least par hP _ _ _ (Nat.find_spec hex).1
    · exact (Nat.find_spec hex).2
    · intro j hj h
      exact Nat.find_min hex hj ⟨lt_trans hj (Nat.find_spec hex).1, h⟩

/-! ## Primality of the constants of `bigParams` -/

theorem fastPowMod_eq (m : Nat) : ∀ fuel b e, e < 2 ^ fuel → fastPowMod m fuel b e = b ^ e % m := by
  intro fuel
  induction fuel with
  | zero =>
    intro b e he
    have : e = 0 := by simpa using he
    subst this
    simp [fastPowMod]
  | succ fuel ih =>
    intro b e he
    rw [fastPowMod]
    by_cases h0 : e = 0
    · subst h0; simp
    · rw [if_neg h0]
      have hlt : e / 2 < 2 ^ fuel := by
        rw [pow_succ] at he
        omega
      have hsq : (b * b % m) ^ (e / 2) % m = (b * b) ^ (e / 2) % m := by
        rw [Nat.pow_mod, Nat.mod_mod, ← Nat.pow_mod]
      by_cases h2 : e % 2 = 0
      · rw [if_pos h2, ih _ _ hlt, hsq, ← pow_two, ← pow_mul]
        congr 2
        omega
      · rw [if_neg h2, ih _ _ hlt, hsq, Nat.mul_mod, Nat.mod_mod, ← Nat.mul_mod, ← pow_two,
          ← pow_mul, ← pow_succ']
        congr 2
        omega

theorem zmod_pow_eq_one_iff (p a e : Nat) (hp : 1 < p) (he : e < 2 ^ 64) :
    ((a : ZMod p)) ^ e = 1 ↔ fastPowMod p 64 a e = 1 := by
  rw [fastPowMod_eq p 64 a e he, ← Nat.cast_pow, ← Nat.cast_one (R := ZMod p),
    ZMod.natCast_eq_natCast_iff', Nat.mod_eq_of_lt hp]

theorem prime_dvd_cases {q : Nat} (hq : Nat.Prime q)
    (hdvd : q ∣ 2 * (67 * (151 * (211 * 503)))) :
    q = 2 ∨ q = 67 ∨ q = 151 ∨ q = 211 ∨ q = 503 := by
  have h67 : Nat.Prime 67 := by norm_num
  have h151 : Nat.Prime 151 := by norm_num
  have h211 : Nat.Prime 211 := by norm_num
  have h503 : Nat.Prime 503 := by norm_num
  rcases (Nat.Prime.dvd_mul hq).mp hdvd with h | h
  · exact Or.inl ((Nat.prime_dvd_prime_iff_eq hq Nat.prime_two).mp h)
  rcases (Nat.Prime.dvd_mul hq).mp h with h | h
  · exact Or.inr (Or.inl ((Nat.prime_dvd_prime_iff_eq hq h67).mp h))
  rcases (Nat.Prime.dvd_mul hq).mp h with h | h
  · exact Or.inr (Or.inr (Or.inl ((Nat.prime_dvd_prime_iff_eq hq h151).mp h)))
  rcases (Nat.Prime.dvd_mul hq).mp h with h | h
  · exact Or.inr (Or.inr (Or.inr (Or.inl ((Nat.prime_dvd_prime_iff_eq hq h211).mp h))))
  · exact Or.inr (Or.inr (Or.inr (Or.inr ((Nat.prime_dvd_prime_iff_eq hq h503).mp h))))

theorem prime_Q : Nat.Prime 2147495123 := by
  apply lucas_primality 2147495123 ((2 : Nat) : ZMod 2147495123)
  · rw [zmod_pow_eq_one_iff _ _ _ (by norm_num) (by norm_num)]
    decide
  · intro q hq hdvd
    have hfac : (2147495123 - 1 : Nat) = 2 * (67 * (151 * (211 * 503))) := by norm_num
    rw [hfac] at hdvd
    rcases prime_dvd_cases hq hdvd with rfl | rfl | rfl | rfl | rfl <;>
      rw [Ne, zmod_pow_eq_one_iff _ _ _ (by norm_num) (by norm_num)] <;> decide

theorem prime_P : Nat.Prime 4294990247 := by
  apply lucas_primality 4294990247 ((5 : Nat) : ZMod 4294990247)
  · rw [zmod_pow_eq_one_iff _ _ _ (by norm_num) (by norm_num)]
    decide
  · intro q hq hdvd
    have hfac : (4294990247 - 1 : Nat) = 2 * 2147495123 := by norm_num
    rw [hfac] at hdvd
    rcases (Nat.Prime.dvd_mul hq).mp hdvd with h | h
    · have := (Nat.prime_dvd_prime_iff_eq hq Nat.prime_two).mp h
      subst this
      rw [Ne, zmod_pow_eq_one_iff _ _ _ (by norm_num) (by norm_num)]
      decide
    · have := (Nat.prime_dvd_prime_iff_eq hq prime_Q).mp h
      subst this
      rw [Ne, zmod_pow_eq_one_iff _ _ _ (by norm_num) (by norm_num)]
      decide

theorem bigParams_G_pow_Q : bigParams.G ^ bigParams.Q % bigParams.P = 1 := by
  rw [← fastPowMod_eq bigParams.P 64 bigParams.G bigParams.Q (by decide)]
  decide

theorem bigParams_pow_two_pow_31 :
    ModularExponentiation bigParams.G 2147483648 bigParams.P = 123197036 := by
  rw [ModularExponentiation,
    ← fastPowMod_eq bigParams.P 64 bigParams.G 2147483648 (by decide)]
  decide

theorem bigParams_valid : bigParams.Valid :=
  ⟨prime_P, prime_Q, bigParams_G_pow_Q, by decide⟩

theorem inverse_one {m : Nat} (hm : 1 < m) : EuclideanMultiplicativeInverse 1 m = 1 := by
  rcases inverse_spec 1 m with h | h
  · have h2 := h.2
    rw [Nat.one_mul, Nat.mod_eq_of_lt h.1] at h2
    exact h2
  · exact absurd (by rw [Nat.one_mul, Nat.mod_eq_of_lt hm]) (h.2 1 hm)

/-! ## Honest stores -/

theorem honestRows_spec (par : Params) (Hv : VoteHash) (pk : Nat)
    (ballots : List (Nat × VoteRandomness)) :
    (honestRows par Hv pk ballots).map (fun row => (row.vote, row.zkp)) =
      ballots.map (fun p => GenerateVote par Hv p.2 p.1 pk) := by
  rw [honestRows, List.map_map]
  apply List.map_congr_left
  intro p _
  rfl

theorem honestDecs_spec (par : Params) (Hd : DecHash) (arbiters : List (Nat × Nat))
    (combined_vote : Vote_Ciphertext) :
    (honestDecs par Hd arbiters combined_vote).map (fun row => (row.dec, row.zkp)) =
      arbiters.map (fun p =>
        PartialDecrypt par Hd p.2 combined_vote (ModularExponentiation par.G p.1 par.P) p.1) := by
  rw [honestDecs, List.map_map]
  apply List.map_congr_left
  intro p _
  rfl

theorem tally_of_honest_stores (par : Params) (hv : par.Valid) (Hv : VoteHash)
    (Hd : DecHash) (arbiters : List (Nat × Nat)) (ballots : List (Nat × VoteRandomness)) :
    CombineResults par
        (CombineVotes par
          (honestRows par Hv (electionPublicKey par (arbiters.map Prod.fst)) ballots))
        (honestDecs par Hd arbiters
          (CombineVotes par
            (honestRows par Hv (electionPublicKey par (arbiters.map Prod.fst)) ballots))) =
      if (ballots.map Prod.fst).sum % par.Q ≤ INT_MAX
      then Except.ok ((ballots.map Prod.fst).sum % par.Q)
      else Except.error TallyError.counterOverflow :=
  tally_of_honest_election par hv Hv Hd arbiters ballots _ _
    (honestRows_spec par Hv _ ballots) (honestDecs_spec par Hd arbiters _)

theorem sum_votes_replicate (n v : Nat) (rnd : VoteRandomness) :
    ((List.replicate n (v, rnd)).map Prod.fst).sum = n * v := by
  rw [List.map_replicate, List.sum_replicate, smul_eq_mul]

/-- With `n` ballots for the vote `1`, a group order above `n` and `n` above `INT_MAX`,
`CombineResults` overflows its loop counter. -/
theorem tally_overflow_of_many_ballots (par : Params) (hv : par.Valid) (Hv : VoteHash)
    (Hd : DecHash) (arbiters : List (Nat × Nat)) (rnd : VoteRandomness) (n : Nat)
    (hn : INT_MAX < n) (hQ : n < par.Q) :
    CombineResults par
        (CombineVotes par
          (honestRows par Hv (electionPublicKey par (arbiters.map Prod.fst))
            (List.replicate n (1, rnd))))
        (honestDecs par Hd arbiters
          (CombineVotes par
            (honestRows par Hv (electionPublicKey par (arbiters.map Prod.fst))
              (List.replicate n (1, rnd))))) =
      Except.error TallyError.counterOverflow := by
  rw [tally_of_honest_stores par hv, sum_votes_replicate, Nat.mul_one,
    Nat.mod_eq_of_lt hQ, if_neg (Nat.not_le.mpr hn)]

/-- When the only match of the search is above `INT_MAX`, `CombineResults` overflows
its loop counter. -/
theorem search_overflow_of_large_tally (par : Params) (hv : par.Valid) (t b : Nat)
    (ht : t < par.Q) (hmax : INT_MAX < t) (hb : ModularExponentiation par.G t par.P = b) :
    ModularExponentiation par.G t par.P = searchTarget par { a := 1, b := b } [] ∧
      (∀ j, j < par.Q → j ≠ t →
        ModularExponentiation par.G j par.P ≠ searchTarget par { a := 1, b := b } []) ∧
      CombineResults par { a := 1, b := b } [] =
        Except.error TallyError.counterOverflow := by
  have hP0 : 0 < par.P := hv.P_prime.pos
  have htarget : searchTarget par { a := 1, b := b } [] = b := by
    simp only [searchTarget, combinedDecryption, List.map_nil, List.prod_nil,
      Nat.mod_eq_of_lt hv.one_lt_P, inverse_one hv.one_lt_P, a_times_b_mod_c, Nat.mul_one]
    rw [← hb]
    exact Nat.mod_eq_of_lt (modExp_lt _ _ hP0)
  have hne : ∀ j, j < par.Q → j ≠ t →
      ModularExponentiation par.G j par.P ≠ ModularExponentiation par.G t par.P := by
    intro j hj hjt h
    rw [eq_iff_cast_eq (modExp_lt _ _ hP0) (modExp_lt _ _ hP0), cast_modExp, cast_modExp] at h
    rcases Nat.lt_or_gt_of_ne hjt with h1 | h1
    · exact hv.pow_ne_of_lt h1 ht h
    · exact hv.pow_ne_of_lt h1 hj h.symm
  refine ⟨by rw [htarget, hb], ?_, ?_⟩
  · intro j hj hjt
    rw [htarget, ← hb]
    exact hne j hj hjt
  · have h := CombineResults_of_least par hv.one_lt_P { a := 1, b := b } [] t ht
      (by rw [hb]; exact htarget.symm)
      (by
        intro j hj
        have := hne j (lt_trans hj ht) (Nat.ne_of_lt hj)
        rw [hb] at this
        rw [show a_times_b_mod_c ({ a := 1, b := b } : Vote_Ciphertext).b
            (EuclideanMultiplicativeInverse
              ((([] : List PartialDecryptionRow).map fun row => row.dec.d).prod % par.P)
              par.P) par.P = b from htarget]
        exact this)
    rw [h, if_neg (Nat.not_le.mpr hmax)]

/-- The scenario of three ballots for `0`, `1`, `1` with two arbiters: the tally is `2`. -/
theorem tally_of_small_election :
    CombineResults smallParams (CombineVotes smallParams smallRows) smallDecs =
      Except.ok 2 :=
  (tally_of_honest_stores smallParams smallParams_valid smallVoteHash (constDecHash 3)
    smallArbiters smallBallots).trans (by decide)

/-- For a least match that fits the loop counter, `CombineResults` returns it: `3` for
`b = 8` and no partial decryption in the small group. -/
theorem search_of_small_target :
    ∃ t, t < smallParams.Q ∧
      ModularExponentiation smallParams.G t smallParams.P =
        searchTarget smallParams { a := 1, b := 8 } [] ∧
      (∀ j, j < t → ModularExponentiation smallParams.G j smallParams.P ≠
        searchTarget smallParams { a := 1, b := 8 } []) ∧
      CombineResults smallParams { a := 1, b := 8 } [] =
        if t ≤ INT_MAX then Except.ok t else Except.error TallyError.counterOverflow :=
  CombineResults_least_match smallParams (by decide) { a := 1, b := 8 } []
    ⟨3, by decide, by decide⟩

/-- The vote proof is complete for public keys only: under `5`, a unit modulo `23`
outside the subgroup of order `11`, the ballot that `GenerateVote` returns for the
nonce `2` is rejected. -/
theorem vote_rejected_outside_group :
    ¬ smallParams.InGroup 5 ∧
      VerifyVoteZKP smallParams smallVoteHash
        (GenerateVote smallParams smallVoteHash
          { r := 2, simResponse := 4, simChallenge := 5, nonce := 6 } 0 5) 5 = false := by
  decide

/-! ## The scenario Yao-XOR -/

/-- On the circuit of one XOR gate with garbler input `[1]` and evaluator input `[0]`,
the evaluator's label of the output wire is `ones[0] xor zeros[1]`; when the labels
drawn for the output wire differ from it, the garbler decodes nothing. -/
theorem xor_session_without_output (par : Params) (hv : par.Valid) (lp : LabelParams)
    (cd : CryptoDriver) (hcd : cd.AESCorrect) (rnd : SessionRandomness)
    (h0 : rnd.draws 2 ≠
      xorbuf (xorbuf (rnd.draws 0) (generate_delta rnd.deltaDraw) lp.LABEL_LENGTH)
        (rnd.draws 1) lp.LABEL_LENGTH)
    (h1 : xorbuf (rnd.draws 2) (generate_delta rnd.deltaDraw) lp.LABEL_LENGTH ≠
      xorbuf (xorbuf (rnd.draws 0) (generate_delta rnd.deltaDraw) lp.LABEL_LENGTH)
        (rnd.draws 1) lp.LABEL_LENGTH) :
    honestSession par lp cd xorCircuit rnd [1] [0] = Except.ok ("", "") := by
  have hot := fun a b iv0 iv1 m0 m1 =>
    (honestOT_correct par hv cd hcd a b iv0 iv1 m0 m1 0).1
  simp [honestSession, GarblerClient_send, generate_gates, generate_gates_from,
    generate_gate, generate_labels, xorCircuit, get_garbled_wires, get_garbled_wires_from,
    honestOTs, hot, EvaluatorClient_labels, evaluate_tables, resizeWires,
    GarblerClient_decode, decode_final_labels, decode_label, EvaluatorClient_output,
    List.range_succ, List.range', h0, h1]

/-! ## The search of `CombineResults` without a match -/

/-- When no `m` below `Q` matches, the loop of `CombineResults` throws if `Q` is at most
`INT_MAX`; otherwise the counter `m` is incremented past `INT_MAX` first. -/
theorem CombineResults_no_match (par : Params) (hP : 1 < par.P)
    (combined_vote : Vote_Ciphertext) (decs : List PartialDecryptionRow)
    (hnone : ∀ m, m < par.Q →
      ModularExponentiation par.G m par.P ≠ searchTarget par combined_vote decs) :
    CombineResults par combined_vote decs =
      if par.Q ≤ INT_MAX then Except.error TallyError.noMatch
      else Except.error TallyError.counterOverflow := by
  rw [CombineResults_eq_searchLoop par hP]
  by_cases hQ : par.Q ≤ INT_MAX
  · rw [if_pos hQ]
    exact searchLoop_noMatch par _ hQ hnone _ 0 (Nat.zero_le _) (by omega)
  · rw [if_neg hQ]
    exact searchLoop_overflow par _ (by omega) (fun j hj => hnone j (by omega)) _ 0
      (Nat.zero_le _) (by omega)

/-- In a group of odd prime order no power of the generator is `-1`. -/
theorem Params.Valid.pow_ne_neg_one {par : Params} (hv : par.Valid) (hQ2 : par.Q ≠ 2)
    (m : Nat) : (par.G : ZMod par.P) ^ m ≠ -1 := by
  haveI : Fact par.P.Prime := ⟨hv.P_prime⟩
  intro h
  have hodd : Odd par.Q := hv.Q_prime.odd_of_ne_two hQ2
  have h1 : ((par.G : ZMod par.P) ^ m) ^ par.Q = 1 := by
    rw [← pow_mul, Nat.mul_comm, pow_mul, hv.cast_G_pow, one_pow]
  rw [h, hodd.neg_one_pow] at h1
  have h2 : ((2 : Nat) : ZMod par.P) = 0 := by
    push_cast
    linear_combination -h1
  rw [ZMod.natCast_zmod_eq_zero_iff_dvd] at h2
  exact hv.P_ne_two ((Nat.prime_dvd_prime_iff_eq hv.P_prime Nat.prime_two).mp h2)

/-- Without partial decryptions the search target is `b`. -/
theorem searchTarget_without_decryptions (par : Params) (hP : 1 < par.P) (a b : Nat)
    (hb : b < par.P) : searchTarget par { a := a, b := b } [] = b := by
  simp only [searchTarget, combinedDecryption, List.map_nil, List.prod_nil,
    Nat.mod_eq_of_lt hP, inverse_one hP, a_times_b_mod_c, Nat.mul_one]
  exact Nat.mod_eq_of_lt hb

/-- The ciphertext component `b = P - 1` without partial decryptions has no match. -/
theorem no_match_for_minus_one (par : Params) (hv : par.Valid) (hQ2 : par.Q ≠ 2) (a m : Nat) :
    ModularExponentiation par.G m par.P ≠ searchTarget par { a := a, b := par.P - 1 } [] := by
  have hP0 : 0 < par.P := hv.P_prime.pos
  rw [searchTarget_without_decryptions par hv.one_lt_P a _ (by omega)]
  intro h
  have h2 := congrArg (Nat.cast : Nat → ZMod par.P) h
  rw [cast_modExp, Nat.cast_sub hv.P_prime.one_lt.le, ZMod.natCast_self, Nat.cast_one,
    zero_sub] at h2
  exact hv.pow_ne_neg_one hQ2 m h2

/-! ## The labels of `generate_labels` -/

theorem xorbuf_length (input mask : ByteBlock) (count : Nat) :
    (xorbuf input mask count).length = count := by
  simp [xorbuf]

theorem xorbuf_getD (input mask : ByteBlock) (count j : Nat) (hj : j < count) :
    (xorbuf input mask count).getD j 0 = input.getD j 0 ^^^ mask.getD j 0 := by
  simp [xorbuf, List.getD_eq_getElem?_getD, List.getElem?_range hj]

/-- Over `bigParams` the ciphertext `(1, P - 1)` has no match below `Q`, and the search
stops at the counter overflow. -/
theorem no_match_overflow_big :
    (∀ m, m < bigParams.Q → ModularExponentiation bigParams.G m bigParams.P ≠
        searchTarget bigParams { a := 1, b := 4294990246 } []) ∧
      CombineResults bigParams { a := 1, b := 4294990246 } [] =
        Except.error TallyError.counterOverflow := by
  have hnone : ∀ m, m < bigParams.Q → ModularExponentiation bigParams.G m bigParams.P ≠
      searchTarget bigParams { a := 1, b := 4294990246 } [] :=
    fun m _ => no_match_for_minus_one bigParams bigParams_valid (by decide) 1 m
  refine ⟨hnone, ?_⟩
  rw [CombineResults_no_match bigParams bigParams_valid.one_lt_P _ _ hnone]
  exact if_neg (by decide)

/-- Over `smallParams` the ciphertext `(1, 5)` has no match, and the search throws. -/
theorem no_match_small :
    CombineResults smallParams { a := 1, b := 5 } [] = Except.error TallyError.noMatch := by
  decide

/-! ## The offset of `generate_labels` -/

theorem bitCountFrom_pos (fuel x : Nat) (hx : x ≠ 0) (hf : x ≤ fuel) :
    0 < bitCountFrom fuel x := by
  cases fuel with
  | zero => omega
  | succ n => simp [bitCountFrom, hx]

theorem testBit_bitCountFrom (fuel : Nat) : ∀ x, x ≠ 0 → x ≤ fuel →
    x.testBit (bitCountFrom fuel x - 1) = true := by
  induction fuel with
  | zero => intro x hx hf; omega
  | succ n ih =>
    intro x hx hf
    simp only [bitCountFrom, if_neg hx, Nat.add_sub_cancel]
    by_cases h2 : x / 2 = 0
    · have h1 : x = 1 := by omega
      subst h1
      cases n <;> simp [bitCountFrom]
    · have hle : x / 2 ≤ n := by omega
      have hpos := bitCountFrom_pos n (x / 2) h2 hle
      have := ih (x / 2) h2 hle
      obtain ⟨k, hk⟩ : ∃ k, bitCountFrom n (x / 2) = k + 1 := ⟨_, (Nat.succ_pred_eq_of_pos hpos).symm⟩
      rw [hk] at this ⊢
      rw [Nat.testBit_succ]
      simpa using this

theorem or_two_pow_of_testBit (x k : Nat) (h : x.testBit k = true) : x ||| 2 ^ k = x := by
  apply Nat.eq_of_testBit_eq
  intro i
  rw [Nat.testBit_or, Nat.testBit_two_pow]
  by_cases hik : k = i
  · subst hik; simp [h]
  · simp [hik]

/-- Setting the bit `BitCount() - 1` of a non-zero draw changes nothing: it is the
highest bit that is set already. -/
theorem generate_delta_unchanged (draw : ByteBlock) (h0 : byteblock_to_integer draw ≠ 0)
    (hsize : BitCount (byteblock_to_integer draw) ≤ 4294967296) :
    generate_delta draw = integer_to_byteblock (byteblock_to_integer draw) := by
  have hpos := bitCountFrom_pos _ _ h0 (Nat.le_refl (byteblock_to_integer draw))
  have hbit := testBit_bitCountFrom _ _ h0 (Nat.le_refl (byteblock_to_integer draw))
  have hpos2 : (BitCount (byteblock_to_integer draw) + 4294967295) % 4294967296 =
      BitCount (byteblock_to_integer draw) - 1 := by
    unfold BitCount at hsize ⊢
    omega
  unfold generate_delta
  simp only [hpos2]
  unfold BitCount
  rw [or_two_pow_of_testBit _ _ hbit]

/-- A draw of sixteen bytes whose first byte is below `128` stays as drawn, with the
top-order bit `0`; a draw whose first byte is `0` yields an offset of fifteen bytes. -/
theorem generate_delta_top_bit_clear :
    generate_delta [1, 2, 3, 4, 5, 6, 7, 8, 9, 10, 11, 12, 13, 14, 15, 16] =
        [1, 2, 3, 4, 5, 6, 7, 8, 9, 10, 11, 12, 13, 14, 15, 16] ∧
      topOrderBit 16
        (generate_delta [1, 2, 3, 4, 5, 6, 7, 8, 9, 10, 11, 12, 13, 14, 15, 16]) = false ∧
      (generate_delta [0, 200, 3, 4, 5, 6, 7, 8, 9, 10, 11, 12, 13, 14, 15, 16]).length =
        15 := by
  set_option maxRecDepth 100000 in decide

/-! ## Gate evaluation -/

/-- `evaluate_entries` returns the label of the first entry that verifies, and the
default wire when there is none. -/
theorem evaluate_entries_eq (lp : LabelParams) (cd : CryptoDriver) (lhs rhs : GarbledWire)
    (entries : List ByteBlock) :
    evaluate_entries lp cd lhs rhs entries =
      match (entries.filter (entryVerifies lp cd lhs rhs)).head? with
      | some encryption =>
        { value := snip_decryption lp
            (xorbuf encryption (cd.hash_inputs lhs.value rhs.value)
              (2 * lp.LABEL_TAG_LENGTH)) }
      | none => default := by
  induction entries with
  | nil => rfl
  | cons e rest ih =>
    by_cases h : entryVerifies lp cd lhs rhs e = true
    · have h2 := h
      unfold entryVerifies at h2
      simp [evaluate_entries, List.filter, h, h2]
    · have h2 := h
      unfold entryVerifies at h2
      simp only [Bool.not_eq_true] at h h2
      simp [evaluate_entries, List.filter, h, h2, ih]

/-- When no entry verifies, `evaluate_gate` returns the default wire. -/
theorem evaluate_gate_none (lp : LabelParams) (cd : CryptoDriver) (gate : GarbledGate)
    (lhs rhs : GarbledWire)
    (hnone : ∀ encryption ∈ gate.entries, entryVerifies lp cd lhs rhs encryption = false) :
    evaluate_gate lp cd gate lhs rhs = default := by
  unfold evaluate_gate
  rw [evaluate_entries_eq, List.filter_eq_nil_iff.mpr (fun e he => by simp [hnone e he])]
  rfl

/-- The loop of `EvaluatorClient::run` over the tables ends without an error when
every gate it meets is an AND, XOR or NOT gate, whatever the tables hold. -/
theorem evaluate_tables_ok (lp : LabelParams) (cd : CryptoDriver) (circuit : Circuit)
    (tables : List GarbledGate) : ∀ (i : Nat) (gwires_all : List GarbledWire),
    (∀ k, i ≤ k → k < i + tables.length →
      (circuit.gates.getD k default).type = 1 ∨ (circuit.gates.getD k default).type = 2 ∨
        (circuit.gates.getD k default).type = 3) →
    ∃ final, evaluate_tables lp cd circuit tables i gwires_all = Except.ok final := by
  induction tables with
  | nil => intro i gwires_all _; exact ⟨gwires_all, rfl⟩
  | cons table rest ih =>
    intro i gwires_all htypes
    have hrest : ∀ k, i + 1 ≤ k → k < i + 1 + rest.length →
        (circuit.gates.getD k default).type = 1 ∨ (circuit.gates.getD k default).type = 2 ∨
          (circuit.gates.getD k default).type = 3 :=
      fun k h1 h2 => htypes k (by omega) (by simp only [List.length_cons]; omega)
    have hi := htypes i (Nat.le_refl i) (by simp only [List.length_cons]; omega)
    unfold evaluate_tables
    by_cases h1 : (circuit.gates.getD i default).type = 1
    · simp only [h1, if_true]
      exact ih _ _ hrest
    · by_cases h2 : (circuit.gates.getD i default).type = 2
      · simp only [h2, if_true]
        exact ih _ _ hrest
      · have h3 : (circuit.gates.getD i default).type = 3 := by tauto
        simp only [h3, if_true]
        exact ih _ _ hrest

/-- The entry `[1, 1, 1, 1]` does not verify under the labels `[1, 2]` and `[3, 4]`;
`evaluate_gate` returns the default wire and `EvaluatorClient::run` goes on to send
its final labels. -/
theorem evaluate_gate_without_valid_entry :
    (∀ encryption ∈ [[1, 1, 1, 1]],
        entryVerifies smallLabels smallCrypto { value := [1, 2] } { value := [3, 4] }
          encryption = false) ∧
      evaluate_gate smallLabels smallCrypto { entries := [[1, 1, 1, 1]] }
        { value := [1, 2] } { value := [3, 4] } = { value := [] } ∧
      EvaluatorClient_labels smallLabels smallCrypto andCircuit
        ([{ entries := [[1, 1, 1, 1]] }], true) ([{ value := [1, 2] }], true) [[3, 4]] =
        Except.ok [{ value := [] }] := by
  decide

/-! ## Garbled tables: one entry verifies -/

theorem CleanGrow_getD (block : ByteBlock) (n j : Nat) :
    (CleanGrow block n).getD j 0 = block.getD j 0 := by
  unfold CleanGrow
  simp only [List.getD_eq_getElem?_getD]
  by_cases hj : j < block.length
  · rw [List.getElem?_append_left hj]
  · rw [List.getElem?_append_right (by omega), List.getElem?_replicate,
      List.getElem?_eq_none (by omega)]
    split <;> rfl

/-- A block encodes `0` exactly when all its bytes are `0`. -/
theorem byteblock_to_integer_eq_zero (block : ByteBlock) :
    byteblock_to_integer block = 0 ↔ ∀ byte ∈ block, byte = 0 := by
  have key : ∀ (bs : ByteBlock) (acc : Nat),
      bs.foldl (fun acc byte => acc * 256 + byte) acc = 0 ↔
        acc = 0 ∧ ∀ byte ∈ bs, byte = 0 := by
    intro bs
    induction bs with
    | nil => intro acc; simp
    | cons b rest ih =>
      intro acc
      rw [List.foldl_cons, ih]
      constructor
      · rintro ⟨h1, h2⟩
        refine ⟨by omega, ?_⟩
        intro byte hb
        rcases List.mem_cons.mp hb with h | h
        · omega
        · exact h2 byte h
      · rintro ⟨h1, h2⟩
        have hb := h2 b (List.mem_cons_self _ _)
        exact ⟨by omega, fun byte hbyte => h2 byte (List.mem_cons_of_mem _ hbyte)⟩
  unfold byteblock_to_integer
  rw [key]
  simp

/-- The entry for the labels `l`, `r`, decrypted with the hash of `l2`, `r2`. -/
theorem xorbuf_encrypt_label_getD (lp : LabelParams) (cd : CryptoDriver)
    (l r z l2 r2 : GarbledWire) (j : Nat) (hj : j < 2 * lp.LABEL_TAG_LENGTH) :
    (xorbuf (encrypt_label lp cd l r z) (cd.hash_inputs l2.value r2.value)
        (2 * lp.LABEL_TAG_LENGTH)).getD j 0 =
      (cd.hash_inputs l.value r.value).getD j 0 ^^^ z.value.getD j 0 ^^^
        (cd.hash_inputs l2.value r2.value).getD j 0 := by
  rw [xorbuf_getD _ _ _ _ hj]
  unfold encrypt_label
  rw [xorbuf_getD _ _ _ _ hj, CleanGrow_getD]

/-- An entry verifies under the hash of `l2`, `r2` exactly when the tag bytes of the
two hashes agree, for an output label of `LABEL_LENGTH` bytes. -/
theorem entryVerifies_encrypt_label (lp : LabelParams) (cd : CryptoDriver)
    (hLT : lp.LABEL_LENGTH ≤ lp.LABEL_TAG_LENGTH) (l r z l2 r2 : GarbledWire)
    (hz : z.value.length = lp.LABEL_LENGTH) :
    entryVerifies lp cd l2 r2 (encrypt_label lp cd l r z) = true ↔
      hashTag lp cd l r = hashTag lp cd l2 r2 := by
  unfold entryVerifies verify_decryption
  rw [decide_eq_true_iff, byteblock_to_integer_eq_zero]
  have hbyte : ∀ j, j < lp.LABEL_TAG_LENGTH →
      (xorbuf (encrypt_label lp cd l r z) (cd.hash_inputs l2.value r2.value)
          (2 * lp.LABEL_TAG_LENGTH)).getD (lp.LABEL_LENGTH + j) 0 =
        (cd.hash_inputs l.value r.value).getD (lp.LABEL_LENGTH + j) 0 ^^^
          (cd.hash_inputs l2.value r2.value).getD (lp.LABEL_LENGTH + j) 0 := by
    intro j hj
    rw [xorbuf_encrypt_label_getD lp cd l r z l2 r2 _ (by omega),
      List.getD_eq_default z.value 0 (by omega), Nat.xor_zero]
  constructor
  · intro h
    unfold hashTag
    apply List.map_congr_left
    intro j hj
    have hj2 : j < lp.LABEL_TAG_LENGTH := List.mem_range.mp hj
    have hmem : (xorbuf (encrypt_label lp cd l r z) (cd.hash_inputs l2.value r2.value)
        (2 * lp.LABEL_TAG_LENGTH)).getD (lp.LABEL_LENGTH + j) 0 ∈
        List.take lp.LABEL_TAG_LENGTH (List.drop lp.LABEL_LENGTH
          (xorbuf (encrypt_label lp cd l r z) (cd.hash_inputs l2.value r2.value)
            (2 * lp.LABEL_TAG_LENGTH))) := by
      rw [List.mem_iff_getElem]
      refine ⟨j, by simp [xorbuf_length]; omega, ?_⟩
      rw [List.getElem_take, List.getElem_drop, List.getD_eq_getElem]
    have := h _ hmem
    rw [hbyte j hj2] at this
    exact Nat.xor_eq_zero.mp this
  · intro h byte hmem
    rw [List.mem_iff_getElem] at hmem
    obtain ⟨j, hj, rfl⟩ := hmem
    have hj2 : j < lp.LABEL_TAG_LENGTH := by
      simp [xorbuf_length] at hj; omega
    rw [List.getElem_take, List.getElem_drop, ← List.getD_eq_getElem _ 0, hbyte j hj2]
    have hjth := congrArg (fun block => block.getD j 0) h
    simp only [hashTag, List.getD_eq_getElem?_getD, List.getElem?_map,
      List.getElem?_range hj2, Option.map_some', Option.getD_some] at hjth
    simp only [List.getD_eq_getElem?_getD]
    rw [hjth, Nat.xor_self]

/-- Decrypting an entry with the hash it was encrypted with gives back the output
label. -/
theorem snip_decryption_encrypt_label (lp : LabelParams) (cd : CryptoDriver)
    (hLT : lp.LABEL_LENGTH ≤ lp.LABEL_TAG_LENGTH) (l r z : GarbledWire)
    (hz : z.value.length = lp.LABEL_LENGTH) :
    snip_decryption lp (xorbuf (encrypt_label lp cd l r z)
      (cd.hash_inputs l.value r.value) (2 * lp.LABEL_TAG_LENGTH)) = z.value := by
  unfold snip_decryption
  apply List.ext_getElem (by simp [xorbuf_length, hz]; omega)
  intro j h1 h2
  have hj : j < lp.LABEL_LENGTH := by omega
  rw [List.getElem_take, ← List.getD_eq_getElem _ 0, ← List.getD_eq_getElem _ 0,
    xorbuf_encrypt_label_getD lp cd l r z l r j (by omega), Nat.xor_assoc, Nat.xor_comm,
    Nat.xor_assoc, Nat.xor_self, Nat.xor_zero]

theorem labelOf_length (labels : GarbledLabels) (n j : Nat)
    (hz0 : (labels.zeros.getD j default).value.length = n)
    (hz1 : (labels.ones.getD j default).value.length = n) (bit : Bool) :
    (labelOf labels bit j).value.length = n := by
  cases bit
  · exact hz0
  · exact hz1

/-- When exactly the entry `encryption` of a shuffled table verifies, `evaluate_gate`
decrypts that entry. -/
theorem evaluate_gate_of_filter (lp : LabelParams) (cd : CryptoDriver)
    (shuffle : List ByteBlock → List ByteBlock) (entries : List ByteBlock)
    (hperm : (shuffle entries).Perm entries) (lhs rhs : GarbledWire)
    (encryption : ByteBlock)
    (hfilter : entries.filter (entryVerifies lp cd lhs rhs) = [encryption]) :
    ((shuffle entries).filter (entryVerifies lp cd lhs rhs)).length = 1 ∧
      evaluate_gate lp cd { entries := shuffle entries } lhs rhs =
        { value := snip_decryption lp
            (xorbuf encryption (cd.hash_inputs lhs.value rhs.value)
              (2 * lp.LABEL_TAG_LENGTH)) } := by
  have h1 : (shuffle entries).filter (entryVerifies lp cd lhs rhs) = [encryption] := by
    have := hperm.filter (entryVerifies lp cd lhs rhs)
    rw [hfilter] at this
    exact List.perm_singleton.mp this
  refine ⟨by rw [h1]; rfl, ?_⟩
  unfold evaluate_gate
  rw [evaluate_entries_eq, h1]
  rfl

/-! ## The decoding loop of `GarblerClient::run` -/

/-- The scan of a label over the wires `js` appends to the output so far. -/
theorem decode_label_append (labels : GarbledLabels) (gw : GarbledWire) (js ks : List Nat) :
    ∀ final_output, decode_label labels gw (js ++ ks) final_output =
      decode_label labels gw ks (decode_label labels gw js final_output) := by
  induction js with
  | nil => intro final_output; rfl
  | cons j rest ih =>
    intro final_output
    simp only [List.cons_append, decode_label]
    split
    · exact ih _
    · split
      · exact ih _
      · exact ih _

/-- A label that matches none of the wires `js` appends nothing. -/
theorem decode_label_no_match (labels : GarbledLabels) (gw : GarbledWire) (js : List Nat)
    (hnone : ∀ j ∈ js, (labels.zeros.getD j default).value ≠ gw.value ∧
      (labels.ones.getD j default).value ≠ gw.value) :
    ∀ final_output, decode_label labels gw js final_output = final_output := by
  induction js with
  | nil => intro final_output; rfl
  | cons j rest ih =>
    intro final_output
    have hj := hnone j (List.mem_cons_self _ _)
    simp only [decode_label, if_neg hj.1, if_neg hj.2]
    exact ih (fun k hk => hnone k (List.mem_cons_of_mem _ hk)) _

theorem decode_label_single (labels : GarbledLabels) (gw : GarbledWire) (j : Nat)
    (final_output : String) :
    decode_label labels gw [j] final_output = final_output ++ decodedBit labels gw j := by
  unfold decodedBit
  simp only [decode_label]
  split
  · rfl
  · split
    · rfl
    · exact (String.append_empty _).symm

/-- A label that can only match the wire `j` among the wires scanned appends the
character it decodes to on `j`. -/
theorem decode_label_range (labels : GarbledLabels) (gw : GarbledWire) (first n j : Nat)
    (h1 : first ≤ j) (h2 : j < first + n)
    (hother : ∀ k, first ≤ k → k < first + n → k ≠ j →
      (labels.zeros.getD k default).value ≠ gw.value ∧
        (labels.ones.getD k default).value ≠ gw.value)
    (final_output : String) :
    decode_label labels gw (List.range' first n) final_output =
      final_output ++ decodedBit labels gw j := by
  have hsplit : List.range' first n =
      List.range' first (j - first) ++ ([j] ++ List.range' (j + 1) (first + n - (j + 1))) := by
    have e1 : n = (j - first) + (1 + (first + n - (j + 1))) := by omega
    have e2 : List.range' (first + (j - first)) (1 + (first + n - (j + 1))) =
        [j] ++ List.range' (j + 1) (first + n - (j + 1)) := by
      have : first + (j - first) = j := by omega
      rw [this, Nat.add_comm 1, List.range'_succ]
      rfl
    conv_lhs => rw [e1]
    rw [← e2, List.range'_append_1, Nat.add_comm]
  rw [hsplit, decode_label_append, decode_label_append, decode_label_single,
    decode_label_no_match labels gw (List.range' first (j - first)) (by
      intro k hk
      rw [List.mem_range'_1] at hk
      exact hother k hk.1 (by omega) (by omega)),
    decode_label_no_match labels gw (List.range' (j + 1) (first + n - (j + 1))) (by
      intro k hk
      rw [List.mem_range'_1] at hk
      exact hother k (by omega) (by omega) (by omega))]

/-- When the `k`-th received label can only match the `k`-th output wire, the string
built by the decoding loop is the one of the specification. -/
theorem decode_final_labels_eq (circuit : Circuit) (labels : GarbledLabels) :
    ∀ (final_labels : List GarbledWire) (k0 : Nat) (final_output : String),
    (∀ k (hk : k < final_labels.length),
      circuit.garbler_input_length + circuit.evaluator_input_length ≤
          circuit.num_wire - circuit.output_length + (k0 + k) ∧
        circuit.num_wire - circuit.output_length + (k0 + k) < circuit.num_wire ∧
        ∀ j, circuit.garbler_input_length + circuit.evaluator_input_length ≤ j →
          j < circuit.num_wire → j ≠ circuit.num_wire - circuit.output_length + (k0 + k) →
          (labels.zeros.getD j default).value ≠ (final_labels.get ⟨k, hk⟩).value ∧
            (labels.ones.getD j default).value ≠ (final_labels.get ⟨k, hk⟩).value) →
    decode_final_labels circuit labels final_labels final_output =
      final_output ++ expectedOutput circuit labels final_labels k0 := by
  intro final_labels
  induction final_labels with
  | nil => intro k0 final_output _; exact (String.append_empty _).symm
  | cons gw rest ih =>
    intro k0 final_output h
    obtain ⟨h1, h2, h3⟩ := h 0 (by simp)
    simp only [Nat.add_zero, List.get_eq_getElem, List.getElem_cons_zero] at h1 h2 h3
    simp only [decode_final_labels, expectedOutput]
    rw [decode_label_range labels gw _ _
      (circuit.num_wire - circuit.output_length + k0) h1 (by omega)
      (fun j hj1 hj2 hj3 => h3 j hj1 (by omega) hj3),
      ih (k0 + 1) _ (fun k hk => by
        have := h (k + 1) (by simp only [List.length_cons]; omega)
        simpa [Nat.add_assoc, Nat.add_comm 1 k] using this),
      String.append_assoc]

/-- The string of the specification has one character per label when every label is
the zero-label or the one-label of its output wire. -/
theorem expectedOutput_length (circuit : Circuit) (labels : GarbledLabels) :
    ∀ (final_labels : List GarbledWire) (k0 : Nat),
    (∀ k (hk : k < final_labels.length),
      (labels.zeros.getD (circuit.num_wire - circuit.output_length + (k0 + k))
          default).value = (final_labels.get ⟨k, hk⟩).value ∨
        (labels.ones.getD (circuit.num_wire - circuit.output_length + (k0 + k))
          default).value = (final_labels.get ⟨k, hk⟩).value) →
    (expectedOutput circuit labels final_labels k0).length = final_labels.length := by
  intro final_labels
  induction final_labels with
  | nil => intro k0 _; rfl
  | cons gw rest ih =>
    intro k0 h
    have h0 := h 0 (by simp)
    simp only [Nat.add_zero, List.get_eq_getElem, List.getElem_cons_zero] at h0
    have hbit : (decodedBit labels gw
        (circuit.num_wire - circuit.output_length + k0)).length = 1 := by
      unfold decodedBit
      split
      · rfl
      · rw [if_pos (by tauto)]; rfl
    simp only [expectedOutput, String.length_append, hbit, List.length_cons]
    rw [ih (k0 + 1) (fun k hk => by
      have := h (k + 1) (by simp only [List.length_cons]; omega)
      simpa [Nat.add_assoc, Nat.add_comm 1 k] using this)]
    omega

/-- Step 5 of `GarblerClient::run` on labels with a valid MAC, each of which can only
match its own output wire: the string returned is the one of the specification, with
one character per label when every label is a label of its output wire. -/
theorem GarblerClient_decode_eq (circuit : Circuit) (labels : GarbledLabels)
    (final_labels : List GarbledWire)
    (hown : ∀ k (hk : k < final_labels.length),
      circuit.garbler_input_length + circuit.evaluator_input_length ≤
          circuit.num_wire - circuit.output_length + k ∧
        circuit.num_wire - circuit.output_length + k < circuit.num_wire ∧
        ∀ j, circuit.garbler_input_length + circuit.evaluator_input_length ≤ j →
          j < circuit.num_wire → j ≠ circuit.num_wire - circuit.output_length + k →
          (labels.zeros.getD j default).value ≠ (final_labels.get ⟨k, hk⟩).value ∧
            (labels.ones.getD j default).value ≠ (final_labels.get ⟨k, hk⟩).value) :
    GarblerClient_decode circuit labels (final_labels, true) =
        Except.ok (expectedOutput circuit labels final_labels 0) ∧
      ((∀ k (hk : k < final_labels.length),
          (labels.zeros.getD (circuit.num_wire - circuit.output_length + k)
              default).value = (final_labels.get ⟨k, hk⟩).value ∨
            (labels.ones.getD (circuit.num_wire - circuit.output_length + k)
              default).value = (final_labels.get ⟨k, hk⟩).value) →
        (expectedOutput circuit labels final_labels 0).length = final_labels.length) := by
  constructor
  · simp only [GarblerClient_decode, Bool.not_true, Bool.false_eq_true, if_false]
    rw [decode_final_labels_eq circuit labels final_labels 0 ""
      (fun k hk => by simpa using hown k hk), String.empty_append]
  · intro hmatch
    exact expectedOutput_length circuit labels final_labels 0
      (fun k hk => by simpa using hmatch k hk)

/-- A received label that is no label of the garbler adds no character: for the labels
of the scenario Yao-XOR, the label `[202, 1]` is decoded to the empty string. -/
theorem decode_unmatched_label :
    GarblerClient_decode xorCircuit
        (generate_labels smallLabels xorCircuit smallRandomness.deltaDraw
          smallRandomness.draws)
        ([{ value := [202, 1] }], true) = Except.ok "" ∧
      ("" : String).length ≠ [({ value := [202, 1] } : GarbledWire)].length := by
  decide

/-! ## XOR gates -/

theorem labelOf_generate_labels (lp : LabelParams) (circuit : Circuit) (deltaDraw : ByteBlock)
    (draws : Nat → ByteBlock) (bit : Bool) (j : Nat) (hj : j < circuit.num_wire) :
    labelOf (generate_labels lp circuit deltaDraw draws) bit j =
      if bit then { value := xorbuf (draws j) (generate_delta deltaDraw) lp.LABEL_LENGTH }
      else { value := draws j } := by
  cases bit <;>
    simp [labelOf, generate_labels, List.getD_eq_getElem?_getD, List.getElem?_range hj]

/-- Two blocks of `n` bytes are equal when they agree byte by byte. -/
theorem block_ext (n : Nat) (x y : ByteBlock) (hx : x.length = n) (hy : y.length = n) :
    x = y ↔ ∀ j, j < n → x.getD j 0 = y.getD j 0 := by
  constructor
  · rintro rfl j _; rfl
  · intro h
    apply List.ext_getElem (by rw [hx, hy])
    intro j h1 h2
    have := h j (by omega)
    rwa [List.getD_eq_getElem _ 0 h1, List.getD_eq_getElem _ 0 h2] at this

/-- An XOR gate in `EvaluatorClient::run`: the label of the output wire is the XOR of
the labels of the input wires, whatever the table holds. -/
theorem evaluate_tables_xor (lp : LabelParams) (cd : CryptoDriver) (circuit : Circuit)
    (table : GarbledGate) (i : Nat) (gwires_all : List GarbledWire)
    (htype : (circuit.gates.getD i default).type = 2) :
    evaluate_tables lp cd circuit [table] i gwires_all =
      Except.ok (gwires_all.set (circuit.gates.getD i default).output
        { value := xorbuf (gwires_all.getD (circuit.gates.getD i default).lhs default).value
            (gwires_all.getD (circuit.gates.getD i default).rhs default).value
            lp.LABEL_LENGTH }) := by
  simp only [evaluate_tables, htype]
  rfl

/-- The XOR of the labels of `generate_labels` for the bits `alpha`, `beta` on the wires
`l`, `r` is the label of `alpha xor beta` on the wire `out` exactly when the block drawn
for `out` is the XOR of the blocks drawn for `l` and `r`. -/
theorem xor_label_iff (lp : LabelParams) (circuit : Circuit) (deltaDraw : ByteBlock)
    (draws : Nat → ByteBlock) (l r out : Nat) (hl : l < circuit.num_wire)
    (hr : r < circuit.num_wire) (ho : out < circuit.num_wire)
    (hlen : (draws out).length = lp.LABEL_LENGTH) (alpha beta : Bool) :
    ({ value := xorbuf (labelOf (generate_labels lp circuit deltaDraw draws) alpha l).value
        (labelOf (generate_labels lp circuit deltaDraw draws) beta r).value
        lp.LABEL_LENGTH } : GarbledWire) =
        labelOf (generate_labels lp circuit deltaDraw draws) (xor alpha beta) out ↔
      draws out = xorbuf (draws l) (draws r) lp.LABEL_LENGTH := by
  rw [labelOf_generate_labels lp circuit deltaDraw draws _ l hl,
    labelOf_generate_labels lp circuit deltaDraw draws _ r hr,
    labelOf_generate_labels lp circuit deltaDraw draws _ out ho,
    block_ext lp.LABEL_LENGTH (draws out) _ hlen (xorbuf_length _ _ _)]
  have hbytes : ∀ a b d o : Nat, (a ^^^ d ^^^ b = o ^^^ d ↔ o = a ^^^ b) ∧
      (a ^^^ (b ^^^ d) = o ^^^ d ↔ o = a ^^^ b) ∧
      (a ^^^ d ^^^ (b ^^^ d) = o ↔ o = a ^^^ b) := by
    intro a b d o
    have e1 : a ^^^ d ^^^ b = a ^^^ b ^^^ d := by
      rw [Nat.xor_assoc, Nat.xor_comm d b, ← Nat.xor_assoc]
    have e2 : a ^^^ (b ^^^ d) = a ^^^ b ^^^ d := by rw [Nat.xor_assoc]
    have e3 : a ^^^ d ^^^ (b ^^^ d) = a ^^^ b := by
      rw [Nat.xor_assoc, ← Nat.xor_assoc d b d, Nat.xor_comm d b, Nat.xor_assoc b d d,
        Nat.xor_self, Nat.xor_zero]
    refine ⟨?_, ?_, ?_⟩
    · rw [e1, Nat.xor_left_inj]; exact eq_comm
    · rw [e2, Nat.xor_left_inj]; exact eq_comm
    · rw [e3]; exact eq_comm
  cases alpha <;> cases beta <;>
    simp only [Bool.xor_false, Bool.xor_true, Bool.not_false, Bool.not_true, if_true,
      Bool.false_eq_true, if_false, GarbledWire.mk.injEq]
  · rw [block_ext lp.LABEL_LENGTH _ (draws out) (xorbuf_length _ _ _) hlen]
    exact ⟨fun h j hj => (h j hj).symm, fun h j hj => (h j hj).symm⟩
  · rw [block_ext lp.LABEL_LENGTH _ _ (xorbuf_length _ _ _) (xorbuf_length _ _ _)]
    constructor
    · intro h j hj
      have := h j hj
      rw [xorbuf_getD _ _ _ _ hj, xorbuf_getD _ _ _ _ hj, xorbuf_getD _ _ _ _ hj] at this
      rw [xorbuf_getD _ _ _ _ hj]
      exact (hbytes _ _ _ _).2.1.mp this
    · intro h j hj
      have := h j hj
      rw [xorbuf_getD _ _ _ _ hj] at this
      rw [xorbuf_getD _ _ _ _ hj, xorbuf_getD _ _ _ _ hj, xorbuf_getD _ _ _ _ hj]
      exact (hbytes _ _ _ _).2.1.mpr this
  · rw [block_ext lp.LABEL_LENGTH _ _ (xorbuf_length _ _ _) (xorbuf_length _ _ _)]
    constructor
    · intro h j hj
      have := h j hj
      rw [xorbuf_getD _ _ _ _ hj, xorbuf_getD _ _ _ _ hj, xorbuf_getD _ _ _ _ hj] at this
      rw [xorbuf_getD _ _ _ _ hj]
      exact (hbytes _ _ _ _).1.mp this
    · intro h j hj
      have := h j hj
      rw [xorbuf_getD _ _ _ _ hj] at this
      rw [xorbuf_getD _ _ _ _ hj, xorbuf_getD _ _ _ _ hj, xorbuf_getD _ _ _ _ hj]
      exact (hbytes _ _ _ _).1.mpr this
  · rw [block_ext lp.LABEL_LENGTH _ (draws out) (xorbuf_length _ _ _) hlen]
    constructor
    · intro h j hj
      have := h j hj
      rw [xorbuf_getD _ _ _ _ hj, xorbuf_getD _ _ _ _ hj, xorbuf_getD _ _ _ _ hj] at this
      rw [xorbuf_getD _ _ _ _ hj]
      exact (hbytes _ _ _ _).2.2.mp this
    · intro h j hj
      have := h j hj
      rw [xorbuf_getD _ _ _ _ hj] at this
      rw [xorbuf_getD _ _ _ _ hj, xorbuf_getD _ _ _ _ hj, xorbuf_getD _ _ _ _ hj]
      exact (hbytes _ _ _ _).2.2.mpr this

/-! ## Registration -/

/-- A valid request for an id that the store holds is answered with the stored row. -/
theorem HandleRegister_registered {DB : Type} (RSA_BLIND_sign : Nat → Nat)
    (dbd : DBDriver DB) (db : DB) (msg : VoterToRegistrar_Register_Message)
    (hfound : (dbd.find_voter db msg.id).id ≠ "") :
    RegistrarClient_HandleRegister RSA_BLIND_sign dbd db (msg, true) =
      Except.ok (dbd.find_voter db msg.id,
        dbd.insert_voter db (dbd.find_voter db msg.id)) := by
  simp [RegistrarClient_HandleRegister, hfound]

/-- A valid request for an id that the store does not hold is answered with a fresh
signature. -/
theorem HandleRegister_fresh {DB : Type} (RSA_BLIND_sign : Nat → Nat)
    (dbd : DBDriver DB) (db : DB) (msg : VoterToRegistrar_Register_Message)
    (habsent : (dbd.find_voter db msg.id).id = "") :
    RegistrarClient_HandleRegister RSA_BLIND_sign dbd db (msg, true) =
      Except.ok ({ id := msg.id, registrar_signature := RSA_BLIND_sign msg.vote },
        dbd.insert_voter db
          { id := msg.id, registrar_signature := RSA_BLIND_sign msg.vote }) := by
  simp [RegistrarClient_HandleRegister, habsent]

/-- A call of `HandleRegister` keeps the row stored under a non-empty id. -/
theorem HandleRegister_keeps {DB : Type} (RSA_BLIND_sign : Nat → Nat) (dbd : DBDriver DB)
    (hk : dbd.Keyed) (row : VoterRow) (hid : row.id ≠ "") (db : DB)
    (hrow : dbd.find_voter db row.id = row)
    (incoming : VoterToRegistrar_Register_Message × Bool)
    (reply : RegistrarToVoter_Blind_Signature_Message × DB)
    (hcall : RegistrarClient_HandleRegister RSA_BLIND_sign dbd db incoming =
      Except.ok reply) :
    dbd.find_voter reply.2 row.id = row := by
  obtain ⟨msg, isFromVoter⟩ := incoming
  cases isFromVoter with
  | false => simp [RegistrarClient_HandleRegister] at hcall
  | true =>
    by_cases hsame : msg.id = row.id
    · have hfound : (dbd.find_voter db msg.id).id ≠ "" := by rw [hsame, hrow]; exact hid
      rw [HandleRegister_registered RSA_BLIND_sign dbd db msg hfound] at hcall
      cases hcall
      show dbd.find_voter (dbd.insert_voter db (dbd.find_voter db msg.id)) row.id = row
      rw [hsame, hrow]
      exact hk.find_insert_same db row hrow
    · by_cases hfound : (dbd.find_voter db msg.id).id = ""
      · rw [HandleRegister_fresh RSA_BLIND_sign dbd db msg hfound] at hcall
        cases hcall
        show dbd.find_voter (dbd.insert_voter db _) row.id = row
        rw [hk.find_insert_other db _ row.id (fun h => hsame h.symm), hrow]
      · rw [HandleRegister_registered RSA_BLIND_sign dbd db msg hfound] at hcall
        cases hcall
        show dbd.find_voter (dbd.insert_voter db _) row.id = row
        have hidm : (dbd.find_voter db msg.id).id = msg.id := by
          rcases hk.find_id db msg.id with h | h
          · exact h
          · exact absurd h hfound
        rw [hk.find_insert_other db _ row.id (by rw [hidm]; exact fun h => hsame h.symm),
          hrow]

/-- A sequence of calls of `HandleRegister` keeps the row stored under a non-empty id. -/
theorem sessions_keep {DB : Type} (RSA_BLIND_sign : Nat → Nat) (dbd : DBDriver DB)
    (hk : dbd.Keyed) (row : VoterRow) (hid : row.id ≠ "")
    (between : List (VoterToRegistrar_Register_Message × Bool)) :
    ∀ db, dbd.find_voter db row.id = row →
      dbd.find_voter (RegistrarClient_sessions RSA_BLIND_sign dbd db between) row.id =
        row := by
  induction between with
  | nil => intro db h; exact h
  | cons incoming rest ih =>
    intro db h
    unfold RegistrarClient_sessions
    cases hcall : RegistrarClient_HandleRegister RSA_BLIND_sign dbd db incoming with
    | error e => exact ih db h
    | ok reply =>
      exact ih reply.2 (HandleRegister_keeps RSA_BLIND_sign dbd hk row hid db h incoming
        reply hcall)

/-- After a valid request for a non-empty id the store holds the row sent back. -/
theorem HandleRegister_stores {DB : Type} (RSA_BLIND_sign : Nat → Nat) (dbd : DBDriver DB)
    (hk : dbd.Keyed) (db : DB) (msg : VoterToRegistrar_Register_Message)
    (hid : msg.id ≠ "") :
    ∃ reply, RegistrarClient_HandleRegister RSA_BLIND_sign dbd db (msg, true) =
        Except.ok reply ∧ reply.1.id = msg.id ∧
      dbd.find_voter reply.2 msg.id = reply.1 := by
  by_cases hfound : (dbd.find_voter db msg.id).id = ""
  · refine ⟨_, HandleRegister_fresh RSA_BLIND_sign dbd db msg hfound, rfl, ?_⟩
    exact hk.find_insert_absent db
      { id := msg.id, registrar_signature := RSA_BLIND_sign msg.vote } hid hfound
  · have hidm : (dbd.find_voter db msg.id).id = msg.id := by
      rcases hk.find_id db msg.id with h | h
      · exact h
      · exact absurd h hfound
    refine ⟨_, HandleRegister_registered RSA_BLIND_sign dbd db msg hfound, hidm, ?_⟩
    have := hk.find_insert_same db (dbd.find_voter db msg.id) (by rw [hidm])
    rw [hidm] at this
    exact this

/-- Registration is idempotent for a non-empty id: the second of two valid requests
with the id is answered with the signature of the first, whatever the blinded votes and
whatever requests are handled in between. -/
theorem register_idempotent {DB : Type} (RSA_BLIND_sign : Nat → Nat) (dbd : DBDriver DB)
    (hk : dbd.Keyed) (db : DB) (voter_id : String) (hid : voter_id ≠ "") (vote1 vote2 : Nat)
    (between : List (VoterToRegistrar_Register_Message × Bool)) :
    ∃ first second,
      RegistrarClient_HandleRegister RSA_BLIND_sign dbd db
          ({ id := voter_id, vote := vote1 }, true) = Except.ok first ∧
        RegistrarClient_HandleRegister RSA_BLIND_sign dbd
            (RegistrarClient_sessions RSA_BLIND_sign dbd first.2 between)
            ({ id := voter_id, vote := vote2 }, true) = Except.ok second ∧
        second.1.registrar_signature = first.1.registrar_signature := by
  obtain ⟨first, hfirst, hfid, hstored⟩ :=
    HandleRegister_stores RSA_BLIND_sign dbd hk db { id := voter_id, vote := vote1 } hid
  have hfid2 : first.1.id = voter_id := hfid
  have hstored2 : dbd.find_voter first.2 first.1.id = first.1 := by
    rw [hfid2]; exact hstored
  have hkept := sessions_keep RSA_BLIND_sign dbd hk first.1 (by rw [hfid2]; exact hid)
    between first.2 hstored2
  rw [hfid2] at hkept
  have hfound : (dbd.find_voter (RegistrarClient_sessions RSA_BLIND_sign dbd first.2 between)
      (VoterToRegistrar_Register_Message.mk voter_id vote2).id).id ≠ "" := by
    show (dbd.find_voter _ voter_id).id ≠ ""
    rw [hkept, hfid2]; exact hid
  refine ⟨first, _, hfirst, HandleRegister_registered RSA_BLIND_sign dbd _ _ hfound, ?_⟩
  show (dbd.find_voter _ voter_id).registrar_signature = first.1.registrar_signature
  rw [hkept]

/-- The list store is keyed by the voter id. -/
theorem listStore_keyed : listStore.Keyed := by
  constructor
  · intro db id
    show ((db.find? fun row => decide (row.id = id)).getD default).id = id ∨
      ((db.find? fun row => decide (row.id = id)).getD default).id = ""
    cases h : db.find? fun row => decide (row.id = id) with
    | none => right; rfl
    | some row =>
      left
      have := List.find?_some h
      simpa using this
  · intro db row hid habsent
    show (((db ++ [row]).find? fun r => decide (r.id = row.id)).getD default) = row
    have habs : ((db.find? fun r => decide (r.id = row.id)).getD default).id = "" := habsent
    cases h : db.find? fun r => decide (r.id = row.id) with
    | none => simp [List.find?_append, h]
    | some r =>
      have hr := List.find?_some h
      rw [h] at habs
      simp only [Option.getD_some] at habs
      simp only [decide_eq_true_eq] at hr
      exact absurd (hr.symm.trans habs) hid
  · intro db row hsame
    show (((db ++ [row]).find? fun r => decide (r.id = row.id)).getD default) = row
    have hs : ((db.find? fun r => decide (r.id = row.id)).getD default) = row := hsame
    cases h : db.find? fun r => decide (r.id = row.id) with
    | none => simp [List.find?_append, h]
    | some r =>
      rw [h] at hs
      simp only [Option.getD_some] at hs
      simp [List.find?_append, h, hs]
  · intro db row id hne
    show (((db ++ [row]).find? fun r => decide (r.id = id)).getD default) =
      ((db.find? fun r => decide (r.id = id)).getD default)
    have : ([row].find? fun r => decide (r.id = id)) = none := by
      simp [List.find?, Ne.symm hne]
    rw [List.find?_append, this, Option.or_none]

/-! ## The key exchange -/

/-- `VoterClient::HandleKeyExchange` returns keys exactly when the signature verifies
and the echoed value is the voter's own. -/
theorem HandleKeyExchange_ok_iff (par : Params) (cd : CryptoDriver) (sd : SignatureDriver)
    (verification_key a : Nat) (msg : ServerToUser_DHPublicValue_Message) :
    (∃ keys, VoterClient_HandleKeyExchange par cd sd verification_key a msg =
        Except.ok keys) ↔
      sd.RSA_verify verification_key
          (sd.concat_byteblocks msg.server_public_value msg.user_public_value)
          msg.server_signature = true ∧
        msg.user_public_value = ModularExponentiation par.G a par.P := by
  obtain ⟨server_value, user_value, signature⟩ := msg
  unfold VoterClient_HandleKeyExchange DH_initialize
  by_cases hv : sd.RSA_verify verification_key
      (sd.concat_byteblocks server_value user_value) signature = true
  · by_cases hu : user_value = ModularExponentiation par.G a par.P
    · subst hu
      simp [hv]
    · simp [hv, hu]
  · simp [hv]

/-- In every other case `VoterClient::HandleKeyExchange` throws. -/
theorem HandleKeyExchange_error (par : Params) (cd : CryptoDriver) (sd : SignatureDriver)
    (verification_key a : Nat) (msg : ServerToUser_DHPublicValue_Message)
    (h : ¬ (sd.RSA_verify verification_key
          (sd.concat_byteblocks msg.server_public_value msg.user_public_value)
          msg.server_signature = true ∧
        msg.user_public_value = ModularExponentiation par.G a par.P)) :
    ∃ e, VoterClient_HandleKeyExchange par cd sd verification_key a msg =
      Except.error e := by
  unfold VoterClient_HandleKeyExchange DH_initialize
  by_cases hv : sd.RSA_verify verification_key
      (sd.concat_byteblocks msg.server_public_value msg.user_public_value)
      msg.server_signature = true
  · have hu : msg.user_public_value ≠ ModularExponentiation par.G a par.P :=
      fun hu => h ⟨hv, hu⟩
    exact ⟨ElectionError.publicValueInconsistent, by simp [hv, hu]⟩
  · exact ⟨ElectionError.serverSignatureInvalid, by simp [hv]⟩

/-- The two sides of the key exchange compute the same shared value. -/
theorem DH_shared_agree (par : Params) (a b : Nat) :
    DH_generate_shared_key par a ( DH_initialize par b).2 =
      DH_generate_shared_key par b ( DH_initialize par a).2 := by
  simp only [DH_generate_shared_key, DH_initialize, ModularExponentiation]
  rw [← Nat.pow_mod, ← Nat.pow_mod, ← pow_mul, ← pow_mul, Nat.mul_comm]

/-- The reply of `RegistrarClient::HandleKeyExchange` to an honest voter is accepted,
and both sides hold the same keys. -/
theorem honest_key_exchange (par : Params) (cd : CryptoDriver) (sd : SignatureDriver)
    (signing_key verification_key : Nat)
    (hsig : ∀ message,
      sd.RSA_verify verification_key message (sd.RSA_sign signing_key message) = true)
    (a b : Nat) :
    VoterClient_HandleKeyExchange par cd sd verification_key a
        (RegistrarClient_HandleKeyExchange par cd sd signing_key b
          (VoterClient_HandleKeyExchange_send par a)).1 =
      Except.ok (RegistrarClient_HandleKeyExchange par cd sd signing_key b
        (VoterClient_HandleKeyExchange_send par a)).2 := by
  have hshared := DH_shared_agree par a b
  simp only [VoterClient_HandleKeyExchange, RegistrarClient_HandleKeyExchange,
    VoterClient_HandleKeyExchange_send, hsig, Bool.not_true, Bool.false_eq_true, if_false,
    ne_eq, not_true_eq_false]
  exact congrArg (fun shared => Except.ok (cd.AES_generate_key shared,
    sd.HMAC_generate_key shared)) hshared

/-! ## Label encryption and the garbled tables -/

/-- The round trip of `encrypt_label` for an output label of `LABEL_LENGTH` bytes when
the label and the tag have the same length: the entry is the hash combined with the
label followed by `LABEL_TAG_LENGTH` zero bytes, and decrypting it with the same hash
gives a block that verifies and is snipped to the label. -/
theorem encrypt_label_round_trip (lp : LabelParams) (cd : CryptoDriver)
    (hLT : lp.LABEL_LENGTH = lp.LABEL_TAG_LENGTH) (l r z : GarbledWire)
    (hz : z.value.length = lp.LABEL_LENGTH) :
    encrypt_label lp cd l r z =
        xorbuf (cd.hash_inputs l.value r.value)
          (z.value ++ List.replicate lp.LABEL_TAG_LENGTH 0)
          (lp.LABEL_LENGTH + lp.LABEL_TAG_LENGTH) ∧
      (encrypt_label lp cd l r z).length = lp.LABEL_LENGTH + lp.LABEL_TAG_LENGTH ∧
      verify_decryption lp (xorbuf (encrypt_label lp cd l r z)
        (cd.hash_inputs l.value r.value) (2 * lp.LABEL_TAG_LENGTH)) = true ∧
      snip_decryption lp (xorbuf (encrypt_label lp cd l r z)
        (cd.hash_inputs l.value r.value) (2 * lp.LABEL_TAG_LENGTH)) = z.value := by
  have h2 : 2 * lp.LABEL_TAG_LENGTH = lp.LABEL_LENGTH + lp.LABEL_TAG_LENGTH := by omega
  have hgrow : CleanGrow z.value (2 * lp.LABEL_TAG_LENGTH) =
      z.value ++ List.replicate lp.LABEL_TAG_LENGTH 0 := by
    unfold CleanGrow
    rw [hz]
    congr 2
    omega
  have henc : encrypt_label lp cd l r z =
      xorbuf (cd.hash_inputs l.value r.value)
        (z.value ++ List.replicate lp.LABEL_TAG_LENGTH 0)
        (lp.LABEL_LENGTH + lp.LABEL_TAG_LENGTH) := by
    unfold encrypt_label
    simp only []
    rw [hgrow, h2]
  refine ⟨henc, by rw [henc, xorbuf_length], ?_,
    snip_decryption_encrypt_label lp cd (by omega) l r z hz⟩
  exact (entryVerifies_encrypt_label lp cd (by omega) l r z l r hz).mpr rfl

/-- The entries of the table of one gate: a permutation of the two encryptions of a NOT
gate and of the four encryptions of an AND gate. -/
theorem generate_gate_entries (lp : LabelParams) (cd : CryptoDriver) (labels : GarbledLabels)
    (shuffle : List ByteBlock → List ByteBlock) (gate : Gate)
    (hperm : ∀ entries, (shuffle entries).Perm entries)
    (htype : gate.type = 1 ∨ gate.type = 2 ∨ gate.type = 3) :
    ∃ ggate, generate_gate lp cd labels shuffle gate = Except.ok ggate ∧
      (gate.type = 3 → ggate.entries.Perm
        [encrypt_label lp cd (labelOf labels false gate.lhs) { value := lp.DUMMY_RHS }
            (labelOf labels true gate.output),
         encrypt_label lp cd (labelOf labels true gate.lhs) { value := lp.DUMMY_RHS }
            (labelOf labels false gate.output)]) ∧
      (gate.type = 1 → ggate.entries.Perm
        [encrypt_label lp cd (labelOf labels false gate.lhs) (labelOf labels false gate.rhs)
            (labelOf labels (false && false) gate.output),
         encrypt_label lp cd (labelOf labels false gate.lhs) (labelOf labels true gate.rhs)
            (labelOf labels (false && true) gate.output),
         encrypt_label lp cd (labelOf labels true gate.lhs) (labelOf labels false gate.rhs)
            (labelOf labels (true && false) gate.output),
         encrypt_label lp cd (labelOf labels true gate.lhs) (labelOf labels true gate.rhs)
            (labelOf labels (true && true) gate.output)]) := by
  rcases htype with h | h | h
  · refine ⟨_, by simp only [generate_gate, h, if_true]; rfl, fun h3 => by omega, fun _ => ?_⟩
    refine (hperm _).trans ?_
    show List.Perm [_, _, _, _] [_, _, _, _]
    exact List.Perm.cons _ ((List.Perm.swap _ _ _).trans
      (List.Perm.cons _ (List.Perm.swap _ _ _)))
  · exact ⟨_, by simp only [generate_gate, h]; rfl, fun h3 => by omega, fun h1 => by omega⟩
  · refine ⟨_, by simp only [generate_gate, h]; rfl, fun _ => ?_, fun h1 => by omega⟩
    exact hperm _

/-- The loop of `generate_gates` over gates of the three types returns one table per
gate, the `k`-th being the table of the `k`-th gate. -/
theorem generate_gates_from_ok (lp : LabelParams) (cd : CryptoDriver) (labels : GarbledLabels)
    (shuffle : Nat → List ByteBlock → List ByteBlock) :
    ∀ (gates : List Gate) (i : Nat),
    (∀ gate ∈ gates, gate.type = 1 ∨ gate.type = 2 ∨ gate.type = 3) →
    ∃ ggates, generate_gates_from lp cd labels shuffle gates i = Except.ok ggates ∧
      ggates.length = gates.length ∧
      ∀ k, k < gates.length →
        generate_gate lp cd labels (shuffle (i + k)) (gates.getD k default) =
          Except.ok (ggates.getD k { entries := [] }) := by
  intro gates
  induction gates with
  | nil => intro i _; exact ⟨[], rfl, rfl, fun k hk => by simp at hk⟩
  | cons gate rest ih =>
    intro i htypes
    obtain ⟨ggates, hrest, hlen, hk⟩ := ih (i + 1)
      (fun g hg => htypes g (List.mem_cons_of_mem _ hg))
    have hgate : ∃ ggate, generate_gate lp cd labels (shuffle i) gate = Except.ok ggate := by
      rcases htypes gate (List.mem_cons_self _ _) with h | h | h
      · exact ⟨_, by simp only [generate_gate, h, if_true]; rfl⟩
      · exact ⟨_, by simp only [generate_gate, h]; rfl⟩
      · exact ⟨_, by simp only [generate_gate, h]; rfl⟩
    obtain ⟨ggate, hggate⟩ := hgate
    refine ⟨ggate :: ggates, by simp only [generate_gates_from, hggate, hrest], by
      simp only [List.length_cons, hlen], ?_⟩
    intro k hklt
    cases k with
    | zero => simpa using hggate
    | succ k =>
      have := hk k (by simp only [List.length_cons] at hklt; omega)
      simpa [Nat.add_assoc, Nat.add_comm 1 k] using this

/-- A gate of an unknown type makes the loop of `generate_gates` throw. -/
theorem generate_gates_from_error (lp : LabelParams) (cd : CryptoDriver)
    (labels : GarbledLabels) (shuffle : Nat → List ByteBlock → List ByteBlock) :
    ∀ (gates : List Gate) (i : Nat),
    (∃ gate ∈ gates, gate.type ≠ 1 ∧ gate.type ≠ 2 ∧ gate.type ≠ 3) →
    generate_gates_from lp cd labels shuffle gates i =
      Except.error RuntimeError.invalidGateType := by
  intro gates
  induction gates with
  | nil => intro i h; obtain ⟨g, hg, _⟩ := h; simp at hg
  | cons gate rest ih =>
    intro i h
    by_cases hvalid : gate.type = 1 ∨ gate.type = 2 ∨ gate.type = 3
    · have hrest : ∃ g ∈ rest, g.type ≠ 1 ∧ g.type ≠ 2 ∧ g.type ≠ 3 := by
        obtain ⟨g, hg, hbad⟩ := h
        rcases List.mem_cons.mp hg with rfl | hg
        · omega
        · exact ⟨g, hg, hbad⟩
      have hgate : ∃ ggate, generate_gate lp cd labels (shuffle i) gate = Except.ok ggate := by
        rcases hvalid with h | h | h
        · exact ⟨_, by simp only [generate_gate, h, if_true]; rfl⟩
        · exact ⟨_, by simp only [generate_gate, h]; rfl⟩
        · exact ⟨_, by simp only [generate_gate, h]; rfl⟩
      obtain ⟨ggate, hggate⟩ := hgate
      simp only [generate_gates_from, hggate, ih (i + 1) hrest]
    · have h1 : gate.type ≠ 1 := fun h => hvalid (Or.inl h)
      have h2 : gate.type ≠ 2 := fun h => hvalid (Or.inr (Or.inl h))
      have h3 : gate.type ≠ 3 := fun h => hvalid (Or.inr (Or.inr h))
      have : generate_gate lp cd labels (shuffle i) gate =
          Except.error RuntimeError.invalidGateType := by
        simp only [generate_gate, if_neg h1, if_neg h2, if_neg h3]
      simp only [generate_gates_from, this]

/-- The gate loop of `EvaluatorClient::run` throws when one of the gates it reaches has
an unknown type. -/
theorem evaluate_tables_error (lp : LabelParams) (cd : CryptoDriver) (circuit : Circuit) :
    ∀ (tables : List GarbledGate) (i : Nat) (gwires_all : List GarbledWire),
    (∃ k, k < tables.length ∧ (circuit.gates.getD (i + k) default).type ≠ 1 ∧
      (circuit.gates.getD (i + k) default).type ≠ 2 ∧
      (circuit.gates.getD (i + k) default).type ≠ 3) →
    evaluate_tables lp cd circuit tables i gwires_all =
      Except.error RuntimeError.invalidGateType := by
  intro tables
  induction tables with
  | nil => intro i gw h; obtain ⟨k, hk, _⟩ := h; simp at hk
  | cons table rest ih =>
    intro i gw h
    by_cases hvalid : (circuit.gates.getD i default).type = 1 ∨
        (circuit.gates.getD i default).type = 2 ∨ (circuit.gates.getD i default).type = 3
    · have hrest : ∃ k, k < rest.length ∧
          (circuit.gates.getD (i + 1 + k) default).type ≠ 1 ∧
          (circuit.gates.getD (i + 1 + k) default).type ≠ 2 ∧
          (circuit.gates.getD (i + 1 + k) default).type ≠ 3 := by
        obtain ⟨k, hk, hbad⟩ := h
        cases k with
        | zero => simp only [Nat.add_zero] at hbad; omega
        | succ k =>
          refine ⟨k, by simp only [List.length_cons] at hk; omega, ?_⟩
          have e : i + 1 + k = i + (k + 1) := by omega
          rw [e]; exact hbad
      unfold evaluate_tables
      rcases hvalid with h1 | h2 | h3
      · simp only [h1, if_true]; exact ih _ _ hrest
      · simp only [h2, if_true]; exact ih _ _ hrest
      · simp only [h3, if_true]; exact ih _ _ hrest
    · have h1 : (circuit.gates.getD i default).type ≠ 1 := fun h => hvalid (Or.inl h)
      have h2 : (circuit.gates.getD i default).type ≠ 2 :=
        fun h => hvalid (Or.inr (Or.inl h))
      have h3 : (circuit.gates.getD i default).type ≠ 3 :=
        fun h => hvalid (Or.inr (Or.inr h))
      unfold evaluate_tables
      simp only [if_neg h1, if_neg h2, if_neg h3]

/-! ## `DoVerify` and `HandleAdjudicate` -/

/-- The arbiter and the voter test a row alike when they hold the same keys. -/
theorem ArbiterClient_rowValid_eq (par : Params) (Hv : VoteHash) (sd : SignatureDriver)
    (ed : ElectionDriver) (arbiter : ArbiterClient) (vote : VoteRow) :
    ArbiterClient_rowValid par Hv sd ed arbiter vote =
      VoterClient_rowValid par Hv sd ed arbiter.keys vote := by
  unfold ArbiterClient_rowValid VoterClient_rowValid
  simp only []
  cases VerifyVoteZKP par Hv (vote.vote, vote.zkp) arbiter.keys.EG_arbiter_public_key <;>
    cases sd.RSA_verify arbiter.keys.RSA_tallyer_verification_key
      (ed.concat_vote_zkp_and_signature vote.vote vote.zkp vote.unblinded_signature)
      vote.tallyer_signature <;>
    cases ed.RSA_BLIND_verify arbiter.keys.RSA_registrar_verification_key vote.vote
      vote.unblinded_signature <;> rfl

/-- The rows the arbiter keeps are the rows the voter keeps, so the ciphertext in the
published partial decryption is the one `DoVerify` combines. -/
theorem ArbiterClient_validVotes_eq (par : Params) (Hv : VoteHash) (Hd : DecHash)
    (sd : SignatureDriver) (ed : ElectionDriver) (arbiter : ArbiterClient)
    (keys : ElectionKeys) (hkeys : arbiter.keys = keys) (r : Nat)
    (allVotes : List VoteRow) :
    ArbiterClient_validVotes par Hv sd ed arbiter allVotes =
        VoterClient_validRows par Hv sd ed keys allVotes ∧
      (ArbiterClient_HandleAdjudicate par Hv Hd sd ed arbiter r
          allVotes).dec.aggregate_ciphertext =
        CombineVotes par (VoterClient_validRows par Hv sd ed keys allVotes) := by
  have h : ArbiterClient_validVotes par Hv sd ed arbiter allVotes =
      VoterClient_validRows par Hv sd ed keys allVotes := by
    unfold ArbiterClient_validVotes VoterClient_validRows
    rw [← hkeys]
    congr 1
    funext vote
    exact ArbiterClient_rowValid_eq par Hv sd ed arbiter vote
  refine ⟨h, ?_⟩
  simp only [ArbiterClient_HandleAdjudicate, PartialDecrypt, h]

/-- The rows kept by `DoVerify` are all valid: filtering them again changes nothing. -/
theorem validRows_idem (par : Params) (Hv : VoteHash) (sd : SignatureDriver)
    (ed : ElectionDriver) (keys : ElectionKeys) (allVotes : List VoteRow) :
    VoterClient_validRows par Hv sd ed keys
        (VoterClient_validRows par Hv sd ed keys allVotes) =
      VoterClient_validRows par Hv sd ed keys allVotes := by
  unfold VoterClient_validRows
  rw [List.filter_filter]
  congr 1
  funext vote
  simp

/-- `DoVerify` depends on the vote store through the rows it keeps only. -/
theorem DoVerify_congr (par : Params) (Hv : VoteHash) (Hd : DecHash) (sd : SignatureDriver)
    (ed : ElectionDriver) (keys : ElectionKeys) (votes1 votes2 : List VoteRow)
    (decs : List PartialDecryptionRow)
    (h : VoterClient_validRows par Hv sd ed keys votes1 =
      VoterClient_validRows par Hv sd ed keys votes2) :
    DoVerify par Hv Hd sd ed keys votes1 decs = DoVerify par Hv Hd sd ed keys votes2 decs := by
  unfold DoVerify
  rw [h]

/-- Invalid rows are ignored: `DoVerify` returns on a store what it returns on the store
without the rows that fail a check, and a row that fails a check can be added anywhere
without changing the result. -/
theorem DoVerify_ignores_invalid (par : Params) (Hv : VoteHash) (Hd : DecHash)
    (sd : SignatureDriver) (ed : ElectionDriver) (keys : ElectionKeys)
    (allVotes : List VoteRow) (decs : List PartialDecryptionRow) :
    DoVerify par Hv Hd sd ed keys allVotes decs =
        DoVerify par Hv Hd sd ed keys
          (allVotes.filter (VoterClient_rowValid par Hv sd ed keys)) decs ∧
      ∀ (before after : List VoteRow) (row : VoteRow),
        VoterClient_rowValid par Hv sd ed keys row = false →
        DoVerify par Hv Hd sd ed keys (before ++ row :: after) decs =
          DoVerify par Hv Hd sd ed keys (before ++ after) decs := by
  constructor
  · exact DoVerify_congr par Hv Hd sd ed keys _ _ decs
      (validRows_idem par Hv sd ed keys allVotes).symm
  · intro before after row hrow
    apply DoVerify_congr
    unfold VoterClient_validRows
    rw [List.filter_append, List.filter_append, List.filter_cons_of_neg (by simp [hrow])]

/-- A row whose proof is rejected fails the test of `DoVerify`. -/
theorem rowValid_of_zkp_rejected (par : Params) (Hv : VoteHash) (sd : SignatureDriver)
    (ed : ElectionDriver) (keys : ElectionKeys) (row : VoteRow)
    (h : VerifyVoteZKP par Hv (row.vote, row.zkp) keys.EG_arbiter_public_key = false) :
    VoterClient_rowValid par Hv sd ed keys row = false := by
  simp [VoterClient_rowValid, h]

/-- The second loop of `DoVerify` tests every partial decryption. -/
theorem partialDecryptionsValid_eq_all (par : Params) (Hd : DecHash) (ed : ElectionDriver)
    (decs : List PartialDecryptionRow) :
    partialDecryptionsValid par Hd ed decs =
      decs.all fun dec => VerifyPartialDecryptZKP par Hd dec (ed.LoadInteger dec.arbiter_vk_path) := by
  induction decs with
  | nil => rfl
  | cons dec rest ih =>
    simp only [partialDecryptionsValid, List.all_cons, ih]
    cases VerifyPartialDecryptZKP par Hd dec (ed.LoadInteger dec.arbiter_vk_path) <;> simp

/-- A rejected partial decryption makes `DoVerify` return `(0, 0, false)`, whatever
`CombineResults` would do. -/
theorem DoVerify_rejected (par : Params) (Hv : VoteHash) (Hd : DecHash)
    (sd : SignatureDriver) (ed : ElectionDriver) (keys : ElectionKeys)
    (allVotes : List VoteRow) (decs : List PartialDecryptionRow)
    (hbad : ∃ dec ∈ decs,
      VerifyPartialDecryptZKP par Hd dec (ed.LoadInteger dec.arbiter_vk_path) = false) :
    DoVerify par Hv Hd sd ed keys allVotes decs = Except.ok (0, 0, false) := by
  have hall : partialDecryptionsValid par Hd ed decs = false := by
    rw [partialDecryptionsValid_eq_all, List.all_eq_false]
    obtain ⟨dec, hdec, hfalse⟩ := hbad
    exact ⟨dec, hdec, by simp [hfalse]⟩
  simp [DoVerify, hall]

/-- When every partial decryption is accepted, `DoVerify` returns the counts for the
tally that `CombineResults` returns on the combination of the rows kept, and fails as
`CombineResults` does. -/
theorem DoVerify_accepted (par : Params) (Hv : VoteHash) (Hd : DecHash)
    (sd : SignatureDriver) (ed : ElectionDriver) (keys : ElectionKeys)
    (allVotes : List VoteRow) (decs : List PartialDecryptionRow)
    (hall : ∀ dec ∈ decs,
      VerifyPartialDecryptZKP par Hd dec (ed.LoadInteger dec.arbiter_vk_path) = true) :
    (∀ t, CombineResults par
          (CombineVotes par (VoterClient_validRows par Hv sd ed keys allVotes)) decs =
        Except.ok t →
      DoVerify par Hv Hd sd ed keys allVotes decs =
        Except.ok
          (((VoterClient_validRows par Hv sd ed keys allVotes).length : Int) - (t : Int),
            (t : Int), true)) ∧
    (∀ e, CombineResults par
          (CombineVotes par (VoterClient_validRows par Hv sd ed keys allVotes)) decs =
        Except.error e →
      DoVerify par Hv Hd sd ed keys allVotes decs = Except.error e) := by
  have h : partialDecryptionsValid par Hd ed decs = true := by
    rw [partialDecryptionsValid_eq_all, List.all_eq_true]
    exact hall
  constructor
  · intro t ht
    simp [DoVerify, h, ht]
  · intro e he
    simp [DoVerify, h, he]

/-! ## Blind signatures -/

/-- A blinding factor prime to `N` is inverted by `EuclideanMultiplicativeInverse`. -/
theorem inverse_of_coprime (r N : Nat) (hN : 1 < N) (hr : Nat.Coprime r N) :
    ((r : ZMod N)) * ((EuclideanMultiplicativeInverse r N : Nat) : ZMod N) = 1 := by
  rcases inverse_spec r N with h | h
  · have h1 : ((r * EuclideanMultiplicativeInverse r N : Nat) : ZMod N) = ((1 : Nat) : ZMod N) := by
      rw [ZMod.natCast_eq_natCast_iff', h.2, Nat.mod_eq_of_lt hN]
    simpa using h1
  · exfalso
    obtain ⟨m, hm⟩ := Nat.exists_mul_emod_eq_one_of_coprime hr hN
    apply h.2 (m % N) (Nat.mod_lt _ (by omega))
    rw [Nat.mul_mod, Nat.mod_mod, ← Nat.mul_mod, hm]

/-- The signature of the registrar on the hash of a ciphertext verifies. -/
theorem RSA_BLIND_verify_sign (H : CiphertextHash) (pk : RSAPublicKey) (sk : RSAPrivateKey)
    (hpair : RSAKeyPair pk sk) (vote : Vote_Ciphertext) :
    RSA_BLIND_verify H pk vote (RSA_BLIND_sign sk (H vote)) = true := by
  unfold RSA_BLIND_verify RSA_BLIND_sign
  rw [decide_eq_true_iff]
  exact hpair.2.2 (H vote)

/-- Blinding, signing and unblinding give a signature that verifies. -/
theorem blind_round_trip (H : CiphertextHash) (pk : RSAPublicKey) (sk : RSAPrivateKey)
    (hpair : RSAKeyPair pk sk) (vote : Vote_Ciphertext) (r : Nat)
    (hr : Nat.Coprime r pk.N) :
    ModularExponentiation
        (RSA_BLIND_unblind pk (RSA_BLIND_sign sk (RSA_BLIND_blind H pk vote r).1)
          (RSA_BLIND_blind H pk vote r).2) pk.e pk.N = H vote % pk.N ∧
      RSA_BLIND_verify H pk vote
        (RSA_BLIND_unblind pk (RSA_BLIND_sign sk (RSA_BLIND_blind H pk vote r).1)
          (RSA_BLIND_blind H pk vote r).2) = true := by
  obtain ⟨hN, h1, hrsa⟩ := hpair
  have hN0 : 0 < pk.N := by omega
  have key : ModularExponentiation
      (RSA_BLIND_unblind pk (RSA_BLIND_sign sk (RSA_BLIND_blind H pk vote r).1)
        (RSA_BLIND_blind H pk vote r).2) pk.e pk.N = H vote % pk.N := by
    rw [eq_iff_cast_eq (modExp_lt _ _ hN0) (Nat.mod_lt _ hN0)]
    have hx := congrArg (Nat.cast : Nat → ZMod pk.N)
      (hrsa (a_times_b_mod_c (H vote) (ModularExponentiation r pk.e pk.N) pk.N))
    rw [cast_modExp, ZMod.natCast_mod, cast_mulMod, cast_modExp] at hx
    have hinv := inverse_of_coprime r pk.N h1 hr
    simp only [RSA_BLIND_unblind, RSA_BLIND_sign, RSA_BLIND_blind, cast_modExp, cast_mulMod,
      ZMod.natCast_mod]
    rw [← hN] at hx
    rw [mul_pow, ← hN, hx, mul_assoc, ← mul_pow, hinv, one_pow, mul_one]
  exact ⟨key, by unfold RSA_BLIND_verify; rw [decide_eq_true_iff]; exact key⟩

/-- The registration flow for a voter the store does not hold: the registrar signs the
blinded vote, and the message the voter sends to the tallyer carries the ciphertext
with a signature that verifies. -/
theorem registration_round_trip {DB : Type} (par : Params) (Hv : VoteHash)
    (H : CiphertextHash) (pk : RSAPublicKey) (sk : RSAPrivateKey) (hpair : RSAKeyPair pk sk)
    (dbd : DBDriver DB) (db : DB) (voter_id : String)
    (hfresh : (dbd.find_voter db voter_id).id = "") (election_key : Nat)
    (rnd : VoteRandomness) (r : Nat) (hr : Nat.Coprime r pk.N) (raw_vote : Nat) :
    ∃ reply st,
      RegistrarClient_HandleRegister (RSA_BLIND_sign sk) dbd db
          (VoterClient_HandleRegister_send par Hv H pk voter_id election_key rnd r raw_vote,
            true) = Except.ok reply ∧
        VoterClient_HandleRegister par Hv H pk election_key rnd r raw_vote (reply.1, true) =
          Except.ok st ∧
        (VoterClient_HandleVote pk st).vote =
          (GenerateVote par Hv rnd raw_vote election_key).1 ∧
        RSA_BLIND_verify H pk (VoterClient_HandleVote pk st).vote
          (VoterClient_HandleVote pk st).unblinded_signature = true := by
  refine ⟨_, _, HandleRegister_fresh (RSA_BLIND_sign sk) dbd db _ hfresh, rfl, rfl, ?_⟩
  exact (blind_round_trip H pk sk hpair _ r hr).2

/-- The keys `smallPublicKey` and `smallPrivateKey` belong together. -/
theorem smallKeyPair : RSAKeyPair smallPublicKey smallPrivateKey := by
  refine ⟨rfl, by decide, ?_⟩
  intro x
  have h : ∀ y, y < 33 → ((y ^ 3 % 33) ^ 7 % 33 = y) := by decide
  show (x ^ 3 % 33) ^ 7 % 33 = x % 33
  rw [Nat.pow_mod x 3 33]
  exact h (x % 33) (Nat.mod_lt _ (by decide))

/-! ## `DoVerify` on an honest election -/

theorem inGroup_of_cast {par : Params} (hv : par.Valid) (x : Nat)
    (hx : (x : ZMod par.P) ^ par.Q = 1) : par.InGroup x := by
  unfold Params.InGroup
  have h : (((x ^ par.Q % par.P : Nat)) : ZMod par.P) = ((1 : Nat) : ZMod par.P) := by
    rw [ZMod.natCast_mod, Nat.cast_pow, hx, Nat.cast_one]
  rw [ZMod.natCast_eq_natCast_iff', Nat.mod_mod, Nat.mod_eq_of_lt hv.one_lt_P] at h
  exact h

/-- The rows of honest voters pass the three checks of `DoVerify`. -/
theorem signedRows_valid (par : Params) (hv : par.Valid) (Hv : VoteHash)
    (hH : ∀ x1 x2 x3 x4 x5 x6 x7, Hv x1 x2 x3 x4 x5 x6 x7 < par.Q)
    (sd : SignatureDriver) (ed : ElectionDriver) (H : CiphertextHash) (keys : ElectionKeys)
    (registrar_signing_key : RSAPrivateKey) (tallyer_signing_key : Nat)
    (hpair : RSAKeyPair keys.RSA_registrar_verification_key registrar_signing_key)
    (hsig : ∀ message, sd.RSA_verify keys.RSA_tallyer_verification_key message
      (sd.RSA_sign tallyer_signing_key message) = true)
    (hed : ed.RSA_BLIND_verify = RSA_BLIND_verify H)
    (hpk : par.InGroup keys.EG_arbiter_public_key)
    (ballots : List (Nat × VoteRandomness)) (hvotes : ∀ p ∈ ballots, p.1 = 0 ∨ p.1 = 1) :
    VoterClient_validRows par Hv sd ed keys
        (signedRows par Hv sd ed H registrar_signing_key tallyer_signing_key
          keys.EG_arbiter_public_key ballots) =
      signedRows par Hv sd ed H registrar_signing_key tallyer_signing_key
        keys.EG_arbiter_public_key ballots := by
  unfold VoterClient_validRows
  rw [List.filter_eq_self]
  intro row hrow
  unfold signedRows at hrow
  obtain ⟨p, hp, rfl⟩ := List.mem_map.mp hrow
  have hzkp := GenerateVote_accepted par hv Hv hH p.2 p.1 keys.EG_arbiter_public_key
    (hvotes p hp) hpk
  simp only [VoterClient_rowValid, signedRow, hsig, hed,
    RSA_BLIND_verify_sign H _ _ hpair, Bool.and_true]
  exact hzkp

theorem signedRows_ballots (par : Params) (Hv : VoteHash) (sd : SignatureDriver)
    (ed : ElectionDriver) (H : CiphertextHash) (registrar_signing_key : RSAPrivateKey)
    (tallyer_signing_key : Nat) (pk : Nat) (ballots : List (Nat × VoteRandomness)) :
    (signedRows par Hv sd ed H registrar_signing_key tallyer_signing_key pk ballots).map
        (fun row => (row.vote, row.zkp)) =
      ballots.map (fun p => GenerateVote par Hv p.2 p.1 pk) := by
  rw [signedRows, List.map_map]
  apply List.map_congr_left
  intro p _
  rfl

/-- `DoVerify` on an honest election: when the rows kept are the ballots that
`GenerateVote` returns for the votes of `ballots` and every arbiter has adjudicated the
store, the result is `(n - t, t, true)` for the number `n` of rows kept and the sum `t`
of the votes modulo `Q`, unless `t` is above `INT_MAX`. -/
theorem DoVerify_of_honest_election (par : Params) (hv : par.Valid) (Hv : VoteHash)
    (Hd : DecHash) (sd : SignatureDriver) (ed : ElectionDriver) (keys : ElectionKeys)
    (arbiters : List (ArbiterClient × Nat)) (ballots : List (Nat × VoteRandomness))
    (allVotes : List VoteRow)
    (harb : ∀ p ∈ arbiters,
      p.1.EG_arbiter_public_key_i =
          ModularExponentiation par.G p.1.EG_arbiter_secret_key par.P ∧
        ed.LoadInteger p.1.arbiter_public_key_path = p.1.EG_arbiter_public_key_i ∧
        p.1.keys = keys)
    (hkey : keys.EG_arbiter_public_key =
      electionPublicKey par (arbiters.map fun p => p.1.EG_arbiter_secret_key))
    (hrows : (VoterClient_validRows par Hv sd ed keys allVotes).map
        (fun row => (row.vote, row.zkp)) =
      ballots.map (fun p => GenerateVote par Hv p.2 p.1 keys.EG_arbiter_public_key)) :
    DoVerify par Hv Hd sd ed keys allVotes (adjudicated par Hv Hd sd ed arbiters allVotes) =
      if (ballots.map Prod.fst).sum % par.Q ≤ INT_MAX then
        Except.ok ((ballots.length : Int) - (((ballots.map Prod.fst).sum % par.Q : Nat) : Int),
          (((ballots.map Prod.fst).sum % par.Q : Nat) : Int), true)
      else Except.error TallyError.counterOverflow := by
  have hdec : ∀ p ∈ arbiters,
      ArbiterClient_HandleAdjudicate par Hv Hd sd ed p.1 p.2 allVotes =
        publishedDecryption p.1.arbiter_id p.1.arbiter_public_key_path
          (PartialDecrypt par Hd p.2
            (CombineVotes par (VoterClient_validRows par Hv sd ed keys allVotes))
            (ModularExponentiation par.G p.1.EG_arbiter_secret_key par.P)
            p.1.EG_arbiter_secret_key) := by
    intro p hp
    obtain ⟨h1, _, h3⟩ := harb p hp
    simp only [ArbiterClient_HandleAdjudicate, publishedDecryption, h1,
      (ArbiterClient_validVotes_eq par Hv Hd sd ed p.1 keys h3 p.2 allVotes).1]
  have hcomb := CombineVotes_ballots par hv Hv keys.EG_arbiter_public_key ballots
    (VoterClient_validRows par Hv sd ed keys allVotes) hrows
  have hin : par.InGroup
      (CombineVotes par (VoterClient_validRows par Hv sd ed keys allVotes)).a := by
    apply inGroup_of_cast hv
    rw [hcomb]
    simp only [ZMod.natCast_mod, Nat.cast_pow]
    rw [← pow_mul, Nat.mul_comm, pow_mul, hv.cast_G_pow, one_pow]
  have hall : ∀ dec ∈ adjudicated par Hv Hd sd ed arbiters allVotes,
      VerifyPartialDecryptZKP par Hd dec (ed.LoadInteger dec.arbiter_vk_path) = true := by
    intro dec hmem
    unfold adjudicated at hmem
    obtain ⟨p, hp, rfl⟩ := List.mem_map.mp hmem
    obtain ⟨h1, h2, _⟩ := harb p hp
    rw [hdec p hp]
    have hpath : (publishedDecryption p.1.arbiter_id p.1.arbiter_public_key_path
        (PartialDecrypt par Hd p.2
          (CombineVotes par (VoterClient_validRows par Hv sd ed keys allVotes))
          (ModularExponentiation par.G p.1.EG_arbiter_secret_key par.P)
          p.1.EG_arbiter_secret_key)).arbiter_vk_path = p.1.arbiter_public_key_path := rfl
    rw [hpath, h2, h1]
    revert hin
    generalize CombineVotes par (VoterClient_validRows par Hv sd ed keys allVotes) = combined
    obtain ⟨a, b⟩ := combined
    intro hin
    exact PartialDecrypt_accepted par hv Hd p.2 p.1.EG_arbiter_secret_key a b hin _ _
  have hdecs : (adjudicated par Hv Hd sd ed arbiters allVotes).map
        (fun row => (row.dec, row.zkp)) =
      (arbiters.map fun p => (p.1.EG_arbiter_secret_key, p.2)).map (fun p =>
        PartialDecrypt par Hd p.2
          (CombineVotes par (VoterClient_validRows par Hv sd ed keys allVotes))
          (ModularExponentiation par.G p.1 par.P) p.1) := by
    unfold adjudicated
    rw [List.map_map, List.map_map]
    apply List.map_congr_left
    intro p hp
    simp only [Function.comp_apply, hdec p hp, publishedDecryption]
  have hrows2 : (VoterClient_validRows par Hv sd ed keys allVotes).map
        (fun row => (row.vote, row.zkp)) =
      ballots.map (fun p => GenerateVote par Hv p.2 p.1
        (electionPublicKey par
          ((arbiters.map fun p => (p.1.EG_arbiter_secret_key, p.2)).map Prod.fst))) := by
    rw [hrows, hkey, List.map_map]
    simp only [Function.comp_def]
  have htally := tally_of_honest_election par hv Hv Hd _ ballots _ _ hrows2 hdecs
  have hlen : (VoterClient_validRows par Hv sd ed keys allVotes).length = ballots.length := by
    have := congrArg List.length hrows
    simpa using this
  obtain ⟨hok, herr⟩ := DoVerify_accepted par Hv Hd sd ed keys allVotes _ hall
  by_cases hfit : (ballots.map Prod.fst).sum % par.Q ≤ INT_MAX
  · rw [if_pos hfit] at htally ⊢
    rw [hok _ htally, hlen]
  · rw [if_neg hfit] at htally ⊢
    exact herr _ htally

/-- `DoVerify` on the small election over any valid group of order at least `11`: the
store of honest voters with the given ballots, adjudicated by `twoArbiters`. -/
theorem DoVerify_small_election (par : Params) (hv : par.Valid) (hQ : 11 ≤ par.Q)
    (ballots : List (Nat × VoteRandomness)) (hvotes : ∀ p ∈ ballots, p.1 = 0 ∨ p.1 = 1) :
    DoVerify par smallVoteHash (constDecHash 3) smallSignatures (smallDriver par)
        (smallKeys par) (smallStore par ballots)
        (smallAdjudicated par (smallStore par ballots)) =
      if (ballots.map Prod.fst).sum % par.Q ≤ INT_MAX then
        Except.ok ((ballots.length : Int) - (((ballots.map Prod.fst).sum % par.Q : Nat) : Int),
          (((ballots.map Prod.fst).sum % par.Q : Nat) : Int), true)
      else Except.error TallyError.counterOverflow := by
  have hvalid := signedRows_valid par hv smallVoteHash
    (fun x1 x2 x3 x4 x5 x6 x7 =>
      lt_of_lt_of_le (Nat.mod_lt _ (by decide : 0 < 11)) hQ)
    smallSignatures (smallDriver par) smallCiphertextHash (smallKeys par) smallPrivateKey 7
    smallKeyPair (fun message => by simp [smallKeys, honestKeys, smallSignatures]) rfl
    (electionPublicKey_inGroup par hv [3, 4]) ballots hvotes
  apply DoVerify_of_honest_election par hv smallVoteHash (constDecHash 3) smallSignatures
    (smallDriver par) (smallKeys par) (twoArbiters par (smallKeys par)) ballots
  · intro p hp
    simp only [twoArbiters, List.mem_cons, List.mem_singleton, List.not_mem_nil,
      or_false] at hp
    rcases hp with rfl | rfl
    · exact ⟨rfl, rfl, rfl⟩
    · exact ⟨rfl, rfl, rfl⟩
  · rfl
  · show (VoterClient_validRows par smallVoteHash smallSignatures (smallDriver par)
      (smallKeys par)
      (signedRows par smallVoteHash smallSignatures (smallDriver par) smallCiphertextHash
        smallPrivateKey 7 (smallKeys par).EG_arbiter_public_key ballots)).map _ = _
    rw [hvalid, signedRows_ballots]

/-- The scenario of three voters casting `0`, `1`, `1` with two arbiters: all rows are
kept, `CombineResults` returns `2` and `DoVerify` returns `(1, 2, true)`. -/
theorem DoVerify_three_voters :
    VoterClient_validRows smallParams smallVoteHash smallSignatures (smallDriver smallParams)
        (smallKeys smallParams) (smallStore smallParams smallBallots) =
      smallStore smallParams smallBallots ∧
    CombineResults smallParams
        (CombineVotes smallParams (smallStore smallParams smallBallots))
        (smallAdjudicated smallParams (smallStore smallParams smallBallots)) =
      Except.ok 2 ∧
    DoVerify smallParams smallVoteHash (constDecHash 3) smallSignatures
        (smallDriver smallParams) (smallKeys smallParams)
        (smallStore smallParams smallBallots)
        (smallAdjudicated smallParams (smallStore smallParams smallBallots)) =
      Except.ok (1, 2, true) := by
  decide

/-- With `2147483648` ballots for the vote `1` over `bigParams`, `DoVerify` stops at the
counter overflow of `CombineResults`. -/
theorem DoVerify_overflow_big :
    DoVerify bigParams smallVoteHash (constDecHash 3) smallSignatures (smallDriver bigParams)
        (smallKeys bigParams)
        (smallStore bigParams (List.replicate 2147483648 (1, smallDraw)))
        (smallAdjudicated bigParams
          (smallStore bigParams (List.replicate 2147483648 (1, smallDraw)))) =
      Except.error TallyError.counterOverflow := by
  rw [DoVerify_small_election bigParams bigParams_valid (by decide) _
    (fun p hp => Or.inr (by rw [List.eq_of_mem_replicate hp])),
    sum_votes_replicate, Nat.mul_one]
  exact if_neg (by decide)

/-- All rows of the store of honest voters of a small election are kept. -/
theorem smallStore_valid (par : Params) (hv : par.Valid) (hQ : 11 ≤ par.Q)
    (ballots : List (Nat × VoteRandomness)) (hvotes : ∀ p ∈ ballots, p.1 = 0 ∨ p.1 = 1) :
    VoterClient_validRows par smallVoteHash smallSignatures (smallDriver par) (smallKeys par)
        (smallStore par ballots) = smallStore par ballots ∧
      (smallStore par ballots).length = ballots.length :=
  ⟨signedRows_valid par hv smallVoteHash
      (fun x1 x2 x3 x4 x5 x6 x7 =>
        lt_of_lt_of_le (Nat.mod_lt _ (by decide : 0 < 11)) hQ)
      smallSignatures (smallDriver par) smallCiphertextHash (smallKeys par) smallPrivateKey 7
      smallKeyPair (fun message => by simp [smallKeys, honestKeys, smallSignatures]) rfl
      (electionPublicKey_inGroup par hv [3, 4]) ballots hvotes,
    by rw [smallStore, signedRows, List.length_map]⟩

/-- The store of `2147483648` honest ballots for the vote `1` over `bigParams`: all rows
are kept. -/
theorem bigStore_valid :
    VoterClient_validRows bigParams smallVoteHash smallSignatures (smallDriver bigParams)
        (smallKeys bigParams)
        (smallStore bigParams (List.replicate 2147483648 (1, smallDraw))) =
      smallStore bigParams (List.replicate 2147483648 (1, smallDraw)) ∧
    (smallStore bigParams (List.replicate 2147483648 (1, smallDraw))).length =
      2147483648 := by
  have h := smallStore_valid bigParams bigParams_valid (by decide)
    (List.replicate 2147483648 (1, smallDraw))
    (fun p hp => Or.inr (by rw [List.eq_of_mem_replicate hp]))
  exact ⟨h.1, by rw [h.2, List.length_replicate]⟩

/-- A ballot whose proof has one bit flipped is dropped by `DoVerify`. -/
theorem tampered_row_invalid (par : Params) (hv : par.Valid) (hQ2 : par.Q ≠ 2)
    (Hv : VoteHash) (hH : ∀ x1 x2 x3 x4 x5 x6 x7, Hv x1 x2 x3 x4 x5 x6 x7 < par.Q)
    (sd : SignatureDriver) (ed : ElectionDriver) (keys : ElectionKeys)
    (hpk : par.InGroup keys.EG_arbiter_public_key) (rnd : VoteRandomness) (vote : Nat)
    (hvote : vote = 0 ∨ vote = 1) (f : ZKPField) (k : Nat) (unblinded_signature : Nat)
    (tallyer_signature : List Nat) :
    VoterClient_rowValid par Hv sd ed keys
      { vote := (GenerateVote par Hv rnd vote keys.EG_arbiter_public_key).1,
        zkp := tamper (GenerateVote par Hv rnd vote keys.EG_arbiter_public_key).2 f k,
        unblinded_signature := unblinded_signature,
        tallyer_signature := tallyer_signature } = false :=
  rowValid_of_zkp_rejected par Hv sd ed keys _
    (GenerateVote_tamper_rejected par hv hQ2 Hv hH rnd vote keys.EG_arbiter_public_key hvote
      hpk f k)

/-- The tables of `generate_gates` for gates of the three types: one table per gate, in
the order of the gates, with the entries of `generate_gate_entries`. -/
theorem generate_gates_tables (lp : LabelParams) (cd : CryptoDriver) (circuit : Circuit)
    (labels : GarbledLabels) (shuffle : Nat → List ByteBlock → List ByteBlock)
    (hperm : ∀ i entries, (shuffle i entries).Perm entries)
    (htypes : ∀ gate ∈ circuit.gates, gate.type = 1 ∨ gate.type = 2 ∨ gate.type = 3) :
    ∃ ggates, generate_gates lp cd circuit labels shuffle = Except.ok ggates ∧
      ggates.length = circuit.gates.length ∧
      ∀ k, k < circuit.gates.length →
        ((circuit.gates.getD k default).type = 3 →
          (ggates.getD k { entries := [] }).entries.Perm
            [encrypt_label lp cd (labelOf labels false (circuit.gates.getD k default).lhs)
                { value := lp.DUMMY_RHS }
                (labelOf labels true (circuit.gates.getD k default).output),
             encrypt_label lp cd (labelOf labels true (circuit.gates.getD k default).lhs)
                { value := lp.DUMMY_RHS }
                (labelOf labels false (circuit.gates.getD k default).output)]) ∧
        ((circuit.gates.getD k default).type = 1 →
          (ggates.getD k { entries := [] }).entries.Perm
            [encrypt_label lp cd (labelOf labels false (circuit.gates.getD k default).lhs)
                (labelOf labels false (circuit.gates.getD k default).rhs)
                (labelOf labels (false && false) (circuit.gates.getD k default).output),
             encrypt_label lp cd (labelOf labels false (circuit.gates.getD k default).lhs)
                (labelOf labels true (circuit.gates.getD k default).rhs)
                (labelOf labels (false && true) (circuit.gates.getD k default).output),
             encrypt_label lp cd (labelOf labels true (circuit.gates.getD k default).lhs)
                (labelOf labels false (circuit.gates.getD k default).rhs)
                (labelOf labels (true && false) (circuit.gates.getD k default).output),
             encrypt_label lp cd (labelOf labels true (circuit.gates.getD k default).lhs)
                (labelOf labels true (circuit.gates.getD k default).rhs)
                (labelOf labels (true && true) (circuit.gates.getD k default).output)]) := by
  obtain ⟨ggates, hgen, hlen, hk⟩ :=
    generate_gates_from_ok lp cd labels shuffle circuit.gates 0 htypes
  refine ⟨ggates, hgen, hlen, ?_⟩
  intro k hklt
  have hmem : circuit.gates.getD k default ∈ circuit.gates := by
    rw [List.getD_eq_getElem _ _ hklt]
    exact List.getElem_mem _
  obtain ⟨ggate, hggate, h3, h1⟩ := generate_gate_entries lp cd labels (shuffle (0 + k))
    (circuit.gates.getD k default) (hperm _) (htypes _ hmem)
  have := hk k hklt
  rw [hggate] at this
  simp only [Except.ok.injEq] at this
  rw [← this]
  exact ⟨h3, h1⟩

/-- A gate of an unknown type is fatal on both sides: `generate_gates` throws, and so
do the gate loop of the evaluator and `EvaluatorClient::run` on any tables that reach
the gate. -/
theorem unknown_gate_fatal (lp : LabelParams) (cd : CryptoDriver) (circuit : Circuit)
    (labels : GarbledLabels) (shuffle : Nat → List ByteBlock → List ByteBlock)
    (hbad : ∃ gate ∈ circuit.gates, gate.type ≠ 1 ∧ gate.type ≠ 2 ∧ gate.type ≠ 3) :
    generate_gates lp cd circuit labels shuffle =
        Except.error RuntimeError.invalidGateType ∧
      ∀ (tables : List GarbledGate) (k : Nat), k < tables.length →
        (circuit.gates.getD k default).type ≠ 1 ∧ (circuit.gates.getD k default).type ≠ 2 ∧
          (circuit.gates.getD k default).type ≠ 3 →
        (∀ gwires_all, evaluate_tables lp cd circuit tables 0 gwires_all =
          Except.error RuntimeError.invalidGateType) ∧
        ∀ inputs ot_received,
          EvaluatorClient_labels lp cd circuit (tables, true) (inputs, true) ot_received =
            Except.error RuntimeError.invalidGateType := by
  refine ⟨generate_gates_from_error lp cd labels shuffle circuit.gates 0 hbad, ?_⟩
  intro tables k hk hkbad
  have herr : ∀ gwires_all, evaluate_tables lp cd circuit tables 0 gwires_all =
      Except.error RuntimeError.invalidGateType :=
    fun gw => evaluate_tables_error lp cd circuit tables 0 gw
      ⟨k, hk, by simpa using hkbad⟩
  refine ⟨herr, ?_⟩
  intro inputs ot_received
  simp only [EvaluatorClient_labels, Bool.not_true, Bool.false_eq_true, if_false, herr]

/-! ## The receiver's public value in the oblivious transfer -/

/-- Adding `a` modulo `Q` permutes the exponents below `Q`. -/
theorem range_shift_perm (Q a : Nat) :
    ((List.range Q).map fun b => (a + b) % Q).Perm (List.range Q) := by
  apply List.Subperm.perm_of_length_le
  · apply List.subperm_of_subset
    · apply List.Nodup.map_on _ (List.nodup_range Q)
      intro x hx y hy hxy
      have hx2 := List.mem_range.mp hx
      have hy2 := List.mem_range.mp hy
      have h1 : x ≡ y [MOD Q] := Nat.ModEq.add_left_cancel' a hxy
      have h2 : x % Q = y % Q := h1
      rwa [Nat.mod_eq_of_lt hx2, Nat.mod_eq_of_lt hy2] at h2
    · intro c hc
      obtain ⟨b, hb, rfl⟩ := List.mem_map.mp hc
      exact List.mem_range.mpr (Nat.mod_lt _ (by have := List.mem_range.mp hb; omega))
  · simp

/-- With the choice bit `1` the receiver sends the power of `G` with the exponent
shifted by the sender's exponent. -/
theorem receiver_value_shift (par : Params) (hv : par.Valid) (a b : Nat) :
    OT_recv_public par b 1 ({ public_value := ModularExponentiation par.G a par.P }, true) =
      OT_recv_public par ((a + b) % par.Q) 0
        ({ public_value := ModularExponentiation par.G a par.P }, true) := by
  have hP0 : 0 < par.P := hv.P_prime.pos
  have key : a_times_b_mod_c (ModularExponentiation par.G a par.P)
      (ModularExponentiation par.G b par.P) par.P =
      ModularExponentiation par.G ((a + b) % par.Q) par.P := by
    rw [eq_iff_cast_eq (mulMod_lt _ _ hP0) (modExp_lt _ _ hP0)]
    simp only [cast_mulMod, cast_modExp]
    rw [pow_mod_of_pow_eq_one hv.cast_G_pow, pow_add]
  simp [OT_recv_public, DH_initialize, key]

/-- Over the exponents `b` in `[0, Q)` the values sent for the choice bits `0` and `1`
are the same up to their order. -/
theorem receiverValues_perm (par : Params) (hv : par.Valid) (a : Nat) :
    (receiverValues par (ModularExponentiation par.G a par.P) 0 (List.range par.Q)).Perm
      (receiverValues par (ModularExponentiation par.G a par.P) 1 (List.range par.Q)) := by
  have h1 : receiverValues par (ModularExponentiation par.G a par.P) 1 (List.range par.Q) =
      ((List.range par.Q).map fun b => (a + b) % par.Q).map fun b =>
        OT_recv_public par b 0
          ({ public_value := ModularExponentiation par.G a par.P }, true) := by
    unfold receiverValues
    rw [List.map_map]
    apply List.map_congr_left
    intro b _
    exact receiver_value_shift par hv a b
  rw [h1]
  exact ((range_shift_perm par.Q a).map _).symm

/-- Over the exponents `b` in `[2, Q - 1]` the values sent for the two choice bits
differ: in the group of order `11` modulo `23` with `A = 2 ^ 2`, the value `4` is sent
for the choice bit `0` and the exponent `2`, and for no exponent with the choice
bit `1`. -/
theorem receiverValues_not_perm :
    ModularExponentiation smallParams.G 2 smallParams.P = 4 ∧
      ¬ (receiverValues smallParams 4 0 (List.range' 2 (smallParams.Q - 2))).Perm
        (receiverValues smallParams 4 1 (List.range' 2 (smallParams.Q - 2))) := by
  refine ⟨by decide, fun h => ?_⟩
  have hmem : (Except.ok { public_value := 4 } : Except RuntimeError OTPublicValue_Message) ∈
      receiverValues smallParams 4 0 (List.range' 2 (smallParams.Q - 2)) := by decide
  exact absurd (h.mem_iff.mp hmem) (by decide)

/-! ## Circuits of AND and NOT gates: one gate -/

/-- An AND gate whose wrong-key decryptions do not verify: `evaluate_gate` on the
labels of the bits `alpha`, `beta` returns the output label of `alpha && beta`. -/
theorem and_gate_eval (lp : LabelParams) (cd : CryptoDriver) (labels : GarbledLabels)
    (shuffle : List ByteBlock → List ByteBlock) (gate : Gate)
    (hperm : ∀ entries, (shuffle entries).Perm entries)
    (hLT : lp.LABEL_LENGTH ≤ lp.LABEL_TAG_LENGTH)
    (hz0 : (labels.zeros.getD gate.output default).value.length = lp.LABEL_LENGTH)
    (hz1 : (labels.ones.getD gate.output default).value.length = lp.LABEL_LENGTH)
    (hwrong : NoWrongKey lp cd labels gate) (htype : gate.type = 1) (alpha beta : Bool) :
    ∃ ggate, generate_gate lp cd labels shuffle gate = Except.ok ggate ∧
      evaluate_gate lp cd ggate (labelOf labels alpha gate.lhs)
        (labelOf labels beta gate.rhs) = labelOf labels (alpha && beta) gate.output := by
  have hp : ∀ a b : Bool,
      entryVerifies lp cd (labelOf labels alpha gate.lhs) (labelOf labels beta gate.rhs)
        (encrypt_label lp cd (labelOf labels a gate.lhs) (labelOf labels b gate.rhs)
          (labelOf labels (a && b) gate.output)) = decide (a = alpha ∧ b = beta) := by
    intro a b
    by_cases hab : a = alpha ∧ b = beta
    · obtain ⟨rfl, rfl⟩ := hab
      rw [(entryVerifies_encrypt_label lp cd hLT _ _ _ _ _
        (labelOf_length labels _ _ hz0 hz1 _)).mpr rfl]
      simp
    · rw [hwrong.1 htype a b alpha beta (fun h => hab (by
        simp only [Prod.mk.injEq] at h; exact h))]
      simp [hab]
  have hfilter : List.filter
      (entryVerifies lp cd (labelOf labels alpha gate.lhs) (labelOf labels beta gate.rhs))
      [encrypt_label lp cd (labelOf labels false gate.lhs) (labelOf labels false gate.rhs)
          (labelOf labels (false && false) gate.output),
        encrypt_label lp cd (labelOf labels true gate.lhs) (labelOf labels true gate.rhs)
          (labelOf labels (true && true) gate.output),
        encrypt_label lp cd (labelOf labels false gate.lhs) (labelOf labels true gate.rhs)
          (labelOf labels (false && true) gate.output),
        encrypt_label lp cd (labelOf labels true gate.lhs) (labelOf labels false gate.rhs)
          (labelOf labels (true && false) gate.output)] =
      [encrypt_label lp cd (labelOf labels alpha gate.lhs) (labelOf labels beta gate.rhs)
        (labelOf labels (alpha && beta) gate.output)] := by
    simp only [List.filter, hp]
    cases alpha <;> cases beta <;> simp
  obtain ⟨_, heval⟩ := evaluate_gate_of_filter lp cd shuffle _ (hperm _) _ _ _ hfilter
  refine ⟨_, ?_, heval.trans ?_⟩
  · simp only [generate_gate, htype, if_true]
    rfl
  · rw [snip_decryption_encrypt_label lp cd hLT _ _ _
      (labelOf_length labels _ _ hz0 hz1 _)]

/-- A NOT gate whose wrong-key decryption does not verify: `evaluate_gate` on the label
of the bit `alpha` and `DUMMY_RHS` returns the output label of `!alpha`. -/
theorem not_gate_eval (lp : LabelParams) (cd : CryptoDriver) (labels : GarbledLabels)
    (shuffle : List ByteBlock → List ByteBlock) (gate : Gate)
    (hperm : ∀ entries, (shuffle entries).Perm entries)
    (hLT : lp.LABEL_LENGTH ≤ lp.LABEL_TAG_LENGTH)
    (hz0 : (labels.zeros.getD gate.output default).value.length = lp.LABEL_LENGTH)
    (hz1 : (labels.ones.getD gate.output default).value.length = lp.LABEL_LENGTH)
    (hwrong : NoWrongKey lp cd labels gate) (htype : gate.type = 3) (alpha : Bool) :
    ∃ ggate, generate_gate lp cd labels shuffle gate = Except.ok ggate ∧
      evaluate_gate lp cd ggate (labelOf labels alpha gate.lhs) { value := lp.DUMMY_RHS } =
        labelOf labels (!alpha) gate.output := by
  have hp : ∀ a : Bool,
      entryVerifies lp cd (labelOf labels alpha gate.lhs) { value := lp.DUMMY_RHS }
        (encrypt_label lp cd (labelOf labels a gate.lhs) { value := lp.DUMMY_RHS }
          (labelOf labels (!a) gate.output)) = decide (a = alpha) := by
    intro a
    by_cases hab : a = alpha
    · subst hab
      rw [(entryVerifies_encrypt_label lp cd hLT _ _ _ _ _
        (labelOf_length labels _ _ hz0 hz1 _)).mpr rfl]
      simp
    · rw [hwrong.2 htype a alpha hab]
      simp [hab]
  have hfilter : List.filter
      (entryVerifies lp cd (labelOf labels alpha gate.lhs) { value := lp.DUMMY_RHS })
      [encrypt_label lp cd (labelOf labels false gate.lhs) { value := lp.DUMMY_RHS }
          (labelOf labels (!false) gate.output),
        encrypt_label lp cd (labelOf labels true gate.lhs) { value := lp.DUMMY_RHS }
          (labelOf labels (!true) gate.output)] =
      [encrypt_label lp cd (labelOf labels alpha gate.lhs) { value := lp.DUMMY_RHS }
        (labelOf labels (!alpha) gate.output)] := by
    simp only [List.filter, hp]
    cases alpha <;> simp
  obtain ⟨_, heval⟩ := evaluate_gate_of_filter lp cd shuffle _ (hperm _) _ _ _ hfilter
  refine ⟨_, ?_, heval.trans ?_⟩
  · simp only [generate_gate, htype, if_true]
    rfl
  · rw [snip_decryption_encrypt_label lp cd hLT _ _ _
      (labelOf_length labels _ _ hz0 hz1 _)]

/-- A table of the loop of `generate_gates` comes from `generate_gate` on the first
gate, followed by the tables of the other gates. -/
theorem generate_gates_from_cons (lp : LabelParams) (cd : CryptoDriver)
    (labels : GarbledLabels) (shuffle : Nat → List ByteBlock → List ByteBlock)
    (gate : Gate) (rest : List Gate) (i : Nat) (tables : List GarbledGate)
    (h : generate_gates_from lp cd labels shuffle (gate :: rest) i = Except.ok tables) :
    ∃ ggate others, generate_gate lp cd labels (shuffle i) gate = Except.ok ggate ∧
      generate_gates_from lp cd labels shuffle rest (i + 1) = Except.ok others ∧
      tables = ggate :: others := by
  unfold generate_gates_from at h
  cases hg : generate_gate lp cd labels (shuffle i) gate with
  | error e => rw [hg] at h; simp at h
  | ok ggate =>
    rw [hg] at h
    cases hr : generate_gates_from lp cd labels shuffle rest (i + 1) with
    | error e => rw [hr] at h; simp at h
    | ok others =>
      rw [hr] at h
      simp only [Except.ok.injEq] at h
      exact ⟨ggate, others, rfl, rfl, h.symm⟩

/-! ## Circuits of AND and NOT gates: the gate loop -/

/-- Writing a bit and its label on the wire `out` keeps the evaluator's wires in
agreement with the plain wires. -/
theorem WiresAgree.set {labels : GarbledLabels} {num_wire : Nat} {defined : List Nat}
    {wires : List Nat} {gwires : List GarbledWire}
    (h : WiresAgree labels num_wire defined wires gwires) (out v : Nat)
    (hout : out < num_wire) (hv : v = 0 ∨ v = 1) :
    WiresAgree labels num_wire (out :: defined) (wires.set out v)
      (gwires.set out (labelOf labels (decide (v = 1)) out)) := by
  obtain ⟨hw, hg, hall⟩ := h
  refine ⟨by rw [List.length_set, hw], by rw [List.length_set, hg], ?_⟩
  intro w hwmem
  by_cases hwo : w = out
  · subst hwo
    have e1 : (wires.set w v).getD w 0 = v := by
      rw [List.getD_eq_getElem?_getD, List.getElem?_set_self (by omega)]
      rfl
    have e2 : (gwires.set w (labelOf labels (decide (v = 1)) w)).getD w default =
        labelOf labels (decide (v = 1)) w := by
      rw [List.getD_eq_getElem?_getD, List.getElem?_set_self (by omega)]
      rfl
    rw [e1, e2]
    exact ⟨hout, hv, rfl⟩
  · have hdef : w ∈ defined := by
      rcases List.mem_cons.mp hwmem with h | h
      · exact absurd h hwo
      · exact h
    have e1 : (wires.set out v).getD w 0 = wires.getD w 0 := by
      rw [List.getD_eq_getElem?_getD, List.getD_eq_getElem?_getD,
        List.getElem?_set_ne (fun h => hwo h.symm)]
    have e2 : (gwires.set out (labelOf labels (decide (v = 1)) out)).getD w default =
        gwires.getD w default := by
      rw [List.getD_eq_getElem?_getD, List.getD_eq_getElem?_getD,
        List.getElem?_set_ne (fun h => hwo h.symm)]
    rw [e1, e2]
    exact hall w hdef

/-- The gate loop of `EvaluatorClient::run` on the tables of `generate_gates`, for a
well-formed run of AND and NOT gates under sound garbling: when the evaluator's wires
carry the labels of the plain values before the loop, they do so after it. -/
theorem evaluate_tables_agree (lp : LabelParams) (cd : CryptoDriver) (circuit : Circuit)
    (labels : GarbledLabels) (shuffle : Nat → List ByteBlock → List ByteBlock)
    (hperm : ∀ i entries, (shuffle i entries).Perm entries)
    (hsound : GarblingSound lp cd labels circuit) :
    ∀ (rest pre : List Gate) (tables : List GarbledGate) (defined final : List Nat)
      (wires : List Nat) (gwires : List GarbledWire),
      circuit.gates = pre ++ rest →
      generate_gates_from lp cd labels shuffle rest pre.length = Except.ok tables →
      wiresDefined circuit rest defined = some final →
      WiresAgree labels circuit.num_wire defined wires gwires →
      ∃ gfinal, evaluate_tables lp cd circuit tables pre.length gwires = Except.ok gfinal ∧
        WiresAgree labels circuit.num_wire final (plainGates rest wires) gfinal := by
  intro rest
  induction rest with
  | nil =>
    intro pre tables defined final wires gwires _ hgen hdef hagree
    simp only [generate_gates_from, Except.ok.injEq] at hgen
    simp only [wiresDefined, Option.some.injEq] at hdef
    subst hgen hdef
    exact ⟨gwires, rfl, hagree⟩
  | cons gate rest ih =>
    intro pre tables defined final wires gwires hgates hgen hdef hagree
    obtain ⟨ggate, others, hggate, hothers, rfl⟩ :=
      generate_gates_from_cons lp cd labels shuffle gate rest pre.length tables hgen
    have hat : circuit.gates.getD pre.length default = gate := by
      rw [hgates, List.getD_eq_getElem?_getD, List.getElem?_append_right (Nat.le_refl _)]
      simp
    have hmem : gate ∈ circuit.gates := by rw [hgates]; simp
    obtain ⟨hLT, hgs⟩ := hsound
    obtain ⟨hz0, hz1, hwrong⟩ := hgs gate hmem
    have hgates2 : circuit.gates = (pre ++ [gate]) ++ rest := by
      rw [hgates, List.append_assoc]; rfl
    have hlen2 : (pre ++ [gate]).length = pre.length + 1 := by simp
    unfold wiresDefined at hdef
    split at hdef
    case isFalse => simp at hdef
    case isTrue hcond =>
      obtain ⟨hkind, hout⟩ := hcond
      rcases hkind with ⟨htype, hl, hr⟩ | ⟨htype, hl⟩
      · obtain ⟨_, hlbit, hllab⟩ := hagree.2.2 gate.lhs hl
        obtain ⟨_, hrbit, hrlab⟩ := hagree.2.2 gate.rhs hr
        obtain ⟨ggate2, hgen2, heval⟩ := and_gate_eval lp cd labels (shuffle pre.length) gate
          (hperm pre.length) hLT hz0 hz1 hwrong htype
          (decide (wires.getD gate.lhs 0 = 1)) (decide (wires.getD gate.rhs 0 = 1))
        rw [hggate] at hgen2
        simp only [Except.ok.injEq] at hgen2
        subst hgen2
        have hv : wires.getD gate.lhs 0 * wires.getD gate.rhs 0 % 2 = 0 ∨
            wires.getD gate.lhs 0 * wires.getD gate.rhs 0 % 2 = 1 := by omega
        have hbit : (decide (wires.getD gate.lhs 0 = 1) && decide (wires.getD gate.rhs 0 = 1)) =
            decide (wires.getD gate.lhs 0 * wires.getD gate.rhs 0 % 2 = 1) := by
          rcases hlbit with h1 | h1 <;> rcases hrbit with h2 | h2 <;> rw [h1, h2] <;> rfl
        have hnew := hagree.set gate.output
          (wires.getD gate.lhs 0 * wires.getD gate.rhs 0 % 2) hout hv
        obtain ⟨gfinal, hfinal, hagree2⟩ := ih (pre ++ [gate]) others
          (gate.output :: defined) final _ _ hgates2 (by rw [hlen2]; exact hothers) hdef hnew
        refine ⟨gfinal, ?_, ?_⟩
        · unfold evaluate_tables
          simp only [hat, htype, if_true, hllab, hrlab, heval, hbit]
          rw [hlen2] at hfinal
          exact hfinal
        · unfold plainGates
          simp only [htype, if_true]
          exact hagree2
      · obtain ⟨_, hlbit, hllab⟩ := hagree.2.2 gate.lhs hl
        obtain ⟨ggate2, hgen2, heval⟩ := not_gate_eval lp cd labels (shuffle pre.length) gate
          (hperm pre.length) hLT hz0 hz1 hwrong htype (decide (wires.getD gate.lhs 0 = 1))
        rw [hggate] at hgen2
        simp only [Except.ok.injEq] at hgen2
        subst hgen2
        have hv : (wires.getD gate.lhs 0 + 1) % 2 = 0 ∨ (wires.getD gate.lhs 0 + 1) % 2 = 1 := by
          omega
        have hbit : (!decide (wires.getD gate.lhs 0 = 1)) =
            decide ((wires.getD gate.lhs 0 + 1) % 2 = 1) := by
          rcases hlbit with h1 | h1 <;> rw [h1] <;> rfl
        have hnew := hagree.set gate.output ((wires.getD gate.lhs 0 + 1) % 2) hout hv
        obtain ⟨gfinal, hfinal, hagree2⟩ := ih (pre ++ [gate]) others
          (gate.output :: defined) final _ _ hgates2 (by rw [hlen2]; exact hothers) hdef hnew
        have h31 : gate.type ≠ 1 := by omega
        have h32 : gate.type ≠ 2 := by omega
        refine ⟨gfinal, ?_, ?_⟩
        · unfold evaluate_tables
          simp only [hat, htype, if_neg h31, if_neg h32, if_true, hllab, heval, hbit]
          rw [hlen2] at hfinal
          exact hfinal
        · unfold plainGates
          simp only [htype, if_neg h31, if_neg h32]
          exact hagree2

/-! ## Circuits of AND and NOT gates: the wires before the gate loop -/

/-- The labels that `get_garbled_wires` returns for input bits. -/
theorem get_garbled_wires_from_bits (labels : GarbledLabels) (begin : Nat) :
    ∀ (bits : List Nat) (i : Nat), (∀ b ∈ bits, b = 0 ∨ b = 1) →
    get_garbled_wires_from labels begin bits i =
      (List.range bits.length).map fun k =>
        labelOf labels (decide (bits.getD k 0 = 1)) (begin + (i + k)) := by
  intro bits
  induction bits with
  | nil => intro i _; rfl
  | cons b rest ih =>
    intro i hbits
    have hrest := ih (i + 1) (fun c hc => hbits c (List.mem_cons_of_mem _ hc))
    have htail : (List.range rest.length).map (fun k =>
          labelOf labels (decide (rest.getD k 0 = 1)) (begin + (i + 1 + k))) =
        (List.map Nat.succ (List.range rest.length)).map (fun k =>
          labelOf labels (decide ((b :: rest).getD k 0 = 1)) (begin + (i + k))) := by
      rw [List.map_map]
      apply List.map_congr_left
      intro k _
      have e : begin + (i + 1 + k) = begin + (i + Nat.succ k) := by omega
      simp only [Function.comp_apply, e]
      rfl
    rw [List.length_cons, List.range_succ_eq_map, List.map_cons, ← htail, ← hrest]
    rcases hbits b (List.mem_cons_self _ _) with rfl | rfl
    · simp only [get_garbled_wires_from, if_true]
      rfl
    · simp only [get_garbled_wires_from]
      rfl

theorem get_garbled_wires_getD (labels : GarbledLabels) (bits : List Nat)
    (hbits : ∀ b ∈ bits, b = 0 ∨ b = 1) (k : Nat) (hk : k < bits.length) :
    (get_garbled_wires labels bits 0).length = bits.length ∧
      (get_garbled_wires labels bits 0).getD k default =
        labelOf labels (decide (bits.getD k 0 = 1)) k := by
  unfold get_garbled_wires
  rw [get_garbled_wires_from_bits labels 0 bits 0 hbits]
  refine ⟨by simp, ?_⟩
  rw [List.getD_eq_getElem?_getD, List.getElem?_map, List.getElem?_range hk]
  simp only [Option.map_some', Option.getD_some, Nat.zero_add]

/-- The oblivious transfers of an honest session deliver the message of each bit. -/
theorem honestOTs_ok (par : Params) (hv : par.Valid) (cd : CryptoDriver)
    (hcd : cd.AESCorrect) (rnd : SessionRandomness) :
    ∀ (messages : List (ByteBlock × ByteBlock)) (bits : List Nat) (i : Nat),
    honestOTs par cd rnd messages bits i =
      Except.ok (List.zipWith (fun (m : ByteBlock × ByteBlock) (c : Nat) =>
        if c = 0 then m.1 else m.2) messages bits) := by
  intro messages
  induction messages with
  | nil => intro bits i; cases bits <;> rfl
  | cons m rest ih =>
    intro bits i
    cases bits with
    | nil => rfl
    | cons c cs =>
      simp only [honestOTs, List.zipWith_cons_cons,
        (honestOT_correct par hv cd hcd (rnd.ot_a i) (rnd.ot_b i) (rnd.ot_iv0 i)
          (rnd.ot_iv1 i) m.1 m.2 c).1, ih cs (i + 1)]

/-- The wires the evaluator holds before its gate loop carry the labels of the input
bits on the input wires. -/
theorem initial_wires_agree (labels : GarbledLabels) (circuit : Circuit) (x y : List Nat)
    (hx : x.length = circuit.garbler_input_length)
    (hy : y.length = circuit.evaluator_input_length)
    (hle : circuit.garbler_input_length + circuit.evaluator_input_length ≤ circuit.num_wire)
    (hbits : ∀ b ∈ x ++ y, b = 0 ∨ b = 1) :
    WiresAgree labels circuit.num_wire
      (List.range (circuit.garbler_input_length + circuit.evaluator_input_length))
      ((x ++ y) ++ List.replicate (circuit.num_wire - (x ++ y).length) 0)
      (resizeWires
        (get_garbled_wires labels x 0 ++
          (List.zipWith (fun (m : ByteBlock × ByteBlock) (c : Nat) =>
              if c = 0 then m.1 else m.2)
            ((List.range' circuit.garbler_input_length
              circuit.evaluator_input_length).map fun i =>
                ((labels.zeros.getD i default).value, (labels.ones.getD i default).value))
            y).map fun inputlabel => { value := inputlabel })
        circuit.num_wire) := by
  have hxbits : ∀ b ∈ x, b = 0 ∨ b = 1 := fun b hb => hbits b (List.mem_append_left _ hb)
  have hybits : ∀ b ∈ y, b = 0 ∨ b = 1 := fun b hb => hbits b (List.mem_append_right _ hb)
  have hglen : (get_garbled_wires labels x 0).length = x.length := by
    unfold get_garbled_wires
    rw [get_garbled_wires_from_bits labels 0 x 0 hxbits]
    simp
  have hxy : (x ++ y).length = circuit.garbler_input_length + circuit.evaluator_input_length := by
    rw [List.length_append, hx, hy]
  refine ⟨by rw [List.length_append, List.length_replicate]; omega, ?_, ?_⟩
  · unfold resizeWires
    rw [List.length_take, List.length_append, List.length_replicate]
    omega
  · intro w hw
    have hw2 := List.mem_range.mp hw
    have hwxy : w < (x ++ y).length := by omega
    have hplain : ((x ++ y) ++ List.replicate (circuit.num_wire - (x ++ y).length) 0).getD w 0 =
        (x ++ y).getD w 0 := by
      rw [List.getD_eq_getElem?_getD, List.getD_eq_getElem?_getD,
        List.getElem?_append_left hwxy]
    have hin : (x ++ y).getD w 0 ∈ x ++ y := by
      rw [List.getD_eq_getElem _ _ hwxy]
      exact List.getElem_mem _
    refine ⟨by omega, by rw [hplain]; exact hbits _ hin, ?_⟩
    rw [hplain]
    unfold resizeWires
    rw [List.getD_eq_getElem?_getD, List.getElem?_take_of_lt (by omega)]
    by_cases hwx : w < x.length
    · rw [List.getElem?_append_left (by
          rw [List.length_append, hglen]; omega),
        List.getElem?_append_left (by rw [hglen]; exact hwx),
        ← List.getD_eq_getElem?_getD, (get_garbled_wires_getD labels x hxbits w hwx).2]
      have : (x ++ y).getD w 0 = x.getD w 0 := by
        rw [List.getD_eq_getElem?_getD, List.getD_eq_getElem?_getD,
          List.getElem?_append_left hwx]
      rw [this]
    · have hk : w - x.length < circuit.evaluator_input_length := by omega
      have hky : w - x.length < y.length := by omega
      have hlenz : (List.zipWith (fun (m : ByteBlock × ByteBlock) (c : Nat) =>
              if c = 0 then m.1 else m.2)
            ((List.range' circuit.garbler_input_length
              circuit.evaluator_input_length).map fun i =>
                ((labels.zeros.getD i default).value, (labels.ones.getD i default).value))
            y).length = circuit.evaluator_input_length := by
        simp [hy]
      have hyw : (x ++ y).getD w 0 = y[w - x.length] := by
        rw [List.getD_eq_getElem?_getD, List.getElem?_append_right (by omega),
          List.getElem?_eq_getElem hky]
        rfl
      have hidx : circuit.garbler_input_length + 1 * (w - x.length) = w := by omega
      have hbit : y[w - x.length] = 0 ∨ y[w - x.length] = 1 :=
        hybits (y[w - x.length]) (List.getElem_mem hky)
      rw [List.getElem?_append_left (by
          rw [List.length_append, hglen, List.length_map, hlenz]; omega),
        List.getElem?_append_right (by rw [hglen]; omega), hglen, List.getElem?_map,
        List.getElem?_zipWith, List.getElem?_map, List.getElem?_range' _ _ hk,
        List.getElem?_eq_getElem hky, hyw, hidx]
      rcases hbit with h | h
      · rw [h]; rfl
      · rw [h]; rfl

/-! ## Circuits of AND and NOT gates: the session -/

/-- The gates of a well-formed run are AND and NOT gates. -/
theorem wiresDefined_types (circuit : Circuit) :
    ∀ (gates : List Gate) (defined final : List Nat),
    wiresDefined circuit gates defined = some final →
    ∀ gate ∈ gates, gate.type = 1 ∨ gate.type = 2 ∨ gate.type = 3 := by
  intro gates
  induction gates with
  | nil => intro _ _ _ gate hg; simp at hg
  | cons g rest ih =>
    intro defined final hdef gate hg
    unfold wiresDefined at hdef
    split at hdef
    case isFalse => simp at hdef
    case isTrue hcond =>
      rcases List.mem_cons.mp hg with rfl | hmem
      · rcases hcond.1 with h | h
        · exact Or.inl h.1
        · exact Or.inr (Or.inr h.1)
      · exact ih _ _ hdef gate hmem

/-- What `Circuit.wellFormed` checks. -/
theorem Circuit.wellFormed_spec (circuit : Circuit) (hwf : circuit.wellFormed = true) :
    circuit.garbler_input_length + circuit.evaluator_input_length + circuit.output_length ≤
        circuit.num_wire ∧
      ∃ final, wiresDefined circuit circuit.gates
          (List.range (circuit.garbler_input_length + circuit.evaluator_input_length)) =
          some final ∧
        ∀ w, w < circuit.num_wire → w ∈ final := by
  unfold Circuit.wellFormed at hwf
  rw [Bool.and_eq_true, decide_eq_true_iff] at hwf
  obtain ⟨h1, h2⟩ := hwf
  refine ⟨h1, ?_⟩
  cases hd : wiresDefined circuit circuit.gates
      (List.range (circuit.garbler_input_length + circuit.evaluator_input_length)) with
  | none => rw [hd] at h2; simp at h2
  | some final =>
    rw [hd] at h2
    refine ⟨final, rfl, ?_⟩
    intro w hw
    have := List.all_eq_true.mp h2 w (List.mem_range.mpr hw)
    simpa using this

theorem foldl_append_string (l : List String) :
    ∀ acc : String, l.foldl (fun r s => r ++ s) acc = acc ++ String.join l := by
  induction l with
  | nil => intro acc; simp [String.join]
  | cons s rest ih =>
    intro acc
    show List.foldl (fun r s => r ++ s) (acc ++ s) rest =
      acc ++ List.foldl (fun r s => r ++ s) ("" ++ s) rest
    rw [ih (acc ++ s), ih ("" ++ s), String.empty_append, String.append_assoc]

theorem String.join_cons_eq (s : String) (l : List String) :
    String.join (s :: l) = s ++ String.join l := by
  rw [String.join, List.foldl_cons, foldl_append_string, String.empty_append]

/-- The string of the specification for the labels of bits on the output wires is the
string of these bits. -/
theorem expectedOutput_of_bits (circuit : Circuit) (labels : GarbledLabels)
    (hdistinct : LabelsDistinct labels circuit) (bit : Nat → Nat)
    (hfirst : circuit.garbler_input_length + circuit.evaluator_input_length +
      circuit.output_length ≤ circuit.num_wire) :
    ∀ (n k0 : Nat), k0 + n ≤ circuit.output_length →
    expectedOutput circuit labels
        ((List.range' k0 n).map fun j =>
          labelOf labels (decide (bit (circuit.num_wire - circuit.output_length + j) = 1))
            (circuit.num_wire - circuit.output_length + j)) k0 =
      String.join ((List.range' k0 n).map fun j =>
        if bit (circuit.num_wire - circuit.output_length + j) = 1 then "1" else "0") := by
  intro n
  induction n with
  | zero => intro k0 _; rfl
  | succ n ih =>
    intro k0 hk
    rw [List.range'_succ, List.map_cons, List.map_cons, String.join_cons_eq]
    simp only [expectedOutput]
    rw [ih (k0 + 1) (by omega)]
    congr 1
    have hmem : circuit.num_wire - circuit.output_length + k0 ∈
        List.range' (circuit.garbler_input_length + circuit.evaluator_input_length)
          (circuit.num_wire -
            (circuit.garbler_input_length + circuit.evaluator_input_length)) := by
      rw [List.mem_range'_1]
      omega
    by_cases hb : bit (circuit.num_wire - circuit.output_length + k0) = 1
    · have hne : (labels.zeros.getD (circuit.num_wire - circuit.output_length + k0)
          default).value ≠ (labels.ones.getD (circuit.num_wire - circuit.output_length + k0)
          default).value := by
        intro h
        have := (hdistinct _ hmem _ hmem false true h).2
        exact Bool.false_ne_true this
      simp only [hb, decide_True, if_true, decodedBit, labelOf, if_neg hne]
    · simp only [hb, decide_False, if_false, decodedBit, labelOf, Bool.false_eq_true, if_true]

/-- An honest session on a well-formed circuit of AND and NOT gates under sound
garbling with distinct labels: after the gate loop the evaluator holds on every wire
the garbler's label of the wire's plain value, and both `run` calls return the output
string of the circuit. -/
theorem and_not_session (par : Params) (hv : par.Valid) (lp : LabelParams)
    (cd : CryptoDriver) (hcd : cd.AESCorrect) (circuit : Circuit) (rnd : SessionRandomness)
    (x y : List Nat) (hwf : circuit.wellFormed = true)
    (hx : x.length = circuit.garbler_input_length)
    (hy : y.length = circuit.evaluator_input_length)
    (hbits : ∀ b ∈ x ++ y, b = 0 ∨ b = 1)
    (hperm : ∀ i entries, (rnd.shuffle i entries).Perm entries)
    (hsound : GarblingSound lp cd (generate_labels lp circuit rnd.deltaDraw rnd.draws)
      circuit)
    (hdistinct : LabelsDistinct (generate_labels lp circuit rnd.deltaDraw rnd.draws)
      circuit) :
    (∃ gwires, honestWires par lp cd circuit rnd x y = Except.ok gwires ∧
        ∀ w, w < circuit.num_wire →
          gwires.getD w default =
            labelOf (generate_labels lp circuit rnd.deltaDraw rnd.draws)
              (decide ((plainWires circuit x y).getD w 0 = 1)) w) ∧
      honestSession par lp cd circuit rnd x y =
        Except.ok (plainOutput circuit x y, plainOutput circuit x y) := by
  obtain ⟨hfirst, final, hdef, hallw⟩ := circuit.wellFormed_spec hwf
  have htypes := wiresDefined_types circuit circuit.gates _ final hdef
  obtain ⟨tables, hgen, _, _⟩ := generate_gates_from_ok lp cd
    (generate_labels lp circuit rnd.deltaDraw rnd.draws) rnd.shuffle circuit.gates 0 htypes
  have hinit := initial_wires_agree (generate_labels lp circuit rnd.deltaDraw rnd.draws)
    circuit x y hx hy (by omega) hbits
  obtain ⟨gfinal, heval, hagree⟩ := evaluate_tables_agree lp cd circuit
    (generate_labels lp circuit rnd.deltaDraw rnd.draws) rnd.shuffle hperm hsound
    circuit.gates [] tables _ final _ _ rfl hgen hdef hinit
  have hwires : ∀ w, w < circuit.num_wire →
      ((plainWires circuit x y).getD w 0 = 0 ∨ (plainWires circuit x y).getD w 0 = 1) ∧
      gfinal.getD w default =
        labelOf (generate_labels lp circuit rnd.deltaDraw rnd.draws)
          (decide ((plainWires circuit x y).getD w 0 = 1)) w :=
    fun w hw => (hagree.2.2 w (hallw w hw)).2
  have hsend : GarblerClient_send lp cd circuit
      (generate_labels lp circuit rnd.deltaDraw rnd.draws) rnd.shuffle x =
      Except.ok
        { garbled_tables := tables,
          garbler_inputs :=
            get_garbled_wires (generate_labels lp circuit rnd.deltaDraw rnd.draws) x 0,
          ot_messages :=
            (List.range' circuit.garbler_input_length circuit.evaluator_input_length).map
              fun i =>
                (((generate_labels lp circuit rnd.deltaDraw rnd.draws).zeros.getD i
                    default).value,
                  ((generate_labels lp circuit rnd.deltaDraw rnd.draws).ones.getD i
                    default).value) } := by
    simp only [GarblerClient_send, generate_gates, hgen]
  have hrun : honestWires par lp cd circuit rnd x y = Except.ok gfinal := by
    simp only [honestWires, hsend, honestOTs_ok par hv cd hcd rnd]
    exact heval
  refine ⟨⟨gfinal, hrun, fun w hw => (hwires w hw).2⟩, ?_⟩
  have hlabels : (List.range circuit.output_length).map (fun j =>
        gfinal.getD (circuit.num_wire - circuit.output_length + j) default) =
      (List.range' 0 circuit.output_length).map fun j =>
        labelOf (generate_labels lp circuit rnd.deltaDraw rnd.draws)
          (decide ((plainWires circuit x y).getD
            (circuit.num_wire - circuit.output_length + j) 0 = 1))
          (circuit.num_wire - circuit.output_length + j) := by
    rw [← List.range_eq_range']
    apply List.map_congr_left
    intro j hj
    exact (hwires _ (by have := List.mem_range.mp hj; omega)).2
  have hown : ∀ k (hk : k < ((List.range' 0 circuit.output_length).map fun j =>
        labelOf (generate_labels lp circuit rnd.deltaDraw rnd.draws)
          (decide ((plainWires circuit x y).getD
            (circuit.num_wire - circuit.output_length + j) 0 = 1))
          (circuit.num_wire - circuit.output_length + j)).length),
      circuit.garbler_input_length + circuit.evaluator_input_length ≤
          circuit.num_wire - circuit.output_length + k ∧
        circuit.num_wire - circuit.output_length + k < circuit.num_wire ∧
        ∀ j, circuit.garbler_input_length + circuit.evaluator_input_length ≤ j →
          j < circuit.num_wire → j ≠ circuit.num_wire - circuit.output_length + k →
          ((generate_labels lp circuit rnd.deltaDraw rnd.draws).zeros.getD j default).value ≠
              (((List.range' 0 circuit.output_length).map fun j =>
                labelOf (generate_labels lp circuit rnd.deltaDraw rnd.draws)
                  (decide ((plainWires circuit x y).getD
                    (circuit.num_wire - circuit.output_length + j) 0 = 1))
                  (circuit.num_wire - circuit.output_length + j)).get ⟨k, hk⟩).value ∧
            ((generate_labels lp circuit rnd.deltaDraw rnd.draws).ones.getD j default).value ≠
              (((List.range' 0 circuit.output_length).map fun j =>
                labelOf (generate_labels lp circuit rnd.deltaDraw rnd.draws)
                  (decide ((plainWires circuit x y).getD
                    (circuit.num_wire - circuit.output_length + j) 0 = 1))
                  (circuit.num_wire - circuit.output_length + j)).get ⟨k, hk⟩).value := by
    intro k hk
    have hk2 : k < circuit.output_length := by simpa using hk
    refine ⟨by omega, by omega, ?_⟩
    intro j hj1 hj2 hj3
    have hjm : j ∈ List.range'
        (circuit.garbler_input_length + circuit.evaluator_input_length)
        (circuit.num_wire -
          (circuit.garbler_input_length + circuit.evaluator_input_length)) := by
      rw [List.mem_range'_1]; omega
    have hom : circuit.num_wire - circuit.output_length + k ∈ List.range'
        (circuit.garbler_input_length + circuit.evaluator_input_length)
        (circuit.num_wire -
          (circuit.garbler_input_length + circuit.evaluator_input_length)) := by
      rw [List.mem_range'_1]; omega
    simp only [List.get_eq_getElem, List.getElem_map, List.getElem_range', Nat.zero_add,
      Nat.one_mul]
    exact ⟨fun h => hj3 (hdistinct j hjm _ hom false _ h).1,
      fun h => hj3 (hdistinct j hjm _ hom true _ h).1⟩
  have hdecode := (GarblerClient_decode_eq circuit
    (generate_labels lp circuit rnd.deltaDraw rnd.draws) _ hown).1
  have hstring : expectedOutput circuit (generate_labels lp circuit rnd.deltaDraw rnd.draws)
        ((List.range' 0 circuit.output_length).map fun j =>
          labelOf (generate_labels lp circuit rnd.deltaDraw rnd.draws)
            (decide ((plainWires circuit x y).getD
              (circuit.num_wire - circuit.output_length + j) 0 = 1))
            (circuit.num_wire - circuit.output_length + j)) 0 =
      plainOutput circuit x y := by
    rw [expectedOutput_of_bits circuit _ hdistinct
      (fun w => (plainWires circuit x y).getD w 0) hfirst circuit.output_length 0 (by omega)]
    unfold plainOutput
    rw [← List.range_eq_range']
    congr 1
    apply List.map_congr_left
    intro j hj
    have hb := (hwires (circuit.num_wire - circuit.output_length + j)
      (by have := List.mem_range.mp hj; omega)).1
    show (if (plainWires circuit x y).getD (circuit.num_wire - circuit.output_length + j) 0 = 1
      then "1" else "0") =
      if (plainWires circuit x y).getD (circuit.num_wire - circuit.output_length + j) 0 = 0
      then "0" else "1"
    rcases hb with h | h <;> rw [h] <;> rfl
  have hrun2 : evaluate_tables lp cd circuit tables 0
      (resizeWires
        (get_garbled_wires (generate_labels lp circuit rnd.deltaDraw rnd.draws) x 0 ++
          (List.zipWith (fun (m : ByteBlock × ByteBlock) (c : Nat) =>
              if c = 0 then m.1 else m.2)
            ((List.range' circuit.garbler_input_length
              circuit.evaluator_input_length).map fun i =>
                (((generate_labels lp circuit rnd.deltaDraw rnd.draws).zeros.getD i
                    default).value,
                  ((generate_labels lp circuit rnd.deltaDraw rnd.draws).ones.getD i
                    default).value))
            y).map fun inputlabel => { value := inputlabel })
        circuit.num_wire) = Except.ok gfinal := heval
  simp only [honestSession, hsend, honestOTs_ok par hv cd hcd rnd, EvaluatorClient_labels,
    Bool.not_true, Bool.false_eq_true, if_false, hrun2, hlabels, hdecode, hstring,
    EvaluatorClient_output]

/-! ## The labels of an input vector -/

/-- For an input vector of bits within the wires, `get_garbled_wires` returns one wire
per position: the label of `zeros` at `begin + i` for the bit `0` and the label of
`ones` at `begin + i` for the bit `1`. -/
theorem get_garbled_wires_spec (labels : GarbledLabels) (input : List Nat) (begin : Nat)
    (hbits : ∀ b ∈ input, b = 0 ∨ b = 1)
    (hzeros : begin + input.length ≤ labels.zeros.length)
    (hones : begin + input.length ≤ labels.ones.length) :
    (get_garbled_wires labels input begin).length = input.length ∧
      ∀ (i : Nat) (hi : i < input.length),
        (get_garbled_wires labels input begin)[i]? =
          some (if input[i] = 0 then labels.zeros[begin + i] else labels.ones[begin + i]) := by
  unfold get_garbled_wires
  rw [get_garbled_wires_from_bits labels begin input 0 hbits]
  refine ⟨by simp, ?_⟩
  intro i hi
  have hz : begin + i < labels.zeros.length := by omega
  have ho : begin + i < labels.ones.length := by omega
  rw [List.getElem?_map, List.getElem?_range hi]
  simp only [Option.map_some', Nat.zero_add, labelOf]
  have e1 : input.getD i 0 = input[i] := by
    rw [List.getD_eq_getElem?_getD, List.getElem?_eq_getElem hi, Option.getD_some]
  have e2 : labels.zeros.getD (begin + i) default = labels.zeros[begin + i] := by
    rw [List.getD_eq_getElem?_getD, List.getElem?_eq_getElem hz, Option.getD_some]
  have e3 : labels.ones.getD (begin + i) default = labels.ones[begin + i] := by
    rw [List.getD_eq_getElem?_getD, List.getElem?_eq_getElem ho, Option.getD_some]
  rw [e1, e2, e3]
  rcases hbits input[i] (List.getElem_mem hi) with h | h <;> rw [h] <;> rfl

/-! ## The voter's credential after a registration -/

/-- The unblinded signature verifies exactly when the signature received is a signature
on the blinded vote: `sig ^ e = H(m) * r ^ e (mod N)`. -/
theorem credential_valid_iff (H : CiphertextHash) (pk : RSAPublicKey) (hN : 1 < pk.N)
    (vote : Vote_Ciphertext) (r : Nat) (hr : Nat.Coprime r pk.N) (sig : Nat) :
    RSA_BLIND_verify H pk vote (RSA_BLIND_unblind pk sig r) = true ↔
      ModularExponentiation sig pk.e pk.N = (RSA_BLIND_blind H pk vote r).1 := by
  have hN0 : 0 < pk.N := by omega
  have hinv := inverse_of_coprime r pk.N hN hr
  unfold RSA_BLIND_verify RSA_BLIND_unblind RSA_BLIND_blind
  rw [decide_eq_true_iff, eq_iff_cast_eq (modExp_lt _ _ hN0) (Nat.mod_lt _ hN0),
    eq_iff_cast_eq (modExp_lt _ _ hN0) (mulMod_lt _ _ hN0)]
  simp only [cast_modExp, cast_mulMod, ZMod.natCast_mod]
  constructor
  · intro h
    calc (sig : ZMod pk.N) ^ pk.e
        = ((sig : ZMod pk.N) *
            ((EuclideanMultiplicativeInverse r pk.N : Nat) : ZMod pk.N)) ^ pk.e *
            (r : ZMod pk.N) ^ pk.e := by
          rw [← mul_pow, mul_assoc,
            mul_comm ((EuclideanMultiplicativeInverse r pk.N : Nat) : ZMod pk.N), hinv,
            mul_one]
      _ = (H vote : ZMod pk.N) * (r : ZMod pk.N) ^ pk.e := by rw [h]
  · intro h
    rw [mul_pow, h, mul_assoc, ← mul_pow, hinv, one_pow, mul_one]

/-- The credential the voter saves is the vote of `GenerateVote` with the signature of
the reply and the blinding factor drawn. -/
theorem honestRegistration_known {DB : Type} (par : Params) (Hv : VoteHash)
    (H : CiphertextHash) (pk : RSAPublicKey) (sk : RSAPrivateKey) (dbd : DBDriver DB)
    (db : DB) (voter_id : String) (hfound : (dbd.find_voter db voter_id).id ≠ "")
    (election_key : Nat) (rnd : VoteRandomness) (r raw_vote : Nat) :
    honestRegistration par Hv H pk sk dbd db voter_id election_key rnd r raw_vote =
      Except.ok
        ({ vote := (GenerateVote par Hv rnd raw_vote election_key).1,
           vote_zkp := (GenerateVote par Hv rnd raw_vote election_key).2,
           registrar_signature := (dbd.find_voter db voter_id).registrar_signature,
           blind := r },
          dbd.insert_voter db (dbd.find_voter db voter_id)) := by
  unfold honestRegistration
  rw [HandleRegister_registered (RSA_BLIND_sign sk) dbd db _ hfound]
  rfl

theorem honestRegistration_fresh {DB : Type} (par : Params) (Hv : VoteHash)
    (H : CiphertextHash) (pk : RSAPublicKey) (sk : RSAPrivateKey) (dbd : DBDriver DB)
    (db : DB) (voter_id : String) (hfresh : (dbd.find_voter db voter_id).id = "")
    (election_key : Nat) (rnd : VoteRandomness) (r raw_vote : Nat) :
    honestRegistration par Hv H pk sk dbd db voter_id election_key rnd r raw_vote =
      Except.ok
        ({ vote := (GenerateVote par Hv rnd raw_vote election_key).1,
           vote_zkp := (GenerateVote par Hv rnd raw_vote election_key).2,
           registrar_signature := RSA_BLIND_sign sk
             (RSA_BLIND_blind H pk (GenerateVote par Hv rnd raw_vote election_key).1 r).1,
           blind := r },
          dbd.insert_voter db
            { id := voter_id,
              registrar_signature := RSA_BLIND_sign sk
                (RSA_BLIND_blind H pk
                  (GenerateVote par Hv rnd raw_vote election_key).1 r).1 }) := by
  unfold honestRegistration
  rw [HandleRegister_fresh (RSA_BLIND_sign sk) dbd db _ hfresh]
  rfl

/-- After a registration under a fresh id the credential verifies; after a second
registration under the same id the voter holds the signature of the first request, and
the credential verifies exactly when the two blinded votes are equal. -/
theorem reregistration_credential {DB : Type} (par : Params) (Hv : VoteHash)
    (H : CiphertextHash) (pk : RSAPublicKey) (sk : RSAPrivateKey) (hpair : RSAKeyPair pk sk)
    (dbd : DBDriver DB) (hk : dbd.Keyed) (db : DB) (voter_id : String)
    (hid : voter_id ≠ "") (hfresh : (dbd.find_voter db voter_id).id = "")
    (election_key : Nat) (rnd1 rnd2 : VoteRandomness) (r1 r2 : Nat)
    (hr1 : Nat.Coprime r1 pk.N) (hr2 : Nat.Coprime r2 pk.N) (vote1 vote2 : Nat) :
    ∃ st1 db1 st2 db2,
      honestRegistration par Hv H pk sk dbd db voter_id election_key rnd1 r1 vote1 =
          Except.ok (st1, db1) ∧
        credentialValid H pk st1 = true ∧
        honestRegistration par Hv H pk sk dbd db1 voter_id election_key rnd2 r2 vote2 =
          Except.ok (st2, db2) ∧
        st2.vote = (GenerateVote par Hv rnd2 vote2 election_key).1 ∧
        st2.blind = r2 ∧
        st2.registrar_signature = st1.registrar_signature ∧
        (credentialValid H pk st2 = true ↔
          (VoterClient_HandleRegister_send par Hv H pk voter_id election_key rnd2 r2
              vote2).vote =
            (VoterClient_HandleRegister_send par Hv H pk voter_id election_key rnd1 r1
              vote1).vote) := by
  have hN1 : 1 < pk.N := hpair.2.1
  have hN0 : 0 < pk.N := by omega
  have hfind := hk.find_insert_absent db
    { id := voter_id,
      registrar_signature := RSA_BLIND_sign sk
        (RSA_BLIND_blind H pk (GenerateVote par Hv rnd1 vote1 election_key).1 r1).1 }
    hid hfresh
  have hfound : (dbd.find_voter
      (dbd.insert_voter db
        { id := voter_id,
          registrar_signature := RSA_BLIND_sign sk
            (RSA_BLIND_blind H pk (GenerateVote par Hv rnd1 vote1 election_key).1 r1).1 })
      voter_id).id ≠ "" := by
    rw [hfind]
    exact hid
  refine ⟨_, _, _, _,
    honestRegistration_fresh par Hv H pk sk dbd db voter_id hfresh election_key rnd1 r1 vote1,
    ?_,
    honestRegistration_known par Hv H pk sk dbd _ voter_id hfound election_key rnd2 r2 vote2,
    rfl, rfl, ?_, ?_⟩
  · exact (blind_round_trip H pk sk hpair _ r1 hr1).2
  · show (dbd.find_voter _ voter_id).registrar_signature = _
    rw [hfind]
  · show RSA_BLIND_verify H pk (GenerateVote par Hv rnd2 vote2 election_key).1
        (RSA_BLIND_unblind pk (dbd.find_voter _ voter_id).registrar_signature r2) = true ↔ _
    rw [hfind, credential_valid_iff H pk hN1 _ r2 hr2]
    show ModularExponentiation
        (RSA_BLIND_sign sk
          (RSA_BLIND_blind H pk (GenerateVote par Hv rnd1 vote1 election_key).1 r1).1)
        pk.e pk.N = _ ↔ _
    unfold RSA_BLIND_sign
    rw [hpair.2.2]
    have hlt : (RSA_BLIND_blind H pk (GenerateVote par Hv rnd1 vote1 election_key).1 r1).1 <
        pk.N := mulMod_lt _ _ hN0
    rw [Nat.mod_eq_of_lt hlt]
    exact eq_comm

/-! ## What a successful `DoVerify` has checked -/

/-- A tally returned by `CombineResults` is the least match of the search, below `Q` and
at most `INT_MAX`. -/
theorem CombineResults_ok (par : Params) (hP : 1 < par.P) (combined_vote : Vote_Ciphertext)
    (decs : List PartialDecryptionRow) (m : Nat)
    (h : CombineResults par combined_vote decs = Except.ok m) :
    m < par.Q ∧ m ≤ INT_MAX ∧
      ModularExponentiation par.G m par.P = searchTarget par combined_vote decs ∧
      ∀ j, j < m →
        ModularExponentiation par.G j par.P ≠ searchTarget par combined_vote decs := by
  by_cases hex : ∃ t, t < par.Q ∧
      ModularExponentiation par.G t par.P = searchTarget par combined_vote decs
  · obtain ⟨t, ht, hgt, hleast, hres⟩ := CombineResults_least_match par hP combined_vote decs hex
    rw [hres] at h
    by_cases hmax : t ≤ INT_MAX
    · rw [if_pos hmax] at h
      cases h
      exact ⟨ht, hmax, hgt, hleast⟩
    · rw [if_neg hmax] at h
      cases h
  · have hnone : ∀ m, m < par.Q →
        ModularExponentiation par.G m par.P ≠ searchTarget par combined_vote decs :=
      fun m hm h => hex ⟨m, hm, h⟩
    rw [CombineResults_no_match par hP combined_vote decs hnone] at h
    split at h <;> cases h

/-- `DoVerify` reports success exactly when every partial decryption passes the check
of its own proof and `CombineResults` returns a tally. -/
theorem DoVerify_success_iff (par : Params) (Hv : VoteHash) (Hd : DecHash)
    (sd : SignatureDriver) (ed : ElectionDriver) (keys : ElectionKeys)
    (allVotes : List VoteRow) (decs : List PartialDecryptionRow) (x y : Int) :
    DoVerify par Hv Hd sd ed keys allVotes decs = Except.ok (x, y, true) ↔
      (∀ dec ∈ decs,
        VerifyPartialDecryptZKP par Hd dec (ed.LoadInteger dec.arbiter_vk_path) = true) ∧
      ∃ m : Nat,
        CombineResults par
            (CombineVotes par (VoterClient_validRows par Hv sd ed keys allVotes)) decs =
          Except.ok m ∧
        y = (m : Int) ∧
        x = ((VoterClient_validRows par Hv sd ed keys allVotes).length : Int) - (m : Int) := by
  by_cases hall : ∀ dec ∈ decs,
      VerifyPartialDecryptZKP par Hd dec (ed.LoadInteger dec.arbiter_vk_path) = true
  · have hacc := DoVerify_accepted par Hv Hd sd ed keys allVotes decs hall
    cases hres : CombineResults par
        (CombineVotes par (VoterClient_validRows par Hv sd ed keys allVotes)) decs with
    | error e =>
      rw [hacc.2 e hres]
      constructor
      · intro h
        cases h
      · rintro ⟨_, m, hm, _⟩
        cases hm
    | ok t =>
      rw [hacc.1 t hres]
      constructor
      · intro h
        simp only [Except.ok.injEq, Prod.mk.injEq, and_true] at h
        exact ⟨hall, t, rfl, h.2.symm, h.1.symm⟩
      · rintro ⟨_, m, hm, hy, hx⟩
        cases hm
        rw [hy, hx]
  · have hbad : ∃ dec ∈ decs,
        VerifyPartialDecryptZKP par Hd dec (ed.LoadInteger dec.arbiter_vk_path) = false := by
      by_contra hno
      apply hall
      intro dec hdec
      cases hv : VerifyPartialDecryptZKP par Hd dec (ed.LoadInteger dec.arbiter_vk_path) with
      | true => rfl
      | false => exact absurd ⟨dec, hdec, hv⟩ hno
    rw [DoVerify_rejected par Hv Hd sd ed keys allVotes decs hbad]
    constructor
    · intro h
      simp at h
    · intro h
      exact absurd h.1 hall

/-- `DoVerify` reports success exactly when every partial decryption passes the check
against the ciphertext recorded in its own row and `CombineResults` returns a tally,
which is then a solution `m` of `G ^ m = b * D⁻¹ (mod P)` for the component `b` of the
ciphertext that `DoVerify` recombines. -/
theorem DoVerify_success_checked (par : Params) (hP : 1 < par.P) (Hv : VoteHash)
    (Hd : DecHash) (sd : SignatureDriver) (ed : ElectionDriver) (keys : ElectionKeys)
    (allVotes : List VoteRow) (decs : List PartialDecryptionRow) (x y : Int) :
    DoVerify par Hv Hd sd ed keys allVotes decs = Except.ok (x, y, true) ↔
      (∀ dec ∈ decs,
        VerifyPartialDecryptZKP par Hd dec (ed.LoadInteger dec.arbiter_vk_path) = true) ∧
      ∃ m : Nat,
        CombineResults par
            (CombineVotes par (VoterClient_validRows par Hv sd ed keys allVotes)) decs =
          Except.ok m ∧
        y = (m : Int) ∧
        x = ((VoterClient_validRows par Hv sd ed keys allVotes).length : Int) - (m : Int) ∧
        ModularExponentiation par.G m par.P =
          searchTarget par
            (CombineVotes par (VoterClient_validRows par Hv sd ed keys allVotes)) decs := by
  rw [DoVerify_success_iff]
  constructor
  · rintro ⟨hall, m, hm, hy, hx⟩
    exact ⟨hall, m, hm, hy, hx, (CombineResults_ok par hP _ decs m hm).2.2.1⟩
  · rintro ⟨hall, m, hm, hy, hx, _⟩
    exact ⟨hall, m, hm, hy, hx⟩

/-- The counts of a successful `DoVerify` sum to the number of rows kept; the second is
in `[0, Q)` and at most `INT_MAX`, and the first is negative when the second exceeds the
number of rows kept. -/
theorem DoVerify_success_counts (par : Params) (hP : 1 < par.P) (Hv : VoteHash)
    (Hd : DecHash) (sd : SignatureDriver) (ed : ElectionDriver) (keys : ElectionKeys)
    (allVotes : List VoteRow) (decs : List PartialDecryptionRow) (x y : Int)
    (h : DoVerify par Hv Hd sd ed keys allVotes decs = Except.ok (x, y, true)) :
    x + y = ((VoterClient_validRows par Hv sd ed keys allVotes).length : Int) ∧
      0 ≤ y ∧ y < (par.Q : Int) ∧ y ≤ (INT_MAX : Int) ∧
      (0 ≤ x ↔ y ≤ ((VoterClient_validRows par Hv sd ed keys allVotes).length : Int)) := by
  obtain ⟨_, m, hm, hy, hx⟩ :=
    (DoVerify_success_iff par Hv Hd sd ed keys allVotes decs x y).mp h
  obtain ⟨h1, h2, _, _⟩ := CombineResults_ok par hP _ decs m hm
  subst hy hx
  refine ⟨by omega, by omega, by omega, by omega, by omega⟩

/-! ## Ballots for votes other than `0` and `1` -/

/-- The counter of the loop of `CombineResults` is incremented past `INT_MAX` exactly
when `Q` exceeds `INT_MAX` and no `m` up to `INT_MAX` matches. -/
theorem CombineResults_overflow_iff (par : Params) (hP : 1 < par.P)
    (combined_vote : Vote_Ciphertext) (decs : List PartialDecryptionRow) :
    CombineResults par combined_vote decs = Except.error TallyError.counterOverflow ↔
      INT_MAX < par.Q ∧ ∀ m, m ≤ INT_MAX →
        ModularExponentiation par.G m par.P ≠ searchTarget par combined_vote decs := by
  by_cases hex : ∃ t, t < par.Q ∧
      ModularExponentiation par.G t par.P = searchTarget par combined_vote decs
  · obtain ⟨t, ht, hgt, hleast, hres⟩ := CombineResults_least_match par hP combined_vote decs hex
    rw [hres]
    by_cases hmax : t ≤ INT_MAX
    · rw [if_pos hmax]
      constructor
      · intro h
        cases h
      · intro h
        exact absurd hgt (h.2 t hmax)
    · rw [if_neg hmax]
      constructor
      · intro _
        exact ⟨by omega, fun m hm => hleast m (by omega)⟩
      · intro _
        rfl
  · have hnone : ∀ m, m < par.Q →
        ModularExponentiation par.G m par.P ≠ searchTarget par combined_vote decs :=
      fun m hm h => hex ⟨m, hm, h⟩
    rw [CombineResults_no_match par hP combined_vote decs hnone]
    by_cases hQ : par.Q ≤ INT_MAX
    · rw [if_pos hQ]
      constructor
      · intro h
        cases h
      · intro h
        omega
    · rw [if_neg hQ]
      constructor
      · intro _
        exact ⟨by omega, fun m hm => hnone m (by omega)⟩
      · intro _
        rfl

/-- The ciphertext component `b = 0` without partial decryptions has no match. -/
theorem no_match_for_zero (par : Params) (hv : par.Valid) (a m : Nat) :
    ModularExponentiation par.G m par.P ≠ searchTarget par { a := a, b := 0 } [] := by
  haveI : Fact par.P.Prime := ⟨hv.P_prime⟩
  rw [searchTarget_without_decryptions par hv.one_lt_P a 0 hv.P_prime.pos]
  intro h
  have h2 := congrArg (Nat.cast : Nat → ZMod par.P) h
  rw [cast_modExp, Nat.cast_zero] at h2
  exact pow_ne_zero m (cast_ne_zero_of_pow_eq_one hv hv.cast_G_pow) h2

/-! ## `CombineVotes` on rearranged and concatenated stores -/

/-- `CombineVotes` returns the same ciphertext on two lists of rows that are
rearrangements of each other. -/
theorem CombineVotes_perm (par : Params) (xs ys : List VoteRow) (h : xs.Perm ys) :
    CombineVotes par xs = CombineVotes par ys := by
  unfold CombineVotes
  rw [List.Perm.foldl_eq' h]
  intro x _ y _ z
  simp only [a_times_b_mod_c, Prod.mk.injEq]
  constructor
  · rw [Nat.mod_mul_mod, Nat.mod_mul_mod, Nat.mul_right_comm]
  · rw [Nat.mod_mul_mod, Nat.mod_mul_mod, Nat.mul_right_comm]

/-- `CombineVotes` of a concatenation is the product modulo `P`, component by
component, of the two results. -/
theorem CombineVotes_append (par : Params) (hP : 1 < par.P) (xs ys : List VoteRow) :
    CombineVotes par (xs ++ ys) =
      { a := a_times_b_mod_c (CombineVotes par xs).a (CombineVotes par ys).a par.P,
        b := a_times_b_mod_c (CombineVotes par xs).b (CombineVotes par ys).b par.P } := by
  rw [CombineVotes_eq par hP, CombineVotes_eq par hP, CombineVotes_eq par hP]
  simp only [a_times_b_mod_c, List.map_append, List.prod_append]
  rw [← Nat.mul_mod, ← Nat.mul_mod]

/-- Both parts together: order independence and the product over a concatenation. -/
theorem CombineVotes_order (par : Params) (hP : 1 < par.P) :
    (∀ xs ys : List VoteRow, xs.Perm ys → CombineVotes par xs = CombineVotes par ys) ∧
      ∀ xs ys : List VoteRow,
        CombineVotes par (xs ++ ys) =
          { a := a_times_b_mod_c (CombineVotes par xs).a (CombineVotes par ys).a par.P,
            b := a_times_b_mod_c (CombineVotes par xs).b (CombineVotes par ys).b par.P } :=
  ⟨CombineVotes_perm par, CombineVotes_append par hP⟩

/-! ## The offset of `generate_labels` is not zero -/

theorem lt_two_pow_bitCountFrom (fuel : Nat) : ∀ x, x ≤ fuel → x < 2 ^ bitCountFrom fuel x := by
  induction fuel with
  | zero =>
    intro x hx
    have h0 : x = 0 := by omega
    subst h0
    simp [bitCountFrom]
  | succ n ih =>
    intro x hx
    by_cases h0 : x = 0
    · subst h0
      simp [bitCountFrom]
    · simp only [bitCountFrom, if_neg h0]
      have h := ih (x / 2) (by omega)
      rw [Nat.pow_succ]
      omega

theorem bigEndianBytes_zero (fuel : Nat) (acc : ByteBlock) : bigEndianBytes fuel 0 acc = acc := by
  cases fuel <;> simp [bigEndianBytes]

/-- The big-endian bytes of a non-zero number start with a non-zero byte. -/
theorem bigEndianBytes_head (fuel : Nat) : ∀ (x : Nat) (acc : ByteBlock), x ≠ 0 →
    x < 256 ^ fuel → ∃ h t, h ≠ 0 ∧ bigEndianBytes fuel x acc = h :: t := by
  induction fuel with
  | zero =>
    intro x acc hx hlt
    simp at hlt
    exact absurd hlt hx
  | succ n ih =>
    intro x acc hx hlt
    simp only [bigEndianBytes, if_neg hx]
    by_cases hq : x / 256 = 0
    · rw [hq, bigEndianBytes_zero]
      refine ⟨x % 256, acc, ?_, rfl⟩
      omega
    · apply ih _ _ hq
      rw [Nat.pow_succ] at hlt
      omega

theorem integer_to_byteblock_head (x : Nat) (hx : x ≠ 0) :
    ∃ h t, h ≠ 0 ∧ integer_to_byteblock x = h :: t := by
  unfold integer_to_byteblock
  rw [if_neg hx]
  apply bigEndianBytes_head _ _ _ hx
  have h1 := lt_two_pow_bitCountFrom x x (Nat.le_refl x)
  have h2 : 2 ^ BitCount x ≤ 256 ^ BitCount x := Nat.pow_le_pow_left (by decide) _
  unfold BitCount at h2 ⊢
  omega

/-- The first byte of the offset of `generate_labels` is not zero, whatever block is
drawn for it. -/
theorem generate_delta_head (draw : ByteBlock) : (generate_delta draw).getD 0 0 ≠ 0 := by
  unfold generate_delta
  simp only
  generalize (BitCount (byteblock_to_integer draw) + 4294967295) % 4294967296 = position
  have hne : byteblock_to_integer draw ||| 2 ^ position ≠ 0 := by
    intro h
    have hb : (byteblock_to_integer draw ||| 2 ^ position).testBit position = true := by
      rw [Nat.testBit_or, Nat.testBit_two_pow_self, Bool.or_true]
    rw [h] at hb
    simp at hb
  obtain ⟨h, t, hh, ht⟩ := integer_to_byteblock_head _ hne
  rw [ht]
  exact hh

theorem xor_ne_self (a m : Nat) (hm : m ≠ 0) : a ^^^ m ≠ a := by
  intro h
  have h2 : a ^^^ (a ^^^ m) = a ^^^ a := by rw [h]
  rw [Nat.xor_cancel_left, Nat.xor_self] at h2
  exact hm h2

/-- A block differs from its combination with a mask whose first byte is not zero. -/
theorem xorbuf_ne_self (block mask : ByteBlock) (count : Nat) (hcount : 0 < count)
    (hmask : mask.getD 0 0 ≠ 0) : block ≠ xorbuf block mask count := by
  intro h
  have h0 : block.getD 0 0 = (xorbuf block mask count).getD 0 0 := by rw [← h]
  rw [xorbuf_getD _ _ _ _ hcount] at h0
  exact xor_ne_self _ _ hmask h0.symm

/-- For a positive label length, the two labels of every wire returned by
`generate_labels` differ, so no label equals both. -/
theorem generate_labels_distinct (lp : LabelParams) (hL : 0 < lp.LABEL_LENGTH)
    (circuit : Circuit) (deltaDraw : ByteBlock) (draws : Nat → ByteBlock) :
    (generate_delta deltaDraw).getD 0 0 ≠ 0 ∧
      ∀ i, i < circuit.num_wire →
        (generate_labels lp circuit deltaDraw draws).zeros[i]? ≠
            (generate_labels lp circuit deltaDraw draws).ones[i]? ∧
          ((generate_labels lp circuit deltaDraw draws).zeros.getD i default).value ≠
            ((generate_labels lp circuit deltaDraw draws).ones.getD i default).value ∧
          ∀ gw : GarbledWire,
            ¬ (((generate_labels lp circuit deltaDraw draws).zeros.getD i default).value =
                gw.value ∧
              ((generate_labels lp circuit deltaDraw draws).ones.getD i default).value =
                gw.value) := by
  refine ⟨generate_delta_head deltaDraw, ?_⟩
  intro i hi
  have hne := xorbuf_ne_self (draws i) (generate_delta deltaDraw) lp.LABEL_LENGTH hL
    (generate_delta_head deltaDraw)
  have hz : ((generate_labels lp circuit deltaDraw draws).zeros.getD i default).value =
      draws i := by
    simp [generate_labels, List.getD_eq_getElem?_getD, List.getElem?_range hi]
  have ho : ((generate_labels lp circuit deltaDraw draws).ones.getD i default).value =
      xorbuf (draws i) (generate_delta deltaDraw) lp.LABEL_LENGTH := by
    simp [generate_labels, List.getD_eq_getElem?_getD, List.getElem?_range hi]
  have hval : ((generate_labels lp circuit deltaDraw draws).zeros.getD i default).value ≠
      ((generate_labels lp circuit deltaDraw draws).ones.getD i default).value := by
    rw [hz, ho]
    exact hne
  refine ⟨?_, hval, ?_⟩
  · intro h
    apply hval
    rw [List.getD_eq_getElem?_getD, List.getD_eq_getElem?_getD, h]
  · intro gw hboth
    exact hval (hboth.1.trans hboth.2.symm)

/-! ## Registration on a reply that fails the MAC check -/

/-- When the reply fails the MAC check, `VoterClient::HandleRegister` throws and leaves
the fields and the files as they were. -/
theorem HandleRegister_step_bad_reply (par : Params) (Hv : VoteHash) (H : CiphertextHash)
    (pk : RSAPublicKey) (election_key : Nat) (rnd : VoteRandomness) (r raw_vote : Nat)
    (st : VoterState) (disk : VoterDisk)
    (reply : RegistrarToVoter_Blind_Signature_Message × Bool) (hmac : reply.2 = false) :
    VoterClient_HandleRegister_step par Hv H pk election_key rnd r raw_vote st disk reply =
      (Except.error ElectionError.notFromRegistrar, st, disk) := by
  simp [VoterClient_HandleRegister_step, hmac]

/-- When the reply passes the MAC check, the call returns, the fields are the ones
`VoterClient_HandleRegister` gives, and every file holds the value of its field. -/
theorem HandleRegister_step_good_reply (par : Params) (Hv : VoteHash) (H : CiphertextHash)
    (pk : RSAPublicKey) (election_key : Nat) (rnd : VoteRandomness) (r raw_vote : Nat)
    (st : VoterState) (disk : VoterDisk)
    (r2v_blind_sig_msg : RegistrarToVoter_Blind_Signature_Message) :
    ∃ st2,
      VoterClient_HandleRegister par Hv H pk election_key rnd r raw_vote
          (r2v_blind_sig_msg, true) = Except.ok st2 ∧
      VoterClient_HandleRegister_step par Hv H pk election_key rnd r raw_vote st disk
          (r2v_blind_sig_msg, true) =
        (Except.ok (), st2,
          { voter_vote := some st2.vote, voter_vote_zkp := some st2.vote_zkp,
            voter_registrar_signature := some st2.registrar_signature,
            voter_blind := some st2.blind }) :=
  ⟨_, rfl, rfl⟩

/-- Both outcomes of the check of the reply: the frame on failure, and the error of
`VoterClient_HandleRegister` on the same reply. -/
theorem HandleRegister_atomic (par : Params) (Hv : VoteHash) (H : CiphertextHash)
    (pk : RSAPublicKey) (election_key : Nat) (rnd : VoteRandomness) (r raw_vote : Nat)
    (st : VoterState) (disk : VoterDisk)
    (reply : RegistrarToVoter_Blind_Signature_Message × Bool) (hmac : reply.2 = false) :
    (VoterClient_HandleRegister_step par Hv H pk election_key rnd r raw_vote st disk
        reply).1 = Except.error ElectionError.notFromRegistrar ∧
      (VoterClient_HandleRegister_step par Hv H pk election_key rnd r raw_vote st disk
        reply).2.1 = st ∧
      (VoterClient_HandleRegister_step par Hv H pk election_key rnd r raw_vote st disk
        reply).2.2 = disk ∧
      VoterClient_HandleRegister par Hv H pk election_key rnd r raw_vote reply =
        Except.error ElectionError.notFromRegistrar := by
  rw [HandleRegister_step_bad_reply par Hv H pk election_key rnd r raw_vote st disk reply hmac]
  refine ⟨rfl, rfl, rfl, ?_⟩
  simp [VoterClient_HandleRegister, hmac]

/-! ## The free-XOR offset when no read leaves `delta` -/

theorem byteblock_to_integer_append (block : ByteBlock) (byte : Nat) :
    byteblock_to_integer (block ++ [byte]) = byteblock_to_integer block * 256 + byte := by
  simp [byteblock_to_integer, List.foldl_append]

/-- A block of bytes whose first byte is not zero encodes a number that is not zero and
at least `256 ^ (length - 1)`. -/
theorem byteblock_to_integer_lower (block : ByteBlock) :
    block.getD 0 0 ≠ 0 → 256 ^ (block.length - 1) ≤ byteblock_to_integer block := by
  induction block using List.reverseRecOn with
  | nil => intro h; exact absurd rfl h
  | append_singleton init byte ih =>
    intro hhead
    rw [byteblock_to_integer_append]
    cases init with
    | nil =>
      simp only [List.nil_append, List.getD_cons_zero] at hhead
      simp [byteblock_to_integer]
      omega
    | cons h t =>
      have hh : (h :: t).getD 0 0 ≠ 0 := by simpa using hhead
      have := ih hh
      simp only [List.length_append, List.length_cons, List.length_singleton,
        List.length_nil, Nat.add_sub_cancel] at this ⊢
      have e : 256 ^ (t.length + 1) = 256 ^ t.length * 256 := by rw [Nat.pow_succ]
      rw [e]
      nlinarith

/-- A block of bytes encodes a number below `256 ^ length`. -/
theorem byteblock_to_integer_upper (block : ByteBlock) (hbytes : ∀ b ∈ block, b < 256) :
    byteblock_to_integer block < 256 ^ block.length := by
  induction block using List.reverseRecOn with
  | nil => simp [byteblock_to_integer]
  | append_singleton init byte ih =>
    rw [byteblock_to_integer_append]
    have h1 := ih (fun b hb => hbytes b (List.mem_append_left _ hb))
    have h2 := hbytes byte (by simp)
    simp only [List.length_append, List.length_singleton]
    rw [Nat.pow_succ]
    omega

/-- The big-endian bytes of the number that a block with a non-zero first byte encodes
are the block. -/
theorem bigEndianBytes_of_block (block : ByteBlock) :
    (∀ b ∈ block, b < 256) → block.getD 0 0 ≠ 0 →
    ∀ (fuel : Nat) (acc : ByteBlock), block.length ≤ fuel →
      bigEndianBytes fuel (byteblock_to_integer block) acc = block ++ acc := by
  induction block using List.reverseRecOn with
  | nil => intro _ h; exact absurd rfl h
  | append_singleton init byte ih =>
    intro hbytes hhead fuel acc hfuel
    have hbyte : byte < 256 := hbytes byte (by simp)
    simp only [List.length_append, List.length_singleton] at hfuel
    obtain ⟨n, rfl⟩ : ∃ n, fuel = n + 1 := ⟨fuel - 1, by omega⟩
    have hlow := byteblock_to_integer_lower (init ++ [byte]) hhead
    have hne : byteblock_to_integer (init ++ [byte]) ≠ 0 := by
      have : 0 < 256 ^ ((init ++ [byte]).length - 1) := Nat.pow_pos (by decide)
      omega
    rw [bigEndianBytes, if_neg hne, byteblock_to_integer_append]
    have hdiv : (byteblock_to_integer init * 256 + byte) / 256 = byteblock_to_integer init := by
      omega
    have hmod : (byteblock_to_integer init * 256 + byte) % 256 = byte := by omega
    rw [hdiv, hmod]
    cases init with
    | nil =>
      show bigEndianBytes n 0 (byte :: acc) = [byte] ++ acc
      rw [bigEndianBytes_zero]
      rfl
    | cons h t =>
      have hh : (h :: t).getD 0 0 ≠ 0 := by simpa using hhead
      rw [ih (fun b hb => hbytes b (List.mem_append_left _ hb)) hh n (byte :: acc)
        (by simpa using hfuel)]
      simp

theorem bitCountFrom_le (fuel : Nat) : ∀ (x k : Nat), x < 2 ^ k → bitCountFrom fuel x ≤ k := by
  induction fuel with
  | zero => intro x k _; simp [bitCountFrom]
  | succ n ih =>
    intro x k hx
    by_cases h0 : x = 0
    · simp [bitCountFrom, h0]
    · simp only [bitCountFrom, if_neg h0]
      cases k with
      | zero => simp at hx; omega
      | succ k =>
        have := ih (x / 2) k (by rw [Nat.pow_succ] at hx; omega)
        omega

/-- The offset of `generate_labels` for a draw of at most `2 ^ 29` bytes whose first byte
is not zero is the block drawn. -/
theorem generate_delta_of_leading_byte (draw : ByteBlock) (hbytes : ∀ b ∈ draw, b < 256)
    (hhead : draw.getD 0 0 ≠ 0) (hlen : draw.length ≤ 536870912) :
    generate_delta draw = draw := by
  have hlow := byteblock_to_integer_lower draw hhead
  have hup := byteblock_to_integer_upper draw hbytes
  have hpos : 0 < draw.length := by
    cases draw with
    | nil => exact absurd rfl hhead
    | cons _ _ => simp
  have hne : byteblock_to_integer draw ≠ 0 := by
    have : 0 < 256 ^ (draw.length - 1) := Nat.pow_pos (by decide)
    omega
  have h256 : (256 : Nat) ^ draw.length = 2 ^ (8 * draw.length) := by
    rw [show (256 : Nat) = 2 ^ 8 by norm_num, ← Nat.pow_mul]
  have hbc : BitCount (byteblock_to_integer draw) ≤ 8 * draw.length :=
    bitCountFrom_le _ _ _ (by rw [← h256]; exact hup)
  rw [generate_delta_unchanged draw hne (by omega)]
  unfold integer_to_byteblock
  rw [if_neg hne]
  have hfuel : draw.length ≤ BitCount (byteblock_to_integer draw) := by
    have h1 := lt_two_pow_bitCountFrom (byteblock_to_integer draw) (byteblock_to_integer draw)
      (Nat.le_refl _)
    have h2 : (256 : Nat) ^ (draw.length - 1) = 2 ^ (8 * (draw.length - 1)) := by
      rw [show (256 : Nat) = 2 ^ 8 by norm_num, ← Nat.pow_mul]
    have h3 : 2 ^ (8 * (draw.length - 1)) <
        2 ^ bitCountFrom (byteblock_to_integer draw) (byteblock_to_integer draw) := by
      rw [← h2]; omega
    have h4 := (Nat.pow_lt_pow_iff_right (by decide : 1 < 2)).mp h3
    unfold BitCount
    omega
  rw [bigEndianBytes_of_block draw hbytes hhead _ [] hfuel, List.append_nil]

/-- The free-XOR invariant when the offset has at least `LABEL_LENGTH` bytes and the
blocks drawn for the wires have `LABEL_LENGTH` bytes, so that no read leaves a block:
the labels of every wire have `LABEL_LENGTH` bytes and differ by the first
`LABEL_LENGTH` bytes of the offset. -/
theorem generate_labels_free_xor_in_bounds (lp : LabelParams) (circuit : Circuit)
    (deltaDraw : ByteBlock) (draws : Nat → ByteBlock)
    (hdelta : lp.LABEL_LENGTH ≤ (generate_delta deltaDraw).length)
    (hdraws : ∀ i, i < circuit.num_wire → (draws i).length = lp.LABEL_LENGTH) :
    (generate_labels lp circuit deltaDraw draws).zeros.length = circuit.num_wire ∧
      (generate_labels lp circuit deltaDraw draws).ones.length = circuit.num_wire ∧
      ((generate_delta deltaDraw).take lp.LABEL_LENGTH).length = lp.LABEL_LENGTH ∧
      ∀ i, i < circuit.num_wire →
        ((generate_labels lp circuit deltaDraw draws).zeros.getD i default).value.length =
            lp.LABEL_LENGTH ∧
          ((generate_labels lp circuit deltaDraw draws).ones.getD i default).value.length =
            lp.LABEL_LENGTH ∧
          xorbuf ((generate_labels lp circuit deltaDraw draws).zeros.getD i default).value
              ((generate_labels lp circuit deltaDraw draws).ones.getD i default).value
              lp.LABEL_LENGTH =
            (generate_delta deltaDraw).take lp.LABEL_LENGTH := by
  refine ⟨by simp [generate_labels], by simp [generate_labels],
    by rw [List.length_take]; omega, ?_⟩
  intro i hi
  have hz := labelOf_generate_labels lp circuit deltaDraw draws false i hi
  have ho := labelOf_generate_labels lp circuit deltaDraw draws true i hi
  simp only [labelOf, Bool.false_eq_true, if_false, if_true] at hz ho
  rw [hz, ho]
  refine ⟨hdraws i hi, xorbuf_length _ _ _, ?_⟩
  apply List.ext_getElem (by rw [xorbuf_length, List.length_take]; omega)
  intro j h1 h2
  have hj : j < lp.LABEL_LENGTH := by simpa [xorbuf_length] using h1
  rw [← List.getD_eq_getElem _ 0, xorbuf_getD _ _ _ _ hj, xorbuf_getD _ _ _ _ hj,
    ← Nat.xor_assoc, Nat.xor_self, Nat.zero_xor, List.getElem_take,
    List.getD_eq_getElem _ 0 (by omega)]

/-- The free-XOR invariant for an offset drawn with `LABEL_LENGTH` bytes of which the
first is not zero: the offset is the block drawn, and the labels of every wire differ by
it. -/
theorem generate_labels_free_xor_of_leading_byte (lp : LabelParams) (circuit : Circuit)
    (deltaDraw : ByteBlock) (draws : Nat → ByteBlock)
    (hlen : deltaDraw.length = lp.LABEL_LENGTH) (hbytes : ∀ b ∈ deltaDraw, b < 256)
    (hhead : deltaDraw.getD 0 0 ≠ 0) (hsize : lp.LABEL_LENGTH ≤ 536870912)
    (hdraws : ∀ i, i < circuit.num_wire → (draws i).length = lp.LABEL_LENGTH) :
    (generate_labels lp circuit deltaDraw draws).zeros.length = circuit.num_wire ∧
      (generate_labels lp circuit deltaDraw draws).ones.length = circuit.num_wire ∧
      generate_delta deltaDraw = deltaDraw ∧
      ∃ Delta : ByteBlock, Delta = generate_delta deltaDraw ∧
        Delta.length = lp.LABEL_LENGTH ∧
        ∀ i, i < circuit.num_wire →
          ((generate_labels lp circuit deltaDraw draws).zeros.getD i default).value.length =
              lp.LABEL_LENGTH ∧
            ((generate_labels lp circuit deltaDraw draws).ones.getD i default).value.length =
              lp.LABEL_LENGTH ∧
            xorbuf ((generate_labels lp circuit deltaDraw draws).zeros.getD i default).value
              ((generate_labels lp circuit deltaDraw draws).ones.getD i default).value
              lp.LABEL_LENGTH = Delta := by
  have hd : generate_delta deltaDraw = deltaDraw :=
    generate_delta_of_leading_byte deltaDraw hbytes hhead (by omega)
  have h := generate_labels_free_xor_in_bounds lp circuit deltaDraw draws
    (by rw [hd]; omega) hdraws
  refine ⟨h.1, h.2.1, hd, generate_delta deltaDraw, rfl, by rw [hd]; exact hlen, ?_⟩
  intro i hi
  have hi3 := h.2.2.2 i hi
  refine ⟨hi3.1, hi3.2.1, ?_⟩
  rw [hi3.2.2, List.take_of_length_le (by rw [hd]; omega)]

/-- A gate none of whose entries verifies, all reads being inside the blocks: the wire
returned by `evaluate_gate` is the default one, with an empty label. -/
theorem evaluate_gate_none_in_bounds (lp : LabelParams) (cd : CryptoDriver)
    (gate : GarbledGate) (lhs rhs : GarbledWire)
    (_hentries : ∀ encryption ∈ gate.entries, encryption.length = 2 * lp.LABEL_TAG_LENGTH)
    (_hhash : 2 * lp.LABEL_TAG_LENGTH ≤ (cd.hash_inputs lhs.value rhs.value).length)
    (_hLT : lp.LABEL_LENGTH ≤ lp.LABEL_TAG_LENGTH)
    (hnone : ∀ encryption ∈ gate.entries, entryVerifies lp cd lhs rhs encryption = false) :
    evaluate_gate lp cd gate lhs rhs = default ∧
      (evaluate_gate lp cd gate lhs rhs).value = [] := by
  have h := evaluate_gate_none lp cd gate lhs rhs hnone
  exact ⟨h, by rw [h]; rfl⟩

/-! ## The entry garbled for the labels held, and tables in which a second entry verifies -/

/-- An AND gate: the entry garbled for the bits `alpha`, `beta` is in the table, and
under the labels of these bits it verifies and decrypts to the output label of
`alpha && beta`, whatever the hash is. -/
theorem and_gate_own_entry (lp : LabelParams) (cd : CryptoDriver) (labels : GarbledLabels)
    (shuffle : List ByteBlock → List ByteBlock) (gate : Gate)
    (hperm : ∀ entries, (shuffle entries).Perm entries)
    (hLT : lp.LABEL_LENGTH ≤ lp.LABEL_TAG_LENGTH)
    (hz0 : (labels.zeros.getD gate.output default).value.length = lp.LABEL_LENGTH)
    (hz1 : (labels.ones.getD gate.output default).value.length = lp.LABEL_LENGTH)
    (htype : gate.type = 1) (alpha beta : Bool) :
    ∃ ggate, generate_gate lp cd labels shuffle gate = Except.ok ggate ∧
      encrypt_label lp cd (labelOf labels alpha gate.lhs) (labelOf labels beta gate.rhs)
        (labelOf labels (alpha && beta) gate.output) ∈ ggate.entries ∧
      entryVerifies lp cd (labelOf labels alpha gate.lhs) (labelOf labels beta gate.rhs)
        (encrypt_label lp cd (labelOf labels alpha gate.lhs) (labelOf labels beta gate.rhs)
          (labelOf labels (alpha && beta) gate.output)) = true ∧
      snip_decryption lp
          (xorbuf
            (encrypt_label lp cd (labelOf labels alpha gate.lhs)
              (labelOf labels beta gate.rhs) (labelOf labels (alpha && beta) gate.output))
            (cd.hash_inputs (labelOf labels alpha gate.lhs).value
              (labelOf labels beta gate.rhs).value) (2 * lp.LABEL_TAG_LENGTH)) =
        (labelOf labels (alpha && beta) gate.output).value := by
  have hlen := labelOf_length labels _ _ hz0 hz1 (alpha && beta)
  refine ⟨_, by simp only [generate_gate, htype, if_true]; rfl, ?_,
    (entryVerifies_encrypt_label lp cd hLT _ _ _ _ _ hlen).mpr rfl,
    snip_decryption_encrypt_label lp cd hLT _ _ _ hlen⟩
  apply (hperm _).mem_iff.mpr
  cases alpha <;> cases beta <;> simp [labelOf]

/-- A NOT gate: the entry garbled for the bit `alpha` is in the table, and under the
label of this bit and `DUMMY_RHS` it verifies and decrypts to the output label of
`!alpha`, whatever the hash is. -/
theorem not_gate_own_entry (lp : LabelParams) (cd : CryptoDriver) (labels : GarbledLabels)
    (shuffle : List ByteBlock → List ByteBlock) (gate : Gate)
    (hperm : ∀ entries, (shuffle entries).Perm entries)
    (hLT : lp.LABEL_LENGTH ≤ lp.LABEL_TAG_LENGTH)
    (hz0 : (labels.zeros.getD gate.output default).value.length = lp.LABEL_LENGTH)
    (hz1 : (labels.ones.getD gate.output default).value.length = lp.LABEL_LENGTH)
    (htype : gate.type = 3) (alpha : Bool) :
    ∃ ggate, generate_gate lp cd labels shuffle gate = Except.ok ggate ∧
      encrypt_label lp cd (labelOf labels alpha gate.lhs) { value := lp.DUMMY_RHS }
        (labelOf labels (!alpha) gate.output) ∈ ggate.entries ∧
      entryVerifies lp cd (labelOf labels alpha gate.lhs) { value := lp.DUMMY_RHS }
        (encrypt_label lp cd (labelOf labels alpha gate.lhs) { value := lp.DUMMY_RHS }
          (labelOf labels (!alpha) gate.output)) = true ∧
      snip_decryption lp
          (xorbuf
            (encrypt_label lp cd (labelOf labels alpha gate.lhs) { value := lp.DUMMY_RHS }
              (labelOf labels (!alpha) gate.output))
            (cd.hash_inputs (labelOf labels alpha gate.lhs).value lp.DUMMY_RHS)
            (2 * lp.LABEL_TAG_LENGTH)) =
        (labelOf labels (!alpha) gate.output).value := by
  have hlen := labelOf_length labels _ _ hz0 hz1 (!alpha)
  refine ⟨_, by simp only [generate_gate, htype]; rfl, ?_,
    (entryVerifies_encrypt_label lp cd hLT _ _ _ _ _ hlen).mpr rfl,
    snip_decryption_encrypt_label lp cd hLT _ _ _ hlen⟩
  apply (hperm _).mem_iff.mpr
  cases alpha <;> simp [labelOf]

/-- With the offset `[128, 128]` the hash of `smallCrypto` takes the same value on the
zero-labels and on the one-labels of the inputs of the AND gate: under the one-labels
two entries of the table verify, and `evaluate_gate` returns the zero-label `[5, 6]` of
the output wire in place of the one-label `[133, 134]`. -/
theorem and_gate_two_entries_verify :
    generate_labels smallLabels andCircuit [128, 128] smallRandomness.draws =
        { zeros := [{ value := [1, 2] }, { value := [3, 4] }, { value := [5, 6] }],
          ones := [{ value := [129, 130] }, { value := [131, 132] },
            { value := [133, 134] }] } ∧
      smallCrypto.hash_inputs [129, 130] [131, 132] = smallCrypto.hash_inputs [1, 2] [3, 4] ∧
      ∃ ggate, generate_gate smallLabels smallCrypto
          (generate_labels smallLabels andCircuit [128, 128] smallRandomness.draws)
          (fun entries => entries) { type := 1, lhs := 0, rhs := 1, output := 2 } =
          Except.ok ggate ∧
        (ggate.entries.filter (entryVerifies smallLabels smallCrypto
          { value := [129, 130] } { value := [131, 132] })).length = 2 ∧
        evaluate_gate smallLabels smallCrypto ggate { value := [129, 130] }
          { value := [131, 132] } = { value := [5, 6] } := by
  refine ⟨by decide, by decide, _, rfl, by decide, by decide⟩

/-- An AND gate: when the tag bytes of the hash of no other label combination equal
those of `H(x_alpha, y_beta)`, exactly one entry verifies under the labels of `alpha`,
`beta` and `evaluate_gate` returns the output label of `alpha && beta`. -/
theorem and_gate_unique_entry_at (lp : LabelParams) (cd : CryptoDriver)
    (labels : GarbledLabels) (shuffle : List ByteBlock → List ByteBlock) (gate : Gate)
    (hperm : ∀ entries, (shuffle entries).Perm entries)
    (hLT : lp.LABEL_LENGTH ≤ lp.LABEL_TAG_LENGTH)
    (hz0 : (labels.zeros.getD gate.output default).value.length = lp.LABEL_LENGTH)
    (hz1 : (labels.ones.getD gate.output default).value.length = lp.LABEL_LENGTH)
    (htype : gate.type = 1) (alpha beta : Bool)
    (huniq : ∀ a b : Bool,
      hashTag lp cd (labelOf labels a gate.lhs) (labelOf labels b gate.rhs) =
        hashTag lp cd (labelOf labels alpha gate.lhs) (labelOf labels beta gate.rhs) →
      a = alpha ∧ b = beta) :
    ∃ ggate, generate_gate lp cd labels shuffle gate = Except.ok ggate ∧
      (ggate.entries.filter (entryVerifies lp cd (labelOf labels alpha gate.lhs)
        (labelOf labels beta gate.rhs))).length = 1 ∧
      evaluate_gate lp cd ggate (labelOf labels alpha gate.lhs)
        (labelOf labels beta gate.rhs) = labelOf labels (alpha && beta) gate.output := by
  have hp : ∀ a b : Bool,
      entryVerifies lp cd (labelOf labels alpha gate.lhs) (labelOf labels beta gate.rhs)
        (encrypt_label lp cd (labelOf labels a gate.lhs) (labelOf labels b gate.rhs)
          (labelOf labels (a && b) gate.output)) = decide (a = alpha ∧ b = beta) := by
    intro a b
    rw [Bool.eq_iff_iff, entryVerifies_encrypt_label lp cd hLT _ _ _ _ _
      (labelOf_length labels _ _ hz0 hz1 _), decide_eq_true_iff]
    constructor
    · exact huniq a b
    · rintro ⟨rfl, rfl⟩; rfl
  have hfilter : List.filter
      (entryVerifies lp cd (labelOf labels alpha gate.lhs) (labelOf labels beta gate.rhs))
      [encrypt_label lp cd (labelOf labels false gate.lhs) (labelOf labels false gate.rhs)
          (labelOf labels (false && false) gate.output),
        encrypt_label lp cd (labelOf labels true gate.lhs) (labelOf labels true gate.rhs)
          (labelOf labels (true && true) gate.output),
        encrypt_label lp cd (labelOf labels false gate.lhs) (labelOf labels true gate.rhs)
          (labelOf labels (false && true) gate.output),
        encrypt_label lp cd (labelOf labels true gate.lhs) (labelOf labels false gate.rhs)
          (labelOf labels (true && false) gate.output)] =
      [encrypt_label lp cd (labelOf labels alpha gate.lhs) (labelOf labels beta gate.rhs)
        (labelOf labels (alpha && beta) gate.output)] := by
    simp only [List.filter, hp]
    cases alpha <;> cases beta <;> simp
  obtain ⟨hlen, heval⟩ := evaluate_gate_of_filter lp cd shuffle _ (hperm _) _ _ _ hfilter
  refine ⟨_, by simp only [generate_gate, htype, if_true]; rfl, hlen, ?_⟩
  rw [heval, snip_decryption_encrypt_label lp cd hLT _ _ _
    (labelOf_length labels _ _ hz0 hz1 _)]

/-- A NOT gate: when the tag bytes of `H(x_a, DUMMY_RHS)` for the other bit `a` differ
from those of `H(x_alpha, DUMMY_RHS)`, exactly one entry verifies under the label of
`alpha` and `evaluate_gate` returns the output label of `!alpha`. -/
theorem not_gate_unique_entry_at (lp : LabelParams) (cd : CryptoDriver)
    (labels : GarbledLabels) (shuffle : List ByteBlock → List ByteBlock) (gate : Gate)
    (hperm : ∀ entries, (shuffle entries).Perm entries)
    (hLT : lp.LABEL_LENGTH ≤ lp.LABEL_TAG_LENGTH)
    (hz0 : (labels.zeros.getD gate.output default).value.length = lp.LABEL_LENGTH)
    (hz1 : (labels.ones.getD gate.output default).value.length = lp.LABEL_LENGTH)
    (htype : gate.type = 3) (alpha : Bool)
    (huniq : ∀ a : Bool,
      hashTag lp cd (labelOf labels a gate.lhs) { value := lp.DUMMY_RHS } =
        hashTag lp cd (labelOf labels alpha gate.lhs) { value := lp.DUMMY_RHS } →
      a = alpha) :
    ∃ ggate, generate_gate lp cd labels shuffle gate = Except.ok ggate ∧
      (ggate.entries.filter (entryVerifies lp cd (labelOf labels alpha gate.lhs)
        { value := lp.DUMMY_RHS })).length = 1 ∧
      evaluate_gate lp cd ggate (labelOf labels alpha gate.lhs) { value := lp.DUMMY_RHS } =
        labelOf labels (!alpha) gate.output := by
  have hp : ∀ a : Bool,
      entryVerifies lp cd (labelOf labels alpha gate.lhs) { value := lp.DUMMY_RHS }
        (encrypt_label lp cd (labelOf labels a gate.lhs) { value := lp.DUMMY_RHS }
          (labelOf labels (!a) gate.output)) = decide (a = alpha) := by
    intro a
    rw [Bool.eq_iff_iff, entryVerifies_encrypt_label lp cd hLT _ _ _ _ _
      (labelOf_length labels _ _ hz0 hz1 _), decide_eq_true_iff]
    constructor
    · exact huniq a
    · rintro rfl; rfl
  have hfilter : List.filter
      (entryVerifies lp cd (labelOf labels alpha gate.lhs) { value := lp.DUMMY_RHS })
      [encrypt_label lp cd (labelOf labels false gate.lhs) { value := lp.DUMMY_RHS }
          (labelOf labels (!false) gate.output),
        encrypt_label lp cd (labelOf labels true gate.lhs) { value := lp.DUMMY_RHS }
          (labelOf labels (!true) gate.output)] =
      [encrypt_label lp cd (labelOf labels alpha gate.lhs) { value := lp.DUMMY_RHS }
        (labelOf labels (!alpha) gate.output)] := by
    simp only [List.filter, hp]
    cases alpha <;> simp
  obtain ⟨hlen, heval⟩ := evaluate_gate_of_filter lp cd shuffle _ (hperm _) _ _ _ hfilter
  refine ⟨_, by simp only [generate_gate, htype, if_true]; rfl, hlen, ?_⟩
  rw [heval, snip_decryption_encrypt_label lp cd hLT _ _ _
    (labelOf_length labels _ _ hz0 hz1 _)]

/-- An AND gate with the bits `alpha`, `beta`: the entry garbled for them is in the
table, verifies under their labels and decrypts to the output label of `alpha && beta`;
it is the only entry that verifies exactly when the tag bytes of the hash of no other
label combination equal those of `H(x_alpha, y_beta)`, and then `evaluate_gate` returns
the output label of `alpha && beta`. -/
theorem and_gate_entries (lp : LabelParams) (cd : CryptoDriver) (labels : GarbledLabels)
    (shuffle : List ByteBlock → List ByteBlock) (gate : Gate)
    (hperm : ∀ entries, (shuffle entries).Perm entries)
    (hLT : lp.LABEL_LENGTH ≤ lp.LABEL_TAG_LENGTH)
    (hz0 : (labels.zeros.getD gate.output default).value.length = lp.LABEL_LENGTH)
    (hz1 : (labels.ones.getD gate.output default).value.length = lp.LABEL_LENGTH)
    (htype : gate.type = 1) (alpha beta : Bool) :
    ∃ ggate, generate_gate lp cd labels shuffle gate = Except.ok ggate ∧
      encrypt_label lp cd (labelOf labels alpha gate.lhs) (labelOf labels beta gate.rhs)
        (labelOf labels (alpha && beta) gate.output) ∈ ggate.entries ∧
      entryVerifies lp cd (labelOf labels alpha gate.lhs) (labelOf labels beta gate.rhs)
        (encrypt_label lp cd (labelOf labels alpha gate.lhs) (labelOf labels beta gate.rhs)
          (labelOf labels (alpha && beta) gate.output)) = true ∧
      snip_decryption lp
          (xorbuf
            (encrypt_label lp cd (labelOf labels alpha gate.lhs)
              (labelOf labels beta gate.rhs) (labelOf labels (alpha && beta) gate.output))
            (cd.hash_inputs (labelOf labels alpha gate.lhs).value
              (labelOf labels beta gate.rhs).value) (2 * lp.LABEL_TAG_LENGTH)) =
        (labelOf labels (alpha && beta) gate.output).value ∧
      ((ggate.entries.filter (entryVerifies lp cd (labelOf labels alpha gate.lhs)
          (labelOf labels beta gate.rhs))).length = 1 ↔
        ∀ a b : Bool,
          hashTag lp cd (labelOf labels a gate.lhs) (labelOf labels b gate.rhs) =
            hashTag lp cd (labelOf labels alpha gate.lhs) (labelOf labels beta gate.rhs) →
          a = alpha ∧ b = beta) ∧
      ((∀ a b : Bool,
          hashTag lp cd (labelOf labels a gate.lhs) (labelOf labels b gate.rhs) =
            hashTag lp cd (labelOf labels alpha gate.lhs) (labelOf labels beta gate.rhs) →
          a = alpha ∧ b = beta) →
        evaluate_gate lp cd ggate (labelOf labels alpha gate.lhs)
          (labelOf labels beta gate.rhs) = labelOf labels (alpha && beta) gate.output) := by
  obtain ⟨ggate, hgen, hmem, hver, hsnip⟩ :=
    and_gate_own_entry lp cd labels shuffle gate hperm hLT hz0 hz1 htype alpha beta
  have hgg : ggate.entries = shuffle
      [encrypt_label lp cd (labelOf labels false gate.lhs) (labelOf labels false gate.rhs)
          (labelOf labels (false && false) gate.output),
        encrypt_label lp cd (labelOf labels true gate.lhs) (labelOf labels true gate.rhs)
          (labelOf labels (true && true) gate.output),
        encrypt_label lp cd (labelOf labels false gate.lhs) (labelOf labels true gate.rhs)
          (labelOf labels (false && true) gate.output),
        encrypt_label lp cd (labelOf labels true gate.lhs) (labelOf labels false gate.rhs)
          (labelOf labels (true && false) gate.output)] := by
    have h2 := hgen
    simp only [generate_gate, htype, if_true] at h2
    rw [← Except.ok.inj h2]
    rfl
  have hp : ∀ a b : Bool,
      entryVerifies lp cd (labelOf labels alpha gate.lhs) (labelOf labels beta gate.rhs)
        (encrypt_label lp cd (labelOf labels a gate.lhs) (labelOf labels b gate.rhs)
          (labelOf labels (a && b) gate.output)) =
        decide (hashTag lp cd (labelOf labels a gate.lhs) (labelOf labels b gate.rhs) =
          hashTag lp cd (labelOf labels alpha gate.lhs) (labelOf labels beta gate.rhs)) := by
    intro a b
    rw [Bool.eq_iff_iff, entryVerifies_encrypt_label lp cd hLT _ _ _ _ _
      (labelOf_length labels _ _ hz0 hz1 _), decide_eq_true_iff]
  refine ⟨ggate, hgen, hmem, hver, hsnip, ?_, ?_⟩
  · rw [hgg]
    rw [((hperm _).filter _).length_eq]
    simp only [List.filter, hp, Bool.forall_bool]
    cases alpha <;> cases beta <;>
      simp only [decide_True, List.length_cons, List.length_nil] <;>
      (split <;> split <;> split <;> simp_all)
  · intro huniq
    obtain ⟨_, hgen2, _, heval⟩ := and_gate_unique_entry_at lp cd labels shuffle gate hperm
      hLT hz0 hz1 htype alpha beta huniq
    rw [hgen] at hgen2
    rw [Except.ok.inj hgen2]
    exact heval

/-- A NOT gate with the bit `alpha`: the entry garbled for it is in the table, verifies
under its label and `DUMMY_RHS` and decrypts to the output label of `!alpha`; it is the
only entry that verifies exactly when the tag bytes of the hash for the other bit
differ from those of `H(x_alpha, DUMMY_RHS)`, and then `evaluate_gate` returns the
output label of `!alpha`. -/
theorem not_gate_entries (lp : LabelParams) (cd : CryptoDriver) (labels : GarbledLabels)
    (shuffle : List ByteBlock → List ByteBlock) (gate : Gate)
    (hperm : ∀ entries, (shuffle entries).Perm entries)
    (hLT : lp.LABEL_LENGTH ≤ lp.LABEL_TAG_LENGTH)
    (hz0 : (labels.zeros.getD gate.output default).value.length = lp.LABEL_LENGTH)
    (hz1 : (labels.ones.getD gate.output default).value.length = lp.LABEL_LENGTH)
    (htype : gate.type = 3) (alpha : Bool) :
    ∃ ggate, generate_gate lp cd labels shuffle gate = Except.ok ggate ∧
      encrypt_label lp cd (labelOf labels alpha gate.lhs) { value := lp.DUMMY_RHS }
        (labelOf labels (!alpha) gate.output) ∈ ggate.entries ∧
      entryVerifies lp cd (labelOf labels alpha gate.lhs) { value := lp.DUMMY_RHS }
        (encrypt_label lp cd (labelOf labels alpha gate.lhs) { value := lp.DUMMY_RHS }
          (labelOf labels (!alpha) gate.output)) = true ∧
      snip_decryption lp
          (xorbuf
            (encrypt_label lp cd (labelOf labels alpha gate.lhs) { value := lp.DUMMY_RHS }
              (labelOf labels (!alpha) gate.output))
            (cd.hash_inputs (labelOf labels alpha gate.lhs).value lp.DUMMY_RHS)
            (2 * lp.LABEL_TAG_LENGTH)) =
        (labelOf labels (!alpha) gate.output).value ∧
      ((ggate.entries.filter (entryVerifies lp cd (labelOf labels alpha gate.lhs)
          { value := lp.DUMMY_RHS })).length = 1 ↔
        ∀ a : Bool,
          hashTag lp cd (labelOf labels a gate.lhs) { value := lp.DUMMY_RHS } =
            hashTag lp cd (labelOf labels alpha gate.lhs) { value := lp.DUMMY_RHS } →
          a = alpha) ∧
      ((∀ a : Bool,
          hashTag lp cd (labelOf labels a gate.lhs) { value := lp.DUMMY_RHS } =
            hashTag lp cd (labelOf labels alpha gate.lhs) { value := lp.DUMMY_RHS } →
          a = alpha) →
        evaluate_gate lp cd ggate (labelOf labels alpha gate.lhs)
          { value := lp.DUMMY_RHS } = labelOf labels (!alpha) gate.output) := by
  obtain ⟨ggate, hgen, hmem, hver, hsnip⟩ :=
    not_gate_own_entry lp cd labels shuffle gate hperm hLT hz0 hz1 htype alpha
  have hgg : ggate.entries = shuffle
      [encrypt_label lp cd (labelOf labels false gate.lhs) { value := lp.DUMMY_RHS }
          (labelOf labels (!false) gate.output),
        encrypt_label lp cd (labelOf labels true gate.lhs) { value := lp.DUMMY_RHS }
          (labelOf labels (!true) gate.output)] := by
    have h2 := hgen
    simp only [generate_gate, htype] at h2
    rw [← Except.ok.inj h2]
    rfl
  have hp : ∀ a : Bool,
      entryVerifies lp cd (labelOf labels alpha gate.lhs) { value := lp.DUMMY_RHS }
        (encrypt_label lp cd (labelOf labels a gate.lhs) { value := lp.DUMMY_RHS }
          (labelOf labels (!a) gate.output)) =
        decide (hashTag lp cd (labelOf labels a gate.lhs) { value := lp.DUMMY_RHS } =
          hashTag lp cd (labelOf labels alpha gate.lhs) { value := lp.DUMMY_RHS }) := by
    intro a
    rw [Bool.eq_iff_iff, entryVerifies_encrypt_label lp cd hLT _ _ _ _ _
      (labelOf_length labels _ _ hz0 hz1 _), decide_eq_true_iff]
  refine ⟨ggate, hgen, hmem, hver, hsnip, ?_, ?_⟩
  · rw [hgg]
    rw [((hperm _).filter _).length_eq]
    simp only [List.filter, hp, Bool.forall_bool]
    cases alpha <;>
      simp only [decide_True, List.length_cons, List.length_nil] <;>
      (split <;> simp_all)
  · intro huniq
    obtain ⟨_, hgen2, _, heval⟩ := not_gate_unique_entry_at lp cd labels shuffle gate hperm
      hLT hz0 hz1 htype alpha huniq
    rw [hgen] at hgen2
    rw [Except.ok.inj hgen2]
    exact heval

/-! ## Requests that are signed afresh -/

/-- A valid request with the empty id is signed afresh whatever the store holds: the row
found for the id `""` has the id `""`, which `HandleRegister` takes for an absent
voter. -/
theorem register_empty_id_afresh {DB : Type} (RSA_BLIND_sign : Nat → Nat)
    (dbd : DBDriver DB) (hk : dbd.Keyed) (db : DB) (vote : Nat) :
    RegistrarClient_HandleRegister RSA_BLIND_sign dbd db ({ id := "", vote := vote }, true) =
      Except.ok ({ id := "", registrar_signature := RSA_BLIND_sign vote },
        dbd.insert_voter db { id := "", registrar_signature := RSA_BLIND_sign vote }) := by
  apply HandleRegister_fresh RSA_BLIND_sign dbd db { id := "", vote := vote }
  rcases hk.find_id db "" with h | h <;> exact h

/-- Two valid requests of a voter who is not in the store, whose threads both look the
voter up before either stores a row, are both signed: each reply carries the signature
of its own blinded vote. -/
theorem register_overlapping_afresh {DB : Type} (RSA_BLIND_sign : Nat → Nat)
    (dbd : DBDriver DB) (db : DB) (voter_id : String) (vote1 vote2 : Nat)
    (habsent : (dbd.find_voter db voter_id).id = "") :
    RegistrarClient_HandleRegister_overlapping RSA_BLIND_sign dbd db
        ({ id := voter_id, vote := vote1 }, true) ({ id := voter_id, vote := vote2 }, true) =
      Except.ok ({ id := voter_id, registrar_signature := RSA_BLIND_sign vote1 },
        { id := voter_id, registrar_signature := RSA_BLIND_sign vote2 },
        dbd.insert_voter
          (dbd.insert_voter db
            { id := voter_id, registrar_signature := RSA_BLIND_sign vote1 })
          { id := voter_id, registrar_signature := RSA_BLIND_sign vote2 }) := by
  unfold RegistrarClient_HandleRegister_overlapping
  rw [HandleRegister_fresh RSA_BLIND_sign dbd db { id := voter_id, vote := vote1 } habsent,
    HandleRegister_fresh RSA_BLIND_sign dbd db { id := voter_id, vote := vote2 } habsent]

/-! ## The three checks of the first loop of `DoVerify` -/

/-- The test of `DoVerify` on a row is the conjunction of the check of the vote proof,
the check of the tallyer's signature and the check of the registrar's blind signature. -/
theorem VoterClient_rowValid_iff (par : Params) (Hv : VoteHash) (sd : SignatureDriver)
    (ed : ElectionDriver) (keys : ElectionKeys) (row : VoteRow) :
    VoterClient_rowValid par Hv sd ed keys row = true ↔
      VerifyVoteZKP par Hv (row.vote, row.zkp) keys.EG_arbiter_public_key = true ∧
        sd.RSA_verify keys.RSA_tallyer_verification_key
          (ed.concat_vote_zkp_and_signature row.vote row.zkp row.unblinded_signature)
          row.tallyer_signature = true ∧
        ed.RSA_BLIND_verify keys.RSA_registrar_verification_key row.vote
          row.unblinded_signature = true := by
  simp only [VoterClient_rowValid, Bool.and_eq_true, and_assoc]

/-- `DoVerify` keeps exactly the rows that pass the three checks: its result is the
result on the store without the rows that fail the check of the vote proof, of the
tallyer's signature or of the registrar's blind signature, and a row that fails one of
the three can be added anywhere without changing the result. -/
theorem DoVerify_three_checks (par : Params) (Hv : VoteHash) (Hd : DecHash)
    (sd : SignatureDriver) (ed : ElectionDriver) (keys : ElectionKeys)
    (allVotes : List VoteRow) (decs : List PartialDecryptionRow) :
    DoVerify par Hv Hd sd ed keys allVotes decs =
        DoVerify par Hv Hd sd ed keys
          (allVotes.filter fun row =>
            VerifyVoteZKP par Hv (row.vote, row.zkp) keys.EG_arbiter_public_key &&
              sd.RSA_verify keys.RSA_tallyer_verification_key
                (ed.concat_vote_zkp_and_signature row.vote row.zkp row.unblinded_signature)
                row.tallyer_signature &&
              ed.RSA_BLIND_verify keys.RSA_registrar_verification_key row.vote
                row.unblinded_signature) decs ∧
      (∀ row, row ∈ VoterClient_validRows par Hv sd ed keys allVotes ↔
        row ∈ allVotes ∧
          VerifyVoteZKP par Hv (row.vote, row.zkp) keys.EG_arbiter_public_key = true ∧
          sd.RSA_verify keys.RSA_tallyer_verification_key
            (ed.concat_vote_zkp_and_signature row.vote row.zkp row.unblinded_signature)
            row.tallyer_signature = true ∧
          ed.RSA_BLIND_verify keys.RSA_registrar_verification_key row.vote
            row.unblinded_signature = true) ∧
      ∀ (before after : List VoteRow) (row : VoteRow),
        VerifyVoteZKP par Hv (row.vote, row.zkp) keys.EG_arbiter_public_key = false ∨
          sd.RSA_verify keys.RSA_tallyer_verification_key
            (ed.concat_vote_zkp_and_signature row.vote row.zkp row.unblinded_signature)
            row.tallyer_signature = false ∨
          ed.RSA_BLIND_verify keys.RSA_registrar_verification_key row.vote
            row.unblinded_signature = false →
        DoVerify par Hv Hd sd ed keys (before ++ row :: after) decs =
          DoVerify par Hv Hd sd ed keys (before ++ after) decs := by
  refine ⟨?_, ?_, ?_⟩
  · have h := (DoVerify_ignores_invalid par Hv Hd sd ed keys allVotes decs).1
    have e : (allVotes.filter fun row =>
        VerifyVoteZKP par Hv (row.vote, row.zkp) keys.EG_arbiter_public_key &&
          sd.RSA_verify keys.RSA_tallyer_verification_key
            (ed.concat_vote_zkp_and_signature row.vote row.zkp row.unblinded_signature)
            row.tallyer_signature &&
          ed.RSA_BLIND_verify keys.RSA_registrar_verification_key row.vote
            row.unblinded_signature) =
        allVotes.filter (VoterClient_rowValid par Hv sd ed keys) := by
      apply List.filter_congr
      intro row _
      rw [Bool.eq_iff_iff, VoterClient_rowValid_iff]
      simp only [Bool.and_eq_true, and_assoc]
    rw [e]
    exact h
  · intro row
    unfold VoterClient_validRows
    rw [List.mem_filter, VoterClient_rowValid_iff]
  · intro before after row hfail
    apply (DoVerify_ignores_invalid par Hv Hd sd ed keys allVotes decs).2
    cases hrow : VoterClient_rowValid par Hv sd ed keys row with
    | false => rfl
    | true =>
      obtain ⟨h1, h2, h3⟩ := (VoterClient_rowValid_iff par Hv sd ed keys row).mp hrow
      rcases hfail with h | h | h
      · rw [h1] at h; cases h
      · rw [h2] at h; cases h
      · rw [h3] at h; cases h

/-! ## Ballots for votes of either sign -/

/-- Claim C1 (tally correctness) fails in the group of order `Q = 2147495123` modulo
`P = 4294990247` generated by `4`. For two arbiters and `2147483648` ballots produced by
`GenerateVote` for the vote `1`, with one `PartialDecrypt` output per arbiter over
`CombineVotes` of the ballots, the sum of the votes modulo `Q` is `2147483648`, above
the largest value `INT_MAX` of the `int` loop counter of `CombineResults`, and
`CombineResults` increments the counter past `INT_MAX` instead of returning the tally. -/
theorem C1_tally_overflow :
    bigParams.Valid ∧
      ((List.replicate 2147483648 ((1 : Nat), smallDraw)).map Prod.fst).sum % bigParams.Q =
        2147483648 ∧
      CombineResults bigParams
          (CombineVotes bigParams
            (honestRows bigParams smallVoteHash
              (electionPublicKey bigParams (smallArbiters.map Prod.fst))
              (List.replicate 2147483648 (1, smallDraw))))
          (honestDecs bigParams (constDecHash 3) smallArbiters
            (CombineVotes bigParams
              (honestRows bigParams smallVoteHash
                (electionPublicKey bigParams (smallArbiters.map Prod.fst))
                (List.replicate 2147483648 (1, smallDraw))))) =
        Except.error TallyError.counterOverflow :=
  ⟨bigParams_valid,
    by rw [sum_votes_replicate, Nat.mul_one]; exact Nat.mod_eq_of_lt (by decide),
    tally_overflow_of_many_ballots bigParams bigParams_valid smallVoteHash (constDecHash 3)
      smallArbiters smallDraw 2147483648 (by decide) (by decide)⟩

/-- Claim C2 (completeness of the vote proof). For valid group constants, a hash with
values in `[0, Q)`, a vote in `{0, 1}`, a public key in the subgroup of order `Q` and
any values drawn by `GenerateVote`, `VerifyVoteZKP` accepts the ballot that
`GenerateVote` returns. -/
theorem C2_generated_vote_accepted (par : Params) (hv : par.Valid) (H : VoteHash)
    (hH : ∀ x1 x2 x3 x4 x5 x6 x7, H x1 x2 x3 x4 x5 x6 x7 < par.Q)
    (rnd : VoteRandomness) (vote pk : Nat) (hvote : vote = 0 ∨ vote = 1)
    (hpk : par.InGroup pk) :
    VerifyVoteZKP par H (GenerateVote par H rnd vote pk) pk = true :=
  GenerateVote_accepted par hv H hH rnd vote pk hvote hpk

/-- Claim C2, exercised on a ballot for the vote `1` under the public key `8`. -/
theorem C2_generated_vote_accepted_witness :
    VerifyVoteZKP smallParams smallVoteHash
      (GenerateVote smallParams smallVoteHash
        smallDraw 1 8) 8 = true :=
  C2_generated_vote_accepted smallParams smallParams_valid smallVoteHash smallVoteHash_lt
    smallDraw 1 8 (Or.inr rfl) (by decide)

/-- Claim C3 (rejection of a tampered vote proof). For valid group constants with `Q`
odd, a vote in `{0, 1}` and a public key in the subgroup of order `Q`, flipping any
single bit `k` of any single field `f` of the proof returned by `GenerateVote`, the
ciphertext and the other fields unchanged, makes `VerifyVoteZKP` return `false`. -/
theorem C3_tampered_vote_rejected (par : Params) (hv : par.Valid) (hQ2 : par.Q ≠ 2)
    (H : VoteHash) (hH : ∀ x1 x2 x3 x4 x5 x6 x7, H x1 x2 x3 x4 x5 x6 x7 < par.Q)
    (rnd : VoteRandomness) (vote pk : Nat) (hvote : vote = 0 ∨ vote = 1)
    (hpk : par.InGroup pk) (f : ZKPField) (k : Nat) :
    VerifyVoteZKP par H
      ((GenerateVote par H rnd vote pk).1, tamper (GenerateVote par H rnd vote pk).2 f k)
      pk = false :=
  GenerateVote_tamper_rejected par hv hQ2 H hH rnd vote pk hvote hpk f k

/-- Claim C3, exercised: bit `3` of the field `r0` flipped. -/
theorem C3_tampered_vote_rejected_witness :
    VerifyVoteZKP smallParams smallVoteHash
      ((GenerateVote smallParams smallVoteHash
          smallDraw 1 8).1,
        tamper (GenerateVote smallParams smallVoteHash
          smallDraw 1 8).2
          ZKPField.r0 3)
      8 = false :=
  C3_tampered_vote_rejected smallParams smallParams_valid (by decide) smallVoteHash
    smallVoteHash_lt smallDraw 1 8
    (Or.inr rfl) (by decide) ZKPField.r0 3

/-- Claim C4 as stated fails: for the constants `(23, 11, 2)`, the share `3`, the
nonce `2` and the aggregate ciphertext `(5, 1)` of units modulo `23`, whose first
component is outside the subgroup of order `11`, the message built from
`PartialDecrypt` is rejected. -/
theorem C4_counterexample :
    Nat.Coprime 5 smallParams.P ∧ Nat.Coprime 1 smallParams.P ∧
      (2 ≤ 2 ∧ 2 ≤ smallParams.Q - 1) ∧ ¬ smallParams.InGroup 5 ∧
      VerifyPartialDecryptZKP smallParams (constDecHash 3)
        (publishedDecryption [] []
          (PartialDecrypt smallParams (constDecHash 3) 2 { a := 5, b := 1 }
            (ModularExponentiation smallParams.G 3 smallParams.P) 3))
        (ModularExponentiation smallParams.G 3 smallParams.P) = false := by
  decide

/-- Claim C4, amended (completeness of the partial-decryption proof). For valid group
constants, every share `sk` with public share `G ^ sk mod P`, every aggregate
ciphertext `(a, b)` whose first component lies in the subgroup of order `Q`, and every
nonce `r`, the message built from `PartialDecrypt` is accepted by
`VerifyPartialDecryptZKP`. -/
theorem C4_partial_decryption_accepted (par : Params) (hv : par.Valid) (H : DecHash)
    (r sk a b : Nat) (ha : par.InGroup a) (arbiter_id arbiter_vk_path : List Nat) :
    VerifyPartialDecryptZKP par H
      (publishedDecryption arbiter_id arbiter_vk_path
        (PartialDecrypt par H r { a := a, b := b }
          (ModularExponentiation par.G sk par.P) sk))
      (ModularExponentiation par.G sk par.P) = true :=
  PartialDecrypt_accepted par hv H r sk a b ha arbiter_id arbiter_vk_path

/-- Claim C4, amended, exercised on the aggregate ciphertext `(4, 5)`. -/
theorem C4_partial_decryption_accepted_witness :
    VerifyPartialDecryptZKP smallParams (constDecHash 3)
      (publishedDecryption [] []
        (PartialDecrypt smallParams (constDecHash 3) 2 { a := 4, b := 5 }
          (ModularExponentiation smallParams.G 3 smallParams.P) 3))
      (ModularExponentiation smallParams.G 3 smallParams.P) = true :=
  C4_partial_decryption_accepted smallParams smallParams_valid (constDecHash 3) 2 3 4 5
    (by decide) [] []

/-- Claim C5 as stated fails, in three ways, for the constants `(23, 11, 2)`, the share
`3` and the nonce `2`. With the even challenge `2` on the ciphertext `(2, 1)` the
decryption `8` can be replaced by `15 = 23 - 8`; with the challenge `0` it can be
replaced by any value, here `5`; and on the ciphertext `(5, 1)`, outside the subgroup,
with the challenge `3` the decryption `10` can be replaced by `13`. Each replaced
message is accepted. -/
theorem C5_counterexample :
    (ModularExponentiation 2 3 smallParams.P = 8 ∧ 15 % smallParams.P ≠ 8 % smallParams.P ∧
      VerifyPartialDecryptZKP smallParams (constDecHash 2)
        (replaceDecryption
          (publishedDecryption [] []
            (PartialDecrypt smallParams (constDecHash 2) 2 { a := 2, b := 1 }
              (ModularExponentiation smallParams.G 3 smallParams.P) 3)) 15)
        (ModularExponentiation smallParams.G 3 smallParams.P) = true) ∧
    (5 % smallParams.P ≠ 8 % smallParams.P ∧
      VerifyPartialDecryptZKP smallParams (constDecHash 0)
        (replaceDecryption
          (publishedDecryption [] []
            (PartialDecrypt smallParams (constDecHash 0) 2 { a := 2, b := 1 }
              (ModularExponentiation smallParams.G 3 smallParams.P) 3)) 5)
        (ModularExponentiation smallParams.G 3 smallParams.P) = true) ∧
    (ModularExponentiation 5 3 smallParams.P = 10 ∧
      13 % smallParams.P ≠ 10 % smallParams.P ∧ smallParams.InGroup 13 ∧
      VerifyPartialDecryptZKP smallParams (constDecHash 3)
        (replaceDecryption
          (publishedDecryption [] []
            (PartialDecrypt smallParams (constDecHash 3) 2 { a := 5, b := 1 }
              (ModularExponentiation smallParams.G 3 smallParams.P) 3)) 13)
        (ModularExponentiation smallParams.G 3 smallParams.P) = true) := by
  decide

/-- Claim C5, amended (soundness against a replaced decryption). For valid group
constants and the message built from `PartialDecrypt` over an aggregate ciphertext
`(a, b)` with `a` in the subgroup of order `Q`, when the challenge of the proof is not
`0` modulo `Q`, replacing `d` by any `d'` in the subgroup of order `Q` that is not
congruent to `d` modulo `P` makes `VerifyPartialDecryptZKP` return `false`. -/
theorem C5_replaced_decryption_rejected (par : Params) (hv : par.Valid) (H : DecHash)
    (r sk a b : Nat) (ha : par.InGroup a) (arbiter_id arbiter_vk_path : List Nat)
    (d' : Nat) (hd' : par.InGroup d')
    (hne : d' % par.P ≠ ModularExponentiation a sk par.P % par.P)
    (hc : H (ModularExponentiation par.G sk par.P) a b
        (ModularExponentiation a r par.P) (ModularExponentiation par.G r par.P) % par.Q ≠ 0) :
    VerifyPartialDecryptZKP par H
      (replaceDecryption
        (publishedDecryption arbiter_id arbiter_vk_path
          (PartialDecrypt par H r { a := a, b := b }
            (ModularExponentiation par.G sk par.P) sk)) d')
      (ModularExponentiation par.G sk par.P) = false :=
  replaceDecryption_rejected par hv H r sk a b ha arbiter_id arbiter_vk_path d' hd' hne hc

/-- Claim C5, amended, exercised: the decryption `8` replaced by `16`. -/
theorem C5_replaced_decryption_rejected_witness :
    VerifyPartialDecryptZKP smallParams (constDecHash 2)
      (replaceDecryption
        (publishedDecryption [] []
          (PartialDecrypt smallParams (constDecHash 2) 2 { a := 2, b := 1 }
            (ModularExponentiation smallParams.G 3 smallParams.P) 3)) 16)
      (ModularExponentiation smallParams.G 3 smallParams.P) = false :=
  C5_replaced_decryption_rejected smallParams smallParams_valid (constDecHash 2) 2 3 2 1
    (by decide) [] [] 16 (by decide) (by decide) (by decide)

/-- Claim C6 (garbled-circuit correctness) fails on the scenario Yao-XOR. For valid
group constants, a crypto driver whose `AES_decrypt` inverts `AES_encrypt`, the circuit
of one XOR gate with garbler input `[1]` and evaluator input `[0]`, and any drawn labels
for which neither `zeros[2]` nor `ones[2]` is `ones[0] xor zeros[1]`, the label the
evaluator computes for the output wire matches no label of the garbler: both `run`
calls of an honest session return the empty string, while `C(x, y)` is `"1"`. -/
theorem C6_xor_session_output (par : Params) (hv : par.Valid) (lp : LabelParams)
    (cd : CryptoDriver) (hcd : cd.AESCorrect) (rnd : SessionRandomness)
    (h0 : rnd.draws 2 ≠
      xorbuf (xorbuf (rnd.draws 0) (generate_delta rnd.deltaDraw) lp.LABEL_LENGTH)
        (rnd.draws 1) lp.LABEL_LENGTH)
    (h1 : xorbuf (rnd.draws 2) (generate_delta rnd.deltaDraw) lp.LABEL_LENGTH ≠
      xorbuf (xorbuf (rnd.draws 0) (generate_delta rnd.deltaDraw) lp.LABEL_LENGTH)
        (rnd.draws 1) lp.LABEL_LENGTH) :
    honestSession par lp cd xorCircuit rnd [1] [0] = Except.ok ("", "") ∧
      plainOutput xorCircuit [1] [0] = "1" :=
  ⟨xor_session_without_output par hv lp cd hcd rnd h0 h1, by decide⟩

/-- Claim C6, at the failing input: with the zero-labels `[1, 2]`, `[3, 4]`, `[5, 6]`
and the offset `[200, 7]`, the evaluator's label `[201, 5] xor [3, 4] = [202, 1]` is
neither `zeros[2] = [5, 6]` nor `ones[2] = [205, 1]`. -/
theorem C6_xor_session_output_witness :
    (generate_labels smallLabels xorCircuit smallRandomness.deltaDraw
        smallRandomness.draws =
      { zeros := [{ value := [1, 2] }, { value := [3, 4] }, { value := [5, 6] }],
        ones := [{ value := [201, 5] }, { value := [203, 3] }, { value := [205, 1] }] }) ∧
      honestSession smallParams smallLabels smallCrypto xorCircuit smallRandomness [1] [0] =
        Except.ok ("", "") ∧
      plainOutput xorCircuit [1] [0] = "1" :=
  ⟨by decide,
    C6_xor_session_output smallParams smallParams_valid smallLabels smallCrypto
      smallCrypto_correct smallRandomness (by decide) (by decide)⟩

/-- Claim C7 (correctness of the oblivious transfer). For valid group constants, a
crypto driver whose `AES_decrypt` inverts `AES_encrypt`, any exponents `a`, `b`, any
messages `m0`, `m1` and any choice bit, an honest exchange makes `OT_recv` return `m0`
when the bit is `0` and `m1` otherwise; and for the value `B` the receiver sends, the
receiver's key is the sender's `k0` when the bit is `0` and the sender's `k1`
otherwise. -/
theorem C7_oblivious_transfer_correct (par : Params) (hv : par.Valid) (cd : CryptoDriver)
    (hcd : cd.AESCorrect) (a b : Nat) (iv0 iv1 m0 m1 : ByteBlock) (choice_bit : Nat) :
    honestOT par cd a b iv0 iv1 m0 m1 choice_bit =
        Except.ok (if choice_bit = 0 then m0 else m1) ∧
      ∃ B, OT_recv_public par b choice_bit (OT_send_public par a, true) =
          Except.ok { public_value := B } ∧
        OT_recv_key par cd b (OT_send_public par a).public_value =
          if choice_bit = 0 then (OT_send_keys par cd a B).1
          else (OT_send_keys par cd a B).2 :=
  honestOT_correct par hv cd hcd a b iv0 iv1 m0 m1 choice_bit

/-- Claim C7, exercised: the message `[30, 40]` is received for the choice bit `1`. -/
theorem C7_oblivious_transfer_correct_witness :
    honestOT smallParams smallCrypto 3 5 [1] [2] [10, 20] [30, 40] 1 =
      Except.ok [30, 40] :=
  (C7_oblivious_transfer_correct smallParams smallParams_valid smallCrypto
    smallCrypto_correct 3 5 [1] [2] [10, 20] [30, 40] 1).1

/-- Claim C8. For `P > 1`, `CombineVotes` returns for every list of vote rows the pair
of the products of the `a_i` and of the `b_i` modulo `P`; for the empty list it
returns `(1, 1)`. -/
theorem C8_CombineVotes_products (par : Params) (hP : 1 < par.P)
    (all_votes : List VoteRow) :
    CombineVotes par all_votes =
        { a := (all_votes.map fun row => row.vote.a).prod % par.P,
          b := (all_votes.map fun row => row.vote.b).prod % par.P } ∧
      CombineVotes par [] = { a := 1, b := 1 } :=
  ⟨CombineVotes_eq par hP all_votes, rfl⟩

/-- Claim C8, exercised on the three rows of `smallRows`. -/
theorem C8_CombineVotes_products_witness :
    CombineVotes smallParams smallRows =
        { a := (smallRows.map fun row => row.vote.a).prod % smallParams.P,
          b := (smallRows.map fun row => row.vote.b).prod % smallParams.P } ∧
      CombineVotes smallParams [] = { a := 1, b := 1 } :=
  C8_CombineVotes_products smallParams (by decide) smallRows

/-- Claim C9 (homomorphic addition). For valid group constants and rows whose
ciphertexts are `(G ^ r_i mod P, pk ^ r_i * G ^ v_i mod P)`, `CombineVotes` returns
`(G ^ R mod P, pk ^ R * G ^ V mod P)` with `R` the sum of the `r_i` and `V` the sum of
the `v_i`, which is also the encryption `(G ^ R, pk ^ R * G ^ (V mod Q))` of the
plaintext `V mod Q`. -/
theorem C9_CombineVotes_homomorphic (par : Params) (hv : par.Valid) (pk : Nat)
    (rv : List (Nat × Nat)) (rows : List VoteRow)
    (hrows : rows.map (fun row => row.vote) =
      rv.map (fun p => ({ a := par.G ^ p.1 % par.P,
                          b := pk ^ p.1 * par.G ^ p.2 % par.P } : Vote_Ciphertext))) :
    CombineVotes par rows =
        { a := par.G ^ (rv.map Prod.fst).sum % par.P,
          b := pk ^ (rv.map Prod.fst).sum * par.G ^ (rv.map Prod.snd).sum % par.P } ∧
      CombineVotes par rows =
        { a := par.G ^ (rv.map Prod.fst).sum % par.P,
          b := pk ^ (rv.map Prod.fst).sum *
            par.G ^ ((rv.map Prod.snd).sum % par.Q) % par.P } :=
  CombineVotes_homomorphic par hv pk rv rows hrows

/-- Claim C9, exercised on the rows of `smallRows`, whose ciphertexts use the nonces
`3`, `7`, `5` for the votes `0`, `1`, `1` under the key `13`. -/
theorem C9_CombineVotes_homomorphic_witness :
    CombineVotes smallParams smallRows =
        { a := 2 ^ 15 % 23, b := 13 ^ 15 * 2 ^ 2 % 23 } ∧
      CombineVotes smallParams smallRows =
        { a := 2 ^ 15 % 23, b := 13 ^ 15 * 2 ^ (2 % 11) % 23 } :=
  C9_CombineVotes_homomorphic smallParams smallParams_valid 13 [(3, 0), (7, 1), (5, 1)]
    smallRows (by decide)

/-- Claim C10 (result of the search of `CombineResults`) fails in the group of order
`Q = 2147495123` modulo `P = 4294990247` generated by `4`. For the combined ciphertext
`(1, 123197036)` and no partial decryption, so that `D = 1`, the tally `2147483648` is
in `[0, Q)` and satisfies `G ^ tally = b * D⁻¹ (mod P)`, no other tally in `[0, Q)`
does, and `CombineResults` increments its `int` loop counter past `INT_MAX` instead of
returning the match. -/
theorem C10_search_overflow :
    bigParams.Valid ∧ 2147483648 < bigParams.Q ∧
      combinedDecryption bigParams [] = 1 ∧
      ModularExponentiation bigParams.G 2147483648 bigParams.P =
        searchTarget bigParams { a := 1, b := 123197036 } [] ∧
      (∀ j, j < bigParams.Q → j ≠ 2147483648 →
        ModularExponentiation bigParams.G j bigParams.P ≠
          searchTarget bigParams { a := 1, b := 123197036 } []) ∧
      CombineResults bigParams { a := 1, b := 123197036 } [] =
        Except.error TallyError.counterOverflow :=
  ⟨bigParams_valid, by decide, by decide,
    search_overflow_of_large_tally bigParams bigParams_valid 2147483648 123197036
      (by decide) (by decide) bigParams_pow_two_pow_31⟩

/-- Claim C11 (failure of the tally recovery) fails in the group of order
`Q = 2147495123` modulo `P = 4294990247` generated by `4`. For the combined ciphertext
`(1, P - 1)` and no partial decryption, no `m` in `[0, Q)` satisfies
`G ^ m = b * D⁻¹ (mod P)`, and `CombineResults` increments its `int` loop counter past
`INT_MAX`, which has no defined behaviour, before it reaches the `throw` after the
loop. -/
theorem C11_no_match_overflow :
    bigParams.Valid ∧
      (∀ m, m < bigParams.Q → ModularExponentiation bigParams.G m bigParams.P ≠
        searchTarget bigParams { a := 1, b := 4294990246 } []) ∧
      CombineResults bigParams { a := 1, b := 4294990246 } [] =
        Except.error TallyError.counterOverflow :=
  ⟨bigParams_valid, no_match_overflow_big.1, no_match_overflow_big.2⟩

/-- Claim C12 (free-XOR invariant of the labels) holds for the draws of the offset whose
first byte is not zero. For every circuit, every offset drawn by `generate_label` with
`LABEL_LENGTH` bytes of which the first is not zero, and all blocks of `LABEL_LENGTH`
bytes drawn for the wires, `generate_labels` returns `num_wire` zero-labels and
`num_wire` one-labels of `LABEL_LENGTH` bytes, the offset `delta` is the block drawn,
and `zeros[i] xor ones[i] = delta` for every wire `i`. -/
theorem C12_free_xor_labels (lp : LabelParams) (circuit : Circuit) (deltaDraw : ByteBlock)
    (draws : Nat → ByteBlock) (hlen : deltaDraw.length = lp.LABEL_LENGTH)
    (hbytes : ∀ b ∈ deltaDraw, b < 256) (hhead : deltaDraw.getD 0 0 ≠ 0)
    (hsize : lp.LABEL_LENGTH ≤ 536870912)
    (hdraws : ∀ i, i < circuit.num_wire → (draws i).length = lp.LABEL_LENGTH) :
    (generate_labels lp circuit deltaDraw draws).zeros.length = circuit.num_wire ∧
      (generate_labels lp circuit deltaDraw draws).ones.length = circuit.num_wire ∧
      generate_delta deltaDraw = deltaDraw ∧
      ∃ Delta : ByteBlock, Delta = generate_delta deltaDraw ∧
        Delta.length = lp.LABEL_LENGTH ∧
        ∀ i, i < circuit.num_wire →
          ((generate_labels lp circuit deltaDraw draws).zeros.getD i default).value.length =
              lp.LABEL_LENGTH ∧
            ((generate_labels lp circuit deltaDraw draws).ones.getD i default).value.length =
              lp.LABEL_LENGTH ∧
            xorbuf ((generate_labels lp circuit deltaDraw draws).zeros.getD i default).value
              ((generate_labels lp circuit deltaDraw draws).ones.getD i default).value
              lp.LABEL_LENGTH = Delta :=
  generate_labels_free_xor_of_leading_byte lp circuit deltaDraw draws hlen hbytes hhead
    hsize hdraws

/-- Claim C12, exercised on the AND circuit with the offset `[200, 7]`, and at the
failing input: for the draw `[0, 200]` of `LABEL_LENGTH = 2` bytes the offset is the one
byte `[200]`, shorter than a label. -/
theorem C12_free_xor_labels_witness :
    ((generate_labels smallLabels andCircuit [200, 7] smallRandomness.draws).zeros.length =
        andCircuit.num_wire ∧
      (generate_labels smallLabels andCircuit [200, 7] smallRandomness.draws).ones.length =
        andCircuit.num_wire ∧
      generate_delta [200, 7] = [200, 7] ∧
      ∃ Delta : ByteBlock, Delta = generate_delta [200, 7] ∧
        Delta.length = smallLabels.LABEL_LENGTH ∧
        ∀ i, i < andCircuit.num_wire →
          ((generate_labels smallLabels andCircuit [200, 7]
              smallRandomness.draws).zeros.getD i default).value.length =
              smallLabels.LABEL_LENGTH ∧
            ((generate_labels smallLabels andCircuit [200, 7]
              smallRandomness.draws).ones.getD i default).value.length =
              smallLabels.LABEL_LENGTH ∧
            xorbuf ((generate_labels smallLabels andCircuit [200, 7]
                smallRandomness.draws).zeros.getD i default).value
              ((generate_labels smallLabels andCircuit [200, 7]
                smallRandomness.draws).ones.getD i default).value
              smallLabels.LABEL_LENGTH = Delta) ∧
      generate_delta [0, 200] = [200] ∧
      (generate_delta [0, 200]).length < smallLabels.LABEL_LENGTH :=
  ⟨C12_free_xor_labels smallLabels andCircuit [200, 7] smallRandomness.draws (by decide)
      (by decide) (by decide) (by decide) (by decide),
    by decide, by decide⟩

/-- Claim C13 (top-order bit of the offset) fails. For every non-zero block drawn for
the offset, of at most `2 ^ 32` significant bits, the call `SetBit(BitCount() - 1)` of
`generate_labels` sets a bit that is set already, so the offset is the drawn value in
its shortest encoding: its top-order bit is the drawn one and leading zero bytes are
lost. -/
theorem C13_offset_as_drawn (draw : ByteBlock) (h0 : byteblock_to_integer draw ≠ 0)
    (hsize : BitCount (byteblock_to_integer draw) ≤ 4294967296) :
    generate_delta draw = integer_to_byteblock (byteblock_to_integer draw) :=
  generate_delta_unchanged draw h0 hsize

/-- Claim C13, at the failing inputs: the draw `[1, 2, ..., 16]` of sixteen bytes is
left as drawn, with the top-order bit `0`, and the draw `[0, 200, 3, ..., 16]` yields
an offset of fifteen bytes. -/
theorem C13_offset_as_drawn_witness :
    generate_delta [1, 2, 3, 4, 5, 6, 7, 8, 9, 10, 11, 12, 13, 14, 15, 16] =
        integer_to_byteblock
          (byteblock_to_integer [1, 2, 3, 4, 5, 6, 7, 8, 9, 10, 11, 12, 13, 14, 15, 16]) ∧
      generate_delta [1, 2, 3, 4, 5, 6, 7, 8, 9, 10, 11, 12, 13, 14, 15, 16] =
        [1, 2, 3, 4, 5, 6, 7, 8, 9, 10, 11, 12, 13, 14, 15, 16] ∧
      topOrderBit 16
        (generate_delta [1, 2, 3, 4, 5, 6, 7, 8, 9, 10, 11, 12, 13, 14, 15, 16]) = false ∧
      (generate_delta [0, 200, 3, 4, 5, 6, 7, 8, 9, 10, 11, 12, 13, 14, 15, 16]).length =
        15 :=
  ⟨C13_offset_as_drawn [1, 2, 3, 4, 5, 6, 7, 8, 9, 10, 11, 12, 13, 14, 15, 16]
      (by decide) (by set_option maxRecDepth 100000 in decide),
    generate_delta_top_bit_clear⟩

/-- Claim C14 as stated fails: no entry of the table `[[1, 1, 1, 1]]` verifies under
the labels `[1, 2]` and `[3, 4]`, yet `evaluate_gate` returns a wire, the default one,
and `EvaluatorClient::run` sends it as its final label. -/
theorem C14_counterexample :
    (∀ encryption ∈ [[1, 1, 1, 1]],
        entryVerifies smallLabels smallCrypto { value := [1, 2] } { value := [3, 4] }
          encryption = false) ∧
      evaluate_gate smallLabels smallCrypto { entries := [[1, 1, 1, 1]] }
        { value := [1, 2] } { value := [3, 4] } = { value := [] } ∧
      EvaluatorClient_labels smallLabels smallCrypto andCircuit
        ([{ entries := [[1, 1, 1, 1]] }], true) ([{ value := [1, 2] }], true) [[3, 4]] =
        Except.ok [{ value := [] }] :=
  evaluate_gate_without_valid_entry

/-- Claim C14, amended (the gate without a valid entry). For every garbled gate whose
entries have `2 * LABEL_TAG_LENGTH` bytes and every pair of input labels whose hash has
at least as many, with `LABEL_LENGTH ≤ LABEL_TAG_LENGTH`, such that no entry verifies
under `H(lhs, rhs)`: `evaluate_gate` returns the default wire, whose label is empty,
and raises no error. -/
theorem C14_no_valid_entry_default (lp : LabelParams) (cd : CryptoDriver)
    (gate : GarbledGate) (lhs rhs : GarbledWire)
    (hentries : ∀ encryption ∈ gate.entries, encryption.length = 2 * lp.LABEL_TAG_LENGTH)
    (hhash : 2 * lp.LABEL_TAG_LENGTH ≤ (cd.hash_inputs lhs.value rhs.value).length)
    (hLT : lp.LABEL_LENGTH ≤ lp.LABEL_TAG_LENGTH)
    (hnone : ∀ encryption ∈ gate.entries, entryVerifies lp cd lhs rhs encryption = false) :
    evaluate_gate lp cd gate lhs rhs = default ∧
      (evaluate_gate lp cd gate lhs rhs).value = [] :=
  evaluate_gate_none_in_bounds lp cd gate lhs rhs hentries hhash hLT hnone

/-- Claim C14, amended, exercised on the table `[[1, 1, 1, 1]]` of one AND gate. -/
theorem C14_no_valid_entry_default_witness :
    evaluate_gate smallLabels smallCrypto { entries := [[1, 1, 1, 1]] }
        { value := [1, 2] } { value := [3, 4] } = default ∧
      (evaluate_gate smallLabels smallCrypto { entries := [[1, 1, 1, 1]] }
        { value := [1, 2] } { value := [3, 4] }).value = [] :=
  C14_no_valid_entry_default smallLabels smallCrypto { entries := [[1, 1, 1, 1]] }
    { value := [1, 2] } { value := [3, 4] } (by decide) (by decide) (by decide) (by decide)

/-- Claim C15 as stated fails: with the labels of the scenario Yao-XOR, the received
label `[202, 1]` is no label of the garbler, and the string built for the one received
label has no character. -/
theorem C15_counterexample :
    GarblerClient_decode xorCircuit
        (generate_labels smallLabels xorCircuit smallRandomness.deltaDraw
          smallRandomness.draws)
        ([{ value := [202, 1] }], true) = Except.ok "" ∧
      ("" : String).length ≠ [({ value := [202, 1] } : GarbledWire)].length :=
  decode_unmatched_label

/-- Claim C15, amended (decoding of the output). For every label set and every list of
received final labels with a valid MAC such that the `k`-th output wire
`out_k = num_wire - output_length + k` is a non-input wire and the `k`-th label is no
zero-label and no one-label of another non-input wire, the string built by
`GarblerClient::run` is the concatenation over `k` of `"0"` if the `k`-th label is
`zeros[out_k]`, `"1"` if it is `ones[out_k]`, and of nothing otherwise; it has one
character per received label when every label is a label of its output wire. -/
theorem C15_output_decoding (circuit : Circuit) (labels : GarbledLabels)
    (final_labels : List GarbledWire)
    (hown : ∀ k (hk : k < final_labels.length),
      circuit.garbler_input_length + circuit.evaluator_input_length ≤
          circuit.num_wire - circuit.output_length + k ∧
        circuit.num_wire - circuit.output_length + k < circuit.num_wire ∧
        ∀ j, circuit.garbler_input_length + circuit.evaluator_input_length ≤ j →
          j < circuit.num_wire → j ≠ circuit.num_wire - circuit.output_length + k →
          (labels.zeros.getD j default).value ≠ (final_labels.get ⟨k, hk⟩).value ∧
            (labels.ones.getD j default).value ≠ (final_labels.get ⟨k, hk⟩).value) :
    GarblerClient_decode circuit labels (final_labels, true) =
        Except.ok (expectedOutput circuit labels final_labels 0) ∧
      ((∀ k (hk : k < final_labels.length),
          (labels.zeros.getD (circuit.num_wire - circuit.output_length + k)
              default).value = (final_labels.get ⟨k, hk⟩).value ∨
            (labels.ones.getD (circuit.num_wire - circuit.output_length + k)
              default).value = (final_labels.get ⟨k, hk⟩).value) →
        (expectedOutput circuit labels final_labels 0).length = final_labels.length) :=
  GarblerClient_decode_eq circuit labels final_labels hown

/-- Claim C15, amended, exercised on the labels of the scenario Yao-XOR: the received
label `[205, 1] = ones[2]` is decoded to `"1"`. -/
theorem C15_output_decoding_witness :
    GarblerClient_decode xorCircuit
        (generate_labels smallLabels xorCircuit smallRandomness.deltaDraw
          smallRandomness.draws)
        ([{ value := [205, 1] }], true) = Except.ok "1" :=
  (C15_output_decoding xorCircuit
    (generate_labels smallLabels xorCircuit smallRandomness.deltaDraw smallRandomness.draws)
    [{ value := [205, 1] }]
    (fun k hk => ⟨by simp [xorCircuit], by
      simp only [List.length_singleton] at hk
      simp [xorCircuit]; omega,
      fun j h1 h2 h3 => by
        simp only [List.length_singleton] at hk
        simp [xorCircuit] at h1 h2 h3
        omega⟩)).1

/-- Claim C16 (labels of XOR gates) fails. For every circuit whose gate at position `i`
is an XOR gate on wires below `num_wire`, labels returned by `generate_labels` with an
output block of `LABEL_LENGTH` bytes, and input bits `alpha`, `beta`, step 4 of
`EvaluatorClient::run` sets the output wire to `lhs xor rhs` whatever the table holds,
and this label is the garbler's label of the output wire for `alpha xor beta` only if
the block drawn for the output wire happens to be the XOR of the blocks drawn for the
input wires, which `generate_labels` draws independently. -/
theorem C16_xor_gate_label (lp : LabelParams) (cd : CryptoDriver) (circuit : Circuit)
    (deltaDraw : ByteBlock) (draws : Nat → ByteBlock) (table : GarbledGate) (i : Nat)
    (gwires_all : List GarbledWire) (alpha beta : Bool)
    (htype : (circuit.gates.getD i default).type = 2)
    (hl : (circuit.gates.getD i default).lhs < circuit.num_wire)
    (hr : (circuit.gates.getD i default).rhs < circuit.num_wire)
    (ho : (circuit.gates.getD i default).output < circuit.num_wire)
    (hlen : (draws (circuit.gates.getD i default).output).length = lp.LABEL_LENGTH)
    (hlhs : gwires_all.getD (circuit.gates.getD i default).lhs default =
      labelOf (generate_labels lp circuit deltaDraw draws) alpha
        (circuit.gates.getD i default).lhs)
    (hrhs : gwires_all.getD (circuit.gates.getD i default).rhs default =
      labelOf (generate_labels lp circuit deltaDraw draws) beta
        (circuit.gates.getD i default).rhs) :
    ∃ label, evaluate_tables lp cd circuit [table] i gwires_all =
        Except.ok (gwires_all.set (circuit.gates.getD i default).output label) ∧
      (label = labelOf (generate_labels lp circuit deltaDraw draws) (xor alpha beta)
          (circuit.gates.getD i default).output ↔
        draws (circuit.gates.getD i default).output =
          xorbuf (draws (circuit.gates.getD i default).lhs)
            (draws (circuit.gates.getD i default).rhs) lp.LABEL_LENGTH) :=
  ⟨_, evaluate_tables_xor lp cd circuit table i gwires_all htype, by
    rw [hlhs, hrhs]
    exact xor_label_iff lp circuit deltaDraw draws _ _ _ hl hr ho hlen alpha beta⟩

/-- Claim C16, at the failing input: in the scenario Yao-XOR the evaluator holds
`ones[0] = [201, 5]` and `zeros[1] = [3, 4]`; the block `[5, 6]` drawn for the output
wire is not `[1, 2] xor [3, 4]`, so the evaluator's label of the output wire is not the
garbler's label `ones[2]` of the bit `1`. -/
theorem C16_xor_gate_label_witness :
    smallRandomness.draws 2 ≠
        xorbuf (smallRandomness.draws 0) (smallRandomness.draws 1)
          smallLabels.LABEL_LENGTH ∧
      ∃ label, evaluate_tables smallLabels smallCrypto xorCircuit [{ entries := [] }] 0
          [{ value := [201, 5] }, { value := [3, 4] }, default] =
          Except.ok ([{ value := [201, 5] }, { value := [3, 4] }, default].set 2 label) ∧
        (label = labelOf
            (generate_labels smallLabels xorCircuit smallRandomness.deltaDraw
              smallRandomness.draws) (xor true false) 2 ↔
          smallRandomness.draws 2 =
            xorbuf (smallRandomness.draws 0) (smallRandomness.draws 1)
              smallLabels.LABEL_LENGTH) :=
  ⟨by decide,
    C16_xor_gate_label smallLabels smallCrypto xorCircuit smallRandomness.deltaDraw
      smallRandomness.draws { entries := [] } 0
      [{ value := [201, 5] }, { value := [3, 4] }, default] true false
      (by decide) (by decide) (by decide) (by decide) (by decide) (by decide) (by decide)⟩

/-- Claim C17 as stated fails when the hash takes the same tag bytes on two label
combinations. With the offset `[128, 128]` the labels are `[1, 2]`, `[3, 4]`, `[5, 6]`
for the bit `0` and `[129, 130]`, `[131, 132]`, `[133, 134]` for the bit `1`, and the
hash of `smallCrypto` has the same value on `([129, 130], [131, 132])` and on
`([1, 2], [3, 4])`: for the input bits `1`, `1` two entries of the AND gate pass
`verify_decryption`, and `evaluate_gate` returns `[5, 6]`, the output label of the bit
`0`, and not `[133, 134]`. -/
theorem C17_counterexample :
    generate_labels smallLabels andCircuit [128, 128] smallRandomness.draws =
        { zeros := [{ value := [1, 2] }, { value := [3, 4] }, { value := [5, 6] }],
          ones := [{ value := [129, 130] }, { value := [131, 132] },
            { value := [133, 134] }] } ∧
      smallCrypto.hash_inputs [129, 130] [131, 132] = smallCrypto.hash_inputs [1, 2] [3, 4] ∧
      ∃ ggate, generate_gate smallLabels smallCrypto
          (generate_labels smallLabels andCircuit [128, 128] smallRandomness.draws)
          (fun entries => entries) { type := 1, lhs := 0, rhs := 1, output := 2 } =
          Except.ok ggate ∧
        (ggate.entries.filter (entryVerifies smallLabels smallCrypto
          { value := [129, 130] } { value := [131, 132] })).length = 2 ∧
        evaluate_gate smallLabels smallCrypto ggate { value := [129, 130] }
          { value := [131, 132] } = { value := [5, 6] } :=
  and_gate_two_entries_verify

/-- Claim C17, amended (the valid entries of a garbled gate). For labels whose output
labels have `LABEL_LENGTH` bytes, constants with `LABEL_LENGTH ≤ LABEL_TAG_LENGTH` and a
shuffle that permutes the entries: for an AND gate garbled by `generate_gates` and all
bits `alpha`, `beta`, the entry garbled for `(alpha, beta)` is in the table, passes
`verify_decryption` when decrypted with `H(x_alpha, y_beta)` and decrypts to the output
label of `alpha && beta`; exactly one entry passes if and only if no other label
combination has the tag bytes of `H(x_alpha, y_beta)`, and then `evaluate_gate` returns
the output label of `alpha && beta`. The same holds for a NOT gate and every bit
`alpha`, with `DUMMY_RHS` as right label and the output label of `!alpha`. -/
theorem C17_one_entry_verifies (lp : LabelParams) (cd : CryptoDriver)
    (labels : GarbledLabels) (shuffle : List ByteBlock → List ByteBlock) (gate : Gate)
    (hperm : ∀ entries, (shuffle entries).Perm entries)
    (hLT : lp.LABEL_LENGTH ≤ lp.LABEL_TAG_LENGTH)
    (hz0 : (labels.zeros.getD gate.output default).value.length = lp.LABEL_LENGTH)
    (hz1 : (labels.ones.getD gate.output default).value.length = lp.LABEL_LENGTH) :
    (gate.type = 1 →
      ∀ alpha beta : Bool,
        ∃ ggate, generate_gate lp cd labels shuffle gate = Except.ok ggate ∧
          encrypt_label lp cd (labelOf labels alpha gate.lhs) (labelOf labels beta gate.rhs)
            (labelOf labels (alpha && beta) gate.output) ∈ ggate.entries ∧
          entryVerifies lp cd (labelOf labels alpha gate.lhs) (labelOf labels beta gate.rhs)
            (encrypt_label lp cd (labelOf labels alpha gate.lhs)
              (labelOf labels beta gate.rhs)
              (labelOf labels (alpha && beta) gate.output)) = true ∧
          snip_decryption lp
              (xorbuf
                (encrypt_label lp cd (labelOf labels alpha gate.lhs)
                  (labelOf labels beta gate.rhs)
                  (labelOf labels (alpha && beta) gate.output))
                (cd.hash_inputs (labelOf labels alpha gate.lhs).value
                  (labelOf labels beta gate.rhs).value) (2 * lp.LABEL_TAG_LENGTH)) =
            (labelOf labels (alpha && beta) gate.output).value ∧
          ((ggate.entries.filter (entryVerifies lp cd (labelOf labels alpha gate.lhs)
              (labelOf labels beta gate.rhs))).length = 1 ↔
            ∀ a b : Bool,
              hashTag lp cd (labelOf labels a gate.lhs) (labelOf labels b gate.rhs) =
                hashTag lp cd (labelOf labels alpha gate.lhs)
                  (labelOf labels beta gate.rhs) →
              a = alpha ∧ b = beta) ∧
          ((∀ a b : Bool,
              hashTag lp cd (labelOf labels a gate.lhs) (labelOf labels b gate.rhs) =
                hashTag lp cd (labelOf labels alpha gate.lhs)
                  (labelOf labels beta gate.rhs) →
              a = alpha ∧ b = beta) →
            evaluate_gate lp cd ggate (labelOf labels alpha gate.lhs)
              (labelOf labels beta gate.rhs) =
                labelOf labels (alpha && beta) gate.output)) ∧
    (gate.type = 3 →
      ∀ alpha : Bool,
        ∃ ggate, generate_gate lp cd labels shuffle gate = Except.ok ggate ∧
          encrypt_label lp cd (labelOf labels alpha gate.lhs) { value := lp.DUMMY_RHS }
            (labelOf labels (!alpha) gate.output) ∈ ggate.entries ∧
          entryVerifies lp cd (labelOf labels alpha gate.lhs) { value := lp.DUMMY_RHS }
            (encrypt_label lp cd (labelOf labels alpha gate.lhs) { value := lp.DUMMY_RHS }
              (labelOf labels (!alpha) gate.output)) = true ∧
          snip_decryption lp
              (xorbuf
                (encrypt_label lp cd (labelOf labels alpha gate.lhs)
                  { value := lp.DUMMY_RHS } (labelOf labels (!alpha) gate.output))
                (cd.hash_inputs (labelOf labels alpha gate.lhs).value lp.DUMMY_RHS)
                (2 * lp.LABEL_TAG_LENGTH)) =
            (labelOf labels (!alpha) gate.output).value ∧
          ((ggate.entries.filter (entryVerifies lp cd (labelOf labels alpha gate.lhs)
              { value := lp.DUMMY_RHS })).length = 1 ↔
            ∀ a : Bool,
              hashTag lp cd (labelOf labels a gate.lhs) { value := lp.DUMMY_RHS } =
                hashTag lp cd (labelOf labels alpha gate.lhs) { value := lp.DUMMY_RHS } →
              a = alpha) ∧
          ((∀ a : Bool,
              hashTag lp cd (labelOf labels a gate.lhs) { value := lp.DUMMY_RHS } =
                hashTag lp cd (labelOf labels alpha gate.lhs) { value := lp.DUMMY_RHS } →
              a = alpha) →
            evaluate_gate lp cd ggate (labelOf labels alpha gate.lhs)
              { value := lp.DUMMY_RHS } = labelOf labels (!alpha) gate.output)) :=
  ⟨fun htype alpha beta =>
      and_gate_entries lp cd labels shuffle gate hperm hLT hz0 hz1 htype alpha beta,
    fun htype alpha =>
      not_gate_entries lp cd labels shuffle gate hperm hLT hz0 hz1 htype alpha⟩

/-- Claim C17, amended, exercised on an AND gate with the labels of `smallRandomness`,
the entries reversed as shuffle, and the input bits `1` and `0`: under
`ones[0] = [201, 5]`, `zeros[1] = [3, 4]` exactly one entry verifies and
`evaluate_gate` returns `zeros[2] = [5, 6]`. -/
theorem C17_one_entry_verifies_witness :
    ∃ ggate, generate_gate smallLabels smallCrypto
        (generate_labels smallLabels andCircuit smallRandomness.deltaDraw
          smallRandomness.draws)
        List.reverse { type := 1, lhs := 0, rhs := 1, output := 2 } = Except.ok ggate ∧
      (ggate.entries.filter (entryVerifies smallLabels smallCrypto { value := [201, 5] }
        { value := [3, 4] })).length = 1 ∧
      evaluate_gate smallLabels smallCrypto ggate { value := [201, 5] } { value := [3, 4] } =
        { value := [5, 6] } := by
  obtain ⟨ggate, hgen, _, _, _, hone, heval⟩ :=
    (C17_one_entry_verifies smallLabels smallCrypto
      (generate_labels smallLabels andCircuit smallRandomness.deltaDraw
        smallRandomness.draws)
      List.reverse { type := 1, lhs := 0, rhs := 1, output := 2 }
      (fun entries => List.reverse_perm entries) (by decide) (by decide) (by decide)).1
      rfl true false
  exact ⟨ggate, hgen, hone.mpr (by decide), heval (by decide)⟩

/-- Claim C18 (idempotence of the registrar) fails. For every store keyed by the voter
id and every blinded vote, a valid request with the empty voter id is answered with a
fresh signature of its blinded vote, whatever the store holds, also when a row with
the id `""` was stored by an earlier request. For every voter id that is not in the
store, two valid requests with that id handled by two threads that both run
`find_voter` before either runs `insert_voter` are each answered with the signature of
their own blinded vote. -/
theorem C18_signed_afresh {DB : Type} (RSA_BLIND_sign : Nat → Nat) (dbd : DBDriver DB)
    (hk : dbd.Keyed) (db : DB) (voter_id : String) (vote1 vote2 : Nat)
    (habsent : (dbd.find_voter db voter_id).id = "") :
    (∀ stored : DB,
      RegistrarClient_HandleRegister RSA_BLIND_sign dbd stored
          ({ id := "", vote := vote2 }, true) =
        Except.ok ({ id := "", registrar_signature := RSA_BLIND_sign vote2 },
          dbd.insert_voter stored
            { id := "", registrar_signature := RSA_BLIND_sign vote2 })) ∧
      RegistrarClient_HandleRegister_overlapping RSA_BLIND_sign dbd db
          ({ id := voter_id, vote := vote1 }, true)
          ({ id := voter_id, vote := vote2 }, true) =
        Except.ok ({ id := voter_id, registrar_signature := RSA_BLIND_sign vote1 },
          { id := voter_id, registrar_signature := RSA_BLIND_sign vote2 },
          dbd.insert_voter
            (dbd.insert_voter db
              { id := voter_id, registrar_signature := RSA_BLIND_sign vote1 })
            { id := voter_id, registrar_signature := RSA_BLIND_sign vote2 }) :=
  ⟨fun stored => register_empty_id_afresh RSA_BLIND_sign dbd hk stored vote2,
    register_overlapping_afresh RSA_BLIND_sign dbd db voter_id vote1 vote2 habsent⟩

/-- Claim C18, at the failing inputs over the list store with the signing function
`m ^ 3 mod 33`: the first request with the id `""` and the blinded vote `2` is answered
with the signature `8` and stored, the second request with the id `""` and the blinded
vote `3` is answered with the signature `27`; and two overlapping requests of the voter
`"alice"` with the blinded votes `2` and `3` on the empty store are answered with `8`
and `27`. -/
theorem C18_signed_afresh_witness :
    RegistrarClient_HandleRegister smallBlindSign listStore []
        ({ id := "", vote := 2 }, true) =
      Except.ok ({ id := "", registrar_signature := 8 },
        [{ id := "", registrar_signature := 8 }]) ∧
    RegistrarClient_HandleRegister smallBlindSign listStore
        [{ id := "", registrar_signature := 8 }] ({ id := "", vote := 3 }, true) =
      Except.ok ({ id := "", registrar_signature := 27 },
        [{ id := "", registrar_signature := 8 }, { id := "", registrar_signature := 27 }]) ∧
    RegistrarClient_HandleRegister_overlapping smallBlindSign listStore []
        ({ id := "alice", vote := 2 }, true) ({ id := "alice", vote := 3 }, true) =
      Except.ok ({ id := "alice", registrar_signature := 8 },
        { id := "alice", registrar_signature := 27 },
        [{ id := "alice", registrar_signature := 8 },
          { id := "alice", registrar_signature := 27 }]) :=
  ⟨(C18_signed_afresh smallBlindSign listStore listStore_keyed [] "alice" 2 2
      (by decide)).1 [],
    (C18_signed_afresh smallBlindSign listStore listStore_keyed [] "alice" 2 3
      (by decide)).1 [{ id := "", registrar_signature := 8 }],
    (C18_signed_afresh smallBlindSign listStore listStore_keyed [] "alice" 2 3
      (by decide)).2⟩

/-- Claim C19 (abort on a failed MAC check) fails in `VoterClient::HandleRegister`.
After a call of `decrypt_and_verify` that returns `ok = false`, the callers in
`OT_send`, `OT_recv`, `EvaluatorClient::run`, `GarblerClient::run` and
`RegistrarClient::HandleRegister` close the connection and throw before anything is
deserialized; `VoterClient::HandleRegister` deserializes the payload first and throws
without closing the connection. -/
theorem C19_voter_deserializes_first :
    (∀ site, site ≠ ReadSite.Voter_HandleRegister →
        abortsBeforeUse (afterDecryptAndVerify site false) = true) ∧
      afterDecryptAndVerify ReadSite.Voter_HandleRegister false =
        [ChannelAction.deserialize, ChannelAction.throwError] ∧
      abortsBeforeUse (afterDecryptAndVerify ReadSite.Voter_HandleRegister false) = false :=
  ⟨fun site hsite => by cases site <;> first | rfl | exact absurd rfl hsite, rfl, rfl⟩

/-- Claim C20 (check of the server-signed handshake). For every message received,
`VoterClient::HandleKeyExchange` returns keys exactly when `RSA_verify` accepts the
signature over `server_public_value || user_public_value` and the echoed
`user_public_value` is the voter's own `G ^ a mod P`, and throws in every other case;
and for a verification key under which the signatures of the registrar's signing key
verify, the reply built by `RegistrarClient::HandleKeyExchange` for an honest voter is
accepted, with the keys the registrar derives. -/
theorem C20_handshake_check (par : Params) (cd : CryptoDriver) (sd : SignatureDriver)
    (signing_key verification_key : Nat)
    (hsig : ∀ message,
      sd.RSA_verify verification_key message (sd.RSA_sign signing_key message) = true)
    (a b : Nat) (msg : ServerToUser_DHPublicValue_Message) :
    ((∃ keys, VoterClient_HandleKeyExchange par cd sd verification_key a msg =
          Except.ok keys) ↔
        sd.RSA_verify verification_key
            (sd.concat_byteblocks msg.server_public_value msg.user_public_value)
            msg.server_signature = true ∧
          msg.user_public_value = ModularExponentiation par.G a par.P) ∧
      (¬ (sd.RSA_verify verification_key
            (sd.concat_byteblocks msg.server_public_value msg.user_public_value)
            msg.server_signature = true ∧
          msg.user_public_value = ModularExponentiation par.G a par.P) →
        ∃ e, VoterClient_HandleKeyExchange par cd sd verification_key a msg =
          Except.error e) ∧
      VoterClient_HandleKeyExchange par cd sd verification_key a
          (RegistrarClient_HandleKeyExchange par cd sd signing_key b
            (VoterClient_HandleKeyExchange_send par a)).1 =
        Except.ok (RegistrarClient_HandleKeyExchange par cd sd signing_key b
          (VoterClient_HandleKeyExchange_send par a)).2 :=
  ⟨HandleKeyExchange_ok_iff par cd sd verification_key a msg,
    HandleKeyExchange_error par cd sd verification_key a msg,
    honest_key_exchange par cd sd signing_key verification_key hsig a b⟩

/-- Claim C20, exercised over `smallParams` with the exponents `3` and `5`: the honest
reply `(2 ^ 5 mod 23, 2 ^ 3 mod 23)` is accepted, and a reply that echoes `9` in place
of `8` under a valid signature is rejected. -/
theorem C20_handshake_check_witness :
    VoterClient_HandleKeyExchange smallParams smallCrypto smallSignatures 7 3
        { server_public_value := 9, user_public_value := 8, server_signature := [16, 15] } =
      Except.ok ([16], [16, 16]) ∧
    VoterClient_HandleKeyExchange smallParams smallCrypto smallSignatures 7 3
        { server_public_value := 9, user_public_value := 9, server_signature := [16, 16] } =
      Except.error ElectionError.publicValueInconsistent :=
  ⟨(C20_handshake_check smallParams smallCrypto smallSignatures 7 7
      (fun message => by simp [smallSignatures]) 3 5
      { server_public_value := 9, user_public_value := 9,
        server_signature := [16, 16] }).2.2,
    by decide⟩

/-- Claim C21 (result of `DoVerify`) fails in the group of order `Q = 2147495123` modulo
`P = 4294990247`. In the scenario of three voters casting `0`, `1`, `1` with two
arbiters over the group of order `11`, all rows are kept, `CombineResults` returns `2`
and `DoVerify` returns `(1, 2, true)`. For the store of `n = 2147483648` honest ballots
that all encrypt `1`, adjudicated by the two arbiters, all rows are kept, and `DoVerify`
stops where `CombineResults` increments its `int` loop counter past `INT_MAX`, instead
of returning `(0, n, true)`. -/
theorem C21_DoVerify_overflow :
    (VoterClient_validRows smallParams smallVoteHash smallSignatures
          (smallDriver smallParams) (smallKeys smallParams)
          (smallStore smallParams smallBallots) =
        smallStore smallParams smallBallots ∧
      CombineResults smallParams
          (CombineVotes smallParams (smallStore smallParams smallBallots))
          (smallAdjudicated smallParams (smallStore smallParams smallBallots)) =
        Except.ok 2 ∧
      DoVerify smallParams smallVoteHash (constDecHash 3) smallSignatures
          (smallDriver smallParams) (smallKeys smallParams)
          (smallStore smallParams smallBallots)
          (smallAdjudicated smallParams (smallStore smallParams smallBallots)) =
        Except.ok (1, 2, true)) ∧
    bigParams.Valid ∧
    (VoterClient_validRows bigParams smallVoteHash smallSignatures (smallDriver bigParams)
          (smallKeys bigParams)
          (smallStore bigParams (List.replicate 2147483648 (1, smallDraw))) =
        smallStore bigParams (List.replicate 2147483648 (1, smallDraw)) ∧
      (smallStore bigParams (List.replicate 2147483648 (1, smallDraw))).length =
        2147483648) ∧
    DoVerify bigParams smallVoteHash (constDecHash 3) smallSignatures (smallDriver bigParams)
        (smallKeys bigParams)
        (smallStore bigParams (List.replicate 2147483648 (1, smallDraw)))
        (smallAdjudicated bigParams
          (smallStore bigParams (List.replicate 2147483648 (1, smallDraw)))) =
      Except.error TallyError.counterOverflow :=
  ⟨DoVerify_three_voters, bigParams_valid, bigStore_valid, DoVerify_overflow_big⟩

/-- Claim C22 (invalid ballots are ignored). For every vote store and partial-decryption
store, `DoVerify` returns what it returns on the store without the rows that fail
`VerifyVoteZKP`, `RSA_verify` under the tallyer's key or `RSA_BLIND_verify` under the
registrar's key; the rows it keeps are the rows of the store that pass all three; a row
that fails one of the three can be added anywhere without changing the result; and for
valid group constants with `Q` odd, a ballot of `GenerateVote` with one bit of its proof
flipped, added to the store with any signatures, leaves the result unchanged. -/
theorem C22_invalid_rows_ignored (par : Params) (Hv : VoteHash) (Hd : DecHash)
    (sd : SignatureDriver) (ed : ElectionDriver) (keys : ElectionKeys)
    (allVotes : List VoteRow) (decs : List PartialDecryptionRow) :
    DoVerify par Hv Hd sd ed keys allVotes decs =
        DoVerify par Hv Hd sd ed keys
          (allVotes.filter fun row =>
            VerifyVoteZKP par Hv (row.vote, row.zkp) keys.EG_arbiter_public_key &&
              sd.RSA_verify keys.RSA_tallyer_verification_key
                (ed.concat_vote_zkp_and_signature row.vote row.zkp row.unblinded_signature)
                row.tallyer_signature &&
              ed.RSA_BLIND_verify keys.RSA_registrar_verification_key row.vote
                row.unblinded_signature) decs ∧
      (∀ row, row ∈ VoterClient_validRows par Hv sd ed keys allVotes ↔
        row ∈ allVotes ∧
          VerifyVoteZKP par Hv (row.vote, row.zkp) keys.EG_arbiter_public_key = true ∧
          sd.RSA_verify keys.RSA_tallyer_verification_key
            (ed.concat_vote_zkp_and_signature row.vote row.zkp row.unblinded_signature)
            row.tallyer_signature = true ∧
          ed.RSA_BLIND_verify keys.RSA_registrar_verification_key row.vote
            row.unblinded_signature = true) ∧
      (∀ (before after : List VoteRow) (row : VoteRow),
        VerifyVoteZKP par Hv (row.vote, row.zkp) keys.EG_arbiter_public_key = false ∨
          sd.RSA_verify keys.RSA_tallyer_verification_key
            (ed.concat_vote_zkp_and_signature row.vote row.zkp row.unblinded_signature)
            row.tallyer_signature = false ∨
          ed.RSA_BLIND_verify keys.RSA_registrar_verification_key row.vote
            row.unblinded_signature = false →
        DoVerify par Hv Hd sd ed keys (before ++ row :: after) decs =
          DoVerify par Hv Hd sd ed keys (before ++ after) decs) ∧
      (par.Valid → par.Q ≠ 2 → (∀ x1 x2 x3 x4 x5 x6 x7, Hv x1 x2 x3 x4 x5 x6 x7 < par.Q) →
        par.InGroup keys.EG_arbiter_public_key →
        ∀ (rnd : VoteRandomness) (vote : Nat) (f : ZKPField) (k : Nat)
          (unblinded_signature : Nat) (tallyer_signature : List Nat),
          vote = 0 ∨ vote = 1 →
          DoVerify par Hv Hd sd ed keys
              (allVotes ++
                [{ vote := (GenerateVote par Hv rnd vote keys.EG_arbiter_public_key).1,
                   zkp := tamper (GenerateVote par Hv rnd vote keys.EG_arbiter_public_key).2
                     f k,
                   unblinded_signature := unblinded_signature,
                   tallyer_signature := tallyer_signature }]) decs =
            DoVerify par Hv Hd sd ed keys allVotes decs) :=
  ⟨(DoVerify_three_checks par Hv Hd sd ed keys allVotes decs).1,
    (DoVerify_three_checks par Hv Hd sd ed keys allVotes decs).2.1,
    (DoVerify_three_checks par Hv Hd sd ed keys allVotes decs).2.2,
    fun hv hQ2 hH hpk rnd vote f k unblinded_signature tallyer_signature hvote =>
      ((DoVerify_ignores_invalid par Hv Hd sd ed keys allVotes decs).2 allVotes [] _
        (tampered_row_invalid par hv hQ2 Hv hH sd ed keys hpk rnd vote hvote f k
          unblinded_signature tallyer_signature)).trans (by rw [List.append_nil])⟩

/-- Claim C22, exercised on the scenario of three voters. Three copies of the first
ballot are added, each failing one check only: one with bit `0` of the field `r0` of
its proof flipped and signed again by the tallyer, one with an empty tallyer signature,
one with the registrar's signature `5` in place of `11` and signed again by the tallyer;
`DoVerify` still returns `(1, 2, true)`. So it does when a fourth ballot for the vote
`1` with a flipped proof bit is added. -/
theorem C22_invalid_rows_ignored_witness :
    (VerifyVoteZKP smallParams smallVoteHash
          ({ a := 8, b := 12 },
            { a0 := 18, a1 := 1, b0 := 6, b1 := 9, c0 := 1, c1 := 5, r0 := 8, r1 := 4 })
          (smallKeys smallParams).EG_arbiter_public_key = false ∧
        smallSignatures.RSA_verify (smallKeys smallParams).RSA_tallyer_verification_key
          ((smallDriver smallParams).concat_vote_zkp_and_signature { a := 8, b := 12 }
            { a0 := 18, a1 := 1, b0 := 6, b1 := 9, c0 := 1, c1 := 5, r0 := 8, r1 := 4 } 11)
          [15, 19, 25, 8, 13, 16, 8, 12, 15, 11, 18] = true ∧
        (smallDriver smallParams).RSA_BLIND_verify
          (smallKeys smallParams).RSA_registrar_verification_key { a := 8, b := 12 } 11 =
          true) ∧
      (VerifyVoteZKP smallParams smallVoteHash
          ({ a := 8, b := 12 },
            { a0 := 18, a1 := 1, b0 := 6, b1 := 9, c0 := 1, c1 := 5, r0 := 9, r1 := 4 })
          (smallKeys smallParams).EG_arbiter_public_key = true ∧
        smallSignatures.RSA_verify (smallKeys smallParams).RSA_tallyer_verification_key
          ((smallDriver smallParams).concat_vote_zkp_and_signature { a := 8, b := 12 }
            { a0 := 18, a1 := 1, b0 := 6, b1 := 9, c0 := 1, c1 := 5, r0 := 9, r1 := 4 } 11)
          [] = false ∧
        smallSignatures.RSA_verify (smallKeys smallParams).RSA_tallyer_verification_key
          ((smallDriver smallParams).concat_vote_zkp_and_signature { a := 8, b := 12 }
            { a0 := 18, a1 := 1, b0 := 6, b1 := 9, c0 := 1, c1 := 5, r0 := 9, r1 := 4 } 5)
          [15, 19, 25, 8, 13, 16, 8, 12, 16, 11, 12] = true ∧
        (smallDriver smallParams).RSA_BLIND_verify
          (smallKeys smallParams).RSA_registrar_verification_key { a := 8, b := 12 } 5 =
          false) ∧
      DoVerify smallParams smallVoteHash (constDecHash 3) smallSignatures
          (smallDriver smallParams) (smallKeys smallParams)
          (smallStore smallParams smallBallots ++
            [{ vote := { a := 8, b := 12 },
               zkp :=
                 { a0 := 18, a1 := 1, b0 := 6, b1 := 9, c0 := 1, c1 := 5, r0 := 8, r1 := 4 },
               unblinded_signature := 11,
               tallyer_signature := [15, 19, 25, 8, 13, 16, 8, 12, 15, 11, 18] },
             { vote := { a := 8, b := 12 },
               zkp :=
                 { a0 := 18, a1 := 1, b0 := 6, b1 := 9, c0 := 1, c1 := 5, r0 := 9, r1 := 4 },
               unblinded_signature := 11,
               tallyer_signature := [] },
             { vote := { a := 8, b := 12 },
               zkp :=
                 { a0 := 18, a1 := 1, b0 := 6, b1 := 9, c0 := 1, c1 := 5, r0 := 9, r1 := 4 },
               unblinded_signature := 5,
               tallyer_signature := [15, 19, 25, 8, 13, 16, 8, 12, 16, 11, 12] }])
          (smallAdjudicated smallParams (smallStore smallParams smallBallots)) =
        Except.ok (1, 2, true) ∧
      DoVerify smallParams smallVoteHash (constDecHash 3) smallSignatures
          (smallDriver smallParams) (smallKeys smallParams)
          (smallStore smallParams smallBallots ++
            [{ vote := (GenerateVote smallParams smallVoteHash smallDraw 1
                 (smallKeys smallParams).EG_arbiter_public_key).1,
               zkp := tamper (GenerateVote smallParams smallVoteHash smallDraw 1
                 (smallKeys smallParams).EG_arbiter_public_key).2 ZKPField.r0 0,
               unblinded_signature := 5,
               tallyer_signature := [] }])
          (smallAdjudicated smallParams (smallStore smallParams smallBallots)) =
        Except.ok (1, 2, true) :=
  ⟨by decide, by decide,
    (((C22_invalid_rows_ignored smallParams smallVoteHash (constDecHash 3) smallSignatures
        (smallDriver smallParams) (smallKeys smallParams)
        (smallStore smallParams smallBallots)
        (smallAdjudicated smallParams (smallStore smallParams smallBallots))).2.2.1
        (smallStore smallParams smallBallots) _ _ (Or.inl (by decide))).trans
      (((C22_invalid_rows_ignored smallParams smallVoteHash (constDecHash 3)
        smallSignatures (smallDriver smallParams) (smallKeys smallParams)
        (smallStore smallParams smallBallots)
        (smallAdjudicated smallParams (smallStore smallParams smallBallots))).2.2.1
        (smallStore smallParams smallBallots) _ _ (Or.inr (Or.inl (by decide)))).trans
      (((C22_invalid_rows_ignored smallParams smallVoteHash (constDecHash 3)
        smallSignatures (smallDriver smallParams) (smallKeys smallParams)
        (smallStore smallParams smallBallots)
        (smallAdjudicated smallParams (smallStore smallParams smallBallots))).2.2.1
        (smallStore smallParams smallBallots) [] _ (Or.inr (Or.inr (by decide)))).trans
      (by rw [List.append_nil]; exact DoVerify_three_voters.2.2)))),
    ((C22_invalid_rows_ignored smallParams smallVoteHash (constDecHash 3) smallSignatures
      (smallDriver smallParams) (smallKeys smallParams)
      (smallStore smallParams smallBallots)
      (smallAdjudicated smallParams (smallStore smallParams smallBallots))).2.2.2
      smallParams_valid (by decide) smallVoteHash_lt (by decide)
      smallDraw 1 ZKPField.r0 0 5 [] (Or.inr rfl)).trans DoVerify_three_voters.2.2⟩

/-- Claim C23 (a rejected partial decryption). For every vote store and every
partial-decryption store in which at least one row is rejected by
`VerifyPartialDecryptZKP` under the public share loaded from its path, `DoVerify`
returns `(0, 0, false)`; `CombineResults` is not called. -/
theorem C23_rejected_decryption (par : Params) (Hv : VoteHash) (Hd : DecHash)
    (sd : SignatureDriver) (ed : ElectionDriver) (keys : ElectionKeys)
    (allVotes : List VoteRow) (decs : List PartialDecryptionRow)
    (hbad : ∃ dec ∈ decs,
      VerifyPartialDecryptZKP par Hd dec (ed.LoadInteger dec.arbiter_vk_path) = false) :
    DoVerify par Hv Hd sd ed keys allVotes decs = Except.ok (0, 0, false) :=
  DoVerify_rejected par Hv Hd sd ed keys allVotes decs hbad

/-- Claim C23, exercised on the scenario of three voters with the partial decryptions
`d` of both arbiters replaced by `1`. -/
theorem C23_rejected_decryption_witness :
    DoVerify smallParams smallVoteHash (constDecHash 3) smallSignatures
        (smallDriver smallParams) (smallKeys smallParams)
        (smallStore smallParams smallBallots)
        ((smallAdjudicated smallParams (smallStore smallParams smallBallots)).map
          fun m => replaceDecryption m 1) =
      Except.ok (0, 0, false) :=
  C23_rejected_decryption smallParams smallVoteHash (constDecHash 3) smallSignatures
    (smallDriver smallParams) (smallKeys smallParams) (smallStore smallParams smallBallots)
    _ (by decide)

/-- Claim C24 (round trip of the blind signature). For keys that belong together and
every blinding factor `r` prime to `N`: for every ciphertext `m`, unblinding with `r`
the signature on the blinding of `m` gives a signature `s` with `s ^ e = H(m) (mod N)`,
which `RSA_BLIND_verify` accepts; and across the registration of a voter that the store
does not hold, the message `VoterClient::HandleVote` sends to the tallyer carries the
ciphertext of `GenerateVote` with a signature that `RSA_BLIND_verify` accepts. -/
theorem C24_blind_signature_round_trip {DB : Type} (par : Params) (Hv : VoteHash)
    (H : CiphertextHash) (pk : RSAPublicKey) (sk : RSAPrivateKey) (hpair : RSAKeyPair pk sk)
    (r : Nat) (hr : Nat.Coprime r pk.N) (dbd : DBDriver DB) (db : DB) (voter_id : String)
    (hfresh : (dbd.find_voter db voter_id).id = "") (election_key : Nat)
    (rnd : VoteRandomness) (raw_vote : Nat) :
    (∀ vote : Vote_Ciphertext,
      ModularExponentiation
          (RSA_BLIND_unblind pk (RSA_BLIND_sign sk (RSA_BLIND_blind H pk vote r).1)
            (RSA_BLIND_blind H pk vote r).2) pk.e pk.N = H vote % pk.N ∧
        RSA_BLIND_verify H pk vote
          (RSA_BLIND_unblind pk (RSA_BLIND_sign sk (RSA_BLIND_blind H pk vote r).1)
            (RSA_BLIND_blind H pk vote r).2) = true) ∧
    ∃ reply st,
      RegistrarClient_HandleRegister (RSA_BLIND_sign sk) dbd db
          (VoterClient_HandleRegister_send par Hv H pk voter_id election_key rnd r raw_vote,
            true) = Except.ok reply ∧
        VoterClient_HandleRegister par Hv H pk election_key rnd r raw_vote (reply.1, true) =
          Except.ok st ∧
        (VoterClient_HandleVote pk st).vote =
          (GenerateVote par Hv rnd raw_vote election_key).1 ∧
        RSA_BLIND_verify H pk (VoterClient_HandleVote pk st).vote
          (VoterClient_HandleVote pk st).unblinded_signature = true :=
  ⟨fun vote => blind_round_trip H pk sk hpair vote r hr,
    registration_round_trip par Hv H pk sk hpair dbd db voter_id hfresh election_key rnd r
      hr raw_vote⟩

/-- Claim C24, exercised with the modulus `33`, the exponents `7` and `3`, the blinding
factor `2` and the ciphertext `(8, 13)` with hash `14`: the blinded value is `10` and
the unblinded signature `5` satisfies `5 ^ 7 = 14 (mod 33)`. -/
theorem C24_blind_signature_round_trip_witness :
    RSA_BLIND_blind smallCiphertextHash smallPublicKey { a := 8, b := 13 } 2 = (10, 2) ∧
      RSA_BLIND_unblind smallPublicKey (RSA_BLIND_sign smallPrivateKey 10) 2 = 5 ∧
      RSA_BLIND_verify smallCiphertextHash smallPublicKey { a := 8, b := 13 } 5 = true :=
  ⟨by decide, by decide,
    ((C24_blind_signature_round_trip smallParams smallVoteHash smallCiphertextHash
      smallPublicKey smallPrivateKey smallKeyPair 2 (by decide) listStore [] "alice"
      (by decide) 13 smallDraw 1).1 { a := 8, b := 13 }).2⟩

/-- Claim C25 as stated fails: in the group of order `11` modulo `23` with the sender's
value `A = 2 ^ 2 = 4`, the values sent for the exponents `b` in `[2, Q - 1]` with the
choice bit `0` are no rearrangement of the values sent with the choice bit `1`. -/
theorem C25_counterexample :
    ModularExponentiation smallParams.G 2 smallParams.P = 4 ∧
      ¬ (receiverValues smallParams 4 0 (List.range' 2 (smallParams.Q - 2))).Perm
        (receiverValues smallParams 4 1 (List.range' 2 (smallParams.Q - 2))) :=
  receiverValues_not_perm

/-- Claim C25, amended (the receiver's value hides the choice). For valid group
constants and every sender value `A = G ^ a mod P`, the values that `OT_recv` sends
for the exponents `b` in `[0, Q)` with the choice bit `0` are a rearrangement of the
values it sends with the choice bit `1`: for `b` uniform in `[0, Q)` the value has the
same distribution for both choices. -/
theorem C25_receiver_values_perm (par : Params) (hv : par.Valid) (a : Nat) :
    (receiverValues par (ModularExponentiation par.G a par.P) 0 (List.range par.Q)).Perm
      (receiverValues par (ModularExponentiation par.G a par.P) 1 (List.range par.Q)) :=
  receiverValues_perm par hv a

/-- Claim C25, amended, exercised in the group of order `11` modulo `23` with
`A = 2 ^ 2`. -/
theorem C25_receiver_values_perm_witness :
    (receiverValues smallParams (ModularExponentiation smallParams.G 2 smallParams.P) 0
        (List.range smallParams.Q)).Perm
      (receiverValues smallParams (ModularExponentiation smallParams.G 2 smallParams.P) 1
        (List.range smallParams.Q)) :=
  C25_receiver_values_perm smallParams smallParams_valid 2

/-- Claim C26 (circuits of AND and NOT gates). For valid group constants, a crypto
driver whose `AES_decrypt` inverts `AES_encrypt`, a well-formed circuit of AND and NOT
gates, inputs `x`, `y` of bits of the lengths of the circuit, shuffles that permute the
entries, and labels and a hash under which the tag lies inside the decryption buffer,
the output labels of the gates have `LABEL_LENGTH` bytes, no wrong-key trial decryption
has an all-zero tag and the labels of the non-input wires are pairwise distinct: after
the gate loop of an honest session the evaluator holds on every wire the garbler's
label of the wire's plain value, and both `run` calls return `C(x, y)`. -/
theorem C26_and_not_circuits (par : Params) (hv : par.Valid) (lp : LabelParams)
    (cd : CryptoDriver) (hcd : cd.AESCorrect) (circuit : Circuit) (rnd : SessionRandomness)
    (x y : List Nat) (hwf : circuit.wellFormed = true)
    (hx : x.length = circuit.garbler_input_length)
    (hy : y.length = circuit.evaluator_input_length)
    (hbits : ∀ b ∈ x ++ y, b = 0 ∨ b = 1)
    (hperm : ∀ i entries, (rnd.shuffle i entries).Perm entries)
    (hsound : GarblingSound lp cd (generate_labels lp circuit rnd.deltaDraw rnd.draws)
      circuit)
    (hdistinct : LabelsDistinct (generate_labels lp circuit rnd.deltaDraw rnd.draws)
      circuit) :
    (∃ gwires, honestWires par lp cd circuit rnd x y = Except.ok gwires ∧
        ∀ w, w < circuit.num_wire →
          gwires.getD w default =
            labelOf (generate_labels lp circuit rnd.deltaDraw rnd.draws)
              (decide ((plainWires circuit x y).getD w 0 = 1)) w) ∧
      honestSession par lp cd circuit rnd x y =
        Except.ok (plainOutput circuit x y, plainOutput circuit x y) :=
  and_not_session par hv lp cd hcd circuit rnd x y hwf hx hy hbits hperm hsound hdistinct

/-- Claim C26, exercised on the scenarios Yao-AND with the inputs `[1]`, `[1]` and
Yao-NOT with the garbler input `[0]`: both sessions return `"1"`. -/
theorem C26_and_not_circuits_witness :
    honestSession smallParams smallLabels smallCrypto andCircuit smallRandomness [1] [1] =
        Except.ok ("1", "1") ∧
      honestSession smallParams smallLabels smallCrypto notCircuit smallRandomness [0] [] =
        Except.ok ("1", "1") :=
  ⟨(C26_and_not_circuits smallParams smallParams_valid smallLabels smallCrypto
      smallCrypto_correct andCircuit smallRandomness [1] [1] (by decide) rfl rfl
      (by decide) (fun _ entries => List.reverse_perm entries) (by decide) (by decide)).2,
    (C26_and_not_circuits smallParams smallParams_valid smallLabels smallCrypto
      smallCrypto_correct notCircuit smallRandomness [0] [] (by decide) rfl rfl
      (by decide) (fun _ entries => List.reverse_perm entries) (by decide) (by decide)).2⟩

/-- Claim C27 (round trip of the label encryption). For constants with
`LABEL_LENGTH = LABEL_TAG_LENGTH`, all labels `L`, `R` and every label `Z` of
`LABEL_LENGTH` bytes, `encrypt_label(L, R, Z)` is the block of
`LABEL_LENGTH + LABEL_TAG_LENGTH` bytes `H(L, R) xor (Z || 0 ... 0)`, and combining it
with `H(L, R)` gives a block that `verify_decryption` accepts and `snip_decryption`
cuts to `Z`. -/
theorem C27_label_round_trip (lp : LabelParams) (cd : CryptoDriver)
    (hLT : lp.LABEL_LENGTH = lp.LABEL_TAG_LENGTH) (l r z : GarbledWire)
    (hz : z.value.length = lp.LABEL_LENGTH) :
    encrypt_label lp cd l r z =
        xorbuf (cd.hash_inputs l.value r.value)
          (z.value ++ List.replicate lp.LABEL_TAG_LENGTH 0)
          (lp.LABEL_LENGTH + lp.LABEL_TAG_LENGTH) ∧
      (encrypt_label lp cd l r z).length = lp.LABEL_LENGTH + lp.LABEL_TAG_LENGTH ∧
      verify_decryption lp (xorbuf (encrypt_label lp cd l r z)
        (cd.hash_inputs l.value r.value) (2 * lp.LABEL_TAG_LENGTH)) = true ∧
      snip_decryption lp (xorbuf (encrypt_label lp cd l r z)
        (cd.hash_inputs l.value r.value) (2 * lp.LABEL_TAG_LENGTH)) = z.value :=
  encrypt_label_round_trip lp cd hLT l r z hz

/-- Claim C27, exercised on the labels `[1, 2]`, `[3, 4]`, `[5, 6]` with the hash
`[17, 56, 56, 58]`: the entry is `[20, 62, 56, 58]`. -/
theorem C27_label_round_trip_witness :
    encrypt_label smallLabels smallCrypto { value := [1, 2] } { value := [3, 4] }
        { value := [5, 6] } = [20, 62, 56, 58] ∧
      verify_decryption smallLabels (xorbuf [20, 62, 56, 58] [17, 56, 56, 58] 4) = true ∧
      snip_decryption smallLabels (xorbuf [20, 62, 56, 58] [17, 56, 56, 58] 4) = [5, 6] :=
  ⟨(C27_label_round_trip smallLabels smallCrypto rfl { value := [1, 2] }
      { value := [3, 4] } { value := [5, 6] } rfl).1,
    (C27_label_round_trip smallLabels smallCrypto rfl { value := [1, 2] }
      { value := [3, 4] } { value := [5, 6] } rfl).2.2⟩

/-- Claim C28 (contents of the garbled tables). For shuffles that permute the entries
and a circuit whose gates have the types AND, XOR or NOT, `generate_gates` returns one
garbled gate per gate of the circuit, in the order of the circuit; the table of a NOT
gate is a permutation of `E(x_0, DUMMY_RHS, z_1)`, `E(x_1, DUMMY_RHS, z_0)`, and the
table of an AND gate is a permutation of the four entries
`E(x_alpha, y_beta, z_(alpha and beta))`. -/
theorem C28_garbled_tables (lp : LabelParams) (cd : CryptoDriver) (circuit : Circuit)
    (labels : GarbledLabels) (shuffle : Nat → List ByteBlock → List ByteBlock)
    (hperm : ∀ i entries, (shuffle i entries).Perm entries)
    (htypes : ∀ gate ∈ circuit.gates, gate.type = 1 ∨ gate.type = 2 ∨ gate.type = 3) :
    ∃ ggates, generate_gates lp cd circuit labels shuffle = Except.ok ggates ∧
      ggates.length = circuit.gates.length ∧
      ∀ k, k < circuit.gates.length →
        ((circuit.gates.getD k default).type = 3 →
          (ggates.getD k { entries := [] }).entries.Perm
            [encrypt_label lp cd (labelOf labels false (circuit.gates.getD k default).lhs)
                { value := lp.DUMMY_RHS }
                (labelOf labels true (circuit.gates.getD k default).output),
             encrypt_label lp cd (labelOf labels true (circuit.gates.getD k default).lhs)
                { value := lp.DUMMY_RHS }
                (labelOf labels false (circuit.gates.getD k default).output)]) ∧
        ((circuit.gates.getD k default).type = 1 →
          (ggates.getD k { entries := [] }).entries.Perm
            [encrypt_label lp cd (labelOf labels false (circuit.gates.getD k default).lhs)
                (labelOf labels false (circuit.gates.getD k default).rhs)
                (labelOf labels (false && false) (circuit.gates.getD k default).output),
             encrypt_label lp cd (labelOf labels false (circuit.gates.getD k default).lhs)
                (labelOf labels true (circuit.gates.getD k default).rhs)
                (labelOf labels (false && true) (circuit.gates.getD k default).output),
             encrypt_label lp cd (labelOf labels true (circuit.gates.getD k default).lhs)
                (labelOf labels false (circuit.gates.getD k default).rhs)
                (labelOf labels (true && false) (circuit.gates.getD k default).output),
             encrypt_label lp cd (labelOf labels true (circuit.gates.getD k default).lhs)
                (labelOf labels true (circuit.gates.getD k default).rhs)
                (labelOf labels (true && true) (circuit.gates.getD k default).output)]) :=
  generate_gates_tables lp cd circuit labels shuffle hperm htypes

/-- Claim C28, exercised on the circuit of one AND gate with the labels of
`smallRandomness` and reversal as shuffle: the table has the four entries of the gate,
reversed. -/
theorem C28_garbled_tables_witness :
    generate_gates smallLabels smallCrypto andCircuit
        (generate_labels smallLabels andCircuit smallRandomness.deltaDraw
          smallRandomness.draws) smallRandomness.shuffle =
      Except.ok
        [{ entries := [[140, 65, 0, 61], [108, 43, 43, 130], [44, 61, 243, 133],
            [20, 62, 56, 58]] }] ∧
    ∃ ggates, generate_gates smallLabels smallCrypto andCircuit
        (generate_labels smallLabels andCircuit smallRandomness.deltaDraw
          smallRandomness.draws) smallRandomness.shuffle = Except.ok ggates ∧
      ggates.length = andCircuit.gates.length :=
  ⟨by decide,
    (C28_garbled_tables smallLabels smallCrypto andCircuit
      (generate_labels smallLabels andCircuit smallRandomness.deltaDraw
        smallRandomness.draws) smallRandomness.shuffle
      (fun _ entries => List.reverse_perm entries) (by decide)).imp
      fun _ h => ⟨h.1, h.2.1⟩⟩

/-- Claim C29 (unknown gate types are fatal). For every circuit with a gate whose type
is not `1`, `2` or `3`, `generate_gates` throws and returns no tables; and on any
tables that reach such a gate, the gate loop of the evaluator throws, and so does
`EvaluatorClient::run`. -/
theorem C29_unknown_gate_fatal (lp : LabelParams) (cd : CryptoDriver) (circuit : Circuit)
    (labels : GarbledLabels) (shuffle : Nat → List ByteBlock → List ByteBlock)
    (hbad : ∃ gate ∈ circuit.gates, gate.type ≠ 1 ∧ gate.type ≠ 2 ∧ gate.type ≠ 3) :
    generate_gates lp cd circuit labels shuffle =
        Except.error RuntimeError.invalidGateType ∧
      ∀ (tables : List GarbledGate) (k : Nat), k < tables.length →
        (circuit.gates.getD k default).type ≠ 1 ∧ (circuit.gates.getD k default).type ≠ 2 ∧
          (circuit.gates.getD k default).type ≠ 3 →
        (∀ gwires_all, evaluate_tables lp cd circuit tables 0 gwires_all =
          Except.error RuntimeError.invalidGateType) ∧
        ∀ inputs ot_received,
          EvaluatorClient_labels lp cd circuit (tables, true) (inputs, true) ot_received =
            Except.error RuntimeError.invalidGateType :=
  unknown_gate_fatal lp cd circuit labels shuffle hbad

/-- Claim C29, exercised on a circuit of an AND gate followed by a gate of type `7`:
the garbler throws, and the evaluator throws on two tables `[[1, 1, 1, 1]]`. -/
theorem C29_unknown_gate_fatal_witness :
    generate_gates smallLabels smallCrypto
        { andCircuit with
          gates := [{ type := 1, lhs := 0, rhs := 1, output := 2 },
            { type := 7, lhs := 0, rhs := 1, output := 2 }] }
        (generate_labels smallLabels andCircuit smallRandomness.deltaDraw
          smallRandomness.draws) smallRandomness.shuffle =
      Except.error RuntimeError.invalidGateType ∧
    EvaluatorClient_labels smallLabels smallCrypto
        { andCircuit with
          gates := [{ type := 1, lhs := 0, rhs := 1, output := 2 },
            { type := 7, lhs := 0, rhs := 1, output := 2 }] }
        ([{ entries := [[1, 1, 1, 1]] }, { entries := [[1, 1, 1, 1]] }], true)
        ([{ value := [1, 2] }], true) [[3, 4]] =
      Except.error RuntimeError.invalidGateType :=
  ⟨(C29_unknown_gate_fatal smallLabels smallCrypto _ _ smallRandomness.shuffle
      (by decide)).1,
    ((C29_unknown_gate_fatal smallLabels smallCrypto
      { andCircuit with
        gates := [{ type := 1, lhs := 0, rhs := 1, output := 2 },
          { type := 7, lhs := 0, rhs := 1, output := 2 }] }
      (generate_labels smallLabels andCircuit smallRandomness.deltaDraw
        smallRandomness.draws) smallRandomness.shuffle (by decide)).2
      [{ entries := [[1, 1, 1, 1]] }, { entries := [[1, 1, 1, 1]] }] 1 (by decide)
      (by decide)).2 [{ value := [1, 2] }] [[3, 4]]⟩

/-- Claim C30 (the arbiter and the verifier count the same ballots). For an arbiter and
a voter that hold the same keys and every snapshot of the vote store, the rows
`HandleAdjudicate` keeps are the rows `DoVerify` keeps, in the same order, and the
aggregate ciphertext in the partial decryption the arbiter publishes is the combined
ciphertext that `DoVerify` passes to `CombineResults`. -/
theorem C30_same_ballots_counted (par : Params) (Hv : VoteHash) (Hd : DecHash)
    (sd : SignatureDriver) (ed : ElectionDriver) (arbiter : ArbiterClient)
    (keys : ElectionKeys) (hkeys : arbiter.keys = keys) (r : Nat)
    (allVotes : List VoteRow) :
    ArbiterClient_validVotes par Hv sd ed arbiter allVotes =
        VoterClient_validRows par Hv sd ed keys allVotes ∧
      (ArbiterClient_HandleAdjudicate par Hv Hd sd ed arbiter r
          allVotes).dec.aggregate_ciphertext =
        CombineVotes par (VoterClient_validRows par Hv sd ed keys allVotes) :=
  ArbiterClient_validVotes_eq par Hv Hd sd ed arbiter keys hkeys r allVotes

/-- Claim C30, exercised on the scenario of three voters with a fourth row whose
signatures are invalid: the arbiter with the share `3` and the voter keep the three
valid rows, and the aggregate ciphertext is `(16, 3)`. -/
theorem C30_same_ballots_counted_witness :
    ArbiterClient_validVotes smallParams smallVoteHash smallSignatures
        (smallDriver smallParams)
        { arbiter_id := [0], arbiter_public_key_path := [0], EG_arbiter_secret_key := 3,
          EG_arbiter_public_key_i := 8, keys := smallKeys smallParams }
        (smallStore smallParams smallBallots ++
          [{ vote := { a := 8, b := 1 },
             zkp := { a0 := 1, a1 := 18, b0 := 18, b1 := 6, c0 := 5, c1 := 5, r0 := 4,
                      r1 := 10 },
             unblinded_signature := 0, tallyer_signature := [] }]) =
      smallStore smallParams smallBallots ∧
    (ArbiterClient_HandleAdjudicate smallParams smallVoteHash (constDecHash 3)
        smallSignatures (smallDriver smallParams)
        { arbiter_id := [0], arbiter_public_key_path := [0], EG_arbiter_secret_key := 3,
          EG_arbiter_public_key_i := 8, keys := smallKeys smallParams } 2
        (smallStore smallParams smallBallots ++
          [{ vote := { a := 8, b := 1 },
             zkp := { a0 := 1, a1 := 18, b0 := 18, b1 := 6, c0 := 5, c1 := 5, r0 := 4,
                      r1 := 10 },
             unblinded_signature := 0, tallyer_signature := [] }])).dec.aggregate_ciphertext =
      { a := 16, b := 3 } :=
  ⟨(C30_same_ballots_counted smallParams smallVoteHash (constDecHash 3) smallSignatures
      (smallDriver smallParams) _ (smallKeys smallParams) rfl 2 _).1.trans (by decide),
    (C30_same_ballots_counted smallParams smallVoteHash (constDecHash 3) smallSignatures
      (smallDriver smallParams) _ (smallKeys smallParams) rfl 2 _).2.trans (by decide)⟩

/-- Claim C31 (labels of an input vector). For all labels, every offset `begin` and
every input vector of bits with `begin + input.size()` within the vectors `zeros` and
`ones`, `get_garbled_wires` returns one wire per position of the input, and the wire at
position `i` is `zeros[begin + i]` when `input[i] = 0` and `ones[begin + i]` when
`input[i] = 1`. -/
theorem C31_input_labels (labels : GarbledLabels) (input : List Nat) (begin : Nat)
    (hbits : ∀ b ∈ input, b = 0 ∨ b = 1)
    (hzeros : begin + input.length ≤ labels.zeros.length)
    (hones : begin + input.length ≤ labels.ones.length) :
    (get_garbled_wires labels input begin).length = input.length ∧
      ∀ (i : Nat) (hi : i < input.length),
        (get_garbled_wires labels input begin)[i]? =
          some (if input[i] = 0 then labels.zeros[begin + i] else labels.ones[begin + i]) :=
  get_garbled_wires_spec labels input begin hbits hzeros hones

/-- Claim C31, exercised on the labels of three wires with the input `[1, 0]` from the
offset `1`: the result is `ones[1]`, `zeros[2]`. -/
theorem C31_input_labels_witness :
    get_garbled_wires
        { zeros := [{ value := [1, 2] }, { value := [3, 4] }, { value := [5, 6] }],
          ones := [{ value := [201, 5] }, { value := [203, 3] }, { value := [205, 1] }] }
        [1, 0] 1 = [{ value := [203, 3] }, { value := [5, 6] }] ∧
      (get_garbled_wires
        { zeros := [{ value := [1, 2] }, { value := [3, 4] }, { value := [5, 6] }],
          ones := [{ value := [201, 5] }, { value := [203, 3] }, { value := [205, 1] }] }
        [1, 0] 1).length = 2 ∧
      (get_garbled_wires
        { zeros := [{ value := [1, 2] }, { value := [3, 4] }, { value := [5, 6] }],
          ones := [{ value := [201, 5] }, { value := [203, 3] }, { value := [205, 1] }] }
        [1, 0] 1)[1]? = some { value := [5, 6] } :=
  ⟨by decide,
    (C31_input_labels
      { zeros := [{ value := [1, 2] }, { value := [3, 4] }, { value := [5, 6] }],
        ones := [{ value := [201, 5] }, { value := [203, 3] }, { value := [205, 1] }] }
      [1, 0] 1 (by decide) (by decide) (by decide)).1,
    (C31_input_labels
      { zeros := [{ value := [1, 2] }, { value := [3, 4] }, { value := [5, 6] }],
        ones := [{ value := [201, 5] }, { value := [203, 3] }, { value := [205, 1] }] }
      [1, 0] 1 (by decide) (by decide) (by decide)).2 1 (by decide)⟩

/-- Claim C32 as stated fails for a repeated registration: with the modulus `33`, a
voter registers under the id `alice` with the blinding factor `2` and registers again
with the same vote and the blinding factor `4`. The registrar answers the second request
with the signature `22` of the first, the voter saves it next to the blind `4`, and the
credential that verified after the first call no longer verifies. -/
theorem C32_counterexample :
    honestRegistration smallParams smallVoteHash smallCiphertextHash smallPublicKey
        smallPrivateKey listStore [] "alice" 13 smallDraw 2 1 =
      Except.ok
        ({ vote := { a := 8, b := 1 },
           vote_zkp := { a0 := 1, a1 := 18, b0 := 18, b1 := 6, c0 := 5, c1 := 5, r0 := 4,
                         r1 := 10 },
           registrar_signature := 22, blind := 2 },
          [{ id := "alice", registrar_signature := 22 }]) ∧
    credentialValid smallCiphertextHash smallPublicKey
        { vote := { a := 8, b := 1 },
          vote_zkp := { a0 := 1, a1 := 18, b0 := 18, b1 := 6, c0 := 5, c1 := 5, r0 := 4,
                        r1 := 10 },
          registrar_signature := 22, blind := 2 } = true ∧
    honestRegistration smallParams smallVoteHash smallCiphertextHash smallPublicKey
        smallPrivateKey listStore [{ id := "alice", registrar_signature := 22 }] "alice" 13
        smallDraw 4 1 =
      Except.ok
        ({ vote := { a := 8, b := 1 },
           vote_zkp := { a0 := 1, a1 := 18, b0 := 18, b1 := 6, c0 := 5, c1 := 5, r0 := 4,
                         r1 := 10 },
           registrar_signature := 22, blind := 4 },
          [{ id := "alice", registrar_signature := 22 },
           { id := "alice", registrar_signature := 22 }]) ∧
    credentialValid smallCiphertextHash smallPublicKey
        { vote := { a := 8, b := 1 },
          vote_zkp := { a0 := 1, a1 := 18, b0 := 18, b1 := 6, c0 := 5, c1 := 5, r0 := 4,
                        r1 := 10 },
          registrar_signature := 22, blind := 4 } = false := by
  decide

/-- Claim C32, amended (the voter's credential). For keys that belong together, a voter
store keyed by the id, a non-empty `voter_id` that the store does not hold and blinding
factors prime to `N`: the first registration succeeds and the fields saved verify; a
second registration under the same id succeeds, the voter saves the new vote and blind
with the signature of the first request, and the fields saved verify exactly when the
blinded vote of the second request equals the blinded vote of the first. -/
theorem C32_credential_after_registration {DB : Type} (par : Params) (Hv : VoteHash)
    (H : CiphertextHash) (pk : RSAPublicKey) (sk : RSAPrivateKey) (hpair : RSAKeyPair pk sk)
    (dbd : DBDriver DB) (hk : dbd.Keyed) (db : DB) (voter_id : String)
    (hid : voter_id ≠ "") (hfresh : (dbd.find_voter db voter_id).id = "")
    (election_key : Nat) (rnd1 rnd2 : VoteRandomness) (r1 r2 : Nat)
    (hr1 : Nat.Coprime r1 pk.N) (hr2 : Nat.Coprime r2 pk.N) (vote1 vote2 : Nat) :
    ∃ st1 db1 st2 db2,
      honestRegistration par Hv H pk sk dbd db voter_id election_key rnd1 r1 vote1 =
          Except.ok (st1, db1) ∧
        credentialValid H pk st1 = true ∧
        honestRegistration par Hv H pk sk dbd db1 voter_id election_key rnd2 r2 vote2 =
          Except.ok (st2, db2) ∧
        st2.vote = (GenerateVote par Hv rnd2 vote2 election_key).1 ∧
        st2.blind = r2 ∧
        st2.registrar_signature = st1.registrar_signature ∧
        (credentialValid H pk st2 = true ↔
          (VoterClient_HandleRegister_send par Hv H pk voter_id election_key rnd2 r2
              vote2).vote =
            (VoterClient_HandleRegister_send par Hv H pk voter_id election_key rnd1 r1
              vote1).vote) :=
  reregistration_credential par Hv H pk sk hpair dbd hk db voter_id hid hfresh election_key
    rnd1 rnd2 r1 r2 hr1 hr2 vote1 vote2

/-- Claim C32, amended, exercised with the modulus `33` on the empty store: the voter
`alice` registers the vote `1` with the blinding factor `2` and then the vote `0` with
the blinding factor `5`. -/
theorem C32_credential_after_registration_witness :
    ∃ st1 db1 st2 db2,
      honestRegistration smallParams smallVoteHash smallCiphertextHash smallPublicKey
          smallPrivateKey listStore [] "alice" 13 smallDraw 2 1 = Except.ok (st1, db1) ∧
        credentialValid smallCiphertextHash smallPublicKey st1 = true ∧
        honestRegistration smallParams smallVoteHash smallCiphertextHash smallPublicKey
          smallPrivateKey listStore db1 "alice" 13 smallDraw 5 0 = Except.ok (st2, db2) ∧
        st2.vote = (GenerateVote smallParams smallVoteHash smallDraw 0 13).1 ∧
        st2.blind = 5 ∧
        st2.registrar_signature = st1.registrar_signature ∧
        (credentialValid smallCiphertextHash smallPublicKey st2 = true ↔
          (VoterClient_HandleRegister_send smallParams smallVoteHash smallCiphertextHash
              smallPublicKey "alice" 13 smallDraw 5 0).vote =
            (VoterClient_HandleRegister_send smallParams smallVoteHash smallCiphertextHash
              smallPublicKey "alice" 13 smallDraw 2 1).vote) :=
  C32_credential_after_registration smallParams smallVoteHash smallCiphertextHash
    smallPublicKey smallPrivateKey smallKeyPair listStore listStore_keyed [] "alice"
    (by decide) (by decide) 13 smallDraw smallDraw 2 5 (by decide) (by decide) 1 0

/-- Claim C33 as stated fails: in the scenario of three voters, the two arbiters
adjudicate when the store holds the first two ballots, and the third ballot arrives
afterwards. `DoVerify` recombines the three ballots into `(16, 3)`, the partial
decryptions were computed over `(12, 9)`, and `DoVerify` returns `(-1, 4, true)`. -/
theorem C33_counterexample :
    CombineVotes smallParams
        (VoterClient_validRows smallParams smallVoteHash smallSignatures
          (smallDriver smallParams) (smallKeys smallParams)
          (smallStore smallParams smallBallots)) = { a := 16, b := 3 } ∧
    (smallAdjudicated smallParams (smallStore smallParams (smallBallots.take 2))).map
        (fun dec => dec.dec.aggregate_ciphertext) =
      [{ a := 12, b := 9 }, { a := 12, b := 9 }] ∧
    DoVerify smallParams smallVoteHash (constDecHash 3) smallSignatures
        (smallDriver smallParams) (smallKeys smallParams)
        (smallStore smallParams smallBallots)
        (smallAdjudicated smallParams (smallStore smallParams (smallBallots.take 2))) =
      Except.ok (-1, 4, true) := by
  decide

/-- Claim C33, amended (what a successful `DoVerify` has checked). For a modulus
`P > 1`, `DoVerify` returns `(x, y, true)` if and only if every partial-decryption row
passes `VerifyPartialDecryptZKP`, which reads the aggregate ciphertext recorded in the
row itself, under the public share loaded from the row's path, and `CombineResults`
returns a tally `m` on the ciphertext recombined from the rows kept, with `y = m` and
`x = n - m` for the number `n` of rows kept; the tally satisfies
`G ^ m = b * D⁻¹ (mod P)` for the recombined `b`. -/
theorem C33_success_checks (par : Params) (hP : 1 < par.P) (Hv : VoteHash) (Hd : DecHash)
    (sd : SignatureDriver) (ed : ElectionDriver) (keys : ElectionKeys)
    (allVotes : List VoteRow) (decs : List PartialDecryptionRow) (x y : Int) :
    DoVerify par Hv Hd sd ed keys allVotes decs = Except.ok (x, y, true) ↔
      (∀ dec ∈ decs,
        VerifyPartialDecryptZKP par Hd dec (ed.LoadInteger dec.arbiter_vk_path) = true) ∧
      ∃ m : Nat,
        CombineResults par
            (CombineVotes par (VoterClient_validRows par Hv sd ed keys allVotes)) decs =
          Except.ok m ∧
        y = (m : Int) ∧
        x = ((VoterClient_validRows par Hv sd ed keys allVotes).length : Int) - (m : Int) ∧
        ModularExponentiation par.G m par.P =
          searchTarget par
            (CombineVotes par (VoterClient_validRows par Hv sd ed keys allVotes)) decs :=
  DoVerify_success_checked par hP Hv Hd sd ed keys allVotes decs x y

/-- Claim C33, amended, exercised on the scenario of three voters with the result
`(1, 2, true)`. -/
theorem C33_success_checks_witness :
    (∀ dec ∈ smallAdjudicated smallParams (smallStore smallParams smallBallots),
      VerifyPartialDecryptZKP smallParams (constDecHash 3) dec
        ((smallDriver smallParams).LoadInteger dec.arbiter_vk_path) = true) ∧
    ∃ m : Nat,
      CombineResults smallParams
          (CombineVotes smallParams
            (VoterClient_validRows smallParams smallVoteHash smallSignatures
              (smallDriver smallParams) (smallKeys smallParams)
              (smallStore smallParams smallBallots)))
          (smallAdjudicated smallParams (smallStore smallParams smallBallots)) =
        Except.ok m ∧
      (2 : Int) = (m : Int) ∧
      (1 : Int) =
        ((VoterClient_validRows smallParams smallVoteHash smallSignatures
          (smallDriver smallParams) (smallKeys smallParams)
          (smallStore smallParams smallBallots)).length : Int) - (m : Int) ∧
      ModularExponentiation smallParams.G m smallParams.P =
        searchTarget smallParams
          (CombineVotes smallParams
            (VoterClient_validRows smallParams smallVoteHash smallSignatures
              (smallDriver smallParams) (smallKeys smallParams)
              (smallStore smallParams smallBallots)))
          (smallAdjudicated smallParams (smallStore smallParams smallBallots)) :=
  (C33_success_checks smallParams (by decide) smallVoteHash (constDecHash 3)
    smallSignatures (smallDriver smallParams) (smallKeys smallParams)
    (smallStore smallParams smallBallots)
    (smallAdjudicated smallParams (smallStore smallParams smallBallots)) 1 2).mp
    DoVerify_three_voters.2.2

/-- Claim C34 as stated fails: in the group of order `11` modulo `23`, the ballot that
`GenerateVote` returns for the vote `5` with the draws of `smallDraw` has the challenge
`c1 = 0` and passes all three checks; with honest partial decryptions of both arbiters
over this one ballot, `DoVerify` returns `(-4, 5, true)` for `n = 1`. -/
theorem C34_counterexample :
    (VoterClient_validRows smallParams smallVoteHash smallSignatures
        (smallDriver smallParams) (smallKeys smallParams)
        (smallStore smallParams [(5, smallDraw)])).length = 1 ∧
    DoVerify smallParams smallVoteHash (constDecHash 3) smallSignatures
        (smallDriver smallParams) (smallKeys smallParams)
        (smallStore smallParams [(5, smallDraw)])
        (smallAdjudicated smallParams (smallStore smallParams [(5, smallDraw)])) =
      Except.ok (-4, 5, true) := by
  decide

/-- Claim C34, amended (the counts of a successful `DoVerify`). For a modulus `P > 1`,
whenever `DoVerify` returns `(x, y, true)`, the counts sum to the number `n` of rows that
passed the three checks, the second count is in `[0, Q)` and at most `INT_MAX`, and the
first count is non-negative exactly when the second is at most `n`. -/
theorem C34_success_counts (par : Params) (hP : 1 < par.P) (Hv : VoteHash) (Hd : DecHash)
    (sd : SignatureDriver) (ed : ElectionDriver) (keys : ElectionKeys)
    (allVotes : List VoteRow) (decs : List PartialDecryptionRow) (x y : Int)
    (h : DoVerify par Hv Hd sd ed keys allVotes decs = Except.ok (x, y, true)) :
    x + y = ((VoterClient_validRows par Hv sd ed keys allVotes).length : Int) ∧
      0 ≤ y ∧ y < (par.Q : Int) ∧ y ≤ (INT_MAX : Int) ∧
      (0 ≤ x ↔ y ≤ ((VoterClient_validRows par Hv sd ed keys allVotes).length : Int)) :=
  DoVerify_success_counts par hP Hv Hd sd ed keys allVotes decs x y h

/-- Claim C34, amended, exercised on the scenario of three voters with the result
`(1, 2, true)`. -/
theorem C34_success_counts_witness :
    (1 : Int) + 2 =
        ((VoterClient_validRows smallParams smallVoteHash smallSignatures
          (smallDriver smallParams) (smallKeys smallParams)
          (smallStore smallParams smallBallots)).length : Int) ∧
      (0 : Int) ≤ 2 ∧ (2 : Int) < (smallParams.Q : Int) ∧ (2 : Int) ≤ (INT_MAX : Int) ∧
      ((0 : Int) ≤ 1 ↔
        (2 : Int) ≤
          ((VoterClient_validRows smallParams smallVoteHash smallSignatures
            (smallDriver smallParams) (smallKeys smallParams)
            (smallStore smallParams smallBallots)).length : Int)) :=
  C34_success_counts smallParams (by decide) smallVoteHash (constDecHash 3) smallSignatures
    (smallDriver smallParams) (smallKeys smallParams) (smallStore smallParams smallBallots)
    (smallAdjudicated smallParams (smallStore smallParams smallBallots)) 1 2
    DoVerify_three_voters.2.2

/-- Claim C36 (the loop counter of `CombineResults`) fails whenever `Q` exceeds
`INT_MAX` and no `m` up to `INT_MAX` matches. For a modulus `P > 1` and every input, the
loop `for (int m = 0; m < DL_Q; m++)` increments its counter past `INT_MAX` if and only
if `INT_MAX < Q` and `G ^ m` differs from `b * D⁻¹ (mod P)` for every `m` in
`[0, INT_MAX]`; in every other case the counter stays in `[0, 2 ^ 31)`. -/
theorem C36_counter_overflow (par : Params) (hP : 1 < par.P)
    (combined_vote : Vote_Ciphertext) (decs : List PartialDecryptionRow) :
    CombineResults par combined_vote decs = Except.error TallyError.counterOverflow ↔
      INT_MAX < par.Q ∧ ∀ m, m ≤ INT_MAX →
        ModularExponentiation par.G m par.P ≠ searchTarget par combined_vote decs :=
  CombineResults_overflow_iff par hP combined_vote decs

/-- Claim C36, exercised in the group of order `Q = 2147495123` modulo `P = 4294990247`
generated by `4`: for the combined ciphertext `(1, 0)` and no partial decryption the
search target is `0`, no power of `4` matches it, and the counter is incremented past
`INT_MAX`. -/
theorem C36_counter_overflow_witness :
    bigParams.Valid ∧
      CombineResults bigParams { a := 1, b := 0 } [] =
        Except.error TallyError.counterOverflow :=
  ⟨bigParams_valid,
    (C36_counter_overflow bigParams bigParams_valid.one_lt_P { a := 1, b := 0 } []).mpr
      ⟨by decide, fun m _ => no_match_for_zero bigParams bigParams_valid 1 m⟩⟩

/-- Claim C37 (`CombineVotes` does not depend on the order of the rows). For a modulus
`P > 1`, `CombineVotes` returns the same ciphertext on every two lists of vote rows that
are permutations of each other, and `CombineVotes (xs ++ ys)` is the product modulo `P`,
component by component, of `CombineVotes xs` and `CombineVotes ys`. -/
theorem C37_CombineVotes_order (par : Params) (hP : 1 < par.P) :
    (∀ xs ys : List VoteRow, xs.Perm ys → CombineVotes par xs = CombineVotes par ys) ∧
      ∀ xs ys : List VoteRow,
        CombineVotes par (xs ++ ys) =
          { a := a_times_b_mod_c (CombineVotes par xs).a (CombineVotes par ys).a par.P,
            b := a_times_b_mod_c (CombineVotes par xs).b (CombineVotes par ys).b par.P } :=
  CombineVotes_order par hP

/-- Claim C37, exercised on the three rows of `smallRows` modulo `23`: reversed they
combine to the same ciphertext `(16, 3)`, and followed by their reversal they combine
to `(16 * 16 mod 23, 3 * 3 mod 23) = (3, 9)`. -/
theorem C37_CombineVotes_order_witness :
    CombineVotes smallParams smallRows.reverse = CombineVotes smallParams smallRows ∧
      CombineVotes smallParams smallRows = { a := 16, b := 3 } ∧
      CombineVotes smallParams (smallRows ++ smallRows.reverse) =
        { a := a_times_b_mod_c (CombineVotes smallParams smallRows).a
            (CombineVotes smallParams smallRows.reverse).a smallParams.P,
          b := a_times_b_mod_c (CombineVotes smallParams smallRows).b
            (CombineVotes smallParams smallRows.reverse).b smallParams.P } ∧
      CombineVotes smallParams (smallRows ++ smallRows.reverse) = { a := 3, b := 9 } :=
  ⟨(C37_CombineVotes_order smallParams (by decide)).1 _ _ (List.reverse_perm smallRows),
    by decide,
    (C37_CombineVotes_order smallParams (by decide)).2 smallRows smallRows.reverse,
    by decide⟩

/-- Claim C38 (the two labels of a wire differ). For a positive `LABEL_LENGTH`, every
circuit and all blocks drawn, the first byte of the offset of `generate_labels` is not
zero, and for every wire `i` the labels `zeros[i]` and `ones[i]` differ, so that no
label equals both the zero-label and the one-label of a wire in the decoding loop. -/
theorem C38_labels_differ (lp : LabelParams) (hL : 0 < lp.LABEL_LENGTH)
    (circuit : Circuit) (deltaDraw : ByteBlock) (draws : Nat → ByteBlock) :
    (generate_delta deltaDraw).getD 0 0 ≠ 0 ∧
      ∀ i, i < circuit.num_wire →
        (generate_labels lp circuit deltaDraw draws).zeros[i]? ≠
            (generate_labels lp circuit deltaDraw draws).ones[i]? ∧
          ((generate_labels lp circuit deltaDraw draws).zeros.getD i default).value ≠
            ((generate_labels lp circuit deltaDraw draws).ones.getD i default).value ∧
          ∀ gw : GarbledWire,
            ¬ (((generate_labels lp circuit deltaDraw draws).zeros.getD i default).value =
                gw.value ∧
              ((generate_labels lp circuit deltaDraw draws).ones.getD i default).value =
                gw.value) :=
  generate_labels_distinct lp hL circuit deltaDraw draws

/-- Claim C38, exercised with labels of two bytes on the circuit of one AND gate: for
the draw `[200, 7]` the offset is `[200, 7]` and the labels of wire `2` are `[5, 6]` and
`[205, 1]`; for the draw `[0, 0]` the first byte of the offset is not zero either. -/
theorem C38_labels_differ_witness :
    generate_delta smallRandomness.deltaDraw = [200, 7] ∧
      (generate_labels smallLabels andCircuit smallRandomness.deltaDraw
        smallRandomness.draws).zeros[2]? = some { value := [5, 6] } ∧
      (generate_labels smallLabels andCircuit smallRandomness.deltaDraw
        smallRandomness.draws).ones[2]? = some { value := [205, 1] } ∧
      (generate_labels smallLabels andCircuit smallRandomness.deltaDraw
          smallRandomness.draws).zeros[2]? ≠
        (generate_labels smallLabels andCircuit smallRandomness.deltaDraw
          smallRandomness.draws).ones[2]? ∧
      (generate_delta [0, 0]).getD 0 0 ≠ 0 :=
  ⟨by decide, by decide, by decide,
    ((C38_labels_differ smallLabels (by decide) andCircuit smallRandomness.deltaDraw
      smallRandomness.draws).2 2 (by decide)).1,
    (C38_labels_differ smallLabels (by decide) andCircuit [0, 0]
      smallRandomness.draws).1⟩

/-- Claim C39 (registration on a reply that fails the MAC check). For all fields and
files the voter holds before the call and every reply whose MAC check fails,
`VoterClient::HandleRegister` throws `Not from registrar!`, the fields `vote`,
`vote_zkp`, `registrar_signature` and `blind` are the ones before the call, and the
four files hold what they held before the call. -/
theorem C39_bad_reply_frame (par : Params) (Hv : VoteHash) (H : CiphertextHash)
    (pk : RSAPublicKey) (election_key : Nat) (rnd : VoteRandomness) (r raw_vote : Nat)
    (st : VoterState) (disk : VoterDisk)
    (reply : RegistrarToVoter_Blind_Signature_Message × Bool) (hmac : reply.2 = false) :
    (VoterClient_HandleRegister_step par Hv H pk election_key rnd r raw_vote st disk
        reply).1 = Except.error ElectionError.notFromRegistrar ∧
      (VoterClient_HandleRegister_step par Hv H pk election_key rnd r raw_vote st disk
        reply).2.1 = st ∧
      (VoterClient_HandleRegister_step par Hv H pk election_key rnd r raw_vote st disk
        reply).2.2 = disk ∧
      VoterClient_HandleRegister par Hv H pk election_key rnd r raw_vote reply =
        Except.error ElectionError.notFromRegistrar :=
  HandleRegister_atomic par Hv H pk election_key rnd r raw_vote st disk reply hmac

/-- Claim C39, exercised on a voter that holds the credential of an earlier
registration and files that hold the vote and nothing else: after a reply with the
signature `7` that fails the MAC check, fields and files are as before. -/
theorem C39_bad_reply_frame_witness :
    VoterClient_HandleRegister_step smallParams smallVoteHash smallCiphertextHash
        smallPublicKey 13 smallDraw 4 0
        { vote := { a := 8, b := 1 },
          vote_zkp := { a0 := 1, a1 := 18, b0 := 18, b1 := 6, c0 := 5, c1 := 5, r0 := 4,
                        r1 := 10 },
          registrar_signature := 22, blind := 2 }
        { voter_vote := some { a := 8, b := 1 }, voter_vote_zkp := none,
          voter_registrar_signature := none, voter_blind := none }
        ({ id := "alice", registrar_signature := 7 }, false) =
      (Except.error ElectionError.notFromRegistrar,
        { vote := { a := 8, b := 1 },
          vote_zkp := { a0 := 1, a1 := 18, b0 := 18, b1 := 6, c0 := 5, c1 := 5, r0 := 4,
                        r1 := 10 },
          registrar_signature := 22, blind := 2 },
        { voter_vote := some { a := 8, b := 1 }, voter_vote_zkp := none,
          voter_registrar_signature := none, voter_blind := none }) :=
  Prod.ext
    (C39_bad_reply_frame smallParams smallVoteHash smallCiphertextHash smallPublicKey 13
      smallDraw 4 0 _ _ ({ id := "alice", registrar_signature := 7 }, false) rfl).1
    (Prod.ext
      (C39_bad_reply_frame smallParams smallVoteHash smallCiphertextHash smallPublicKey 13
        smallDraw 4 0 _ _ ({ id := "alice", registrar_signature := 7 }, false) rfl).2.1
      (C39_bad_reply_frame smallParams smallVoteHash smallCiphertextHash smallPublicKey 13
        smallDraw 4 0 _ _ ({ id := "alice", registrar_signature := 7 }, false) rfl).2.2.1)

end Yaos
